import Mathlib

/-!
ISO 14443 type A link layer (`armsrc/iso14443a.c`).

A shallow embedding of the bit-stream codec (Miller / Manchester encoders), the two
sample-driven decoders and the frame trace of `armsrc/iso14443a.c`, followed by the
properties established about them.

Conventions of the embedding

* C `int`, `uint8_t`, `uint16_t`, `uint32_t` values are natural numbers; where the C
  value can wrap, the wrap is written out (`% 2 ^ 32`).
* A byte buffer that the C code addresses through a pointer (`trace`, `Uart.output`,
  `Demod.output`) is a function `Nat → Nat` from index to byte; a store is `bufSet`.
* The transmit buffer `ToSend` is only ever written at `++ToSendMax`, starting from
  `ToSendMax = -1`; it is the list of the bytes written so far, so that the last written
  index `ToSendMax` is `length - 1` and the final `ToSendMax++` of every encoder turns it
  into the length of the list.
* An input buffer `(cmd, len)` is the list `cmd` with `len = cmd.length`.
-/

namespace Iso14443a

/-! ## Sequence codes -/

/-- Sequence D: modulation with subcarrier during the first half. -/
def SEC_D : Nat := 0xf0
/-- Sequence E: modulation with subcarrier during the second half. -/
def SEC_E : Nat := 0x0f
/-- Sequence F: no modulation with subcarrier. -/
def SEC_F : Nat := 0x00
/-- Sequence X: drop after half a period. -/
def SEC_X : Nat := 0x0c
/-- Sequence Y: no drop. -/
def SEC_Y : Nat := 0x00
/-- Sequence Z: drop at start. -/
def SEC_Z : Nat := 0xc0

/-- Store of one byte `v` at index `i` of a buffer: `buf[i] = v`. -/
def bufSet (buf : Nat → Nat) (i v : Nat) : Nat → Nat :=
  fun k => if k = i then v else buf k

/-! ## Parity -/

/-- The table `OddByteParity[256]`. -/
def OddByteParity : List Nat :=
  [ 1, 0, 0, 1, 0, 1, 1, 0, 0, 1, 1, 0, 1, 0, 0, 1,
    0, 1, 1, 0, 1, 0, 0, 1, 1, 0, 0, 1, 0, 1, 1, 0,
    0, 1, 1, 0, 1, 0, 0, 1, 1, 0, 0, 1, 0, 1, 1, 0,
    1, 0, 0, 1, 0, 1, 1, 0, 0, 1, 1, 0, 1, 0, 0, 1,
    0, 1, 1, 0, 1, 0, 0, 1, 1, 0, 0, 1, 0, 1, 1, 0,
    1, 0, 0, 1, 0, 1, 1, 0, 0, 1, 1, 0, 1, 0, 0, 1,
    1, 0, 0, 1, 0, 1, 1, 0, 0, 1, 1, 0, 1, 0, 0, 1,
    0, 1, 1, 0, 1, 0, 0, 1, 1, 0, 0, 1, 0, 1, 1, 0,
    0, 1, 1, 0, 1, 0, 0, 1, 1, 0, 0, 1, 0, 1, 1, 0,
    1, 0, 0, 1, 0, 1, 1, 0, 0, 1, 1, 0, 1, 0, 0, 1,
    1, 0, 0, 1, 0, 1, 1, 0, 0, 1, 1, 0, 1, 0, 0, 1,
    0, 1, 1, 0, 1, 0, 0, 1, 1, 0, 0, 1, 0, 1, 1, 0,
    1, 0, 0, 1, 0, 1, 1, 0, 0, 1, 1, 0, 1, 0, 0, 1,
    0, 1, 1, 0, 1, 0, 0, 1, 1, 0, 0, 1, 0, 1, 1, 0,
    0, 1, 1, 0, 1, 0, 0, 1, 1, 0, 0, 1, 0, 1, 1, 0,
    1, 0, 0, 1, 0, 1, 1, 0, 0, 1, 1, 0, 1, 0, 0, 1 ]

/-- The function `oddparity`: a table lookup (`bt` is a `byte_t`). -/
def oddparity (bt : Nat) : Nat := OddByteParity.getD (bt % 256) 0

/-- The loop of `GetParity`, from index `i` on, over the bytes still to visit. -/
def GetParityLoop : List Nat → Nat → Nat → Nat
  | [], _, dwPar => dwPar
  | b :: rest, i, dwPar => GetParityLoop rest (i + 1) (dwPar ||| ((oddparity b <<< i) % 2 ^ 32))

/-- The function `GetParity(pbtCmd, iLen)` with `iLen = pbtCmd.length`. -/
def GetParity (pbtCmd : List Nat) : Nat := GetParityLoop pbtCmd 0 0

/-! ## The frame trace -/

/-- The globals `trace`, `traceLen`, `rsamples` used by `LogTrace`.
`rsamples` is the 32-bit pattern of the C `int`. -/
structure TraceState where
  trace : Nat → Nat
  traceLen : Nat
  rsamples : Nat

/-- The `memcpy(dest + off, src, n)` of `LogTrace`: `n` bytes of `src` stored from `off` on. -/
def memcpyAt (dest : Nat → Nat) (off : Nat) (src : Nat → Nat) (n : Nat) : Nat → Nat :=
  fun k => if off ≤ k ∧ k < off + n then src (k - off) else dest k

/-- The function `LogTrace(btBytes, iLen, iSamples, dwParity, bReader)`; the constant
`TRACE_LENGTH` comes from a header and is a parameter. The result is the new state of the
globals and the returned flag. -/
def LogTrace (TRACE_LENGTH : Nat) (T : TraceState) (btBytes : Nat → Nat) (iLen iSamples : Nat)
    (dwParity : Nat) (bReader : Bool) : TraceState × Bool :=
  if T.traceLen ≥ TRACE_LENGTH then (T, false)
  else
    let rsamples := (T.rsamples + iSamples) % 2 ^ 32
    let n := T.traceLen
    let tr := bufSet T.trace n ((rsamples >>> 0) &&& 0xff)
    let tr := bufSet tr (n + 1) ((rsamples >>> 8) &&& 0xff)
    let tr := bufSet tr (n + 2) ((rsamples >>> 16) &&& 0xff)
    let tr := bufSet tr (n + 3) ((rsamples >>> 24) &&& 0xff)
    let tr := if !bReader then bufSet tr (n + 3) (tr (n + 3) ||| 0x80) else tr
    let tr := bufSet tr (n + 4) ((dwParity >>> 0) &&& 0xff)
    let tr := bufSet tr (n + 5) ((dwParity >>> 8) &&& 0xff)
    let tr := bufSet tr (n + 6) ((dwParity >>> 16) &&& 0xff)
    let tr := bufSet tr (n + 7) ((dwParity >>> 24) &&& 0xff)
    let tr := bufSet tr (n + 8) (iLen % 256)
    let tr := memcpyAt tr (n + 9) btBytes iLen
    ({ trace := tr, traceLen := n + 9 + iLen, rsamples := rsamples }, true)

/-! ## The software UART for reader commands (Miller decoder) -/

/-- The `state` field of `Uart`. -/
inductive UartState where
  | STATE_UNSYNCD
  | STATE_START_OF_COMMUNICATION
  | STATE_MILLER_X
  | STATE_MILLER_Y
  | STATE_MILLER_Z
  | STATE_ERROR_WAIT
  deriving DecidableEq, Repr

/-- The `drop` field of `Uart`. -/
inductive UartDrop where
  | DROP_NONE
  | DROP_FIRST_HALF
  | DROP_SECOND_HALF
  deriving DecidableEq, Repr

/-- The global `Uart`. -/
structure UartT where
  state : UartState
  shiftReg : Nat
  bitCnt : Nat
  byteCnt : Nat
  byteCntMax : Nat
  posCnt : Nat
  syncBit : Nat
  parityBits : Nat
  samples : Nat
  highCnt : Nat
  bitBuffer : Nat
  drop : UartDrop
  output : Nat → Nat

open UartState UartDrop

/-- The sync search of `MillerDecoding` (the body of `if(Uart.highCnt == 8)`), up to and
including `Uart.syncBit <<= 4`; `bit` is the inverted previous nibble. The result is
`(syncBit, samples, posCnt)`. -/
def MillerSync (bitBuffer : Nat) (bit : Nat) : Nat × Nat × Nat :=
  let posCnt := 1
  let syncBit := bit &&& 8
  let samples := 3
  let (syncBit, samples, bit) :=
    if syncBit = 0 then (bit &&& 4, 2, bit)
    else if bit &&& 4 ≠ 0 then (bit &&& 4, 2, bit <<< 2)
    else (syncBit, samples, bit)
  let (syncBit, samples, bit) :=
    if syncBit = 0 then (bit &&& 2, 1, bit)
    else if bit &&& 2 ≠ 0 then (bit &&& 2, 1, bit <<< 1)
    else (syncBit, samples, bit)
  let (syncBit, samples, posCnt) :=
    if syncBit = 0 then
      if (bit &&& 1) ≠ 0 ∧ (bitBuffer &&& 8) ≠ 0 then (8, 3, 0)
      else (bit &&& 1, 0, posCnt)
    else if bit &&& 1 ≠ 0 then (bit &&& 1, 0, posCnt)
    else (syncBit, samples, posCnt)
  (syncBit <<< 4, samples, posCnt)

/-- The measurement `MillerDecoding` makes in a synced state: `bit` and `bitright` taken
from `Uart.bitBuffer` under `Uart.syncBit`, and `if(bit != bitright) { bit = bitright; }`.
The result is the value of `bit` after that statement. -/
def MillerMeasure (bitBuffer syncBit : Nat) : Nat :=
  let bit : Nat := if (bitBuffer &&& syncBit) ^^^ syncBit ≠ 0 then 0 else 1
  let bitright : Nat := if ((bitBuffer <<< 1) &&& syncBit) ^^^ syncBit ≠ 0 then 0 else 1
  if bit ≠ bitright then bitright else bit

/-- The `switch(Uart.state)` of `MillerDecoding`, run at the end of a bit period; the
second component is the local `EOC`. The `default:` label is the case `STATE_UNSYNCD`. -/
def MillerSwitch (U : UartT) : UartT × Bool :=
  match U.state with
  | STATE_START_OF_COMMUNICATION =>
    let U := { U with shiftReg := 0 }
    if U.drop = DROP_SECOND_HALF then
      -- error, should not happen in SOC
      ({ U with state := STATE_ERROR_WAIT }, false)
    else
      -- correct SOC
      ({ U with state := STATE_MILLER_Z }, false)
  | STATE_MILLER_Z =>
    let U := { U with bitCnt := U.bitCnt + 1 }
    let U := { U with shiftReg := U.shiftReg >>> 1 }
    let (U, EOC) : UartT × Bool :=
      if U.drop = DROP_NONE then
        -- logic '0' followed by sequence Y: end of communication
        ({ U with state := STATE_UNSYNCD }, true)
      else (U, false)
    let U :=
      if U.drop = DROP_SECOND_HALF then
        -- we see a logic '1'
        { U with shiftReg := U.shiftReg ||| 0x100, state := STATE_MILLER_X }
      else U
    (U, EOC)
  | STATE_MILLER_X =>
    let U := { U with shiftReg := U.shiftReg >>> 1 }
    let U :=
      if U.drop = DROP_NONE then
        -- sequence Y, we see a '0'
        { U with state := STATE_MILLER_Y, bitCnt := U.bitCnt + 1 }
      else U
    let U :=
      if U.drop = DROP_FIRST_HALF then
        -- Would be STATE_MILLER_Z, but Z does not follow X, so error
        { U with state := STATE_ERROR_WAIT }
      else U
    let U :=
      if U.drop = DROP_SECOND_HALF then
        -- We see a '1' and stay in state X
        { U with shiftReg := U.shiftReg ||| 0x100, bitCnt := U.bitCnt + 1 }
      else U
    (U, false)
  | STATE_MILLER_Y =>
    let U := { U with bitCnt := U.bitCnt + 1 }
    let U := { U with shiftReg := U.shiftReg >>> 1 }
    let (U, EOC) : UartT × Bool :=
      if U.drop = DROP_NONE then
        -- logic '0' followed by sequence Y: end of communication
        ({ U with state := STATE_UNSYNCD }, true)
      else (U, false)
    let U :=
      if U.drop = DROP_FIRST_HALF then
        -- we see a '0'
        { U with state := STATE_MILLER_Z }
      else U
    let U :=
      if U.drop = DROP_SECOND_HALF then
        -- We see a '1' and go to state X
        { U with shiftReg := U.shiftReg ||| 0x100, state := STATE_MILLER_X }
      else U
    (U, EOC)
  | STATE_ERROR_WAIT =>
    -- That went wrong. Now wait for at least two bit periods and try to sync again
    if U.drop = DROP_NONE then ({ U with highCnt := 6, state := STATE_UNSYNCD }, false)
    else (U, false)
  | STATE_UNSYNCD =>
    ({ U with state := STATE_UNSYNCD, highCnt := 0 }, false)

/-- The end of the second-half branch of `MillerDecoding`, after the `switch`:
`Uart.drop = DROP_NONE`, the test for a finished frame and the storing of a byte once nine
bits are in. The second component is the value `MillerDecoding` returns. -/
def MillerStore (U : UartT) (EOC : Bool) : UartT × Bool :=
  let U := { U with drop := DROP_NONE }
  -- should have received at least one whole byte...
  if U.bitCnt = 2 ∧ EOC = true ∧ U.byteCnt > 0 then (U, true)
  else if U.bitCnt = 9 then
    let U := { U with output := bufSet U.output U.byteCnt (U.shiftReg &&& 0xff) }
    let U := { U with byteCnt := U.byteCnt + 1 }
    let U := { U with parityBits := (U.parityBits <<< 1) % 2 ^ 32 }
    let U := { U with parityBits := U.parityBits ^^^ ((U.shiftReg >>> 8) &&& 0x01) }
    if EOC = true then
      -- when End of Communication received and all data bits processed..
      (U, true)
    else ({ U with bitCnt := 0 }, false)
  else (U, false)

/-- The branch `if(Uart.state != STATE_UNSYNCD)` of `MillerDecoding`, entered with the
new sample already shifted into `Uart.bitBuffer`. -/
def MillerSynced (U : UartT) : UartT × Bool :=
  let U := { U with posCnt := U.posCnt + 1 }
  let bit := MillerMeasure U.bitBuffer U.syncBit
  if U.posCnt = 1 then
    -- measurement first half bitperiod
    ((if bit = 0 then { U with drop := DROP_FIRST_HALF } else U), false)
  else
    -- measurement second half bitperiod
    let U :=
      if bit = 0 ∧ U.drop = DROP_NONE then { U with drop := DROP_SECOND_HALF }
      else if bit = 0 then
        -- measured a drop in first and second half which should not be possible
        { U with state := STATE_ERROR_WAIT }
      else U
    let U := { U with posCnt := 0 }
    let r := MillerSwitch U
    MillerStore r.1 r.2

/-- The `else` branch of `if(Uart.state != STATE_UNSYNCD)` in `MillerDecoding`: the search
for a start of communication, entered with the new sample already shifted into
`Uart.bitBuffer`. -/
def MillerUnsynced (U : UartT) : UartT × Bool :=
  let bit := U.bitBuffer &&& 0xf0
  let bit := bit >>> 4
  let bit := bit ^^^ 0x0F
  if bit ≠ 0 then
    -- should have been high or at least (4 * 128) / fc
    if U.highCnt = 8 then
      -- we went low, so this could be start of communication
      let r := MillerSync U.bitBuffer bit
      ({ U with posCnt := r.2.2, syncBit := r.1, samples := r.2.1,
                state := STATE_START_OF_COMMUNICATION, drop := DROP_FIRST_HALF,
                bitCnt := 0, byteCnt := 0, parityBits := 0 }, false)
    else ({ U with highCnt := 0 }, false)
  else
    ((if U.highCnt < 8 then { U with highCnt := U.highCnt + 1 } else U), false)

/-- The function `MillerDecoding(bit)`: one call on the global `Uart`, giving the new
`Uart` and the returned flag (`TRUE` = a frame is complete). `Uart.bitBuffer` is a C `int`
that keeps the last eight samples: its shift wraps at 32 bits. -/
def MillerDecoding (U : UartT) (bit : Nat) : UartT × Bool :=
  if U.bitBuffer = 0 then
    ({ U with bitBuffer := bit ^^^ 0xFF0 }, false)
  else
    let U := { U with bitBuffer := ((U.bitBuffer <<< 4) % 2 ^ 32) ^^^ bit }
    if U.state ≠ STATE_UNSYNCD then MillerSynced U
    else MillerUnsynced U

/-- The reset the receive routines perform before decoding: `memset(&Uart, 0, sizeof(Uart))`
followed by the assignment of `output`, `byteCntMax` and `state = STATE_UNSYNCD`. -/
def UartReset (output : Nat → Nat) (byteCntMax : Nat) : UartT :=
  { state := STATE_UNSYNCD, shiftReg := 0, bitCnt := 0, byteCnt := 0,
    byteCntMax := byteCntMax, posCnt := 0, syncBit := 0, parityBits := 0, samples := 0,
    highCnt := 0, bitBuffer := 0, drop := DROP_NONE, output := output }

/-- Feeding a stream of sample nibbles to `MillerDecoding`, one call per nibble, as the
receive loops do: the loop stops at the first call that returns `TRUE`. The result is the
`Uart` after the last call made and whether a frame was completed. -/
def MillerRun : UartT → List Nat → UartT × Bool
  | U, [] => (U, false)
  | U, s :: rest =>
    let r := MillerDecoding U s
    if r.2 then (r.1, true) else MillerRun r.1 rest

/-! ## The demodulator for tag responses (Manchester decoder) -/

/-- The `state` field of `Demod`. -/
inductive DemodState where
  | DEMOD_UNSYNCD
  | DEMOD_START_OF_COMMUNICATION
  | DEMOD_MANCHESTER_D
  | DEMOD_MANCHESTER_E
  | DEMOD_MANCHESTER_F
  | DEMOD_ERROR_WAIT
  deriving DecidableEq, Repr

/-- The `sub` field of `Demod`. -/
inductive DemodSub where
  | SUB_NONE
  | SUB_FIRST_HALF
  | SUB_SECOND_HALF
  deriving DecidableEq, Repr

/-- The global `Demod`. -/
structure DemodT where
  state : DemodState
  bitCount : Nat
  posCount : Nat
  syncBit : Nat
  parityBits : Nat
  shiftReg : Nat
  buffer : Nat
  buff : Nat
  samples : Nat
  len : Nat
  sub : DemodSub
  output : Nat → Nat

open DemodState DemodSub

/-- The sync search of `ManchesterDecoding` in `DEMOD_UNSYNCD`: the four tests on the
previous nibble `bit`, giving `Demod.syncBit`. -/
def ManchesterSync (bit : Nat) : Nat :=
  let syncBit := 0
  let syncBit := if bit &&& 0x08 ≠ 0 then 0x08 else syncBit
  let (bit, syncBit) :=
    if bit &&& 0x04 ≠ 0 then ((if syncBit ≠ 0 then bit <<< 4 else bit), 0x04)
    else (bit, syncBit)
  let (bit, syncBit) :=
    if bit &&& 0x02 ≠ 0 then ((if syncBit ≠ 0 then bit <<< 2 else bit), 0x02)
    else (bit, syncBit)
  let syncBit := if bit &&& 0x01 ≠ 0 ∧ syncBit ≠ 0 then 0x01 else syncBit
  syncBit

/-- The `switch(Demod.state)` of `ManchesterDecoding`, run at the end of a bit period; the
second component tells whether the `switch` left the function with `return TRUE`. The
`default:` label is the case `DEMOD_UNSYNCD`. -/
def ManchesterSwitch (D : DemodT) : DemodT × Bool :=
  match D.state with
  | DEMOD_START_OF_COMMUNICATION =>
    if D.sub = SUB_FIRST_HALF then ({ D with state := DEMOD_MANCHESTER_D }, false)
    else
      ({ D with output := bufSet D.output D.len 0xab, state := DEMOD_ERROR_WAIT }, false)
  | DEMOD_MANCHESTER_D | DEMOD_MANCHESTER_E =>
    if D.sub = SUB_FIRST_HALF then
      ({ D with bitCount := D.bitCount + 1, shiftReg := (D.shiftReg >>> 1) ^^^ 0x100,
                state := DEMOD_MANCHESTER_D }, false)
    else if D.sub = SUB_SECOND_HALF then
      ({ D with bitCount := D.bitCount + 1, shiftReg := D.shiftReg >>> 1,
                state := DEMOD_MANCHESTER_E }, false)
    else ({ D with state := DEMOD_MANCHESTER_F }, false)
  | DEMOD_MANCHESTER_F =>
    -- Tag response does not need to be a complete byte!
    if D.len > 0 ∨ D.bitCount > 0 then
      let D :=
        if D.bitCount > 0 then
          let D := { D with shiftReg := D.shiftReg >>> (9 - D.bitCount) }
          let D := { D with output := bufSet D.output D.len (D.shiftReg &&& 0xff) }
          let D := { D with len := D.len + 1 }
          -- No parity bit, so just shift a 0
          { D with parityBits := (D.parityBits <<< 1) % 2 ^ 32 }
        else D
      ({ D with state := DEMOD_UNSYNCD }, true)
    else
      ({ D with output := bufSet D.output D.len 0xad, state := DEMOD_ERROR_WAIT }, false)
  | DEMOD_ERROR_WAIT => ({ D with state := DEMOD_UNSYNCD }, false)
  | DEMOD_UNSYNCD =>
    ({ D with output := bufSet D.output D.len 0xdd, state := DEMOD_UNSYNCD }, false)

/-- The end of the second-half branch of `ManchesterDecoding`, after the `switch`: the
storing of a byte once nine bits are in (`if(Demod.bitCount>=9)`). -/
def ManchesterStore (D : DemodT) : DemodT :=
  if D.bitCount ≥ 9 then
    let D := { D with output := bufSet D.output D.len (D.shiftReg &&& 0xff) }
    let D := { D with len := D.len + 1 }
    let D := { D with parityBits := (D.parityBits <<< 1) % 2 ^ 32 }
    let D := { D with parityBits := D.parityBits ^^^ ((D.shiftReg >>> 8) &&& 0x01) }
    { D with bitCount := 0, shiftReg := 0 }
  else D

/-- The branch `if(Demod.state==DEMOD_UNSYNCD)` of `ManchesterDecoding`; `bit` is the
previous sample. -/
def ManchesterUnsynced (D : DemodT) (bit : Nat) : DemodT × Bool :=
  let D := { D with output := bufSet D.output D.len 0xfa }
  let D := { D with syncBit := 0 }
  -- This is the first half bit period, so after syncing handle the second part
  let D := { D with posCount := 1 }
  let D := { D with syncBit := ManchesterSync bit }
  if D.syncBit ≠ 0 then
    let D := { D with len := 0, state := DEMOD_START_OF_COMMUNICATION,
                      sub := SUB_FIRST_HALF, bitCount := 0, shiftReg := 0,
                      parityBits := 0, samples := 0 }
    let D :=
      if D.posCount ≠ 0 then
        if D.syncBit = 0x08 then { D with samples := 3 }
        else if D.syncBit = 0x04 then { D with samples := 2 }
        else if D.syncBit = 0x02 then { D with samples := 1 }
        else if D.syncBit = 0x01 then { D with samples := 0 }
        else D
      else D
    (D, false)
  else (D, false)

/-- The `else` branch of `if(Demod.state==DEMOD_UNSYNCD)` in `ManchesterDecoding`; `bit`
is the previous sample, `Demod.buffer` already holds the new one. -/
def ManchesterSynced (D : DemodT) (bit : Nat) : DemodT × Bool :=
  let modulation := ((bit <<< 1) ^^^ ((D.buffer &&& 0x08) >>> 3)) &&& D.syncBit
  let D := { D with samples := D.samples + 4 }
  if D.posCount = 0 then
    let D := { D with posCount := 1 }
    ((if modulation ≠ 0 then { D with sub := SUB_FIRST_HALF }
      else { D with sub := SUB_NONE }), false)
  else
    let D := { D with posCount := 0 }
    let D :=
      if modulation ≠ 0 ∧ D.sub = SUB_FIRST_HALF then
        if D.state ≠ DEMOD_ERROR_WAIT then
          { D with state := DEMOD_ERROR_WAIT, output := bufSet D.output D.len 0xaa }
        else D
      else if modulation ≠ 0 then { D with sub := SUB_SECOND_HALF }
      else D
    let r := ManchesterSwitch D
    if r.2 then (r.1, true)
    else (ManchesterStore r.1, false)

/-- The function `ManchesterDecoding(v)`: one call on the global `Demod`, giving the new
`Demod` and the returned flag (`TRUE` = a frame is complete). -/
def ManchesterDecoding (D : DemodT) (v : Nat) : DemodT × Bool :=
  if D.buff = 0 then
    ({ D with buff := 1, buffer := v }, false)
  else
    let bit := D.buffer
    let D := { D with buffer := v }
    if D.state = DEMOD_UNSYNCD then ManchesterUnsynced D bit
    else ManchesterSynced D bit

/-- The reset of `Demod` the receive routines perform: `memset(&Demod, 0, sizeof(Demod))`
followed by the assignment of `output` and `state = DEMOD_UNSYNCD`. -/
def DemodReset (output : Nat → Nat) : DemodT :=
  { state := DEMOD_UNSYNCD, bitCount := 0, posCount := 0, syncBit := 0, parityBits := 0,
    shiftReg := 0, buffer := 0, buff := 0, samples := 0, len := 0, sub := SUB_NONE,
    output := output }

/-- Feeding a stream of sample nibbles to `ManchesterDecoding`, one call per nibble, as the
receive loops do: the loop stops at the first call that returns `TRUE`. -/
def ManchesterRun : DemodT → List Nat → DemodT × Bool
  | D, [] => (D, false)
  | D, s :: rest =>
    let r := ManchesterDecoding D s
    if r.2 then (r.1, true) else ManchesterRun r.1 rest

/-! ## The encoders -/

/-- The transmit buffer while a frame is being built: the bytes `ToSend[0..ToSendMax]` and
the bit position `ToSendBit` of the stuffing routine. -/
structure ToSendT where
  ToSend : List Nat
  ToSendBit : Nat

/-- Modelled from the spec: `ToSendReset` is declared in `apps.h` and defined outside the
sources at hand. It empties the transmit buffer (`ToSendMax = -1`, so that the next
`ToSend[++ToSendMax]` writes index 0) and leaves no partly filled stuffing byte. -/
def ToSendReset : ToSendT := { ToSend := [], ToSendBit := 8 }

/-- Modelled from the spec: `ToSendStuffBit` is declared in `apps.h` and defined outside
the sources at hand. It stuffs one bit into the transmit buffer, most significant bit
first, opening a new zero byte when the current one holds 8 stuffed bits, so that the
"correction bit preamble (8 stuff bits)" occupies one byte. -/
def ToSendStuffBit (T : ToSendT) (b : Nat) : ToSendT :=
  let T : ToSendT :=
    if T.ToSendBit ≥ 8 then { ToSend := T.ToSend ++ [0], ToSendBit := 0 } else T
  let T : ToSendT :=
    if b ≠ 0 then
      { T with ToSend := T.ToSend.dropLast ++
          [T.ToSend.getLastD 0 ||| (1 <<< (7 - T.ToSendBit))] }
    else T
  { T with ToSendBit := T.ToSendBit + 1 }

/-- The statement `ToSend[++ToSendMax] = v`. -/
def ToSendPut (T : ToSendT) (v : Nat) : ToSendT := { T with ToSend := T.ToSend ++ [v] }

/-- The block the Miller encoders repeat for every data and parity bit: `bit` decides
between sequence X and, by `last`, sequence Z or Y. State: the buffer and `last`. -/
def MillerPutBit (s : ToSendT × Nat) (bit : Nat) : ToSendT × Nat :=
  if bit ≠ 0 then (ToSendPut s.1 SEC_X, 1)
  else if s.2 = 0 then (ToSendPut s.1 SEC_Z, s.2)
  else (ToSendPut s.1 SEC_Y, 0)

/-- The loop `for (j = 0; j < n; j++) { if (b & 1) ... ; b >>= 1; }` of the Miller
encoders, `n` iterations on the byte `b`. -/
def MillerPutBits : Nat → Nat → ToSendT × Nat → ToSendT × Nat
  | 0, _, s => s
  | n + 1, b, s => MillerPutBits n (b >>> 1) (MillerPutBit s (b &&& 1))

/-- The ending common to the Miller encoders: End of Communication (Z or Y by `last`,
then Y), three more Y "just to be sure", and `ToSendMax++`; the result is the finished
buffer `ToSend[0..ToSendMax-1]`. -/
def MillerPutEnd (s : ToSendT × Nat) : List Nat :=
  let s : ToSendT × Nat :=
    if s.2 = 0 then (ToSendPut s.1 SEC_Z, s.2) else (ToSendPut s.1 SEC_Y, 0)
  let T := ToSendPut s.1 SEC_Y
  let T := ToSendPut T SEC_Y
  let T := ToSendPut T SEC_Y
  let T := ToSendPut T SEC_Y
  T.ToSend

/-- The function `ShortFrameFromReader(bt)`; the result is `ToSend[0..ToSendMax-1]`. -/
def ShortFrameFromReader (bt : Nat) : List Nat :=
  let T := ToSendReset
  -- Start of Communication (Seq. Z)
  let s : ToSendT × Nat := (ToSendPut T SEC_Z, 0)
  let s := MillerPutBits 7 (bt % 256) s
  MillerPutEnd s

/-- The outer loop of `CodeIso14443aAsReaderPar` from byte index `i` on. -/
def CodeIso14443aAsReaderParLoop : List Nat → Nat → Nat → ToSendT × Nat → ToSendT × Nat
  | [], _, _, s => s
  | b :: rest, i, dwParity, s =>
    let s := MillerPutBits 8 (b % 256) s
    -- Get the parity bit
    let s := MillerPutBit s ((dwParity >>> i) &&& 0x01)
    CodeIso14443aAsReaderParLoop rest (i + 1) dwParity s

/-- The function `CodeIso14443aAsReaderPar(cmd, len, dwParity)` with `len = cmd.length`;
the result is `ToSend[0..ToSendMax-1]`, so `ToSendMax` is its length. -/
def CodeIso14443aAsReaderPar (cmd : List Nat) (dwParity : Nat) : List Nat :=
  let T := ToSendReset
  -- Start of Communication (Seq. Z)
  let s : ToSendT × Nat := (ToSendPut T SEC_Z, 0)
  let s := CodeIso14443aAsReaderParLoop cmd 0 dwParity s
  MillerPutEnd s

/-- The correction-bit preamble common to the tag encoders: `ToSendReset` and the eight
calls of `ToSendStuffBit`. -/
def TagPreamble : ToSendT :=
  let T := ToSendReset
  let T := ToSendStuffBit T 0
  let T := ToSendStuffBit T 0
  let T := ToSendStuffBit T 0
  let T := ToSendStuffBit T 0
  let T := ToSendStuffBit T 1
  let T := ToSendStuffBit T 0
  let T := ToSendStuffBit T 0
  let T := ToSendStuffBit T 0
  T

/-- The block of the tag encoders for one bit: sequence D for 1 and E for 0. -/
def ManchesterPutBit (T : ToSendT) (bit : Nat) : ToSendT :=
  if bit ≠ 0 then ToSendPut T SEC_D else ToSendPut T SEC_E

/-- The loop `for (j = 0; j < n; j++) { if (b & 1) ... ; b >>= 1; }` of the tag
encoders. -/
def ManchesterPutBits : Nat → Nat → ToSendT → ToSendT
  | 0, _, T => T
  | n + 1, b, T => ManchesterPutBits n (b >>> 1) (ManchesterPutBit T (b &&& 1))

/-- The outer loop of `CodeIso14443aAsTagPar` from byte index `i` on. -/
def CodeIso14443aAsTagParLoop : List Nat → Nat → Nat → ToSendT → ToSendT
  | [], _, _, T => T
  | b :: rest, i, dwParity, T =>
    let T := ManchesterPutBits 8 (b % 256) T
    let T := ManchesterPutBit T ((dwParity >>> i) &&& 0x01)
    CodeIso14443aAsTagParLoop rest (i + 1) dwParity T

/-- The function `CodeIso14443aAsTagPar(cmd, len, dwParity)` with `len = cmd.length`;
the result is `ToSend[0..ToSendMax-1]`. -/
def CodeIso14443aAsTagPar (cmd : List Nat) (dwParity : Nat) : List Nat :=
  let T := TagPreamble
  -- Send startbit
  let T := ToSendPut T SEC_D
  let T := CodeIso14443aAsTagParLoop cmd 0 dwParity T
  -- Send stopbit
  let T := ToSendPut T SEC_F
  T.ToSend

/-- The function `CodeIso14443aAsTag(cmd, len)`. -/
def CodeIso14443aAsTag (cmd : List Nat) : List Nat :=
  CodeIso14443aAsTagPar cmd (GetParity cmd)

/-- The loop `for(i = 0; i < 5; i++) ToSend[++ToSendMax] = SEC_F` that flushes the
buffer. -/
def TagFlush : Nat → ToSendT → ToSendT
  | 0, T => T
  | n + 1, T => TagFlush n (ToSendPut T SEC_F)

/-- The function `CodeStrangeAnswerAsTag()`. -/
def CodeStrangeAnswerAsTag : List Nat :=
  let T := TagPreamble
  let T := ToSendPut T SEC_D
  let T := ToSendPut T SEC_E
  let T := ToSendPut T SEC_E
  let T := ToSendPut T SEC_D
  let T := ToSendPut T SEC_F
  let T := TagFlush 5 T
  T.ToSend

/-- The function `Code4bitAnswerAsTag(cmd)`. -/
def Code4bitAnswerAsTag (cmd : Nat) : List Nat :=
  let T := TagPreamble
  let T := ToSendPut T SEC_D
  let T := ManchesterPutBits 4 (cmd % 256) T
  let T := ToSendPut T SEC_F
  let T := TagFlush 5 T
  T.ToSend

/-! ## Frame layout in the words of the specification -/

/-- The `n` low bits of `b`, least significant first. -/
def LsbBits : Nat → Nat → List Nat
  | 0, _ => []
  | n + 1, b => b % 2 :: LsbBits n (b / 2)

/-- The bits of a frame in the order of transmission, from byte index `i` on: for each
byte its 8 data bits, least significant first, followed by bit `i` of the parity word. -/
def FrameBits : List Nat → Nat → Nat → List Nat
  | [], _, _ => []
  | b :: rest, i, dwParity =>
    LsbBits 8 (b % 256) ++ [dwParity / 2 ^ i % 2] ++ FrameBits rest (i + 1) dwParity

/-- Miller coding of a bit sequence: a 1 is sequence X; a 0 is sequence Z when the bit
before it (`prev`) was 0 and sequence Y when it was 1. -/
def MillerSymbols : Nat → List Nat → List Nat
  | _, [] => []
  | prev, bit :: rest =>
    (if bit = 1 then SEC_X else if prev = 0 then SEC_Z else SEC_Y) :: MillerSymbols bit rest

/-- Manchester coding of a bit sequence: a 1 is sequence D and a 0 is sequence E. -/
def ManchesterSymbols (bits : List Nat) : List Nat :=
  bits.map (fun bit => if bit = 1 then SEC_D else SEC_E)

/-! ## Sample streams and call sequences -/

/-- An encoded pattern read as a stream of 4-bit samples: every byte of the pattern gives
its high nibble and then its low nibble. -/
def PatternNibbles (p : List Nat) : List Nat :=
  p.flatMap (fun s => [s / 16 % 16, s % 16])

/-- The inversion of a stream of 4-bit samples. In a Miller pattern a 1 bit is a drop of
the field, and `MillerDecoding` reads a drop as a 0 sample bit. -/
def InvertNibbles (l : List Nat) : List Nat := l.map (fun v => 15 - v)

/-- An idle-high lead-in of `n` samples. -/
def IdleHigh (n : Nat) : List Nat := List.replicate n 0xF

/-- An idle (no modulation) run of `n` samples. -/
def IdleLow (n : Nat) : List Nat := List.replicate n 0x0

/-- A stream of bytes, most significant bit first, regrouped into 4-bit samples after a
delay of three sample bits: `carry` holds the three bits that are still to be emitted,
and the last sample is completed with one idle-high bit. -/
def Delay3 : Nat → List Nat → List Nat
  | carry, [] => [carry * 2 + 1]
  | carry, s :: rest => (carry * 2 + s / 128) :: (s / 8 % 16) :: Delay3 (s % 8) rest

/-- The samples a Miller pattern `p` gives when its inverted bit stream (drop = low)
arrives three sample bits late on an idle-high line, after `n` idle-high samples: every
two-sample drop of the pattern then lies across a sample boundary. -/
def MillerDelayedSamples (n : Nat) (p : List Nat) : List Nat :=
  IdleHigh n ++ Delay3 7 (p.map (fun s => 255 - s))

/-- The arguments of one call of `LogTrace`. -/
structure TraceCall where
  btBytes : Nat → Nat
  iLen : Nat
  iSamples : Nat
  dwParity : Nat
  bReader : Bool

/-- A sequence of calls of `LogTrace` on the globals. -/
def LogTraceCalls (TRACE_LENGTH : Nat) : TraceState → List TraceCall → TraceState
  | T, [] => T
  | T, c :: rest =>
    LogTraceCalls TRACE_LENGTH
      (LogTrace TRACE_LENGTH T c.btBytes c.iLen c.iSamples c.dwParity c.bReader).1 rest

/-- The empty trace: `traceLen = 0` over a zeroed buffer. -/
def EmptyTrace : TraceState := { trace := fun _ => 0, traceLen := 0, rsamples := 0 }

/-- A buffer holding the bytes of a list (zero beyond its end). -/
def bufOfList (l : List Nat) : Nat → Nat := fun k => l.getD k 0

/-- What a Miller pattern leaves of `Delay3` once the first sample of the symbol `c` has
been taken: the second sample of `c`, then the delayed samples of the symbols after it. -/
def DelayTail (c : Nat) (rest : List Nat) : List Nat :=
  (c / 8 % 16) :: Delay3 (c % 8) rest

/-- The run of `MillerDecoding` from the reset `Uart` over the delayed samples of a
pattern, after `n` idle-high samples. -/
def MillerReceive (output : Nat → Nat) (byteCntMax n : Nat) (p : List Nat) : UartT × Bool :=
  MillerRun (UartReset output byteCntMax) (MillerDelayedSamples n p)

/-- The run of `ManchesterDecoding` from the reset `Demod` over a tag pattern sent without
its first byte (the correction-bit preamble, which `EmSendCmd14443aRaw` leaves out when no
correction is needed), read as 4-bit samples and followed by `m` idle samples. -/
def ManchesterReceive (output : Nat → Nat) (p : List Nat) (m : Nat) : DemodT × Bool :=
  ManchesterRun (DemodReset output) (PatternNibbles p.tail ++ IdleLow m)

/-! ## Byte assembly -/

/-- The registers in which both decoders assemble bytes: the shift register, the bit and
byte counters, the parity word and the output buffer. -/
structure ByteRegs where
  shiftReg : Nat
  bitCnt : Nat
  byteCnt : Nat
  parityBits : Nat
  output : Nat → Nat

/-- The byte-assembly registers of `Uart`. -/
def UartRegs (U : UartT) : ByteRegs :=
  { shiftReg := U.shiftReg, bitCnt := U.bitCnt, byteCnt := U.byteCnt,
    parityBits := U.parityBits, output := U.output }

/-- The byte-assembly registers of `Demod`. -/
def DemodRegs (D : DemodT) : ByteRegs :=
  { shiftReg := D.shiftReg, bitCnt := D.bitCount, byteCnt := D.len,
    parityBits := D.parityBits, output := D.output }

/-- The effect of one received bit on the byte-assembly registers, in arithmetic: the bit
enters the 9-bit shift register at the top; with the ninth bit the low 8 bits are stored
as the next byte and bit 8 is shifted into the parity word. `clr` tells whether the shift
register is cleared after a byte (`ManchesterDecoding`) or kept (`MillerDecoding`). -/
def RegStep (clr : Bool) (r : ByteRegs) (bit : Nat) : ByteRegs :=
  if r.bitCnt + 1 = 9 then
    { shiftReg := if clr then 0 else r.shiftReg / 2 + 256 * bit,
      bitCnt := 0,
      byteCnt := r.byteCnt + 1,
      parityBits := 2 * r.parityBits % 2 ^ 32 + (r.shiftReg / 2 + 256 * bit) / 256 % 2,
      output := bufSet r.output r.byteCnt ((r.shiftReg / 2 + 256 * bit) % 256) }
  else
    { r with shiftReg := r.shiftReg / 2 + 256 * bit, bitCnt := r.bitCnt + 1 }

/-- The parity word as both decoders accumulate it over the bytes `i, i+1, ...` of a frame
of `n` more bytes: shifted left once per byte, the new parity bit entering at bit 0. -/
def ParityAcc (dwParity : Nat) : Nat → Nat → Nat → Nat
  | 0, _, acc => acc
  | n + 1, i, acc => ParityAcc dwParity n (i + 1) (2 * acc % 2 ^ 32 + dwParity / 2 ^ i % 2)

/-- The state of `Uart` between two bit periods of a frame that is being received with
`syncBit = 0x10`, the last bit having been `prev`. -/
def MillerSyncedAt (U : UartT) (prev : Nat) : Prop :=
  U.bitBuffer ≠ 0 ∧ U.syncBit = 16 ∧ U.posCnt = 0 ∧ U.drop = DROP_NONE ∧
  U.shiftReg < 512 ∧ U.bitCnt < 9 ∧
  ((prev = 0 ∧ (U.state = STATE_MILLER_Z ∨ U.state = STATE_MILLER_Y)) ∨
   (prev = 1 ∧ U.state = STATE_MILLER_X))

/-- The state of `Demod` between two bit periods of a frame that is being received with
`syncBit = 0x04`. -/
def ManchesterSyncedAt (D : DemodT) : Prop :=
  D.buff ≠ 0 ∧ D.syncBit = 4 ∧ D.posCount = 0 ∧ D.shiftReg < 512 ∧ D.bitCount < 9 ∧
  (D.state = DEMOD_MANCHESTER_D ∨ D.state = DEMOD_MANCHESTER_E)

/-! ## One call of the Miller decoder, seen from outside -/

/-- The sample buffer after the two statements `Uart.bitBuffer <<= 4; Uart.bitBuffer ^= bit`
that open every call of `MillerDecoding` with a non-empty buffer. -/
def MillerShiftIn (bitBuffer bit : Nat) : Nat := ((bitBuffer <<< 4) % 2 ^ 32) ^^^ bit

/-- The measurement a call `MillerDecoding(bit)` makes in a synced state of `Uart`: the
value of the local `bit` after `if(bit != bitright) { bit = bitright; }`; 0 is a drop. -/
def MillerSample (U : UartT) (bit : Nat) : Nat :=
  MillerMeasure (MillerShiftIn U.bitBuffer bit) U.syncBit

/-- The global `Uart` as the `switch(Uart.state)` of the second-half branch finds it in a
call `MillerDecoding(bit)`: the sample shifted in, `posCnt` back at 0, and the second-half
measurement recorded (`DROP_SECOND_HALF`, or `STATE_ERROR_WAIT` when the first half had a
drop as well). -/
def MillerSecondHalf (U : UartT) (bit : Nat) : UartT :=
  { U with bitBuffer := MillerShiftIn U.bitBuffer bit, posCnt := 0,
           drop := if MillerSample U bit = 0 ∧ U.drop = DROP_NONE then DROP_SECOND_HALF
                   else U.drop,
           state := if MillerSample U bit = 0 ∧ U.drop ≠ DROP_NONE then STATE_ERROR_WAIT
                    else U.state }

/-- The local `EOC` of `MillerDecoding` at the end of a call: it starts as `FALSE` and only
the `switch(Uart.state)` at the end of a bit period sets it. -/
def MillerEOC (U : UartT) (bit : Nat) : Bool :=
  if U.bitBuffer = 0 then false
  else
    let U := { U with bitBuffer := ((U.bitBuffer <<< 4) % 2 ^ 32) ^^^ bit }
    if U.state ≠ STATE_UNSYNCD then
      let U := { U with posCnt := U.posCnt + 1 }
      let bit := MillerMeasure U.bitBuffer U.syncBit
      if U.posCnt = 1 then false
      else
        let U :=
          if bit = 0 ∧ U.drop = DROP_NONE then { U with drop := DROP_SECOND_HALF }
          else if bit = 0 then { U with state := STATE_ERROR_WAIT }
          else U
        let U := { U with posCnt := 0 }
        (MillerSwitch U).2
    else false

/-- The three assignments with which `GetIso14443aCommandFromReader` and `EmGetCmd` prepare
`Uart` for a receive: `Uart.output = received; Uart.byteCntMax = maxLen;
Uart.state = STATE_UNSYNCD;`. Every other field keeps what the last receive left. -/
def UartReceiveReset (U : UartT) (received : Nat → Nat) (maxLen : Nat) : UartT :=
  { U with output := received, byteCntMax := maxLen, state := STATE_UNSYNCD }

/-- Feeding a stream of sample nibbles to `MillerDecoding`, one call per nibble, whatever
the calls return: the global `Uart` after the last call. -/
def MillerFeed (U : UartT) (samples : List Nat) : UartT :=
  samples.foldl (fun V s => (MillerDecoding V s).1) U

/-- The number of all-high samples (`0xF`) at the head of a list of samples. -/
def HighRun : List Nat → Nat
  | [] => 0
  | s :: rest => if s = 0xF then HighRun rest + 1 else 0

/-- The `syncBit` values (before `Uart.syncBit <<= 4`) the sync search of `MillerDecoding`
chooses for the inverted nibbles 0 to 15 when bit 3 of the next sample is low. -/
def MillerSyncChoice : List Nat := [0, 1, 2, 1, 4, 1, 2, 2, 8, 1, 2, 2, 4, 4, 4, 4]

/-- The highest set bit of a nibble (0 for the nibble 0), as a mask. -/
def HighestSetBit (n : Nat) : Nat :=
  if n &&& 8 ≠ 0 then 8 else if n &&& 4 ≠ 0 then 4 else if n &&& 2 ≠ 0 then 2 else n &&& 1

/-! ## One bit of the Manchester decoder -/

/-- The update of `Demod.shiftReg` for one received bit in `DEMOD_MANCHESTER_D` or
`DEMOD_MANCHESTER_E`: `(Demod.shiftReg >> 1) ^ 0x100` for a 1 (modulation in the first
half) and `Demod.shiftReg >>= 1` for a 0. -/
def ManchesterShiftIn (shiftReg bit : Nat) : Nat :=
  if bit = 1 then (shiftReg >>> 1) ^^^ 0x100 else shiftReg >>> 1

/-- The modulation `ManchesterDecoding(v)` measures: `bit` is the previous sample
`Demod.buffer`, and `Demod.buffer` is `v` by then. -/
def ManchesterModulation (D : DemodT) (v : Nat) : Nat :=
  ((D.buffer <<< 1) ^^^ ((v &&& 0x08) >>> 3)) &&& D.syncBit

/-! ## Buffers and frames -/

/-- The `n` bytes of a buffer from offset `off` on. -/
def bufSlice (buf : Nat → Nat) (off n : Nat) : List Nat :=
  (List.range n).map (fun k => buf (off + k))

/-- A received frame stored in a buffer from index 0 on, as the decoders do through
`Uart.output` and `Demod.output`; the bytes beyond the frame keep their old value. -/
def bufPut (buf : Nat → Nat) (frame : List Nat) : Nat → Nat :=
  memcpyAt buf 0 (bufOfList frame) frame.length

/-- The function `AppendCrc14443a(data, len)`: the two bytes of
`ComputeCrc14443(CRC_14443_A, data, len, ...)` stored at `data[len]` and `data[len+1]`.
`ComputeCrc14443` comes from `iso14443crc.h` and is a parameter. -/
def AppendCrc14443a (ComputeCrc14443 : List Nat → Nat × Nat) (data : Nat → Nat) (len : Nat) :
    Nat → Nat :=
  bufSet (bufSet data len (ComputeCrc14443 (bufSlice data 0 len)).1) (len + 1)
    (ComputeCrc14443 (bufSlice data 0 len)).2

/-! ## The reader side: anticollision and select -/

/-- The function `ReaderReceive(receivedAnswer)` against one answer of the card: `none` is
a timeout of `GetIso14443aAnswerFromTag`, `some r` a decoded frame of `Demod.len = r.length`
bytes. The result is the returned value (`FALSE` = 0 or `Demod.len`) and the receive
buffer; what a broken-off reception may have stored is left out, every caller modelled
here returns at once on 0. -/
def ReaderReceive (resp : Nat → Nat) (answer : Option (List Nat)) : Nat × (Nat → Nat) :=
  match answer with
  | none => (0, resp)
  | some r => (r.length, bufPut resp r)

/-- What `iso14443a_select_card` leaves behind: the returned status, the memory behind
`uid_ptr`, `*cuid_ptr`, the fields of `*resp_data`, the receive buffer `resp`, the locals
`sak` and `cascade_level`, and the frames transmitted so far (the short frame as its one
byte). -/
structure SelectT where
  status : Nat
  uid : Nat → Nat
  cuid : Nat
  atqa : List Nat
  rsak : Nat
  ats_len : Nat
  ats : List Nat
  resp : Nat → Nat
  sak : Nat
  cascade_level : Nat
  sent : List (List Nat)

/-- The loop `for(; sak & 0x04; cascade_level++)` of `iso14443a_select_card` against the
answers of the card still to come. The result is `true` when the loop was left by
`return 0`, the state, and the answers not yet consumed. `ComputeCrc14443` and
`bytes_to_num` are parameters; `hasCuid` tells whether `cuid_ptr` is non-NULL. -/
def SelectLoop (ComputeCrc14443 : List Nat → Nat × Nat) (bytes_to_num : List Nat → Nat)
    (hasCuid : Bool) : SelectT → List (Option (List Nat)) →
    Bool × SelectT × List (Option (List Nat))
  | S, answers =>
    if S.sak &&& 0x04 = 0 then (false, S, answers)
    else
      -- SELECT_* (L1: 0x93, L2: 0x95, L3: 0x97)
      let code := (0x93 + S.cascade_level * 2) % 256
      -- SELECT_ALL
      let S := { S with sent := S.sent ++ [[code, 0x20]] }
      match answers with
      | [] => (true, { S with status := 0 }, [])
      | a :: rest =>
        let r := ReaderReceive S.resp a
        let S := { S with resp := r.2 }
        if r.1 = 0 then (true, { S with status := 0 }, rest)
        else
          let S := { S with uid := memcpyAt S.uid (S.cascade_level * 4) S.resp 4 }
          -- calculate crypto UID
          let S := if hasCuid then { S with cuid := bytes_to_num (bufSlice S.resp 0 4) % 2 ^ 32 }
                   else S
          -- Construct SELECT UID command
          let sel_uid := bufSlice
            (AppendCrc14443a ComputeCrc14443
              (bufPut (fun _ => 0) ([code, 0x70] ++ bufSlice S.resp 0 5)) 7) 0 9
          let S := { S with sent := S.sent ++ [sel_uid] }
          -- Receive the SAK
          match rest with
          | [] => (true, { S with status := 0 }, [])
          | b :: rest2 =>
            let r := ReaderReceive S.resp b
            let S := { S with resp := r.2 }
            if r.1 = 0 then (true, { S with status := 0 }, rest2)
            else
              let S := { S with sak := S.resp 0, cascade_level := S.cascade_level + 1 }
              SelectLoop ComputeCrc14443 bytes_to_num hasCuid S rest2

/-- The part of `iso14443a_select_card` after the loop (lines 1740 to 1764), from the
state `S` the loop was left in through its condition and the answers still to come. -/
def SelectTail (ComputeCrc14443 : List Nat → Nat × Nat) (atsSize : Nat) (hasRespData : Bool)
    (S : SelectT) (answers : List (Option (List Nat))) : SelectT :=
  let rsak := if hasRespData then S.sak else S.rsak
  let ats_len := if hasRespData then 0 else S.ats_len
  -- this byte not UID, it CT
  let uid := if S.uid 0 = 0x88 then bufSet (memcpyAt S.uid 0 (fun k => S.uid (k + 1)) 7) 7 0
             else S.uid
  if S.sak &&& 0x20 = 0 then
    -- non iso14443a compliant tag
    { S with rsak := rsak, ats_len := ats_len, uid := uid, status := 2 }
  else if hasRespData then
    -- Request for answer to select
    let rats := bufSlice
      (AppendCrc14443a ComputeCrc14443 (bufPut (fun _ => 0) [0xE0, 0x80, 0x00, 0x00]) 2) 0 4
    let r := ReaderReceive S.resp (answers.headD none)
    if r.1 = 0 then
      { S with rsak := rsak, ats_len := ats_len, uid := uid, sent := S.sent ++ [rats],
               resp := r.2, status := 0 }
    else
      { S with rsak := rsak, uid := uid, sent := S.sent ++ [rats], resp := r.2,
               ats := bufSlice r.2 0 atsSize, ats_len := r.1, status := 1 }
  else { S with rsak := rsak, ats_len := ats_len, uid := uid, status := 1 }

/-- The function `iso14443a_select_card(uid_ptr, resp_data, cuid_ptr)` against the list
of the card's answers, one per `ReaderReceive` (beyond its end nothing is received).
`uid0` is the memory behind `uid_ptr` and `resp0` the receive buffer on entry;
`hasRespData` and `hasCuid` tell whether `resp_data` and `cuid_ptr` are non-NULL, and
`atsSize` is `sizeof(resp_data->ats)` (the type comes from a header). `uid_ptr` is
non-NULL: the function writes through it before any test. -/
def iso14443a_select_card (ComputeCrc14443 : List Nat → Nat × Nat)
    (bytes_to_num : List Nat → Nat) (atsSize : Nat) (hasRespData hasCuid : Bool)
    (uid0 resp0 : Nat → Nat) (answers : List (Option (List Nat))) : SelectT :=
  -- Broadcast for a card, WUPA (0x52) will force response from all cards in the field
  -- Receive the ATQA
  let r := ReaderReceive resp0 (answers.headD none)
  let S : SelectT :=
    { status := 0, uid := fun k => if k < 8 then 0 else uid0 k, cuid := 0,
      atqa := if hasRespData then bufSlice r.2 0 2 else [],
      rsak := 0, ats_len := 0, ats := [], resp := r.2,
      sak := 0x04, cascade_level := 0, sent := [[0x52]] }
  if r.1 = 0 then { S with atqa := [] }
  else
    let l := SelectLoop ComputeCrc14443 bytes_to_num hasCuid S answers.tail
    if l.1 then l.2.1
    else SelectTail ComputeCrc14443 atsSize hasRespData l.2.1 l.2.2

/-- One complete pass of the loop body of `iso14443a_select_card`, in which the UID
answer `u` and the SAK answer `s` were both received: the state at the end of the pass,
after `cascade_level++`. -/
def SelectRound (ComputeCrc14443 : List Nat → Nat × Nat) (bytes_to_num : List Nat → Nat)
    (hasCuid : Bool) (S : SelectT) (u s : List Nat) : SelectT :=
  let code := (0x93 + S.cascade_level * 2) % 256
  let respU := bufPut S.resp u
  { status := S.status
    uid := memcpyAt S.uid (S.cascade_level * 4) respU 4
    cuid := if hasCuid then bytes_to_num (bufSlice respU 0 4) % 2 ^ 32 else S.cuid
    atqa := S.atqa
    rsak := S.rsak
    ats_len := S.ats_len
    ats := S.ats
    resp := bufPut respU s
    sak := bufPut respU s 0
    cascade_level := S.cascade_level + 1
    sent := S.sent ++ [[code, 0x20]] ++
      [bufSlice (AppendCrc14443a ComputeCrc14443
        (bufPut (fun _ => 0) ([code, 0x70] ++ bufSlice respU 0 5)) 7) 0 9] }

/-- Whether a call of `ReaderReceive` gets this answer: a frame of at least one byte. -/
def Received (a : Option (List Nat)) : Bool :=
  match a with
  | some (_ :: _) => true
  | _ => false

/-- Follows the specification's words: the UID answers and SAKs of the cascade levels, up
to the final SAK (the first one with bit 0x04 clear), with the answers left after it;
`none` when a UID answer or a SAK is not received. -/
def SelectFinalSak : List (Option (List Nat)) → Option (Nat × List (Option (List Nat)))
  | some (_ :: _) :: some (s :: _) :: rest =>
    if s &&& 0x04 = 0 then some (s, rest) else SelectFinalSak rest
  | _ => none

/-- Follows the specification's words: status 0 (no card) if the ATQA, any UID answer, any
SAK or the ATS is not received, 2 if all were received up to the final SAK and that SAK
has bit 0x20 clear, 1 otherwise. The ATS is asked for when `resp_data` is given. -/
def SelectStatusSpec (hasRespData : Bool) (answers : List (Option (List Nat))) : Nat :=
  match answers with
  | [] => 0
  | atqa :: rest =>
    if Received atqa then
      match SelectFinalSak rest with
      | none => 0
      | some (sak, rest2) =>
        if sak &&& 0x20 = 0 then 2
        else if hasRespData && !Received (rest2.headD none) then 0
        else 1
    else 0

/-- The answers of a card to `n` cascade levels that each ask for one more: `n` times a
UID answer followed by a SAK with bit 0x04 set. -/
def CascadeRounds : Nat → List (Option (List Nat))
  | 0 => []
  | n + 1 => some [1, 2, 3, 4, 4] :: some [0x04, 0xda, 0x17] :: CascadeRounds n

/-- The answers of a card that keeps asking for one more cascade level: an ATQA, then `n`
times a UID answer followed by a SAK with bit 0x04 set, then silence. -/
def CascadeAnswers (n : Nat) : List (Option (List Nat)) :=
  some [0x04, 0x00] :: CascadeRounds n

/-- The state after `n` passes of the loop against `CascadeRounds n`. -/
def CascadeState (ComputeCrc14443 : List Nat → Nat × Nat) (bytes_to_num : List Nat → Nat)
    (hasCuid : Bool) (S : SelectT) : Nat → SelectT
  | 0 => S
  | n + 1 => CascadeState ComputeCrc14443 bytes_to_num hasCuid
      (SelectRound ComputeCrc14443 bytes_to_num hasCuid S [1, 2, 3, 4, 4] [0x04, 0xda, 0x17]) n

/-! ## The MIFARE Classic 1k emulator -/

/-- The states `MFEMUL_*` of `Mifare1ksim`. The constants come from a header; all twelve
are case labels of the one `switch (cardSTATE)`, so they are pairwise distinct. -/
inductive MfState
  | MFEMUL_NOFIELD
  | MFEMUL_IDLE
  | MFEMUL_SELECT1
  | MFEMUL_SELECT2
  | MFEMUL_AUTH1
  | MFEMUL_AUTH2
  | MFEMUL_WORK
  | MFEMUL_WRITEBL2
  | MFEMUL_INTREG_INC
  | MFEMUL_INTREG_DEC
  | MFEMUL_INTREG_REST
  | MFEMUL_HALTED
  deriving DecidableEq, Repr

open MfState

/-- An answer handed to the transmitter: `frame` is a call
`EmSendCmdExPar(resp, respLen, correctionNeeded, par)` with the `respLen` bytes of `resp`,
`short` a call `EmSend4bitEx(resp, correctionNeeded)`. -/
inductive MfAnswer
  | frame (resp : List Nat) (correctionNeeded par : Nat)
  | short (resp correctionNeeded : Nat)
  deriving DecidableEq, Repr

/-- What `Mifare1ksim` uses and `src/` does not define: the constants `CARD_ACK` and
`CARD_NACK_NA`, the state the macro `cardSTATE_TO_IDLE()` assigns to `cardSTATE`, the
byte conversions, the CRC, the Crypto-1 cipher over a cipher state `Pcs`, and the emulator
memory `Mem` behind the `eml*` helpers. A helper that writes through a pointer returns
the new value; `emlGetKey`, `emlGetMem`, `emlGetValBl` and `emlCheckValBl` read the
memory, `emlSetMem` and `emlSetValBl` write it. `emlGetValBl` is given the old
`cardINTREG` and `cardINTBLOCK` and returns its result with the new ones;
`mf_crypto1_encrypt` is given the old `par` and returns the new one last. -/
structure MfEnv (Pcs Mem : Type) where
  CARD_ACK : Nat
  CARD_NACK_NA : Nat
  cardSTATE_TO_IDLE : MfState
  bytes_to_num : List Nat → Nat
  num_to_bytes : Nat → Nat → (Nat → Nat) → Nat → Nat
  prng_successor : Nat → Nat → Nat
  ComputeCrc14443 : List Nat → Nat × Nat
  crypto1_create : Pcs → Nat → Pcs
  crypto1_destroy : Pcs → Pcs
  crypto1_word : Pcs → Nat → Nat → Pcs × Nat
  mf_crypto1_decrypt : Pcs → (Nat → Nat) → Nat → Pcs × (Nat → Nat)
  mf_crypto1_encrypt : Pcs → (Nat → Nat) → Nat → Nat → Pcs × (Nat → Nat) × Nat
  mf_crypto1_encrypt4bit : Pcs → Nat → Pcs × Nat
  emlGetKey : Mem → Nat → Nat → Nat
  emlGetMem : Mem → (Nat → Nat) → Nat → Nat → Nat → Nat
  emlSetMem : Mem → (Nat → Nat) → Nat → Nat → Mem
  emlGetValBl : Mem → Nat → Nat → Nat → Nat × Nat × Nat
  emlSetValBl : Mem → Nat → Nat → Nat → Nat × Mem
  emlCheckValBl : Mem → Nat → Nat

/-- The locals of `Mifare1ksim` that outlive one pass of its loop, its two buffers, the
static answer arrays filled before the loop, the emulator memory, and the answers sent so
far. -/
structure MfCard (Pcs Mem : Type) where
  cardSTATE : MfState
  _7BUID : Nat
  nextCycleTimeout : Nat
  par : Nat
  len : Nat
  cardWRBL : Nat
  cardAUTHSC : Nat
  cardAUTHKEY : Nat
  cardRn : Nat
  cardRr : Nat
  cuid : Nat
  rn_enc : Nat
  ans : Nat
  cardINTREG : Nat
  cardINTBLOCK : Nat
  pcs : Pcs
  receivedCmd : Nat → Nat
  response : Nat → Nat
  rATQA : List Nat
  rUIDBCC1 : List Nat
  rUIDBCC2 : List Nat
  rAUTH_AT : Nat → Nat
  mem : Mem
  sent : List MfAnswer

/-- The static array `rSAK`. -/
def rSAK : List Nat := [0x08, 0xb6, 0xdd]

/-- The static array `rSAK1`. -/
def rSAK1 : List Nat := [0x04, 0xda, 0x17]

/-- The static array `rAUTH_NT`. -/
def rAUTH_NT : List Nat := [0x01, 0x02, 0x03, 0x04]

section Emulator

variable {Pcs Mem : Type}

/-- The local `nonce = bytes_to_num(rAUTH_NT, 4)`, a `uint32_t`. -/
def nonce (E : MfEnv Pcs Mem) : Nat := E.bytes_to_num rAUTH_NT % 2 ^ 32

/-- The function `EmSendCmdExPar(resp, respLen, correctionNeeded, par)`, with `resp` the
`respLen` bytes to send: the answer is recorded. -/
def EmSendCmdExPar (C : MfCard Pcs Mem) (resp : List Nat) (correctionNeeded par : Nat) :
    MfCard Pcs Mem :=
  { C with sent := C.sent ++ [MfAnswer.frame resp correctionNeeded par] }

/-- The function `EmSendCmdEx(resp, respLen, correctionNeeded)`. -/
def EmSendCmdEx (C : MfCard Pcs Mem) (resp : List Nat) (correctionNeeded : Nat) :
    MfCard Pcs Mem :=
  EmSendCmdExPar C resp correctionNeeded (GetParity resp)

/-- The function `EmSendCmd(resp, respLen)`. -/
def EmSendCmd (C : MfCard Pcs Mem) (resp : List Nat) : MfCard Pcs Mem :=
  EmSendCmdExPar C resp 0 (GetParity resp)

/-- The function `EmSendCmdPar(resp, respLen, par)`. -/
def EmSendCmdPar (C : MfCard Pcs Mem) (resp : List Nat) (par : Nat) : MfCard Pcs Mem :=
  EmSendCmdExPar C resp 0 par

/-- The function `EmSend4bitEx(resp, correctionNeeded)` with its `uint8_t resp`: the
answer is recorded. -/
def EmSend4bitEx (C : MfCard Pcs Mem) (resp correctionNeeded : Nat) : MfCard Pcs Mem :=
  { C with sent := C.sent ++ [MfAnswer.short (resp % 256) correctionNeeded] }

/-- The function `EmSend4bit(resp)`. -/
def EmSend4bit (C : MfCard Pcs Mem) (resp : Nat) : MfCard Pcs Mem :=
  EmSend4bitEx C resp 0

/-- The statement `EmSend4bit(mf_crypto1_encrypt4bit(pcs, data))`. -/
def MfSend4bit (E : MfEnv Pcs Mem) (C : MfCard Pcs Mem) (data : Nat) : MfCard Pcs Mem :=
  EmSend4bit { C with pcs := (E.mf_crypto1_encrypt4bit C.pcs data).1 }
    (E.mf_crypto1_encrypt4bit C.pcs data).2

/-- The block of `Mifare1ksim` before the `switch` (lines 2095 to 2108): REQ or WUP
request in any state and WUP in the halted state. -/
def MfWakeup (E : MfEnv Pcs Mem) (C : MfCard Pcs Mem) : MfCard Pcs Mem :=
  if C.len ≠ 4 ∧ C.cardSTATE ≠ MFEMUL_NOFIELD then
    if C.len = 1 ∧ ((C.receivedCmd 0 = 0x26 ∧ C.cardSTATE ≠ MFEMUL_HALTED)
        ∨ C.receivedCmd 0 = 0x52) then
      let C1 := EmSendCmdEx C C.rATQA (if C.receivedCmd 0 = 0x52 then 1 else 0)
      -- init crypto block
      { C1 with cardSTATE := MFEMUL_SELECT1, pcs := E.crypto1_destroy C1.pcs,
                cardAUTHKEY := 0xff }
    else C
  else C

/-- The case `MFEMUL_SELECT1`. -/
def MfSelect1 (E : MfEnv Pcs Mem) (C : MfCard Pcs Mem) : MfCard Pcs Mem :=
  -- select all
  if C.len = 2 ∧ (C.receivedCmd 0 = 0x93 ∧ C.receivedCmd 1 = 0x20) then
    EmSendCmd C C.rUIDBCC1
  -- select card
  else if C.len = 9 ∧ (C.receivedCmd 0 = 0x93 ∧ C.receivedCmd 1 = 0x70
      ∧ bufSlice C.receivedCmd 2 4 = C.rUIDBCC1.take 4) then
    let C1 := if C._7BUID = 0 then EmSendCmd C rSAK else EmSendCmd C rSAK1
    let C2 := { C1 with cuid := E.bytes_to_num (C1.rUIDBCC1.take 4) % 2 ^ 32 }
    if C2._7BUID = 0 then { C2 with cardSTATE := MFEMUL_WORK }
    else { C2 with cardSTATE := MFEMUL_SELECT2 }
  else C

/-- The case `MFEMUL_AUTH2`. -/
def MfAuth2 (C : MfCard Pcs Mem) : MfCard Pcs Mem :=
  { C with cardSTATE := MFEMUL_WORK }

/-- The case `MFEMUL_AUTH1`, which falls through to `MFEMUL_AUTH2` when it leaves
`cardSTATE` at `MFEMUL_AUTH2`. -/
def MfAuth1 (E : MfEnv Pcs Mem) (C : MfCard Pcs Mem) : MfCard Pcs Mem :=
  if C.len = 8 then
    -- --- crypto
    let rn_enc := E.bytes_to_num (bufSlice C.receivedCmd 0 4) % 2 ^ 32
    let w1 := E.crypto1_word C.pcs rn_enc 1
    let cardRn := (rn_enc ^^^ w1.2) % 2 ^ 32
    let w2 := E.crypto1_word w1.1 0 0
    let cardRr := (E.bytes_to_num (bufSlice C.receivedCmd 4 4) ^^^ w2.2) % 2 ^ 32
    let C1 := { C with rn_enc := rn_enc, cardRn := cardRn, cardRr := cardRr, pcs := w2.1 }
    -- test if auth OK
    if cardRr ≠ E.prng_successor (nonce E) 64 then
      { C1 with cardSTATE := E.cardSTATE_TO_IDLE }
    else
      let w3 := E.crypto1_word C1.pcs 0 0
      let ans := (E.prng_successor (nonce E) 96 ^^^ w3.2) % 2 ^ 32
      let rAUTH_AT := E.num_to_bytes ans 4 C1.rAUTH_AT
      let C2 := EmSendCmd { C1 with pcs := w3.1, ans := ans, rAUTH_AT := rAUTH_AT }
        (bufSlice rAUTH_AT 0 4)
      MfAuth2 { C2 with cardSTATE := MFEMUL_AUTH2 }
  else
    let C1 := { C with cardSTATE := E.cardSTATE_TO_IDLE }
    if C1.cardSTATE ≠ MFEMUL_AUTH2 then C1 else MfAuth2 C1

/-- The two authentication blocks of the case `MFEMUL_WORK` (lines 2207 to 2227 and 2233
to 2249); they differ in the number handed to `num_to_bytes`: `nonce` in the first
authentication, `ans` in the nested one. -/
def MfAuth (E : MfEnv Pcs Mem) (C : MfCard Pcs Mem) (nested : Bool) : MfCard Pcs Mem :=
  let cardAUTHSC := C.receivedCmd 1 / 4 % 256  -- received block num
  let cardAUTHKEY := (C.receivedCmd 0 - 0x60) % 256
  -- --- crypto
  let pcs := E.crypto1_create C.pcs (E.emlGetKey C.mem cardAUTHSC cardAUTHKEY)
  let w := E.crypto1_word pcs ((C.cuid ^^^ nonce E) % 2 ^ 32) 0
  let ans := (nonce E ^^^ w.2) % 2 ^ 32
  let rAUTH_AT := E.num_to_bytes (if nested then ans else nonce E) 4 C.rAUTH_AT
  let C1 := EmSendCmd
    { C with cardAUTHSC := cardAUTHSC, cardAUTHKEY := cardAUTHKEY, pcs := w.1, ans := ans,
             rAUTH_AT := rAUTH_AT } (bufSlice rAUTH_AT 0 4)
  { C1 with cardSTATE := MFEMUL_AUTH1, nextCycleTimeout := 10 }

/-- The commands of the case `MFEMUL_WORK` after the authentication blocks (lines 2252 to
2345). -/
def MfCommand (E : MfEnv Pcs Mem) (C : MfCard Pcs Mem) : MfCard Pcs Mem :=
  -- rule 13 of 7.5.3. in ISO 14443-4. chaining shall be continued
  -- BUT... ACK --> NACK
  if C.len = 1 ∧ C.receivedCmd 0 = E.CARD_ACK then MfSend4bit E C E.CARD_NACK_NA
  -- rule 12 of 7.5.3. in ISO 14443-4. R(NAK) --> R(ACK)
  else if C.len = 1 ∧ C.receivedCmd 0 = E.CARD_NACK_NA then MfSend4bit E C E.CARD_ACK
  -- read block
  else if C.len = 4 ∧ C.receivedCmd 0 = 0x30 then
    if C.receivedCmd 1 ≥ 16 * 4 ∨ C.receivedCmd 1 / 4 ≠ C.cardAUTHSC then
      MfSend4bit E C E.CARD_NACK_NA
    else
      let response := AppendCrc14443a E.ComputeCrc14443
        (E.emlGetMem C.mem C.response (C.receivedCmd 1) 1) 16
      let e := E.mf_crypto1_encrypt C.pcs response 18 C.par
      EmSendCmdPar { C with response := e.2.1, pcs := e.1, par := e.2.2 % 2 ^ 32 }
        (bufSlice e.2.1 0 18) (e.2.2 % 2 ^ 32)
  -- write block
  else if C.len = 4 ∧ C.receivedCmd 0 = 0xA0 then
    if C.receivedCmd 1 ≥ 16 * 4 ∨ C.receivedCmd 1 / 4 ≠ C.cardAUTHSC then
      MfSend4bit E C E.CARD_NACK_NA
    else
      let C1 := MfSend4bit E C E.CARD_ACK
      { C1 with nextCycleTimeout := 50, cardSTATE := MFEMUL_WRITEBL2,
                cardWRBL := C1.receivedCmd 1 % 256 }
  -- increment, decrement, restore
  else if C.len = 4 ∧ (C.receivedCmd 0 = 0xC0 ∨ C.receivedCmd 0 = 0xC1
      ∨ C.receivedCmd 0 = 0xC2) then
    if C.receivedCmd 1 ≥ 16 * 4 ∨ C.receivedCmd 1 / 4 ≠ C.cardAUTHSC
        ∨ E.emlCheckValBl C.mem (C.receivedCmd 1) ≠ 0 then
      MfSend4bit E C E.CARD_NACK_NA
    else
      let C1 := MfSend4bit E C E.CARD_ACK
      let C2 := if C1.receivedCmd 0 = 0xC1 then { C1 with cardSTATE := MFEMUL_INTREG_INC }
                else C1
      let C3 := if C2.receivedCmd 0 = 0xC0 then { C2 with cardSTATE := MFEMUL_INTREG_DEC }
                else C2
      let C4 := if C3.receivedCmd 0 = 0xC2 then { C3 with cardSTATE := MFEMUL_INTREG_REST }
                else C3
      { C4 with cardWRBL := C4.receivedCmd 1 % 256 }
  -- transfer
  else if C.len = 4 ∧ C.receivedCmd 0 = 0xB0 then
    if C.receivedCmd 1 ≥ 16 * 4 ∨ C.receivedCmd 1 / 4 ≠ C.cardAUTHSC then
      MfSend4bit E C E.CARD_NACK_NA
    else
      let r := E.emlSetValBl C.mem C.cardINTREG C.cardINTBLOCK (C.receivedCmd 1)
      if r.1 ≠ 0 then MfSend4bit E { C with mem := r.2 } E.CARD_NACK_NA
      else MfSend4bit E { C with mem := r.2 } E.CARD_ACK
  -- halt
  else if C.len = 4 ∧ (C.receivedCmd 0 = 0x50 ∧ C.receivedCmd 1 = 0x00) then
    { C with cardSTATE := MFEMUL_HALTED }
  -- command not allowed
  else if C.len = 4 then MfSend4bit E C E.CARD_NACK_NA
  else C

/-- The statement `mf_crypto1_decrypt(pcs, receivedCmd, len)`. -/
def MfDecrypt (E : MfEnv Pcs Mem) (C : MfCard Pcs Mem) : MfCard Pcs Mem :=
  { C with pcs := (E.mf_crypto1_decrypt C.pcs C.receivedCmd C.len).1,
           receivedCmd := (E.mf_crypto1_decrypt C.pcs C.receivedCmd C.len).2 }

/-- The case `MFEMUL_WORK` from the label `lbWORK` on. -/
def MfWork (E : MfEnv Pcs Mem) (C : MfCard Pcs Mem) : MfCard Pcs Mem :=
  if C.len = 0 then C
  else if C.cardAUTHKEY = 0xff then
    -- first authentication
    if C.len = 4 ∧ (C.receivedCmd 0 = 0x60 ∨ C.receivedCmd 0 = 0x61) then MfAuth E C false
    else MfCommand E C
  else
    -- decrypt seqence
    let C1 := MfDecrypt E C
    -- nested authentication
    if C1.len = 4 ∧ (C1.receivedCmd 0 = 0x60 ∨ C1.receivedCmd 0 = 0x61) then MfAuth E C1 true
    else MfCommand E C1

/-- The case `MFEMUL_SELECT2`, which jumps to `lbWORK` on a 4-byte frame. -/
def MfSelect2 (E : MfEnv Pcs Mem) (C : MfCard Pcs Mem) : MfCard Pcs Mem :=
  if C.len = 0 then C
  else if C.len = 2 ∧ (C.receivedCmd 0 = 0x95 ∧ C.receivedCmd 1 = 0x20) then
    EmSendCmd C C.rUIDBCC2
  -- select 2 card
  else if C.len = 9 ∧ (C.receivedCmd 0 = 0x95 ∧ C.receivedCmd 1 = 0x70
      ∧ bufSlice C.receivedCmd 2 4 = C.rUIDBCC2.take 4) then
    let C1 := EmSendCmd C rSAK
    { C1 with cuid := E.bytes_to_num (C1.rUIDBCC2.take 4) % 2 ^ 32, cardSTATE := MFEMUL_WORK }
  -- i guess there is a command). go into the work state.
  else if C.len ≠ 4 then C
  else MfWork E { C with cardSTATE := MFEMUL_WORK }

/-- The case `MFEMUL_WRITEBL2`. -/
def MfWriteBl2 (E : MfEnv Pcs Mem) (C : MfCard Pcs Mem) : MfCard Pcs Mem :=
  if C.len = 18 then
    let C1 := MfDecrypt E C
    let C2 := { C1 with mem := E.emlSetMem C1.mem C1.receivedCmd C1.cardWRBL 1 }
    let C3 := MfSend4bit E C2 E.CARD_ACK
    { C3 with cardSTATE := MFEMUL_WORK }
  else { C with cardSTATE := E.cardSTATE_TO_IDLE }

/-- The statement `memcpy(&ans, receivedCmd, 4)` on the little-endian target. -/
def MfOperand (receivedCmd : Nat → Nat) : Nat :=
  receivedCmd 0 % 256 + receivedCmd 1 % 256 * 2 ^ 8 + receivedCmd 2 % 256 * 2 ^ 16
    + receivedCmd 3 % 256 * 2 ^ 24

/-- The cases `MFEMUL_INTREG_INC`, `MFEMUL_INTREG_DEC` and `MFEMUL_INTREG_REST`; they
differ in the last assignment to `cardINTREG`, which `op` computes from the register and
the operand. -/
def MfIntReg (E : MfEnv Pcs Mem) (C : MfCard Pcs Mem) (op : Nat → Nat → Nat) :
    MfCard Pcs Mem :=
  let C1 := MfDecrypt E C
  let C2 := { C1 with ans := MfOperand C1.receivedCmd }
  let g := E.emlGetValBl C2.mem C2.cardINTREG C2.cardINTBLOCK C2.cardWRBL
  let C3 := { C2 with cardINTREG := g.2.1 % 2 ^ 32, cardINTBLOCK := g.2.2 % 256 }
  if g.1 ≠ 0 then
    let C4 := MfSend4bit E C3 E.CARD_NACK_NA
    { C4 with cardSTATE := E.cardSTATE_TO_IDLE }
  else
    { C3 with cardINTREG := op C3.cardINTREG C3.ans, cardSTATE := MFEMUL_WORK }

/-- The statement `switch (cardSTATE)` of `Mifare1ksim`. -/
def MfSwitch (E : MfEnv Pcs Mem) (C : MfCard Pcs Mem) : MfCard Pcs Mem :=
  match C.cardSTATE with
  | MFEMUL_NOFIELD => C
  | MFEMUL_HALTED => C
  | MFEMUL_IDLE => C
  | MFEMUL_SELECT1 => MfSelect1 E C
  | MFEMUL_SELECT2 => MfSelect2 E C
  | MFEMUL_AUTH1 => MfAuth1 E C
  | MFEMUL_AUTH2 => MfAuth2 C
  | MFEMUL_WORK => MfWork E C
  | MFEMUL_WRITEBL2 => MfWriteBl2 E C
  | MFEMUL_INTREG_INC => MfIntReg E C (fun r a => (r + a) % 2 ^ 32)
  | MFEMUL_INTREG_DEC => MfIntReg E C (fun r a => (r + 2 ^ 32 - a) % 2 ^ 32)
  | MFEMUL_INTREG_REST => MfIntReg E C (fun r _ => r)

/-- The locals once `EmGetCmd` has returned 0 with the frame `frame` stored in
`receivedCmd` and `len` set to its length, and `nextCycleTimeout` is cleared (line 2091). -/
def MfLoad (C : MfCard Pcs Mem) (frame : List Nat) : MfCard Pcs Mem :=
  { C with receivedCmd := bufPut C.receivedCmd frame, len := frame.length,
           nextCycleTimeout := 0 }

/-- One pass of the `while (true)` loop of `Mifare1ksim` in which `EmGetCmd` returned 0
with the frame `frame` (so the card was not in `MFEMUL_NOFIELD` when `EmGetCmd` was
called): lines 2091 to 2397. -/
def Mifare1ksimCmd (E : MfEnv Pcs Mem) (C : MfCard Pcs Mem) (frame : List Nat) :
    MfCard Pcs Mem :=
  MfSwitch E (MfWakeup E (MfLoad C frame))

/-- The locals as the commands of the case `MFEMUL_WORK` find them for the frame `frame`:
the frame is decrypted in place when a key is authenticated. -/
def MfWorkRead (E : MfEnv Pcs Mem) (C : MfCard Pcs Mem) (frame : List Nat) : MfCard Pcs Mem :=
  if C.cardAUTHKEY = 0xff then MfLoad C frame else MfDecrypt E (MfLoad C frame)

/-- The answer `EmSend4bit(mf_crypto1_encrypt4bit(pcs, data))` records. -/
def MfShort (E : MfEnv Pcs Mem) (pcs : Pcs) (data : Nat) : MfAnswer :=
  MfAnswer.short ((E.mf_crypto1_encrypt4bit pcs data).2 % 256) 0

/-- The passes of the loop of `Mifare1ksim` over the frames `EmGetCmd` captures one after
the other. -/
def Mifare1ksimRun (E : MfEnv Pcs Mem) (C : MfCard Pcs Mem) (frames : List (List Nat)) :
    MfCard Pcs Mem :=
  frames.foldl (Mifare1ksimCmd E) C

end Emulator

/-! ## A sample card -/

/-- A sample environment to run the emulator on concrete frames: `CARD_ACK` 0x0A,
`CARD_NACK_NA` 0x04, `cardSTATE_TO_IDLE` assigning `MFEMUL_IDLE`, big-endian byte
conversions, the cipher replaced by the identity, the CRC by two zero bytes, the memory
a byte array in which every block passes for a value block. -/
def SampleEnv : MfEnv Nat (Nat → Nat) where
  CARD_ACK := 0x0A
  CARD_NACK_NA := 0x04
  cardSTATE_TO_IDLE := MFEMUL_IDLE
  bytes_to_num := fun l => l.foldl (fun n b => n * 256 + b) 0
  num_to_bytes := fun n len dest k => if k < len then n / 256 ^ (len - 1 - k) % 256 else dest k
  prng_successor := fun x _ => x
  ComputeCrc14443 := fun _ => (0, 0)
  crypto1_create := fun _ key => key
  crypto1_destroy := fun _ => 0
  crypto1_word := fun p _ _ => (p, 0)
  mf_crypto1_decrypt := fun p data _ => (p, data)
  mf_crypto1_encrypt := fun p data len _ => (p, data, GetParity (bufSlice data 0 len))
  mf_crypto1_encrypt4bit := fun p data => (p, data)
  emlGetKey := fun _ _ _ => 0
  emlGetMem := fun m data blockNum blocksCount =>
    memcpyAt data 0 (fun k => m (blockNum * 16 + k)) (blocksCount * 16)
  emlSetMem := fun m data blockNum blocksCount => memcpyAt m (blockNum * 16) data (blocksCount * 16)
  emlGetValBl := fun m _ _ blockNum =>
    (0, MfOperand (fun k => m (blockNum * 16 + k)), m (blockNum * 16 + 12))
  emlSetValBl := fun m _ _ _ => (0, m)
  emlCheckValBl := fun _ _ => 0

/-- The sample environment over a memory in which no block passes for a value block. -/
def SampleEnvNoValue : MfEnv Nat (Nat → Nat) :=
  { SampleEnv with
    emlGetValBl := fun _ reg block _ => (1, reg, block)
    emlCheckValBl := fun _ _ => 1 }

/-- A sample card in the state `st`: every local and static array with the value of its
declaration (lines 1983 to 2020: no key authenticated, `rATQA` 04 00, `rUIDBCC1` and
`rUIDBCC2` de ad be af 62), over a zeroed memory. The arrays are not read from this
memory: the start of `Mifare1ksim`, which takes the UID from the emulator memory (lines
2029 to 2045), is `Mifare1ksimInit`, and on a zeroed memory it gives the UID 00 00 00 00.
The sample card serves for single passes that do not compare the UID. -/
def SampleCard (st : MfState) : MfCard Nat (Nat → Nat) where
  cardSTATE := st
  _7BUID := 0
  nextCycleTimeout := 0
  par := 0
  len := 0
  cardWRBL := 0
  cardAUTHSC := 0
  cardAUTHKEY := 0xff
  cardRn := 0
  cardRr := 0
  cuid := 0
  rn_enc := 0
  ans := 0
  cardINTREG := 0
  cardINTBLOCK := 0
  pcs := 0
  receivedCmd := fun _ => 0
  response := fun _ => 0
  rATQA := [0x04, 0x00]
  rUIDBCC1 := [0xde, 0xad, 0xbe, 0xaf, 0x62]
  rUIDBCC2 := [0xde, 0xad, 0xbe, 0xaf, 0x62]
  rAUTH_AT := fun _ => 0
  mem := fun _ => 0
  sent := []

/-! ## The start of the emulator -/

section EmulatorStart

variable {Pcs Mem : Type}

/-- The array a call `emlGetMemBt(&arr[off], bytePtr, byteCount)` leaves: the helper has
the bytes of `arr` from `off` on as its buffer, the bytes below `off` stay. `emlGetMemBt`
is defined outside `src/` and is a parameter; like the other helpers that write through a
pointer it is given the memory and the old buffer and returns the new buffer. -/
def MfGetMemBtAt (emlGetMemBt : Mem → (Nat → Nat) → Nat → Nat → Nat → Nat) (mem : Mem)
    (arr : Nat → Nat) (off bytePtr byteCount : Nat) : Nat → Nat :=
  fun k =>
    if k < off then arr k
    else emlGetMemBt mem (fun j => arr (off + j)) bytePtr byteCount (k - off)

/-- The statement `rUIDBCC[4] = rUIDBCC[0] ^ rUIDBCC[1] ^ rUIDBCC[2] ^ rUIDBCC[3]` on an
array of `uint8_t`. -/
def MfSetBcc (arr : Nat → Nat) : Nat → Nat :=
  bufSet arr 4 ((arr 0 ^^^ arr 1 ^^^ arr 2 ^^^ arr 3) % 256)

/-- The function `Mifare1ksim` from its entry to the loop (lines 1983 to 2045) on its
first call, when the static arrays hold their initialisers: the locals get the values of
their declarations and the UID is read from the emulator memory `mem`. Byte 7 of the
memory decides between a 4-byte and a 7-byte UID. `pcs` is the cleared cipher state
`mpcs`, `receivedCmd` and `response` are the buffers behind `eml_get_bigbufptr_recbuf()`
and `eml_get_bigbufptr_sendbuf()`. -/
def Mifare1ksimInit (emlGetMemBt : Mem → (Nat → Nat) → Nat → Nat → Nat → Nat) (mem : Mem)
    (pcs : Pcs) (receivedCmd response : Nat → Nat) : MfCard Pcs Mem :=
  let rUIDBCC := bufOfList [0xde, 0xad, 0xbe, 0xaf, 0x62]
  -- get UID from emul memory
  let receivedCmd := emlGetMemBt mem receivedCmd 7 1
  let _7BUID := if receivedCmd 0 = 0x00 then 0 else 1
  let arrays : List Nat × (Nat → Nat) × (Nat → Nat) :=
    if _7BUID = 0 then
      -- 4BUID
      ([0x04, 0x00], MfSetBcc (emlGetMemBt mem rUIDBCC 0 4), rUIDBCC)
    else
      -- 7BUID
      ([0x44, 0x00],
       MfSetBcc (MfGetMemBtAt emlGetMemBt mem (bufSet rUIDBCC 0 0x88) 1 0 3),
       MfSetBcc (emlGetMemBt mem rUIDBCC 3 4))
  { cardSTATE := MFEMUL_NOFIELD, _7BUID := _7BUID, nextCycleTimeout := 0, par := 0, len := 0,
    cardWRBL := 0, cardAUTHSC := 0, cardAUTHKEY := 0xff, cardRn := 0, cardRr := 0, cuid := 0,
    rn_enc := 0, ans := 0, cardINTREG := 0, cardINTBLOCK := 0, pcs := pcs,
    receivedCmd := receivedCmd, response := response, rATQA := arrays.1,
    rUIDBCC1 := bufSlice arrays.2.1 0 5, rUIDBCC2 := bufSlice arrays.2.2 0 5,
    rAUTH_AT := fun _ => 0, mem := mem, sent := [] }

/-- The field test at the head of a pass of the loop (lines 2073 to 2079) when the
measured voltage exceeds `MF_MINFIELDV`: in `MFEMUL_NOFIELD` the macro
`cardSTATE_TO_IDLE()` runs. -/
def MfFieldFound (E : MfEnv Pcs Mem) (C : MfCard Pcs Mem) : MfCard Pcs Mem :=
  if C.cardSTATE = MFEMUL_NOFIELD then { C with cardSTATE := E.cardSTATE_TO_IDLE } else C

/-- The function `Mifare1ksim` on its first call with the reader field present from the
first pass on and `EmGetCmd` capturing the frames `frames` one after the other: the start,
the field test of the first pass, and one pass per frame. -/
def Mifare1ksimFrames (E : MfEnv Pcs Mem)
    (emlGetMemBt : Mem → (Nat → Nat) → Nat → Nat → Nat → Nat) (mem : Mem) (pcs : Pcs)
    (receivedCmd response : Nat → Nat) (frames : List (List Nat)) : MfCard Pcs Mem :=
  Mifare1ksimRun E (MfFieldFound E (Mifare1ksimInit emlGetMemBt mem pcs receivedCmd response))
    frames

end EmulatorStart

/-- A sample `emlGetMemBt(data, bytePtr, byteCount)` over a byte array, to go with
`SampleEnv`: `byteCount` bytes from the byte `bytePtr` of the memory on are copied to
`data`. -/
def SampleGetMemBt (m data : Nat → Nat) (bytePtr byteCount : Nat) : Nat → Nat :=
  memcpyAt data 0 (fun k => m (bytePtr + k)) byteCount

/-- A sample emulator memory: block 0 holds the UID de ad be af, its check byte 62 and
eleven further bytes, byte 7 being 0 (a 4-byte UID); every other byte is 0. -/
def SampleMemory : Nat → Nat :=
  bufOfList [0xde, 0xad, 0xbe, 0xaf, 0x62, 0x08, 0x04, 0x00, 0x62, 0x63, 0x64, 0x65, 0x66,
    0x67, 0x68, 0x69]

/-! ## Symbol sequences of the Miller encoders -/

/-- Symbol `b` directly after symbol `a` is not a sequence Z after a sequence X. -/
def NoZAfterX (a b : Nat) : Prop := ¬ (a = SEC_X ∧ b = SEC_Z)

/-- Symbol `b` directly after symbol `a` is a sequence Y only if `a` is a sequence X. -/
def YOnlyAfterX (a b : Nat) : Prop := b = SEC_Y → a = SEC_X

/-! ## The raw transmitter of the emulator -/

/-- The send cycle of `EmSendCmd14443aRaw` with the transmitter ready in every pass
(`AT91C_SSC_TXRDY` set) and no button press, from the values `i` and `u` on: the bytes
written to `SSC_THR` so far and the indices at which `resp` was read so far are extended
until `u > 4` breaks the loop. `fuel` bounds the number of passes; `none` means it ran
out. -/
def EmSendCycle (resp : Nat → Nat) (respLen : Nat) :
    Nat → Nat → Nat → List Nat × List Nat → Option (List Nat × List Nat)
  | 0, _, _, _ => none
  | fuel + 1, i, u, (sent, reads) =>
    if i > respLen then
      -- b = 0xff; u++;
      if u + 1 > 4 then some (sent ++ [0xff], reads)
      else EmSendCycle resp respLen fuel i (u + 1) (sent ++ [0xff], reads)
    else
      -- b = resp[i]; i++;
      if u > 4 then some (sent ++ [resp i], reads ++ [i])
      else EmSendCycle resp respLen fuel (i + 1) u (sent ++ [resp i], reads ++ [i])

/-- The function `EmSendCmd14443aRaw(resp, respLen, correctionNeeded)` with the
transmitter always ready and no button press; `parityBits` is the global
`Uart.parityBits`. The result is the list of the bytes written to `SSC_THR` and the list
of the indices at which `resp` was read. -/
def EmSendCmd14443aRaw (parityBits : Nat) (resp : Nat → Nat) (respLen correctionNeeded : Nat)
    (fuel : Nat) : Option (List Nat × List Nat) :=
  -- include correction bit
  let i := if parityBits &&& 0x01 ≠ 0 ∨ correctionNeeded ≠ 0 then 0 else 1
  EmSendCycle resp respLen fuel i 0 ([], [])

/-! ## The nonce filter of the MIFARE attack -/

/-- The locals of `ReaderMifare` that its loop carries along. -/
structure MifareAttackT where
  nt : Nat → Nat
  nt_attacked : Nat → Nat
  nt_noattack : Nat → Nat
  nt_diff : Nat
  par : Nat
  par_mask : Nat
  par_low : Nat
  led_on : Bool
  par_list : Nat → Nat
  ks_list : Nat → Nat
  mf_nr_ar : Nat → Nat
  isOK : Nat
  isNULL : Nat

/-- How one pass of the loop of `ReaderMifare` ends once the nonce has been received and
the reader answer sent: by a `continue` that drops the 4-bit answer (lines 1917 and 1920),
by the `break` at line 1938, at the end of the loop body with the answer recorded, or at
the end of the loop body without an answer. -/
inductive MifareOutcome
  | discarded
  | finished
  | recorded
  | noAnswer
  deriving DecidableEq, Repr

open MifareOutcome

/-- The C expression `(buf[i] = v)` on `byte_t` elements: the store and the value of the
expression. -/
def AssignByte (buf : Nat → Nat) (i v : Nat) : (Nat → Nat) × Nat :=
  (bufSet buf i (v % 256), v % 256)

/-- The right-hand side of line 1919,
`(nt_attacked[0] = 0) && (nt_attacked[1] = 0) && (nt_attacked[2] = 0) && (nt_attacked[3] = 0)`,
evaluated from left to right with the short circuit of `&&`: the array afterwards and the
value. -/
def IsNullExpr (nt_attacked : Nat → Nat) : (Nat → Nat) × Nat :=
  let a0 := AssignByte nt_attacked 0 0
  if a0.2 = 0 then (a0.1, 0)
  else
    let a1 := AssignByte a0.1 1 0
    if a1.2 = 0 then (a1.1, 0)
    else
      let a2 := AssignByte a1.1 2 0
      if a2.2 = 0 then (a2.1, 0)
      else
        let a3 := AssignByte a2.1 3 0
        if a3.2 = 0 then (a3.1, 0) else (a3.1, 1)

/-- The part of the loop body of `ReaderMifare` from line 1915 on: `received` is the
value of `ReaderReceive(receivedAnswer)` for the 4-bit answer, `parameter` the argument
of the function. -/
def ReaderMifareAnswer (parameter : Nat) (S : MifareAttackT) (received : Nat)
    (receivedAnswer : Nat → Nat) : MifareAttackT × MifareOutcome :=
  if received ≠ 0 then
    if parameter ≠ 0 ∧ bufSlice S.nt 0 4 = bufSlice S.nt_noattack 0 4 then (S, discarded)
    else
      let e := IsNullExpr S.nt_attacked
      let S1 := { S with nt_attacked := e.1, isNULL := e.2 }
      if S1.isNULL ≠ 0 ∧ bufSlice S1.nt 0 4 ≠ bufSlice S1.nt_attacked 0 4 then (S1, discarded)
      else
        let S2 :=
          if S1.nt_diff = 0 then
            { S1 with nt_attacked := memcpyAt S1.nt_attacked 0 S1.nt 4, par_mask := 0xf8,
                      par_low := S1.par &&& 0x07 }
          else S1
        let S3 := { S2 with led_on := !S2.led_on,
                            par_list := bufSet S2.par_list S2.nt_diff S2.par,
                            ks_list := bufSet S2.ks_list S2.nt_diff
                              ((receivedAnswer 0 ^^^ 0x05) % 256) }
        -- Test if the information is complete
        if S3.nt_diff = 0x07 then ({ S3 with isOK := 1 }, finished)
        else
          ({ S3 with nt_diff := (S3.nt_diff + 1) &&& 0x07,
                     mf_nr_ar := bufSet S3.mf_nr_ar 3 ((((S3.nt_diff + 1) &&& 0x07) <<< 5) % 256),
                     par := S3.par_low }, recorded)
  else if S.nt_diff = 0 then ({ S with par := (S.par + 1) % 256 }, noAnswer)
  else ({ S with par := ((((S.par >>> 3) + 1) <<< 3) ||| S.par_low) % 256 }, noAnswer)

/-! ## Properties -/

/-! ## Encoders: structure of the emitted frames -/

theorem MillerPutBit_eq (s : ToSendT × Nat) (bit : Nat) (hb : bit < 2) :
    MillerPutBit s bit =
      ({ s.1 with ToSend := s.1.ToSend ++ MillerSymbols s.2 [bit] }, bit) := by
  unfold MillerPutBit ToSendPut MillerSymbols MillerSymbols
  have h : bit = 0 ∨ bit = 1 := by omega
  rcases h with h | h <;> subst h <;> by_cases h2 : s.2 = 0 <;> simp [h2]

theorem MillerSymbols_append (prev : Nat) (l1 l2 : List Nat) :
    MillerSymbols prev (l1 ++ l2) =
      MillerSymbols prev l1 ++ MillerSymbols (l1.getLastD prev) l2 := by
  induction l1 generalizing prev with
  | nil => simp [MillerSymbols]
  | cons a t ih =>
    rw [List.cons_append, MillerSymbols, MillerSymbols, ih, List.getLastD_cons,
      List.cons_append]

theorem MillerSymbols_length (prev : Nat) (l : List Nat) :
    (MillerSymbols prev l).length = l.length := by
  induction l generalizing prev with
  | nil => simp [MillerSymbols]
  | cons a t ih => simp [MillerSymbols, ih]

theorem MillerPutBit_foldl (bits : List Nat) (s : ToSendT × Nat)
    (hb : ∀ b ∈ bits, b < 2) :
    bits.foldl MillerPutBit s =
      ({ s.1 with ToSend := s.1.ToSend ++ MillerSymbols s.2 bits }, bits.getLastD s.2) := by
  induction bits generalizing s with
  | nil => simp [MillerSymbols]
  | cons a t ih =>
    have ha : a < 2 := hb a (by simp)
    have ht : ∀ b ∈ t, b < 2 := fun b hbt => hb b (by simp [hbt])
    rw [List.foldl_cons, MillerPutBit_eq s a ha, ih _ ht]
    simp only [MillerSymbols, List.append_assoc, List.singleton_append, List.getLastD_cons,
      List.cons_append, List.nil_append]

theorem LsbBits_lt (n b : Nat) : ∀ x ∈ LsbBits n b, x < 2 := by
  induction n generalizing b with
  | zero => simp [LsbBits]
  | succ n ih =>
    intro x hx
    simp only [LsbBits, List.mem_cons] at hx
    rcases hx with hx | hx
    · omega
    · exact ih _ x hx

theorem LsbBits_length (n b : Nat) : (LsbBits n b).length = n := by
  induction n generalizing b with
  | zero => simp [LsbBits]
  | succ n ih => simp [LsbBits, ih]

theorem MillerPutBits_eq (n b : Nat) (s : ToSendT × Nat) :
    MillerPutBits n b s = (LsbBits n b).foldl MillerPutBit s := by
  induction n generalizing b s with
  | zero => simp [MillerPutBits, LsbBits]
  | succ n ih =>
    simp only [MillerPutBits, LsbBits, List.foldl_cons, ih, Nat.and_one_is_mod,
      Nat.shiftRight_one]

theorem FrameBits_lt (cmd : List Nat) (i par : Nat) : ∀ x ∈ FrameBits cmd i par, x < 2 := by
  induction cmd generalizing i with
  | nil => simp [FrameBits]
  | cons b t ih =>
    intro x hx
    simp only [FrameBits, List.mem_append, List.mem_singleton] at hx
    rcases hx with (hx | hx) | hx
    · exact LsbBits_lt _ _ x hx
    · omega
    · exact ih _ x hx

theorem FrameBits_length (cmd : List Nat) (i par : Nat) :
    (FrameBits cmd i par).length = 9 * cmd.length := by
  induction cmd generalizing i with
  | nil => simp [FrameBits]
  | cons b t ih => simp [FrameBits, LsbBits_length, ih]; omega

theorem ReaderParLoop_eq (cmd : List Nat) (i par : Nat) (s : ToSendT × Nat) :
    CodeIso14443aAsReaderParLoop cmd i par s = (FrameBits cmd i par).foldl MillerPutBit s := by
  induction cmd generalizing i s with
  | nil => simp [CodeIso14443aAsReaderParLoop, FrameBits]
  | cons b t ih =>
    simp only [CodeIso14443aAsReaderParLoop, FrameBits, List.foldl_append, List.foldl_cons,
      List.foldl_nil, ih, MillerPutBits_eq, Nat.shiftRight_eq_div_pow, Nat.and_one_is_mod]

/-- The end marker and guard symbols the Miller encoders append when the last emitted bit
is `last`. -/
theorem MillerPutEnd_eq (s : ToSendT × Nat) :
    MillerPutEnd s =
      s.1.ToSend ++ [if s.2 = 0 then SEC_Z else SEC_Y, SEC_Y, SEC_Y, SEC_Y, SEC_Y] := by
  unfold MillerPutEnd ToSendPut
  by_cases h : s.2 = 0 <;> simp [h]

theorem ReaderPar_eq (cmd : List Nat) (dwParity : Nat) :
    CodeIso14443aAsReaderPar cmd dwParity =
      [SEC_Z] ++ MillerSymbols 0 (FrameBits cmd 0 dwParity) ++
        [if (FrameBits cmd 0 dwParity).getLastD 0 = 0 then SEC_Z else SEC_Y,
          SEC_Y, SEC_Y, SEC_Y, SEC_Y] := by
  unfold CodeIso14443aAsReaderPar
  simp only [ReaderParLoop_eq, MillerPutBit_foldl _ _ (FrameBits_lt cmd 0 dwParity),
    MillerPutEnd_eq, ToSendPut, ToSendReset]
  simp

theorem ShortFrame_eq (bt : Nat) :
    ShortFrameFromReader bt =
      [SEC_Z] ++ MillerSymbols 0 (LsbBits 7 (bt % 256)) ++
        [if (LsbBits 7 (bt % 256)).getLastD 0 = 0 then SEC_Z else SEC_Y,
          SEC_Y, SEC_Y, SEC_Y, SEC_Y] := by
  unfold ShortFrameFromReader
  simp only [MillerPutBits_eq, MillerPutBit_foldl _ _ (LsbBits_lt 7 _),
    MillerPutEnd_eq, ToSendPut, ToSendReset]
  simp

/-- C3: `CodeIso14443aAsReaderPar` emits the start symbol Z, then the Miller coding of the
frame bits (for each byte its 8 data bits LSB-first followed by bit `i` of `dwParity`; a 1
is X, a 0 is Z after a 0 or at the start and Y after a 1), then the end marker (Z or Y by
the last bit, then Y) and three guard Y; `ToSendMax` is `9 * len + 6` whatever the byte
and parity values are. -/
theorem C3_reader_frame_layout (cmd : List Nat) (dwParity : Nat) :
    CodeIso14443aAsReaderPar cmd dwParity =
      [SEC_Z] ++ MillerSymbols 0 (FrameBits cmd 0 dwParity) ++
        [if (FrameBits cmd 0 dwParity).getLastD 0 = 0 then SEC_Z else SEC_Y, SEC_Y] ++
        [SEC_Y, SEC_Y, SEC_Y]
    ∧ (CodeIso14443aAsReaderPar cmd dwParity).length = 9 * cmd.length + 6 := by
  rw [ReaderPar_eq]
  refine ⟨by simp, ?_⟩
  simp [MillerSymbols_length, FrameBits_length]

theorem getLastD_append_eq (l1 l2 : List Nat) (d : Nat) :
    (l1 ++ l2).getLastD d = l2.getLastD (l1.getLastD d) := by
  induction l1 generalizing d with
  | nil => simp
  | cons a t ih => rw [List.cons_append, List.getLastD_cons, List.getLastD_cons, ih]

theorem FrameBits_getLastD (cmd : List Nat) (i par d : Nat) (h : cmd ≠ []) :
    (FrameBits cmd i par).getLastD d = par / 2 ^ (i + cmd.length - 1) % 2 := by
  induction cmd generalizing i d with
  | nil => exact absurd rfl h
  | cons b t ih =>
    rw [FrameBits, getLastD_append_eq, getLastD_append_eq]
    cases t with
    | nil => simp [FrameBits]
    | cons c u =>
      rw [ih (i + 1) _ (by simp)]
      simp only [List.length_cons]
      congr 3
      omega

theorem ManchesterPutBit_foldl (bits : List Nat) (T : ToSendT) (hb : ∀ b ∈ bits, b < 2) :
    bits.foldl ManchesterPutBit T =
      { T with ToSend := T.ToSend ++ ManchesterSymbols bits } := by
  induction bits generalizing T with
  | nil => simp [ManchesterSymbols]
  | cons a t ih =>
    have ha : a < 2 := hb a (by simp)
    have ht : ∀ b ∈ t, b < 2 := fun b hbt => hb b (by simp [hbt])
    rw [List.foldl_cons, ih _ ht]
    have h : a = 0 ∨ a = 1 := by omega
    rcases h with h | h <;> subst h <;>
      simp [ManchesterPutBit, ToSendPut, ManchesterSymbols]

theorem ManchesterPutBits_eq (n b : Nat) (T : ToSendT) :
    ManchesterPutBits n b T = (LsbBits n b).foldl ManchesterPutBit T := by
  induction n generalizing b T with
  | zero => simp [ManchesterPutBits, LsbBits]
  | succ n ih =>
    simp only [ManchesterPutBits, LsbBits, List.foldl_cons, ih, Nat.and_one_is_mod,
      Nat.shiftRight_one]

theorem TagParLoop_eq (cmd : List Nat) (i par : Nat) (T : ToSendT) :
    CodeIso14443aAsTagParLoop cmd i par T = (FrameBits cmd i par).foldl ManchesterPutBit T := by
  induction cmd generalizing i T with
  | nil => simp [CodeIso14443aAsTagParLoop, FrameBits]
  | cons b t ih =>
    simp only [CodeIso14443aAsTagParLoop, FrameBits, List.foldl_append, List.foldl_cons,
      List.foldl_nil, ih, ManchesterPutBits_eq, Nat.shiftRight_eq_div_pow, Nat.and_one_is_mod]

theorem TagPreamble_eq : TagPreamble = { ToSend := [0x08], ToSendBit := 8 } := by
  simp [TagPreamble, ToSendStuffBit, ToSendReset]

theorem TagPar_eq (cmd : List Nat) (dwParity : Nat) :
    CodeIso14443aAsTagPar cmd dwParity =
      [0x08, SEC_D] ++ ManchesterSymbols (FrameBits cmd 0 dwParity) ++ [SEC_F] := by
  unfold CodeIso14443aAsTagPar
  simp only [TagParLoop_eq, ManchesterPutBit_foldl _ _ (FrameBits_lt cmd 0 dwParity),
    ToSendPut, TagPreamble_eq]
  simp

theorem ManchesterSymbols_length (l : List Nat) : (ManchesterSymbols l).length = l.length := by
  simp [ManchesterSymbols]

theorem and_15_eq (x : Nat) : x &&& 15 = x % 16 := Nat.and_pow_two_sub_one_eq_mod x 4

theorem and_127_eq (x : Nat) : x &&& 127 = x % 128 := Nat.and_pow_two_sub_one_eq_mod x 7

theorem Code4bit_eq (cmd : Nat) :
    Code4bitAnswerAsTag cmd =
      [0x08, SEC_D] ++ ManchesterSymbols (LsbBits 4 (cmd % 256)) ++ List.replicate 6 SEC_F := by
  unfold Code4bitAnswerAsTag
  simp only [ManchesterPutBits_eq, ManchesterPutBit_foldl _ _ (LsbBits_lt 4 _), ToSendPut,
    TagPreamble_eq, TagFlush]
  simp [List.replicate]

theorem LsbBits4_mod (cmd : Nat) : LsbBits 4 (cmd % 256) = LsbBits 4 cmd := by
  simp only [LsbBits]
  congr 1 <;> [omega; skip]
  congr 1 <;> [omega; skip]
  congr 1 <;> [omega; skip]
  congr 1
  omega

/-- C4: `CodeIso14443aAsTagPar` emits the correction preamble (the byte built from the 8
stuff bits 0,0,0,0,1,0,0,0), the start symbol D, then for each byte its 8 data bits
LSB-first followed by bit `i` of `dwParity`, each 1 as D and each 0 as E, and one stop
symbol F; `ToSendMax` is `9 * len + 3` whatever the byte and parity values are. -/
theorem C4_tag_frame_layout (cmd : List Nat) (dwParity : Nat) :
    CodeIso14443aAsTagPar cmd dwParity =
      TagPreamble.ToSend ++ [SEC_D] ++ ManchesterSymbols (FrameBits cmd 0 dwParity) ++ [SEC_F]
    ∧ TagPreamble.ToSend = [0x08]
    ∧ (CodeIso14443aAsTagPar cmd dwParity).length = 9 * cmd.length + 3 := by
  rw [TagPar_eq, TagPreamble_eq]
  refine ⟨by simp, rfl, ?_⟩
  simp [ManchesterSymbols_length, FrameBits_length]

/-- C6: `Code4bitAnswerAsTag` encodes exactly 4 bits with no parity: after the preamble and
the start symbol D come the four low bits of `cmd`, LSB first (1 as D, 0 as E), followed
only by F symbols; the output depends only on `cmd AND 0x0f`. -/
theorem C6_four_bit_answer (cmd : Nat) :
    Code4bitAnswerAsTag cmd =
      TagPreamble.ToSend ++ [SEC_D] ++ ManchesterSymbols (LsbBits 4 cmd) ++
        List.replicate 6 SEC_F
    ∧ Code4bitAnswerAsTag cmd = Code4bitAnswerAsTag (cmd &&& 0x0f) := by
  have h15 : cmd &&& 0x0f = cmd % 16 := and_15_eq cmd
  rw [Code4bit_eq, Code4bit_eq, TagPreamble_eq, LsbBits4_mod, LsbBits4_mod, h15]
  refine ⟨by simp, ?_⟩
  have : LsbBits 4 (cmd % 16) = LsbBits 4 cmd := by
    simp only [LsbBits]
    congr 1 <;> [omega; skip]
    congr 1 <;> [omega; skip]
    congr 1 <;> [omega; skip]
    congr 1
    omega
  rw [this]

theorem LsbBits7_congr (x y : Nat) (h : x % 128 = y % 128) : LsbBits 7 x = LsbBits 7 y := by
  have e0 : x % 2 = y % 2 := by omega
  have e1 : x / 2 % 2 = y / 2 % 2 := by omega
  have e2 : x / 2 / 2 % 2 = y / 2 / 2 % 2 := by omega
  have e3 : x / 2 / 2 / 2 % 2 = y / 2 / 2 / 2 % 2 := by omega
  have e4 : x / 2 / 2 / 2 / 2 % 2 = y / 2 / 2 / 2 / 2 % 2 := by omega
  have e5 : x / 2 / 2 / 2 / 2 / 2 % 2 = y / 2 / 2 / 2 / 2 / 2 % 2 := by omega
  have e6 : x / 2 / 2 / 2 / 2 / 2 / 2 % 2 = y / 2 / 2 / 2 / 2 / 2 / 2 % 2 := by omega
  simp only [LsbBits, e0, e1, e2, e3, e4, e5, e6]

theorem LsbBits8_split (y : Nat) : LsbBits 8 y = LsbBits 7 y ++ [y / 128 % 2] := by
  have e : y / 2 / 2 / 2 / 2 / 2 / 2 / 2 % 2 = y / 128 % 2 := by omega
  simp only [LsbBits, List.cons_append, List.nil_append, e]

theorem xor_128_mod (bt : Nat) : (bt ^^^ 0x80) % 128 = bt % 128 := by
  apply Nat.eq_of_testBit_eq
  intro i
  have e1 : (0x80 : Nat) = 2 ^ 7 := by norm_num
  rw [e1, Nat.testBit_mod_two_pow, Nat.testBit_mod_two_pow, Nat.testBit_xor,
    Nat.testBit_two_pow]
  by_cases h : i < 7
  · have h7 : ¬ (7 = i) := by omega
    simp [h, h7]
  · simp [h]

theorem ShortFrame_bits (bt : Nat) :
    (ShortFrameFromReader bt).length = 13
    ∧ ShortFrameFromReader (bt ^^^ 0x80) = ShortFrameFromReader bt
    ∧ (ShortFrameFromReader bt).take 8 = [SEC_Z] ++ MillerSymbols 0 (LsbBits 7 (bt &&& 0x7f))
    ∧ (ShortFrameFromReader bt).take 8 = [SEC_Z] ++ MillerSymbols 0 (LsbBits 7 bt) := by
  have hlen : ([SEC_Z] ++ MillerSymbols 0 (LsbBits 7 (bt % 256))).length = 8 := by
    simp [MillerSymbols_length, LsbBits_length]
  have hx : LsbBits 7 ((bt ^^^ 0x80) % 256) = LsbBits 7 (bt % 256) := by
    apply LsbBits7_congr
    have := xor_128_mod bt
    omega
  have hm : LsbBits 7 (bt % 256) = LsbBits 7 bt := LsbBits7_congr _ _ (by omega)
  have ha : LsbBits 7 (bt &&& 0x7f) = LsbBits 7 bt := by
    rw [show bt &&& 0x7f = bt % 128 from and_127_eq bt]
    exact LsbBits7_congr _ _ (by omega)
  have ht : (ShortFrameFromReader bt).take 8 = [SEC_Z] ++ MillerSymbols 0 (LsbBits 7 bt) := by
    rw [ShortFrame_eq, ← hm]
    conv_lhs => rw [← hlen]
    rw [List.take_left]
  refine ⟨?_, ?_, ?_, ht⟩
  · rw [ShortFrame_eq, List.length_append, hlen]
    rfl
  · rw [ShortFrame_eq, ShortFrame_eq, hx]
  · rw [ha]
    exact ht

theorem ReaderOneByte_take (bt : Nat) (p : Nat) :
    ([SEC_Z] ++ MillerSymbols 0 (LsbBits 8 ((bt &&& 0x7f) % 256) ++ [p])).take 8 =
      [SEC_Z] ++ MillerSymbols 0 (LsbBits 7 (bt &&& 0x7f)) := by
  have hm : LsbBits 7 ((bt &&& 0x7f) % 256) = LsbBits 7 (bt &&& 0x7f) :=
    LsbBits7_congr _ _ (by omega)
  have hlen : ([SEC_Z] ++ MillerSymbols 0 (LsbBits 7 (bt &&& 0x7f))).length = 8 := by
    simp [MillerSymbols_length, LsbBits_length]
  rw [LsbBits8_split, hm, List.append_assoc, MillerSymbols_append, ← List.append_assoc]
  conv_lhs => rw [← hlen]
  rw [List.take_left]

/-- C5: `ShortFrameFromReader` encodes exactly the 7 low bits of its argument, LSB-first,
with no parity bit: for every byte `bt` the output is 13 symbols long, is the same for
`bt` and `bt XOR 0x80`, and its first 8 symbols (the start symbol and the 7 coded bits)
are the first 8 symbols `CodeIso14443aAsReaderPar` emits for the one-byte frame
`[bt AND 0x7f]`, whatever the parity word. -/
theorem C5_short_frame (bt dwParity : Nat) :
    (ShortFrameFromReader bt).length = 13
    ∧ ShortFrameFromReader (bt ^^^ 0x80) = ShortFrameFromReader bt
    ∧ (ShortFrameFromReader bt).take 8 = [SEC_Z] ++ MillerSymbols 0 (LsbBits 7 bt)
    ∧ (ShortFrameFromReader bt).take 8 =
        (CodeIso14443aAsReaderPar [bt &&& 0x7f] dwParity).take 8 := by
  obtain ⟨h1, h2, h3, h4⟩ := ShortFrame_bits bt
  refine ⟨h1, h2, h4, ?_⟩
  rw [h3, ReaderPar_eq]
  have hlen : 8 ≤ ([SEC_Z] ++ MillerSymbols 0 (FrameBits [bt &&& 0x7f] 0 dwParity)).length := by
    simp [MillerSymbols_length, FrameBits_length]
  rw [List.take_append_of_le_length hlen]
  have := ReaderOneByte_take bt (dwParity / 2 ^ 0 % 2)
  simpa [FrameBits] using this.symm

/-- C7 fails as stated: for the one-byte frame `[0x26]` with parity bit 0 the symbol
emitted right after the parity bit is sequence Z, not Y. -/
theorem C7_counterexample :
    (CodeIso14443aAsReaderPar [0x26] 0).drop 10 = [SEC_Z, SEC_Y, SEC_Y, SEC_Y, SEC_Y]
    ∧ SEC_Z ≠ SEC_Y := by
  decide

/-- C7 as amended: the reader-frame encoders end every frame with the end-of-communication
marker "logic 0 followed by sequence Y" and three guard Y: the symbol right after the last
emitted bit is Y when that bit is 1 and Z when it is 0 (or when no bit was emitted), and
the four symbols after it are Y. For a non-empty frame the last emitted bit is the parity
bit of the last byte; for the short frame it is bit 6 of the command. -/
theorem C7_end_marker (cmd : List Nat) (dwParity bt : Nat) :
    (CodeIso14443aAsReaderPar cmd dwParity).drop (1 + 9 * cmd.length) =
        [if (FrameBits cmd 0 dwParity).getLastD 0 = 0 then SEC_Z else SEC_Y,
          SEC_Y, SEC_Y, SEC_Y, SEC_Y]
    ∧ (cmd ≠ [] →
        (FrameBits cmd 0 dwParity).getLastD 0 = dwParity / 2 ^ (cmd.length - 1) % 2)
    ∧ (ShortFrameFromReader bt).drop 8 =
        [if bt / 64 % 2 = 0 then SEC_Z else SEC_Y, SEC_Y, SEC_Y, SEC_Y, SEC_Y] := by
  refine ⟨?_, ?_, ?_⟩
  · rw [ReaderPar_eq]
    have hlen : ([SEC_Z] ++ MillerSymbols 0 (FrameBits cmd 0 dwParity)).length =
        1 + 9 * cmd.length := by
      simp [MillerSymbols_length, FrameBits_length]; omega
    rw [← hlen, List.drop_left]
  · intro h
    rw [FrameBits_getLastD cmd 0 dwParity 0 h]
    simp
  · rw [ShortFrame_eq]
    have hlen : ([SEC_Z] ++ MillerSymbols 0 (LsbBits 7 (bt % 256))).length = 8 := by
      simp [MillerSymbols_length, LsbBits_length]
    have hl : (LsbBits 7 (bt % 256)).getLastD 0 = bt / 64 % 2 := by
      simp only [LsbBits, List.getLastD_cons, List.getLastD_nil]
      omega
    rw [hl]
    conv_lhs => rw [← hlen]
    rw [List.drop_left]

/-! ## The frame trace -/

theorem shr_and_255 (x k : Nat) : (x >>> k) &&& 0xff = x / 2 ^ k % 256 := by
  rw [Nat.shiftRight_eq_div_pow]
  exact Nat.and_pow_two_sub_one_eq_mod _ 8

theorem bufSet_apply (f : Nat → Nat) (i v k : Nat) :
    bufSet f i v k = if k = i then v else f k := rfl

theorem memcpyAt_apply (dest : Nat → Nat) (off : Nat) (src : Nat → Nat) (n k : Nat) :
    memcpyAt dest off src n k = if off ≤ k ∧ k < off + n then src (k - off) else dest k := rfl

/-- C8: `LogTrace` on a full trace is a no-op: when `traceLen >= TRACE_LENGTH` on entry it
returns FALSE and leaves `traceLen`, every byte of the trace and `rsamples` unchanged. -/
theorem C8_logtrace_full (TRACE_LENGTH : Nat) (T : TraceState) (btBytes : Nat → Nat)
    (iLen iSamples dwParity : Nat) (bReader : Bool) (h : TRACE_LENGTH ≤ T.traceLen) :
    (LogTrace TRACE_LENGTH T btBytes iLen iSamples dwParity bReader).2 = false
    ∧ (LogTrace TRACE_LENGTH T btBytes iLen iSamples dwParity bReader).1.traceLen = T.traceLen
    ∧ (∀ k, (LogTrace TRACE_LENGTH T btBytes iLen iSamples dwParity bReader).1.trace k
        = T.trace k)
    ∧ (LogTrace TRACE_LENGTH T btBytes iLen iSamples dwParity bReader).1.rsamples
        = T.rsamples := by
  simp [LogTrace, h]

/-- C8 at a concrete input: a trace of capacity 27 that holds one 18-byte frame. -/
theorem C8_logtrace_full_witness :
    (LogTrace 27 { trace := fun _ => 0x44, traceLen := 27, rsamples := 100 }
        (bufOfList [0x26]) 1 50 1 true).2 = false
    ∧ (LogTrace 27 { trace := fun _ => 0x44, traceLen := 27, rsamples := 100 }
        (bufOfList [0x26]) 1 50 1 true).1.traceLen = 27
    ∧ (∀ k, (LogTrace 27 { trace := fun _ => 0x44, traceLen := 27, rsamples := 100 }
        (bufOfList [0x26]) 1 50 1 true).1.trace k = 0x44)
    ∧ (LogTrace 27 { trace := fun _ => 0x44, traceLen := 27, rsamples := 100 }
        (bufOfList [0x26]) 1 50 1 true).1.rsamples = 100 :=
  C8_logtrace_full 27 { trace := fun _ => 0x44, traceLen := 27, rsamples := 100 }
    (bufOfList [0x26]) 1 50 1 true (by decide)

/-- The trace after a call of `LogTrace` on a non-full trace, byte by byte. -/
theorem LogTrace_trace (TRACE_LENGTH : Nat) (T : TraceState) (btBytes : Nat → Nat)
    (iLen iSamples dwParity : Nat) (bReader : Bool) (h : T.traceLen < TRACE_LENGTH) (k : Nat) :
    (LogTrace TRACE_LENGTH T btBytes iLen iSamples dwParity bReader).1.trace k =
      if T.traceLen + 9 ≤ k ∧ k < T.traceLen + 9 + iLen then btBytes (k - (T.traceLen + 9))
      else if k = T.traceLen + 8 then iLen % 256
      else if k = T.traceLen + 7 then dwParity / 2 ^ 24 % 256
      else if k = T.traceLen + 6 then dwParity / 2 ^ 16 % 256
      else if k = T.traceLen + 5 then dwParity / 2 ^ 8 % 256
      else if k = T.traceLen + 4 then dwParity / 2 ^ 0 % 256
      else if k = T.traceLen + 3 then
        (if bReader then (T.rsamples + iSamples) % 2 ^ 32 / 2 ^ 24 % 256
          else ((T.rsamples + iSamples) % 2 ^ 32 / 2 ^ 24 % 256) ||| 0x80)
      else if k = T.traceLen + 2 then (T.rsamples + iSamples) % 2 ^ 32 / 2 ^ 16 % 256
      else if k = T.traceLen + 1 then (T.rsamples + iSamples) % 2 ^ 32 / 2 ^ 8 % 256
      else if k = T.traceLen then (T.rsamples + iSamples) % 2 ^ 32 / 2 ^ 0 % 256
      else T.trace k := by
  have hn : ¬ (T.traceLen ≥ TRACE_LENGTH) := by omega
  simp only [LogTrace, hn, if_false, shr_and_255]
  generalize (T.rsamples + iSamples) % 2 ^ 32 = r
  cases bReader
  · simp only [memcpyAt_apply, bufSet_apply, Bool.not_false, if_true, Bool.false_eq_true,
      if_false]
    by_cases h3 : k = T.traceLen + 3
    · simp only [h3, if_true]
    · simp only [h3, if_false]
  · simp only [memcpyAt_apply, bufSet_apply, Bool.not_true, if_true, Bool.false_eq_true,
      if_false]

theorem LogTrace_fst_snd (TRACE_LENGTH : Nat) (T : TraceState) (btBytes : Nat → Nat)
    (iLen iSamples dwParity : Nat) (bReader : Bool) (h : T.traceLen < TRACE_LENGTH) :
    (LogTrace TRACE_LENGTH T btBytes iLen iSamples dwParity bReader).2 = true
    ∧ (LogTrace TRACE_LENGTH T btBytes iLen iSamples dwParity bReader).1.traceLen
        = T.traceLen + 9 + iLen
    ∧ (LogTrace TRACE_LENGTH T btBytes iLen iSamples dwParity bReader).1.rsamples
        = (T.rsamples + iSamples) % 2 ^ 32 := by
  have hn : ¬ (T.traceLen ≥ TRACE_LENGTH) := by omega
  simp only [LogTrace, hn, if_false, and_self]

/-- C9: `LogTrace` on a non-full trace returns TRUE and appends one entry: `traceLen` grows
by `9 + iLen`, the bytes below the old `traceLen` are unchanged, and the new bytes are the
accumulated timestamp `rsamples + iSamples` (32 bits) in 4 little-endian bytes with bit
0x80 of the fourth set when `bReader` is false, the parity word in 4 little-endian bytes,
the length byte `iLen` (as a byte, i.e. `iLen` itself when below 256) and the `iLen`
payload bytes. -/
theorem C9_logtrace_append (TRACE_LENGTH : Nat) (T : TraceState) (btBytes : Nat → Nat)
    (iLen iSamples dwParity : Nat) (bReader : Bool) (h : T.traceLen < TRACE_LENGTH) :
    (LogTrace TRACE_LENGTH T btBytes iLen iSamples dwParity bReader).2 = true
    ∧ (LogTrace TRACE_LENGTH T btBytes iLen iSamples dwParity bReader).1.traceLen
        = T.traceLen + 9 + iLen
    ∧ (LogTrace TRACE_LENGTH T btBytes iLen iSamples dwParity bReader).1.rsamples
        = (T.rsamples + iSamples) % 2 ^ 32
    ∧ (∀ k, k < T.traceLen →
        (LogTrace TRACE_LENGTH T btBytes iLen iSamples dwParity bReader).1.trace k
          = T.trace k)
    ∧ (∀ j, j < 3 →
        (LogTrace TRACE_LENGTH T btBytes iLen iSamples dwParity bReader).1.trace
            (T.traceLen + j)
          = (T.rsamples + iSamples) % 2 ^ 32 / 2 ^ (8 * j) % 256)
    ∧ (LogTrace TRACE_LENGTH T btBytes iLen iSamples dwParity bReader).1.trace
          (T.traceLen + 3)
        = (if bReader then (T.rsamples + iSamples) % 2 ^ 32 / 2 ^ 24 % 256
          else ((T.rsamples + iSamples) % 2 ^ 32 / 2 ^ 24 % 256) ||| 0x80)
    ∧ (∀ j, j < 4 →
        (LogTrace TRACE_LENGTH T btBytes iLen iSamples dwParity bReader).1.trace
            (T.traceLen + 4 + j)
          = dwParity / 2 ^ (8 * j) % 256)
    ∧ (LogTrace TRACE_LENGTH T btBytes iLen iSamples dwParity bReader).1.trace
          (T.traceLen + 8) = iLen % 256
    ∧ (iLen < 256 →
        (LogTrace TRACE_LENGTH T btBytes iLen iSamples dwParity bReader).1.trace
          (T.traceLen + 8) = iLen)
    ∧ (∀ j, j < iLen →
        (LogTrace TRACE_LENGTH T btBytes iLen iSamples dwParity bReader).1.trace
            (T.traceLen + 9 + j) = btBytes j) := by
  obtain ⟨h1, h2, h3⟩ := LogTrace_fst_snd TRACE_LENGTH T btBytes iLen iSamples dwParity bReader h
  have key := LogTrace_trace TRACE_LENGTH T btBytes iLen iSamples dwParity bReader h
  refine ⟨h1, h2, h3, ?_, ?_, ?_, ?_, ?_, ?_, ?_⟩
  · intro k hk
    have e9 : ¬ (T.traceLen + 9 ≤ k ∧ k < T.traceLen + 9 + iLen) := by omega
    have e8 : k ≠ T.traceLen + 8 := by omega
    have e7 : k ≠ T.traceLen + 7 := by omega
    have e6 : k ≠ T.traceLen + 6 := by omega
    have e5 : k ≠ T.traceLen + 5 := by omega
    have e4 : k ≠ T.traceLen + 4 := by omega
    have e3 : k ≠ T.traceLen + 3 := by omega
    have e2 : k ≠ T.traceLen + 2 := by omega
    have e1 : k ≠ T.traceLen + 1 := by omega
    have e0 : k ≠ T.traceLen := by omega
    simp only [key, e9, e8, e7, e6, e5, e4, e3, e2, e1, e0, if_false]
  · intro j hj
    have hj3 : j = 0 ∨ j = 1 ∨ j = 2 := by omega
    rcases hj3 with rfl | rfl | rfl <;> simp [key]
  · simp [key]
  · intro j hj
    have hj3 : j = 0 ∨ j = 1 ∨ j = 2 ∨ j = 3 := by omega
    rcases hj3 with rfl | rfl | rfl | rfl <;> simp [key]
  · simp [key]
  · intro hl
    simp [key, Nat.mod_eq_of_lt hl]
  · intro j hj
    rw [key, if_pos (by omega)]
    congr 1
    omega

/-- C9 at a concrete input: a one-byte tag frame logged into the empty trace. -/
theorem C9_logtrace_append_witness :
    (LogTrace 3000 EmptyTrace (bufOfList [0x26]) 1 50 1 false).2 = true
    ∧ (LogTrace 3000 EmptyTrace (bufOfList [0x26]) 1 50 1 false).1.traceLen = 0 + 9 + 1
    ∧ (LogTrace 3000 EmptyTrace (bufOfList [0x26]) 1 50 1 false).1.trace (0 + 8) = 1 % 256 :=
  ⟨(C9_logtrace_append 3000 EmptyTrace (bufOfList [0x26]) 1 50 1 false (by decide)).1,
   (C9_logtrace_append 3000 EmptyTrace (bufOfList [0x26]) 1 50 1 false (by decide)).2.1,
   (C9_logtrace_append 3000 EmptyTrace (bufOfList [0x26]) 1 50 1 false
      (by decide)).2.2.2.2.2.2.2.1⟩

theorem LogTrace_traceLen_le (TL M : Nat) (T : TraceState) (c : TraceCall)
    (hc : c.iLen ≤ M) (hT : T.traceLen ≤ TL + 8 + M) :
    (LogTrace TL T c.btBytes c.iLen c.iSamples c.dwParity c.bReader).1.traceLen
      ≤ TL + 8 + M := by
  unfold LogTrace
  by_cases h : T.traceLen ≥ TL
  · simp only [h, if_true]; exact hT
  · simp only [h, if_false]; omega

theorem LogTraceCalls_traceLen_le (TL M : Nat) (calls : List TraceCall)
    (hM : ∀ c ∈ calls, c.iLen ≤ M) (T : TraceState) (hT : T.traceLen ≤ TL + 8 + M) :
    (LogTraceCalls TL T calls).traceLen ≤ TL + 8 + M := by
  induction calls generalizing T with
  | nil => simpa [LogTraceCalls] using hT
  | cons c rest ih =>
    rw [LogTraceCalls]
    exact ih (fun x hx => hM x (by simp [hx])) _
      (LogTrace_traceLen_le TL M T c (hM c (by simp)) hT)

theorem LogTraceCalls_full (TL : Nat) (calls : List TraceCall) (T : TraceState)
    (hT : TL ≤ T.traceLen) : LogTraceCalls TL T calls = T := by
  induction calls with
  | nil => rfl
  | cons c rest ih =>
    rw [LogTraceCalls]
    have : LogTrace TL T c.btBytes c.iLen c.iSamples c.dwParity c.bReader = (T, false) := by
      simp [LogTrace, hT]
    rw [this]
    exact ih

set_option maxRecDepth 100000 in
/-- C10 fails as stated: with `TRACE_LENGTH = 3000`, 112 calls of `LogTrace` with an
18-byte payload each, starting from the empty trace, leave `traceLen = 3024`. -/
theorem C10_counterexample :
    (LogTraceCalls 3000 EmptyTrace
        (List.replicate 112
          { btBytes := fun _ => 0, iLen := 18, iSamples := 0, dwParity := 0,
            bReader := true })).traceLen = 3024
    ∧ 3000 < 3024 := by
  decide

/-- C10 as amended: `LogTrace` tests the capacity on entry only, so the last entry may run
past `TRACE_LENGTH`: starting from an empty trace, after any sequence of `LogTrace` calls
whose payload lengths are at most `M`, `traceLen` never exceeds `TRACE_LENGTH + 8 + M`;
and once `traceLen >= TRACE_LENGTH` no later call changes the trace. -/
theorem C10_trace_bound (TRACE_LENGTH M : Nat) (T : TraceState) (calls : List TraceCall)
    (h0 : T.traceLen = 0) (hM : ∀ c ∈ calls, c.iLen ≤ M) :
    (LogTraceCalls TRACE_LENGTH T calls).traceLen ≤ TRACE_LENGTH + 8 + M
    ∧ ∀ (T1 : TraceState) (more : List TraceCall), TRACE_LENGTH ≤ T1.traceLen →
        LogTraceCalls TRACE_LENGTH T1 more = T1 :=
  ⟨LogTraceCalls_traceLen_le TRACE_LENGTH M calls hM T (by omega),
   fun T1 more h => LogTraceCalls_full TRACE_LENGTH more T1 h⟩

/-- C10 as amended, at a concrete input: two 18-byte frames logged into the empty trace
with `TRACE_LENGTH = 27`. -/
theorem C10_trace_bound_witness :
    (LogTraceCalls 27 EmptyTrace
        [{ btBytes := fun _ => 0, iLen := 18, iSamples := 0, dwParity := 0, bReader := true },
         { btBytes := fun _ => 0, iLen := 18, iSamples := 4, dwParity := 1,
           bReader := false }]).traceLen ≤ 27 + 8 + 18 :=
  (C10_trace_bound 27 18 EmptyTrace
    [{ btBytes := fun _ => 0, iLen := 18, iSamples := 0, dwParity := 0, bReader := true },
     { btBytes := fun _ => 0, iLen := 18, iSamples := 4, dwParity := 1, bReader := false }]
    rfl (by simp)).1

/-! ## Bit operations as arithmetic -/

theorem xor_low (k a v : Nat) (ha : a % 2 ^ k = 0) (hv : v < 2 ^ k) : a ^^^ v = a + v := by
  obtain ⟨q, rfl⟩ : ∃ q, a = 2 ^ k * q := ⟨a / 2 ^ k, by
    have := Nat.div_add_mod a (2 ^ k); omega⟩
  apply Nat.eq_of_testBit_eq
  intro j
  rw [Nat.testBit_xor, Nat.testBit_mul_pow_two_add q hv j, Nat.testBit_mul_pow_two]
  by_cases hj : j < k
  · have : ¬ (j ≥ k) := by omega
    simp [hj, this]
  · have hge : j ≥ k := by omega
    have hlt : v < 2 ^ j := lt_of_lt_of_le hv (Nat.pow_le_pow_right (by decide) hge)
    simp [hj, hge, Nat.testBit_lt_two_pow hlt]

theorem and_16_eq (x : Nat) : x &&& 16 = if x / 16 % 2 = 1 then 16 else 0 := by
  have h := Nat.and_two_pow x 4
  rw [Nat.testBit_to_div_mod] at h
  have e : (2 : Nat) ^ 4 = 16 := by norm_num
  rw [e] at h
  rw [h]
  by_cases c : x / 16 % 2 = 1 <;> simp [c]

theorem and_8_eq (x : Nat) : x &&& 8 = if x / 8 % 2 = 1 then 8 else 0 := by
  have h := Nat.and_two_pow x 3
  rw [Nat.testBit_to_div_mod] at h
  have e : (2 : Nat) ^ 3 = 8 := by norm_num
  rw [e] at h
  rw [h]
  by_cases c : x / 8 % 2 = 1 <;> simp [c]

theorem shiftBuffer_eq (bb v : Nat) (hv : v < 16) :
    ((bb <<< 4) % 2 ^ 32) ^^^ v = bb * 16 % 2 ^ 32 + v := by
  rw [Nat.shiftLeft_eq]
  have e : (2 : Nat) ^ 4 = 16 := by norm_num
  rw [e]
  apply xor_low 4
  · omega
  · omega

theorem MillerMeasure_16 (x : Nat) :
    MillerMeasure x 16 = if x / 8 % 2 = 1 then 1 else 0 := by
  unfold MillerMeasure
  rw [and_16_eq, and_16_eq, Nat.shiftLeft_eq]
  have e : x * 2 ^ 1 / 16 % 2 = x / 8 % 2 := by omega
  rw [e]
  by_cases c : x / 8 % 2 = 1 <;> by_cases d : x / 16 % 2 = 1 <;> simp [c, d]

theorem and_f0_shr (x : Nat) : (x &&& 0xf0) >>> 4 = x / 16 % 16 := by
  have e : (x &&& 0xf0) >>> 4 = (x >>> 4) &&& 15 := by
    apply Nat.eq_of_testBit_eq
    intro j
    have h240 : Nat.testBit 0xf0 (4 + j) = Nat.testBit 15 j := by
      have e : (0xf0 : Nat) = 15 <<< 4 := by decide
      rw [e, Nat.testBit_shiftLeft]
      simp
    rw [Nat.testBit_shiftRight, Nat.testBit_and, Nat.testBit_and, Nat.testBit_shiftRight, h240]
  rw [e, Nat.shiftRight_eq_div_pow]
  exact Nat.and_pow_two_sub_one_eq_mod _ 4

theorem xor_15_eq (y : Nat) (h : y < 16) : y ^^^ 0x0F = 15 - y := by
  revert y
  decide

theorem or_256_eq (x : Nat) (h : x < 256) : x ||| 0x100 = x + 256 := by
  have := Nat.mul_add_lt_is_or (i := 8) (b := x) (by norm_num; exact h) 1
  rw [Nat.or_comm]
  norm_num at this
  omega

theorem xor_256_eq (x : Nat) (h : x < 256) : x ^^^ 0x100 = x + 256 := by
  rw [Nat.xor_comm, xor_low 8 256 x (by norm_num) (by norm_num; exact h)]
  omega

theorem parity_shift_eq (p b : Nat) (hb : b < 2) :
    ((p <<< 1) % 2 ^ 32) ^^^ b = 2 * p % 2 ^ 32 + b := by
  rw [Nat.shiftLeft_eq]
  rw [xor_low 1 _ b (by omega) (by omega)]
  omega

theorem and_ff_eq (x : Nat) : x &&& 0xff = x % 256 := Nat.and_pow_two_sub_one_eq_mod x 8

theorem shr8_and1 (x : Nat) : (x >>> 8) &&& 0x01 = x / 256 % 2 := by
  rw [Nat.shiftRight_eq_div_pow, Nat.and_one_is_mod]

theorem MillerRun_cons_false (U U1 : UartT) (s : Nat) (rest : List Nat)
    (h : MillerDecoding U s = (U1, false)) :
    MillerRun U (s :: rest) = MillerRun U1 rest := by
  rw [MillerRun, h]
  simp

theorem MillerRun_cons_true (U U1 : UartT) (s : Nat) (rest : List Nat)
    (h : MillerDecoding U s = (U1, true)) :
    MillerRun U (s :: rest) = (U1, true) := by
  rw [MillerRun, h]
  simp

theorem ManchesterRun_cons_false (D D1 : DemodT) (s : Nat) (rest : List Nat)
    (h : ManchesterDecoding D s = (D1, false)) :
    ManchesterRun D (s :: rest) = ManchesterRun D1 rest := by
  rw [ManchesterRun, h]
  simp

theorem ManchesterRun_cons_true (D D1 : DemodT) (s : Nat) (rest : List Nat)
    (h : ManchesterDecoding D s = (D1, true)) :
    ManchesterRun D (s :: rest) = (D1, true) := by
  rw [ManchesterRun, h]
  simp

/-! ## Byte assembly -/

theorem RegStep_byte (clr : Bool) (r : ByteRegs) (b p : Nat) (hb : b < 256) (hp : p < 2)
    (h0 : r.bitCnt = 0) (hs : r.shiftReg < 512) :
    (LsbBits 8 b ++ [p]).foldl (RegStep clr) r =
      { shiftReg := if clr then 0 else b + 256 * p, bitCnt := 0, byteCnt := r.byteCnt + 1,
        parityBits := 2 * r.parityBits % 2 ^ 32 + p, output := bufSet r.output r.byteCnt b } := by
  simp only [LsbBits, List.cons_append, List.nil_append, List.foldl_cons, List.foldl_nil,
    RegStep, h0, Nat.reduceAdd, Nat.reduceEqDiff, if_false, if_true]
  generalize r.shiftReg = s at hs
  have e1 : ((((((((s / 2 + 256 * (b % 2)) / 2 + 256 * (b / 2 % 2)) / 2 +
      256 * (b / 2 / 2 % 2)) / 2 + 256 * (b / 2 / 2 / 2 % 2)) / 2 +
      256 * (b / 2 / 2 / 2 / 2 % 2)) / 2 + 256 * (b / 2 / 2 / 2 / 2 / 2 % 2)) / 2 +
      256 * (b / 2 / 2 / 2 / 2 / 2 / 2 % 2)) / 2 +
      256 * (b / 2 / 2 / 2 / 2 / 2 / 2 / 2 % 2)) / 2 + 256 * p = b + 256 * p := by
    omega
  rw [e1]
  have e2 : (b + 256 * p) / 256 % 2 = p := by omega
  have e3 : (b + 256 * p) % 256 = b := by omega
  rw [e2, e3]

theorem RegStep_frame (clr : Bool) (cmd : List Nat) (i par : Nat) (r : ByteRegs)
    (hb : ∀ b ∈ cmd, b < 256) (h0 : r.bitCnt = 0) (hs : r.shiftReg < 512) :
    ((FrameBits cmd i par).foldl (RegStep clr) r).bitCnt = 0
    ∧ ((FrameBits cmd i par).foldl (RegStep clr) r).shiftReg < 512
    ∧ ((FrameBits cmd i par).foldl (RegStep clr) r).byteCnt = r.byteCnt + cmd.length
    ∧ ((FrameBits cmd i par).foldl (RegStep clr) r).parityBits
        = ParityAcc par cmd.length i r.parityBits
    ∧ (∀ k, k < r.byteCnt → ((FrameBits cmd i par).foldl (RegStep clr) r).output k = r.output k)
    ∧ (∀ j, j < cmd.length →
        ((FrameBits cmd i par).foldl (RegStep clr) r).output (r.byteCnt + j) = cmd.getD j 0) := by
  induction cmd generalizing i r with
  | nil => simp [FrameBits, ParityAcc, h0, hs]
  | cons b t ih =>
    have hb0 : b < 256 := hb b (by simp)
    have ht : ∀ x ∈ t, x < 256 := fun x hx => hb x (by simp [hx])
    have hp : par / 2 ^ i % 2 < 2 := by omega
    have hmod : b % 256 = b := Nat.mod_eq_of_lt hb0
    rw [FrameBits, List.foldl_append, hmod, RegStep_byte clr r b _ hb0 hp h0 hs]
    have hs1 : (if clr = true then 0 else b + 256 * (par / 2 ^ i % 2)) < 512 := by
      split <;> omega
    obtain ⟨i1, i2, i3, i4, i5, i6⟩ := ih (i + 1)
      { shiftReg := if clr then 0 else b + 256 * (par / 2 ^ i % 2), bitCnt := 0,
        byteCnt := r.byteCnt + 1,
        parityBits := 2 * r.parityBits % 2 ^ 32 + par / 2 ^ i % 2,
        output := bufSet r.output r.byteCnt b } ht rfl hs1
    refine ⟨i1, i2, ?_, ?_, ?_, ?_⟩
    · rw [i3]; simp only [List.length_cons]; omega
    · rw [i4]; rfl
    · intro k hk
      rw [i5 k (by simp only; omega)]
      simp only [bufSet]
      rw [if_neg (by omega)]
    · intro j hj
      cases j with
      | zero =>
        have h5 := i5 r.byteCnt (by simp only; omega)
        simp only [bufSet, if_true] at h5
        simpa using h5
      | succ j =>
        have h6 := i6 j (by simpa using hj)
        simp only at h6
        rw [show r.byteCnt + (j + 1) = r.byteCnt + 1 + j by omega, h6]
        simp

theorem ParityAcc_bits (par : Nat) (n : Nat) :
    ∀ (i acc m : Nat), acc < 2 ^ m → m + n ≤ 32 →
      (∀ j, j < n → (ParityAcc par n i acc).testBit (n - 1 - j) = par.testBit (i + j))
      ∧ (∀ t, (ParityAcc par n i acc).testBit (n + t) = acc.testBit t) := by
  induction n with
  | zero =>
    intro i acc m _ _
    simp [ParityAcc]
  | succ n ih =>
    intro i acc m hacc hm
    have hpow : 2 ^ (m + 1) ≤ 2 ^ 32 := Nat.pow_le_pow_right (by decide) (by omega)
    have h2 : 2 ^ (m + 1) = 2 * 2 ^ m := by rw [Nat.pow_succ]; omega
    have hp : par / 2 ^ i % 2 < 2 := by omega
    have hlt : 2 * acc + par / 2 ^ i % 2 < 2 ^ (m + 1) := by omega
    have hmod : 2 * acc % 2 ^ 32 = 2 * acc := Nat.mod_eq_of_lt (by omega)
    obtain ⟨a1, a2⟩ := ih (i + 1) (2 * acc + par / 2 ^ i % 2) (m + 1) hlt (by omega)
    rw [ParityAcc, hmod]
    refine ⟨?_, ?_⟩
    · intro j hj
      cases j with
      | zero =>
        have h0 := a2 0
        simp only [Nat.add_zero] at h0
        simp only [Nat.add_zero, Nat.add_sub_cancel, Nat.sub_zero]
        rw [h0, Nat.testBit_zero, Nat.testBit_to_div_mod]
        congr 1
        apply propext
        constructor <;> intro h <;> omega
      | succ j =>
        have h1 := a1 j (by omega)
        rw [show n + 1 - 1 - (j + 1) = n - 1 - j by omega, h1]
        congr 1
        omega
    · intro t
      have h1 := a2 (t + 1)
      rw [show n + 1 + t = n + (t + 1) by omega, h1, Nat.testBit_succ]
      congr 1
      omega

theorem ParityAcc_reversed (par n : Nat) (hn : n ≤ 32) :
    ParityAcc par n 0 0 < 2 ^ n
    ∧ ∀ j, j < n → (ParityAcc par n 0 0).testBit (n - 1 - j) = par.testBit j := by
  obtain ⟨a1, a2⟩ := ParityAcc_bits par n 0 0 0 (by norm_num) (by omega)
  refine ⟨?_, ?_⟩
  · apply Nat.lt_pow_two_of_testBit
    intro i hi
    have := a2 (i - n)
    rw [show n + (i - n) = i by omega] at this
    rw [this]
    simp
  · intro j hj
    have := a1 j hj
    rwa [Nat.zero_add] at this

/-! ## `MillerDecoding` call by call -/

theorem Miller_measure_new (bb v : Nat) (hv : v < 16) :
    MillerMeasure (bb * 16 % 2 ^ 32 + v) 16 = if 8 ≤ v then 1 else 0 := by
  rw [MillerMeasure_16]
  have e : (bb * 16 % 2 ^ 32 + v) / 8 % 2 = v / 8 % 2 := by omega
  rw [e]
  by_cases c : 8 ≤ v
  · rw [if_pos c, if_pos (by omega)]
  · rw [if_neg c, if_neg (by omega)]

theorem MillerDecoding_first_half (U : UartT) (v : Nat) (hbb : U.bitBuffer ≠ 0)
    (hs : U.syncBit = 16) (hp : U.posCnt = 0) (hst : U.state ≠ STATE_UNSYNCD) (hv : v < 16) :
    MillerDecoding U v =
      ({ U with bitBuffer := U.bitBuffer * 16 % 2 ^ 32 + v, posCnt := 1,
                drop := if 8 ≤ v then U.drop else DROP_FIRST_HALF }, false) := by
  unfold MillerDecoding
  rw [if_neg hbb]
  simp only [shiftBuffer_eq _ _ hv, hst, ne_eq, not_false_eq_true, if_true, MillerSynced, hp,
    hs, Miller_measure_new _ _ hv, Nat.zero_add]
  by_cases c : 8 ≤ v <;> simp [c]

theorem MillerDecoding_second_half (U : UartT) (v : Nat) (hbb : U.bitBuffer ≠ 0)
    (hs : U.syncBit = 16) (hp : U.posCnt = 1) (hst : U.state ≠ STATE_UNSYNCD) (hv : v < 16) :
    MillerDecoding U v =
      MillerStore
        (MillerSwitch
          { U with bitBuffer := U.bitBuffer * 16 % 2 ^ 32 + v, posCnt := 0,
                   drop := if v < 8 ∧ U.drop = DROP_NONE then DROP_SECOND_HALF else U.drop,
                   state := if v < 8 ∧ U.drop ≠ DROP_NONE then STATE_ERROR_WAIT
                            else U.state }).1
        (MillerSwitch
          { U with bitBuffer := U.bitBuffer * 16 % 2 ^ 32 + v, posCnt := 0,
                   drop := if v < 8 ∧ U.drop = DROP_NONE then DROP_SECOND_HALF else U.drop,
                   state := if v < 8 ∧ U.drop ≠ DROP_NONE then STATE_ERROR_WAIT
                            else U.state }).2 := by
  unfold MillerDecoding
  rw [if_neg hbb]
  simp only [shiftBuffer_eq _ _ hv, hst, ne_eq, not_false_eq_true, if_true, MillerSynced, hp,
    hs, Miller_measure_new _ _ hv]
  by_cases c : 8 ≤ v
  · have c2 : ¬ v < 8 := by omega
    simp [c, c2]
  · have c2 : v < 8 := by omega
    by_cases d : U.drop = DROP_NONE <;> simp [c, c2, d]

theorem RegStep_bounds (clr : Bool) (r : ByteRegs) (bit : Nat) (hbit : bit < 2)
    (hs : r.shiftReg < 512) (hb : r.bitCnt < 9) :
    (RegStep clr r bit).shiftReg < 512 ∧ (RegStep clr r bit).bitCnt < 9 := by
  unfold RegStep
  by_cases h : r.bitCnt + 1 = 9
  · simp only [h, if_true]
    refine ⟨?_, by omega⟩
    split <;> omega
  · simp only [h, if_false]
    omega

/-- The state of `Uart` after a bit period of a frame in which the bit `bit` was received
while `Uart` was `U`, the sample buffer being `nb` afterwards. -/
theorem Miller_period_call (st : UartState) (sr bc byc bmax pb smp hc bb : Nat)
    (out : Nat → Nat) (prev bit b a : Nat)
    (hbb : bb ≠ 0) (hsr : sr < 512) (hbc : bc < 9)
    (hst : (prev = 0 ∧ (st = STATE_MILLER_Z ∨ st = STATE_MILLER_Y)) ∨
      (prev = 1 ∧ st = STATE_MILLER_X))
    (hb0 : 0 < b) (hb : b < 16) (ha : a < 16)
    (hsym : (bit = 1 ∧ 8 ≤ b ∧ a < 8) ∨ (bit = 0 ∧ prev = 0 ∧ b < 8 ∧ 8 ≤ a) ∨
      (bit = 0 ∧ prev = 1 ∧ 8 ≤ b ∧ 8 ≤ a)) :
    MillerDecoding
      ⟨st, sr, bc, byc, bmax, 1, 16, pb, smp, hc, bb * 16 % 2 ^ 32 + b,
        if 8 ≤ b then DROP_NONE else DROP_FIRST_HALF, out⟩ a =
      (⟨if bit = 1 then STATE_MILLER_X else if prev = 0 then STATE_MILLER_Z
          else STATE_MILLER_Y,
        (RegStep false ⟨sr, bc, byc, pb, out⟩ bit).shiftReg,
        (RegStep false ⟨sr, bc, byc, pb, out⟩ bit).bitCnt,
        (RegStep false ⟨sr, bc, byc, pb, out⟩ bit).byteCnt, bmax, 0, 16,
        (RegStep false ⟨sr, bc, byc, pb, out⟩ bit).parityBits, smp, hc,
        (bb * 16 % 2 ^ 32 + b) * 16 % 2 ^ 32 + a, DROP_NONE,
        (RegStep false ⟨sr, bc, byc, pb, out⟩ bit).output⟩, false) := by
  have hst1 : st ≠ STATE_UNSYNCD := by
    rcases hst with ⟨_, h | h⟩ | ⟨_, h⟩ <;> simp [h]
  have hnz : bb * 16 % 2 ^ 32 + b ≠ 0 := by omega
  have h2 := MillerDecoding_second_half
    ⟨st, sr, bc, byc, bmax, 1, 16, pb, smp, hc, bb * 16 % 2 ^ 32 + b,
      if 8 ≤ b then DROP_NONE else DROP_FIRST_HALF, out⟩ a hnz rfl rfl hst1 ha
  simp only at h2
  rw [h2]
  have hsh : sr >>> 1 = sr / 2 := Nat.shiftRight_one _
  have hor : sr / 2 ||| 256 = sr / 2 + 256 := or_256_eq _ (by omega)
  have hff : ∀ x, x &&& 255 = x % 256 := and_ff_eq
  have hs8 : ∀ x, (x >>> 8) &&& 1 = x / 256 % 2 := shr8_and1
  have hpar : ∀ q, ((pb <<< 1) % 4294967296) ^^^ (q % 2) = 2 * pb % 4294967296 + q % 2 := by
    intro q
    have h := parity_shift_eq pb (q % 2) (by omega)
    norm_num at h
    exact h
  rcases hsym with ⟨rfl, h8b, ha8⟩ | ⟨rfl, rfl, hb8, h8a⟩ | ⟨rfl, rfl, h8b, h8a⟩
  · have hna : ¬ 8 ≤ a := by omega
    rcases hst with ⟨_, rfl | rfl⟩ | ⟨_, rfl⟩ <;> by_cases h9 : bc + 1 = 9 <;>
      simp [MillerSwitch, MillerStore, RegStep, h8b, ha8, hsh, hor, h9, hff, hs8, hpar]
  · have hnb : ¬ 8 ≤ b := by omega
    have hna : ¬ a < 8 := by omega
    rcases hst with ⟨_, rfl | rfl⟩ | ⟨h, _⟩
    · by_cases h9 : bc + 1 = 9 <;>
        simp [MillerSwitch, MillerStore, RegStep, hnb, hna, hsh, hor, h9, hff, hs8, hpar]
    · by_cases h9 : bc + 1 = 9 <;>
        simp [MillerSwitch, MillerStore, RegStep, hnb, hna, hsh, hor, h9, hff, hs8, hpar]
    · omega
  · have hna : ¬ a < 8 := by omega
    rcases hst with ⟨h, _⟩ | ⟨_, rfl⟩
    · omega
    · by_cases h9 : bc + 1 = 9 <;>
        simp [MillerSwitch, MillerStore, RegStep, h8b, hna, hsh, hor, h9, hff, hs8, hpar]

theorem Miller_period (U : UartT) (prev bit b a : Nat) (rest : List Nat)
    (hI : MillerSyncedAt U prev) (hbit : bit < 2)
    (hb0 : 0 < b) (hb : b < 16) (ha0 : 0 < a) (ha : a < 16)
    (hsym : (bit = 1 ∧ 8 ≤ b ∧ a < 8) ∨ (bit = 0 ∧ prev = 0 ∧ b < 8 ∧ 8 ≤ a) ∨
      (bit = 0 ∧ prev = 1 ∧ 8 ≤ b ∧ 8 ≤ a)) :
    ∃ U1, MillerRun U (b :: a :: rest) = MillerRun U1 rest ∧ MillerSyncedAt U1 bit ∧
      UartRegs U1 = RegStep false (UartRegs U) bit := by
  rcases U with ⟨st, sr, bc, byc, bmax, pc, sb, pb, smp, hc, bb, dr, out⟩
  simp only [MillerSyncedAt] at hI
  obtain ⟨hbb, rfl, rfl, rfl, hsr, hbc, hst⟩ := hI
  have hst1 : st ≠ STATE_UNSYNCD := by
    rcases hst with ⟨_, h | h⟩ | ⟨_, h⟩ <;> simp [h]
  have h1 := MillerDecoding_first_half ⟨st, sr, bc, byc, bmax, 0, 16, pb, smp, hc, bb,
    DROP_NONE, out⟩ b hbb rfl rfl hst1 hb
  simp only at h1
  have h2 := Miller_period_call st sr bc byc bmax pb smp hc bb out prev bit b a hbb hsr hbc
    hst hb0 hb ha hsym
  obtain ⟨r1, r2⟩ := RegStep_bounds false ⟨sr, bc, byc, pb, out⟩ bit hbit hsr hbc
  have e := (MillerRun_cons_false _ _ _ (a :: rest) h1).trans
    (MillerRun_cons_false _ _ _ rest h2)
  refine ⟨_, e, ?_, ?_⟩
  · refine ⟨by simp only; omega, rfl, rfl, rfl, r1, r2, ?_⟩
    rcases hsym with ⟨rfl, _, _⟩ | ⟨rfl, rfl, _, _⟩ | ⟨rfl, rfl, _, _⟩ <;> simp
  · rfl

/-- The symbol the Miller encoders emit for `bit` after the bit `prev`, inverted. -/
theorem Miller_symbol_cases (prev bit : Nat) (hbit : bit < 2) (hprev : prev < 2) :
    (bit = 1 ∧ 255 - (if bit = 1 then SEC_X else if prev = 0 then SEC_Z else SEC_Y) = 243) ∨
    (bit = 0 ∧ prev = 0 ∧
      255 - (if bit = 1 then SEC_X else if prev = 0 then SEC_Z else SEC_Y) = 63) ∨
    (bit = 0 ∧ prev = 1 ∧
      255 - (if bit = 1 then SEC_X else if prev = 0 then SEC_Z else SEC_Y) = 255) := by
  have h1 : bit = 0 ∨ bit = 1 := by omega
  have h2 : prev = 0 ∨ prev = 1 := by omega
  rcases h1 with rfl | rfl <;> rcases h2 with rfl | rfl <;> simp [SEC_X, SEC_Y, SEC_Z]

theorem Miller_period_sym (U : UartT) (prev bit t : Nat) (ts : List Nat)
    (hI : MillerSyncedAt U prev) (hbit : bit < 2) (hprev : prev < 2)
    (ht : t = 63 ∨ t = 243 ∨ t = 255) :
    ∃ U1, MillerRun U
        (DelayTail (255 - (if bit = 1 then SEC_X else if prev = 0 then SEC_Z else SEC_Y))
          (t :: ts)) = MillerRun U1 (DelayTail t ts) ∧
      MillerSyncedAt U1 bit ∧ UartRegs U1 = RegStep false (UartRegs U) bit := by
  have hu : ∀ c, DelayTail c (t :: ts) =
      (c / 8 % 16) :: (c % 8 * 2 + t / 128) :: DelayTail t ts := by
    intro c; rfl
  rw [hu]
  rcases Miller_symbol_cases prev bit hbit hprev with ⟨h1, h2⟩ | ⟨h1, h2, h3⟩ | ⟨h1, h2, h3⟩
  · rw [h2]
    apply Miller_period U prev bit _ _ _ hI hbit (by norm_num) (by norm_num)
      (by rcases ht with rfl | rfl | rfl <;> norm_num)
      (by rcases ht with rfl | rfl | rfl <;> norm_num)
    left
    refine ⟨h1, by norm_num, ?_⟩
    rcases ht with rfl | rfl | rfl <;> norm_num
  · rw [h3]
    apply Miller_period U prev bit _ _ _ hI hbit (by norm_num) (by norm_num)
      (by rcases ht with rfl | rfl | rfl <;> norm_num)
      (by rcases ht with rfl | rfl | rfl <;> norm_num)
    right; left
    refine ⟨h1, h2, by norm_num, ?_⟩
    rcases ht with rfl | rfl | rfl <;> norm_num
  · rw [h3]
    apply Miller_period U prev bit _ _ _ hI hbit (by norm_num) (by norm_num)
      (by rcases ht with rfl | rfl | rfl <;> norm_num)
      (by rcases ht with rfl | rfl | rfl <;> norm_num)
    right; right
    refine ⟨h1, h2, by norm_num, ?_⟩
    rcases ht with rfl | rfl | rfl <;> norm_num

theorem Miller_symbol_inv (prev bit : Nat) (hbit : bit < 2) (hprev : prev < 2) :
    255 - (if bit = 1 then SEC_X else if prev = 0 then SEC_Z else SEC_Y) = 63 ∨
    255 - (if bit = 1 then SEC_X else if prev = 0 then SEC_Z else SEC_Y) = 243 ∨
    255 - (if bit = 1 then SEC_X else if prev = 0 then SEC_Z else SEC_Y) = 255 := by
  rcases Miller_symbol_cases prev bit hbit hprev with ⟨_, h⟩ | ⟨_, _, h⟩ | ⟨_, _, h⟩ <;> simp [h]

theorem Miller_bits_run (bits : List Nat) :
    ∀ (U : UartT) (prev bit t : Nat) (ts : List Nat),
      (∀ x ∈ bits, x < 2) → bit < 2 → prev < 2 → (t = 63 ∨ t = 243 ∨ t = 255) →
      MillerSyncedAt U prev →
      ∃ U1, MillerRun U
          (DelayTail (255 - (if bit = 1 then SEC_X else if prev = 0 then SEC_Z else SEC_Y))
            ((MillerSymbols bit bits).map (fun s => 255 - s) ++ t :: ts))
          = MillerRun U1 (DelayTail t ts) ∧
        MillerSyncedAt U1 (bits.getLastD bit) ∧
        UartRegs U1 = (bit :: bits).foldl (RegStep false) (UartRegs U) := by
  induction bits with
  | nil =>
    intro U prev bit t ts _ hbit hprev ht hI
    simpa [MillerSymbols] using Miller_period_sym U prev bit t ts hI hbit hprev ht
  | cons b2 bs ih =>
    intro U prev bit t ts hbs hbit hprev ht hI
    have hb2 : b2 < 2 := hbs b2 (by simp)
    have hbs1 : ∀ x ∈ bs, x < 2 := fun x hx => hbs x (by simp [hx])
    obtain ⟨U1, e1, i1, g1⟩ := Miller_period_sym U prev bit
      (255 - (if b2 = 1 then SEC_X else if bit = 0 then SEC_Z else SEC_Y))
      ((MillerSymbols b2 bs).map (fun s => 255 - s) ++ t :: ts) hI hbit hprev
      (Miller_symbol_inv bit b2 hb2 hbit)
    obtain ⟨U2, e2, i2, g2⟩ := ih U1 bit b2 t ts hbs1 hb2 hbit ht i1
    refine ⟨U2, ?_, ?_, ?_⟩
    · rw [← e2, ← e1]
      simp [MillerSymbols]
    · rw [List.getLastD_cons]
      exact i2
    · rw [g2, g1]
      simp

/-! ## `MillerDecoding`: the search for the start of communication -/

theorem Miller_unsynced_bit (bb v : Nat) (hv : v < 16) :
    (((bb * 16 % 2 ^ 32 + v) &&& 0xf0) >>> 4) ^^^ 0x0F = 15 - bb % 16 := by
  rw [and_f0_shr, xor_15_eq _ (by omega)]
  omega

theorem MillerDecoding_idle (st_sr bc byc bmax pc sb pb smp hc bb : Nat) (dr : UartDrop)
    (out : Nat → Nat) (v : Nat) (hbb : bb % 16 = 15) (hv : v < 16) :
    MillerDecoding ⟨STATE_UNSYNCD, st_sr, bc, byc, bmax, pc, sb, pb, smp, hc, bb, dr, out⟩ v =
      (⟨STATE_UNSYNCD, st_sr, bc, byc, bmax, pc, sb, pb, smp,
        if hc < 8 then hc + 1 else hc, bb * 16 % 2 ^ 32 + v, dr, out⟩, false) := by
  have hnz : bb ≠ 0 := by omega
  unfold MillerDecoding
  simp only [hnz, if_false, shiftBuffer_eq _ _ hv, ne_eq, not_true_eq_false, MillerUnsynced,
    Miller_unsynced_bit _ _ hv, hbb]
  by_cases h : hc < 8 <;> simp [h]

theorem MillerSync_one (nb : Nat) (h : nb / 8 % 2 = 0) : MillerSync nb 1 = (16, 0, 1) := by
  unfold MillerSync
  have e : nb &&& 8 = 0 := by rw [and_8_eq, if_neg (by omega)]
  simp [e]

theorem MillerDecoding_sync (sr bc byc bmax pc sb pb smp bb : Nat) (dr : UartDrop)
    (out : Nat → Nat) (hbb : bb % 16 = 14) :
    MillerDecoding ⟨STATE_UNSYNCD, sr, bc, byc, bmax, pc, sb, pb, smp, 8, bb, dr, out⟩ 7 =
      (⟨STATE_START_OF_COMMUNICATION, sr, 0, 0, bmax, 1, 16, 0, 0, 8,
        bb * 16 % 2 ^ 32 + 7, DROP_FIRST_HALF, out⟩, false) := by
  have hnz : bb ≠ 0 := by omega
  have h7 : (7 : Nat) < 16 := by norm_num
  unfold MillerDecoding
  simp only [hnz, if_false, shiftBuffer_eq _ _ h7, ne_eq, not_true_eq_false, MillerUnsynced,
    Miller_unsynced_bit _ _ h7, hbb, MillerSync_one (bb * 16 % 2 ^ 32 + 7) (by omega)]
  simp

theorem MillerDecoding_soc (sr bmax smp hc bb : Nat) (out : Nat → Nat) (a : Nat)
    (hbb : bb ≠ 0) (ha : a < 16) (h8 : 8 ≤ a) :
    MillerDecoding ⟨STATE_START_OF_COMMUNICATION, sr, 0, 0, bmax, 1, 16, 0, smp, hc, bb,
        DROP_FIRST_HALF, out⟩ a =
      (⟨STATE_MILLER_Z, 0, 0, 0, bmax, 0, 16, 0, smp, hc, bb * 16 % 2 ^ 32 + a, DROP_NONE,
        out⟩, false) := by
  have h2 := MillerDecoding_second_half
    ⟨STATE_START_OF_COMMUNICATION, sr, 0, 0, bmax, 1, 16, 0, smp, hc, bb, DROP_FIRST_HALF,
      out⟩ a hbb rfl rfl (by simp) ha
  rw [h2]
  have hna : ¬ a < 8 := by omega
  simp [MillerSwitch, MillerStore, hna]

theorem Miller_idle_run (k : Nat) :
    ∀ (sr bc byc bmax pc sb pb smp hc bb : Nat) (dr : UartDrop) (out : Nat → Nat)
      (rest : List Nat), bb % 16 = 15 → hc ≤ 8 →
      ∃ bb1, bb1 % 16 = 15 ∧
        MillerRun ⟨STATE_UNSYNCD, sr, bc, byc, bmax, pc, sb, pb, smp, hc, bb, dr, out⟩
            (IdleHigh k ++ rest) =
          MillerRun ⟨STATE_UNSYNCD, sr, bc, byc, bmax, pc, sb, pb, smp, min (hc + k) 8, bb1,
            dr, out⟩ rest := by
  induction k with
  | zero =>
    intro sr bc byc bmax pc sb pb smp hc bb dr out rest hbb hhc
    refine ⟨bb, hbb, ?_⟩
    have e : min (hc + 0) 8 = hc := by omega
    rw [e]
    simp [IdleHigh]
  | succ k ih =>
    intro sr bc byc bmax pc sb pb smp hc bb dr out rest hbb hhc
    have h1 := MillerDecoding_idle sr bc byc bmax pc sb pb smp hc bb dr out 15 hbb
      (by norm_num)
    obtain ⟨bb1, hb1, e1⟩ := ih sr bc byc bmax pc sb pb smp (if hc < 8 then hc + 1 else hc)
      (bb * 16 % 2 ^ 32 + 15) dr out rest (by omega) (by split <;> omega)
    refine ⟨bb1, hb1, ?_⟩
    have hl : IdleHigh (k + 1) ++ rest = 15 :: (IdleHigh k ++ rest) := by
      simp [IdleHigh, List.replicate_succ]
    have e : min ((if hc < 8 then hc + 1 else hc) + k) 8 = min (hc + (k + 1)) 8 := by
      split <;> omega
    rw [hl, MillerRun_cons_false _ _ _ _ h1, e1, e]

/-- The lead-in: from the reset `Uart`, at least 8 idle-high samples followed by the
delayed start symbol Z (samples 14, 7) and the first sample `a` of the next symbol bring
`Uart` to `STATE_MILLER_Z` with `syncBit = 0x10` and cleared registers. -/
theorem Miller_lead_in (out : Nat → Nat) (bmax n a : Nat) (rest : List Nat) (hn : 8 ≤ n)
    (ha : a < 16) (h8 : 8 ≤ a) :
    ∃ U1, MillerRun (UartReset out bmax) (IdleHigh n ++ 14 :: 7 :: a :: rest) =
        MillerRun U1 rest ∧
      MillerSyncedAt U1 0 ∧ UartRegs U1 = ⟨0, 0, 0, 0, out⟩ := by
  obtain ⟨k, rfl⟩ : ∃ k, n = k + 1 := ⟨n - 1, by omega⟩
  have hl : IdleHigh (k + 1) ++ 14 :: 7 :: a :: rest =
      15 :: (IdleHigh k ++ 14 :: 7 :: a :: rest) := by
    simp [IdleHigh, List.replicate_succ]
  have h0 : MillerDecoding (UartReset out bmax) 15 =
      (⟨STATE_UNSYNCD, 0, 0, 0, bmax, 0, 0, 0, 0, 0, 4095, DROP_NONE, out⟩, false) := by
    simp [MillerDecoding, UartReset]
  obtain ⟨bb1, hb1, e1⟩ := Miller_idle_run k 0 0 0 bmax 0 0 0 0 0 4095 DROP_NONE out
    (14 :: 7 :: a :: rest) (by norm_num) (by norm_num)
  have h2 := MillerDecoding_idle 0 0 0 bmax 0 0 0 0 (min (0 + k) 8) bb1 DROP_NONE out 14 hb1
    (by norm_num)
  have e8 : (if min (0 + k) 8 < 8 then min (0 + k) 8 + 1 else min (0 + k) 8) = 8 := by
    split <;> omega
  rw [e8] at h2
  have h3 := MillerDecoding_sync 0 0 0 bmax 0 0 0 0 (bb1 * 16 % 2 ^ 32 + 14) DROP_NONE out
    (by omega)
  have h4 := MillerDecoding_soc 0 bmax 0 8 ((bb1 * 16 % 2 ^ 32 + 14) * 16 % 2 ^ 32 + 7) out a
    (by omega) ha h8
  have e := (((((congrArg (MillerRun (UartReset out bmax)) hl).trans
    (MillerRun_cons_false _ _ _ _ h0)).trans e1).trans
    (MillerRun_cons_false _ _ _ _ h2)).trans
    (MillerRun_cons_false _ _ _ _ h3)).trans (MillerRun_cons_false _ _ _ rest h4)
  refine ⟨_, e, ?_, rfl⟩
  refine ⟨by simp only; omega, rfl, rfl, rfl, by norm_num, by norm_num, ?_⟩
  simp

/-- The end of communication: between two bit periods, after a logic 0 that followed at
least one stored byte (`bitCnt = 1`, `byteCnt > 0`), a period without a drop makes
`MillerDecoding` return TRUE and leaves the stored bytes and the parity word as they
are. -/
theorem Miller_eoc (U : UartT) (rest : List Nat) (hI : MillerSyncedAt U 0)
    (hbc : U.bitCnt = 1) (hby : 0 < U.byteCnt) :
    ∃ U1, MillerRun U (15 :: 15 :: rest) = (U1, true) ∧ U1.state = STATE_UNSYNCD ∧
      U1.byteCnt = U.byteCnt ∧ U1.parityBits = U.parityBits ∧ U1.output = U.output := by
  rcases U with ⟨st, sr, bc, byc, bmax, pc, sb, pb, smp, hc, bb, dr, out⟩
  simp only [MillerSyncedAt] at hI
  simp only at hbc hby
  obtain ⟨hbb, rfl, rfl, rfl, hsr, _, hst⟩ := hI
  subst hbc
  have hst0 : st = STATE_MILLER_Z ∨ st = STATE_MILLER_Y := by
    rcases hst with ⟨_, h⟩ | ⟨h, _⟩
    · exact h
    · omega
  have hst1 : st ≠ STATE_UNSYNCD := by
    rcases hst0 with h | h <;> simp [h]
  have h1 := MillerDecoding_first_half ⟨st, sr, 1, byc, bmax, 0, 16, pb, smp, hc, bb,
    DROP_NONE, out⟩ 15 hbb rfl rfl hst1 (by norm_num)
  simp only at h1
  have h2 := MillerDecoding_second_half
    ⟨st, sr, 1, byc, bmax, 1, 16, pb, smp, hc, bb * 16 % 2 ^ 32 + 15, DROP_NONE, out⟩ 15
    (by simp only; omega) rfl rfl hst1 (by norm_num)
  simp only at h2
  have h3 : MillerDecoding
      ⟨st, sr, 1, byc, bmax, 1, 16, pb, smp, hc, bb * 16 % 2 ^ 32 + 15, DROP_NONE, out⟩ 15 =
      (⟨STATE_UNSYNCD, sr / 2, 2, byc, bmax, 0, 16, pb, smp, hc,
        (bb * 16 % 2 ^ 32 + 15) * 16 % 2 ^ 32 + 15, DROP_NONE, out⟩, true) := by
    rw [h2]
    have hb0 : byc ≠ 0 := by omega
    rcases hst0 with rfl | rfl <;>
      simp [MillerSwitch, MillerStore, Nat.shiftRight_one, hby]
  have h8 : (8 : Nat) ≤ 15 := by norm_num
  rw [if_pos h8] at h1
  have e := (MillerRun_cons_false _ _ _ (15 :: rest) h1).trans
    (MillerRun_cons_true _ _ _ rest h3)
  exact ⟨_, e, rfl, rfl, rfl, rfl⟩

theorem ReaderPar_eoc_bit (cmd : List Nat) (dwParity : Nat) :
    CodeIso14443aAsReaderPar cmd dwParity =
      [SEC_Z] ++ MillerSymbols 0 (FrameBits cmd 0 dwParity ++ [0]) ++
        [SEC_Y, SEC_Y, SEC_Y, SEC_Y] := by
  rw [ReaderPar_eq, MillerSymbols_append]
  simp [MillerSymbols]

theorem RegStep_first_bit (clr : Bool) (r : ByteRegs) (bit : Nat) (h : r.bitCnt = 0) :
    (RegStep clr r bit).bitCnt = 1 ∧ (RegStep clr r bit).byteCnt = r.byteCnt ∧
    (RegStep clr r bit).parityBits = r.parityBits ∧ (RegStep clr r bit).output = r.output := by
  simp [RegStep, h]

/-- What `MillerDecoding` makes of the delayed samples of a reader frame: the frame is
complete, with the bytes of `cmd` in the output buffer and the parity bits accumulated
byte by byte. -/
theorem Miller_receive_frame (cmd : List Nat) (dwParity n byteCntMax : Nat)
    (output : Nat → Nat) (hlen : 1 ≤ cmd.length) (hbytes : ∀ b ∈ cmd, b < 256)
    (hn : 8 ≤ n) :
    ∃ U, MillerReceive output byteCntMax n (CodeIso14443aAsReaderPar cmd dwParity) = (U, true)
      ∧ U.state = STATE_UNSYNCD
      ∧ U.byteCnt = cmd.length
      ∧ U.parityBits = ParityAcc dwParity cmd.length 0 0
      ∧ ∀ i, i < cmd.length → U.output i = cmd.getD i 0 := by
  have hfb : ∀ x ∈ FrameBits cmd 0 dwParity ++ [0], x < 2 := by
    intro x hx
    rcases List.mem_append.1 hx with h | h
    · exact FrameBits_lt cmd 0 dwParity x h
    · simp at h; omega
  obtain ⟨bit1, bits, hbits⟩ : ∃ bit1 bits, FrameBits cmd 0 dwParity ++ [0] = bit1 :: bits := by
    cases h : FrameBits cmd 0 dwParity ++ [0] with
    | nil => simp at h
    | cons a t => exact ⟨a, t, rfl⟩
  have hbit1 : bit1 < 2 := hfb bit1 (by rw [hbits]; simp)
  have hbs : ∀ x ∈ bits, x < 2 := fun x hx => hfb x (by rw [hbits]; simp [hx])
  have hc1 := Miller_symbol_cases 0 bit1 hbit1 (by norm_num)
  -- the sample stream
  have hstream : MillerDelayedSamples n (CodeIso14443aAsReaderPar cmd dwParity) =
      IdleHigh n ++ 14 :: 7 ::
        (14 + (255 - (if bit1 = 1 then SEC_X else if (0 : Nat) = 0 then SEC_Z else SEC_Y)) / 128) ::
        DelayTail (255 - (if bit1 = 1 then SEC_X else if (0 : Nat) = 0 then SEC_Z else SEC_Y))
          ((MillerSymbols bit1 bits).map (fun s => 255 - s) ++ 255 :: [255, 255, 255]) := by
    rw [ReaderPar_eoc_bit, hbits]
    simp [MillerDelayedSamples, MillerSymbols, Delay3, DelayTail, SEC_Z, SEC_Y]
  have ha : 14 + (255 - (if bit1 = 1 then SEC_X else if (0 : Nat) = 0 then SEC_Z else SEC_Y)) / 128
      < 16 ∧ 8 ≤ 14 + (255 - (if bit1 = 1 then SEC_X else if (0 : Nat) = 0 then SEC_Z
        else SEC_Y)) / 128 := by
    rcases hc1 with ⟨_, h⟩ | ⟨_, _, h⟩ | ⟨_, h0, _⟩
    · rw [h]; norm_num
    · rw [h]; norm_num
    · omega
  obtain ⟨U1, e1, i1, g1⟩ := Miller_lead_in output byteCntMax n _
    (DelayTail (255 - (if bit1 = 1 then SEC_X else if (0 : Nat) = 0 then SEC_Z else SEC_Y))
      ((MillerSymbols bit1 bits).map (fun s => 255 - s) ++ 255 :: [255, 255, 255])) hn ha.1 ha.2
  obtain ⟨U2, e2, i2, g2⟩ := Miller_bits_run bits U1 0 bit1 255 [255, 255, 255] hbs hbit1
    (by norm_num) (by norm_num) i1
  have hlast : bits.getLastD bit1 = 0 := by
    have h := congrArg (fun l => List.getLastD l 7) hbits
    simp only [List.getLastD_cons] at h
    rw [← h, getLastD_append_eq]
    rfl
  rw [hlast] at i2
  -- the registers after the frame bits and the logic 0 of the end marker
  obtain ⟨f1, f2, f3, f4, f5, f6⟩ := RegStep_frame false cmd 0 dwParity ⟨0, 0, 0, 0, output⟩
    hbytes rfl (by norm_num)
  have hregs : UartRegs U2 =
      RegStep false ((FrameBits cmd 0 dwParity).foldl (RegStep false) ⟨0, 0, 0, 0, output⟩) 0 := by
    rw [g2, g1, ← hbits, List.foldl_append]
    rfl
  obtain ⟨q1, q2, q3, q4⟩ := RegStep_first_bit false
    ((FrameBits cmd 0 dwParity).foldl (RegStep false) ⟨0, 0, 0, 0, output⟩) 0 f1
  have hbc : U2.bitCnt = 1 := by
    have h := congrArg ByteRegs.bitCnt hregs
    simp only [UartRegs] at h
    rw [h, q1]
  have hby : U2.byteCnt = cmd.length := by
    have h := congrArg ByteRegs.byteCnt hregs
    simp only [UartRegs] at h
    rw [h, q2, f3]
    simp
  have hpb : U2.parityBits = ParityAcc dwParity cmd.length 0 0 := by
    have h := congrArg ByteRegs.parityBits hregs
    simp only [UartRegs] at h
    rw [h, q3, f4]
  have hout : U2.output = ((FrameBits cmd 0 dwParity).foldl (RegStep false)
      ⟨0, 0, 0, 0, output⟩).output := by
    have h := congrArg ByteRegs.output hregs
    simp only [UartRegs] at h
    rw [h, q4]
  have htail : DelayTail 255 [255, 255, 255] = 15 :: 15 :: [15, 15, 15, 15, 15, 15] := by
    decide
  obtain ⟨U3, e3, s3, b3, p3, o3⟩ := Miller_eoc U2 [15, 15, 15, 15, 15, 15] i2 hbc (by omega)
  refine ⟨U3, ?_, s3, by rw [b3, hby], by rw [p3, hpb], ?_⟩
  · unfold MillerReceive
    rw [hstream, e1, e2, htail, e3]
  · intro i hi
    rw [o3, hout]
    have h := f6 i hi
    simpa using h

set_option maxRecDepth 1000000 in
/-- C1 fails as stated. Read sample by sample (inverted, so that a drop is a low sample, or
as it stands), the pattern of the frame `[0x26]` after an idle-high lead-in of 8 to 15
samples never makes `MillerDecoding` return frame-complete; and where a frame is decoded
(two bytes with parity word 2, samples three bits late) `parityBits` is 1, not 2. -/
theorem C1_counterexample :
    (∀ n, n < 8 →
      (MillerRun (UartReset (fun _ => 0) 32)
        (IdleHigh (8 + n) ++
          InvertNibbles (PatternNibbles (CodeIso14443aAsReaderPar [0x26] 0)))).2 = false
      ∧ (MillerRun (UartReset (fun _ => 0) 32)
        (IdleHigh (8 + n) ++ PatternNibbles (CodeIso14443aAsReaderPar [0x26] 0))).2 = false)
    ∧ (MillerReceive (fun _ => 0) 32 8 (CodeIso14443aAsReaderPar [0x26, 0x93] 2)).2 = true
    ∧ (MillerReceive (fun _ => 0) 32 8
        (CodeIso14443aAsReaderPar [0x26, 0x93] 2)).1.parityBits = 1 := by
  decide

/-- C1 as amended: for every byte sequence of length at least 1 (so 1 to 18) with its
parity word, the pattern `CodeIso14443aAsReaderPar` emits, inverted (drop = low) and fed
three sample bits late after an idle-high lead-in of at least 8 samples to
`MillerDecoding` from the reset `Uart`, yields frame-complete; the output bytes are the
input bytes, `byteCnt` is the input length, `Uart` is back in `STATE_UNSYNCD`, and
`parityBits` holds the parity bits in the reverse order: for a frame of at most 32 bytes,
bit `len - 1 - i` of `parityBits` is bit `i` of the parity word and no higher bit is
set. -/
theorem C1_miller_roundtrip (cmd : List Nat) (dwParity n byteCntMax : Nat)
    (output : Nat → Nat) (hlen : 1 ≤ cmd.length) (hbytes : ∀ b ∈ cmd, b < 256)
    (hn : 8 ≤ n) :
    (MillerReceive output byteCntMax n (CodeIso14443aAsReaderPar cmd dwParity)).2 = true
    ∧ (MillerReceive output byteCntMax n
        (CodeIso14443aAsReaderPar cmd dwParity)).1.state = STATE_UNSYNCD
    ∧ (MillerReceive output byteCntMax n
        (CodeIso14443aAsReaderPar cmd dwParity)).1.byteCnt = cmd.length
    ∧ (∀ i, i < cmd.length →
        (MillerReceive output byteCntMax n
          (CodeIso14443aAsReaderPar cmd dwParity)).1.output i = cmd.getD i 0)
    ∧ (cmd.length ≤ 32 →
        (MillerReceive output byteCntMax n
          (CodeIso14443aAsReaderPar cmd dwParity)).1.parityBits < 2 ^ cmd.length
        ∧ ∀ i, i < cmd.length →
          (MillerReceive output byteCntMax n
            (CodeIso14443aAsReaderPar cmd dwParity)).1.parityBits.testBit (cmd.length - 1 - i)
          = dwParity.testBit i) := by
  obtain ⟨U, e, hs, hb, hp, ho⟩ :=
    Miller_receive_frame cmd dwParity n byteCntMax output hlen hbytes hn
  rw [e]
  refine ⟨rfl, hs, hb, ho, ?_⟩
  intro h32
  simp only [hp]
  exact ParityAcc_reversed dwParity cmd.length h32

/-- C1 as amended, at a concrete input: the two-byte frame `[0x26, 0x93]` with parity
word 2 after a lead-in of 8 samples. -/
theorem C1_miller_roundtrip_witness :
    (MillerReceive (fun _ => 0) 32 8 (CodeIso14443aAsReaderPar [0x26, 0x93] 2)).2 = true
    ∧ (MillerReceive (fun _ => 0) 32 8
        (CodeIso14443aAsReaderPar [0x26, 0x93] 2)).1.byteCnt = [0x26, 0x93].length :=
  ⟨(C1_miller_roundtrip [0x26, 0x93] 2 8 32 (fun _ => 0) (by decide) (by decide)
      (by decide)).1,
   (C1_miller_roundtrip [0x26, 0x93] 2 8 32 (fun _ => 0) (by decide) (by decide)
      (by decide)).2.2.1⟩

/-! ## `ManchesterDecoding` call by call -/

/-- One bit period of a frame: `Demod` holds the first sample of the symbol for `bit`
(15 for D, 0 for E); its second sample and the first sample `n1` of the next symbol are
fed. -/
theorem Manchester_period (D : DemodT) (bit n1 : Nat) (rest : List Nat)
    (hI : ManchesterSyncedAt D) (hbit : bit < 2)
    (hbuf : D.buffer = if bit = 1 then 15 else 0) (hn1 : n1 = 0 ∨ n1 = 15) :
    ∃ D1, ManchesterRun D ((if bit = 1 then 0 else 15) :: n1 :: rest) = ManchesterRun D1 rest ∧
      ManchesterSyncedAt D1 ∧ D1.buffer = n1 ∧
      DemodRegs D1 = RegStep true (DemodRegs D) bit := by
  rcases D with ⟨st, bc, pc, sb, pb, sr, buf, bf, smp, ln, sub, out⟩
  simp only [ManchesterSyncedAt] at hI
  simp only at hbuf
  obtain ⟨hbf, rfl, rfl, hsr, hbc, hst⟩ := hI
  subst hbuf
  have hx : sr / 2 ^^^ 256 = sr / 2 + 256 := xor_256_eq _ (by omega)
  have m1 : ((15 : Nat) &&& 8) >>> 3 &&& 4 = 0 := by decide
  have m2 : ((15 : Nat) <<< 1 ^^^ (0 &&& 8) >>> 3) &&& 4 = 4 := by decide
  have m3 : ((15 : Nat) <<< 1 ^^^ (15 &&& 8) >>> 3) &&& 4 = 4 := by decide
  have m4 : ((0 : Nat) <<< 1 ^^^ (15 &&& 8) >>> 3) &&& 4 = 0 := by decide
  have m5 : ((15 : Nat) <<< 1) &&& 4 = 4 := by decide
  have m6 : ((15 : Nat) <<< 1 ^^^ 1) &&& 4 = 4 := by decide
  have hsh : sr >>> 1 = sr / 2 := Nat.shiftRight_one _
  have hff : ∀ x, x &&& 255 = x % 256 := and_ff_eq
  have hs8 : ∀ x, (x >>> 8) &&& 1 = x / 256 % 2 := shr8_and1
  have hpar : ∀ q, ((pb <<< 1) % 4294967296) ^^^ (q % 2) = 2 * pb % 4294967296 + q % 2 := by
    intro q
    have h := parity_shift_eq pb (q % 2) (by omega)
    norm_num at h
    exact h
  have hb : bit = 0 ∨ bit = 1 := by omega
  have h1 : ManchesterDecoding
      ⟨st, bc, 0, 4, pb, sr, if bit = 1 then 15 else 0, bf, smp, ln, sub, out⟩
      (if bit = 1 then 0 else 15) =
      (⟨st, bc, 1, 4, pb, sr, if bit = 1 then 0 else 15, bf, smp + 4, ln,
        if bit = 1 then SUB_FIRST_HALF else SUB_NONE, out⟩, false) := by
    rcases hb with rfl | rfl <;> rcases hst with rfl | rfl <;>
      simp [ManchesterDecoding, ManchesterSynced, hbf, m1, m2, m3, m4, m5, m6]
  have h2 : ManchesterDecoding
      ⟨st, bc, 1, 4, pb, sr, if bit = 1 then 0 else 15, bf, smp + 4, ln,
        if bit = 1 then SUB_FIRST_HALF else SUB_NONE, out⟩ n1 =
      (⟨if bit = 1 then DEMOD_MANCHESTER_D else DEMOD_MANCHESTER_E,
        (RegStep true ⟨sr, bc, ln, pb, out⟩ bit).bitCnt, 0, 4,
        (RegStep true ⟨sr, bc, ln, pb, out⟩ bit).parityBits,
        (RegStep true ⟨sr, bc, ln, pb, out⟩ bit).shiftReg, n1, bf, smp + 4 + 4,
        (RegStep true ⟨sr, bc, ln, pb, out⟩ bit).byteCnt,
        if bit = 1 then SUB_FIRST_HALF else SUB_SECOND_HALF,
        (RegStep true ⟨sr, bc, ln, pb, out⟩ bit).output⟩, false) := by
    have h9 : bc + 1 = 9 ↔ 9 ≤ bc + 1 := by omega
    rcases hb with rfl | rfl <;> rcases hst with rfl | rfl <;> rcases hn1 with rfl | rfl <;>
      by_cases c9 : bc + 1 = 9 <;>
      simp [ManchesterDecoding, ManchesterSynced, ManchesterSwitch, ManchesterStore, RegStep,
        hbf, hx, hsh, hff, hs8, hpar, c9, m1, m2, m3, m4, m5, m6] <;> omega
  obtain ⟨r1, r2⟩ := RegStep_bounds true ⟨sr, bc, ln, pb, out⟩ bit hbit hsr hbc
  have e := (ManchesterRun_cons_false _ _ _ (n1 :: rest) h1).trans
    (ManchesterRun_cons_false _ _ _ rest h2)
  refine ⟨_, e, ?_, rfl, rfl⟩
  refine ⟨hbf, rfl, rfl, r1, r2, ?_⟩
  rcases hb with rfl | rfl <;> simp

theorem PatternNibbles_cons (s : Nat) (l : List Nat) :
    PatternNibbles (s :: l) = (s / 16 % 16) :: (s % 16) :: PatternNibbles l := by
  simp [PatternNibbles]

theorem PatternNibbles_append (l1 l2 : List Nat) :
    PatternNibbles (l1 ++ l2) = PatternNibbles l1 ++ PatternNibbles l2 := by
  simp [PatternNibbles]

theorem Manchester_symbol_nibbles (bit : Nat) (hbit : bit < 2) :
    (if bit = 1 then SEC_D else SEC_E) / 16 % 16 = (if bit = 1 then 15 else 0) ∧
    (if bit = 1 then SEC_D else SEC_E) % 16 = (if bit = 1 then 0 else 15) := by
  have h : bit = 0 ∨ bit = 1 := by omega
  rcases h with rfl | rfl <;> simp [SEC_D, SEC_E]

/-- The run of `ManchesterDecoding` over the data bits of a frame: `Demod` holds the first
sample of the symbol of `bit`; the samples of the symbols of `bits` follow, then the first
sample (0) of the stop symbol F. -/
theorem Manchester_bits_run (bits : List Nat) :
    ∀ (D : DemodT) (bit : Nat) (rest : List Nat),
      (∀ x ∈ bits, x < 2) → bit < 2 → ManchesterSyncedAt D →
      D.buffer = (if bit = 1 then 15 else 0) →
      ∃ D1, ManchesterRun D ((if bit = 1 then 0 else 15) ::
            (PatternNibbles (ManchesterSymbols bits) ++ 0 :: rest)) = ManchesterRun D1 rest ∧
        ManchesterSyncedAt D1 ∧ D1.buffer = 0 ∧
        DemodRegs D1 = (bit :: bits).foldl (RegStep true) (DemodRegs D) := by
  induction bits with
  | nil =>
    intro D bit rest _ hbit hI hbuf
    simpa [ManchesterSymbols, PatternNibbles] using
      Manchester_period D bit 0 rest hI hbit hbuf (Or.inl rfl)
  | cons b2 bs ih =>
    intro D bit rest hbs hbit hI hbuf
    have hb2 : b2 < 2 := hbs b2 (by simp)
    have hbs1 : ∀ x ∈ bs, x < 2 := fun x hx => hbs x (by simp [hx])
    obtain ⟨n1, n2⟩ := Manchester_symbol_nibbles b2 hb2
    have hn : (if b2 = 1 then 15 else 0) = 0 ∨ (if b2 = 1 then 15 else 0) = 15 := by
      split <;> simp
    obtain ⟨D1, e1, i1, u1, g1⟩ := Manchester_period D bit (if b2 = 1 then 15 else 0)
      ((if b2 = 1 then 0 else 15) :: (PatternNibbles (ManchesterSymbols bs) ++ 0 :: rest))
      hI hbit hbuf hn
    obtain ⟨D2, e2, i2, u2, g2⟩ := ih D1 b2 rest hbs1 hb2 i1 u1
    refine ⟨D2, ?_, i2, u2, ?_⟩
    · rw [← e2, ← e1]
      simp only [ManchesterSymbols, List.map_cons, PatternNibbles_cons, n1, n2,
        List.cons_append]
    · rw [g2, g1]
      simp

/-- The lead-in: from the reset `Demod`, the two samples of the start symbol D and the
first sample `n1` of the next symbol bring `Demod` to `DEMOD_MANCHESTER_D` with
`syncBit = 0x04` and cleared registers. -/
theorem Manchester_lead_in (out : Nat → Nat) (n1 : Nat) (rest : List Nat)
    (hn1 : n1 = 0 ∨ n1 = 15) :
    ∃ D1, ManchesterRun (DemodReset out) (15 :: 0 :: n1 :: rest) = ManchesterRun D1 rest ∧
      ManchesterSyncedAt D1 ∧ D1.buffer = n1 ∧
      DemodRegs D1 = ⟨0, 0, 0, 0, bufSet out 0 0xfa⟩ := by
  have h1 : ManchesterDecoding (DemodReset out) 15 =
      (⟨DEMOD_UNSYNCD, 0, 0, 0, 0, 0, 15, 1, 0, 0, SUB_NONE, out⟩, false) := by
    simp [ManchesterDecoding, DemodReset]
  have hs : ManchesterSync 15 = 4 := by decide
  have h2 : ManchesterDecoding
      ⟨DEMOD_UNSYNCD, 0, 0, 0, 0, 0, 15, 1, 0, 0, SUB_NONE, out⟩ 0 =
      (⟨DEMOD_START_OF_COMMUNICATION, 0, 1, 4, 0, 0, 0, 1, 2, 0, SUB_FIRST_HALF,
        bufSet out 0 0xfa⟩, false) := by
    simp [ManchesterDecoding, ManchesterUnsynced, hs]
  have m1 : ((15 : Nat) &&& 8) >>> 3 &&& 4 = 0 := by decide
  have h3 : ManchesterDecoding
      ⟨DEMOD_START_OF_COMMUNICATION, 0, 1, 4, 0, 0, 0, 1, 2, 0, SUB_FIRST_HALF,
        bufSet out 0 0xfa⟩ n1 =
      (⟨DEMOD_MANCHESTER_D, 0, 0, 4, 0, 0, n1, 1, 6, 0, SUB_FIRST_HALF,
        bufSet out 0 0xfa⟩, false) := by
    rcases hn1 with rfl | rfl <;>
      simp [ManchesterDecoding, ManchesterSynced, ManchesterSwitch, ManchesterStore, m1]
  have e := ((ManchesterRun_cons_false _ _ _ (0 :: n1 :: rest) h1).trans
    (ManchesterRun_cons_false _ _ _ (n1 :: rest) h2)).trans
    (ManchesterRun_cons_false _ _ _ rest h3)
  refine ⟨_, e, ?_, rfl, rfl⟩
  refine ⟨by simp, rfl, rfl, by norm_num, by norm_num, Or.inl rfl⟩

/-- The end of a frame: between two bit periods, `Demod` holding the first sample (0) of
the stop symbol F, four more samples without modulation make `ManchesterDecoding` return
TRUE; pending bits, if any, are stored right-aligned as one more byte and a 0 is shifted
into the parity word. -/
theorem Manchester_end (D : DemodT) (rest : List Nat) (hI : ManchesterSyncedAt D)
    (hbuf : D.buffer = 0) (hne : 0 < D.len ∨ 0 < D.bitCount) :
    ∃ D1, ManchesterRun D (0 :: 0 :: 0 :: 0 :: rest) = (D1, true) ∧
      D1.state = DEMOD_UNSYNCD ∧
      D1.len = (if 0 < D.bitCount then D.len + 1 else D.len) ∧
      D1.parityBits = (if 0 < D.bitCount then 2 * D.parityBits % 2 ^ 32 else D.parityBits) ∧
      D1.output = (if 0 < D.bitCount then
          bufSet D.output D.len (D.shiftReg / 2 ^ (9 - D.bitCount) % 256)
        else D.output) := by
  rcases D with ⟨st, bc, pc, sb, pb, sr, buf, bf, smp, ln, sub, out⟩
  simp only [ManchesterSyncedAt] at hI
  simp only at hbuf hne
  obtain ⟨hbf, rfl, rfl, hsr, hbc, hst⟩ := hI
  subst hbuf
  have hff : ∀ x, x &&& 255 = x % 256 := and_ff_eq
  have h1 : ManchesterDecoding ⟨st, bc, 0, 4, pb, sr, 0, bf, smp, ln, sub, out⟩ 0 =
      (⟨st, bc, 1, 4, pb, sr, 0, bf, smp + 4, ln, SUB_NONE, out⟩, false) := by
    rcases hst with rfl | rfl <;> simp [ManchesterDecoding, ManchesterSynced, hbf]
  have h2 : ManchesterDecoding ⟨st, bc, 1, 4, pb, sr, 0, bf, smp + 4, ln, SUB_NONE, out⟩ 0 =
      (⟨DEMOD_MANCHESTER_F, bc, 0, 4, pb, sr, 0, bf, smp + 4 + 4, ln, SUB_NONE, out⟩,
        false) := by
    have h9 : ¬ 9 ≤ bc := by omega
    rcases hst with rfl | rfl <;>
      simp [ManchesterDecoding, ManchesterSynced, ManchesterSwitch, ManchesterStore, hbf, h9]
  have h3 : ManchesterDecoding
      ⟨DEMOD_MANCHESTER_F, bc, 0, 4, pb, sr, 0, bf, smp + 4 + 4, ln, SUB_NONE, out⟩ 0 =
      (⟨DEMOD_MANCHESTER_F, bc, 1, 4, pb, sr, 0, bf, smp + 4 + 4 + 4, ln, SUB_NONE, out⟩,
        false) := by
    simp [ManchesterDecoding, ManchesterSynced, hbf]
  have h4 : ManchesterDecoding
      ⟨DEMOD_MANCHESTER_F, bc, 1, 4, pb, sr, 0, bf, smp + 4 + 4 + 4, ln, SUB_NONE, out⟩ 0 =
      (⟨DEMOD_UNSYNCD, bc, 0, 4,
        if 0 < bc then 2 * pb % 2 ^ 32 else pb,
        if 0 < bc then sr / 2 ^ (9 - bc) else sr, 0, bf, smp + 4 + 4 + 4 + 4,
        if 0 < bc then ln + 1 else ln, SUB_NONE,
        if 0 < bc then bufSet out ln (sr / 2 ^ (9 - bc) % 256) else out⟩, true) := by
    by_cases c : 0 < bc
    · simp [ManchesterDecoding, ManchesterSynced, ManchesterSwitch, hbf, c, hff,
        Nat.shiftRight_eq_div_pow, Nat.shiftLeft_eq, Nat.mul_comm]
    · have hl : 0 < ln := by omega
      simp [ManchesterDecoding, ManchesterSynced, ManchesterSwitch, hbf, c, hl]
  have e := (((ManchesterRun_cons_false _ _ _ (0 :: 0 :: 0 :: rest) h1).trans
    (ManchesterRun_cons_false _ _ _ (0 :: 0 :: rest) h2)).trans
    (ManchesterRun_cons_false _ _ _ (0 :: rest) h3)).trans
    (ManchesterRun_cons_true _ _ _ rest h4)
  exact ⟨_, e, rfl, rfl, rfl, rfl⟩

/-- What `ManchesterDecoding` makes of a tag pattern sent without its preamble byte: start
symbol D, the symbols of the bits `bit1 :: bits`, stop symbol F, and at least three more
samples without modulation. -/
theorem Manchester_receive_bits (out : Nat → Nat) (pre bit1 : Nat) (bits fs : List Nat)
    (m : Nat) (rest : List Nat) (hbit1 : bit1 < 2) (hbits : ∀ x ∈ bits, x < 2)
    (hzeros : PatternNibbles fs ++ IdleLow m = 0 :: 0 :: 0 :: rest)
    (hne : 0 < ((bit1 :: bits).foldl (RegStep true) ⟨0, 0, 0, 0, bufSet out 0 0xfa⟩).byteCnt ∨
      0 < ((bit1 :: bits).foldl (RegStep true) ⟨0, 0, 0, 0, bufSet out 0 0xfa⟩).bitCnt) :
    ∃ D, ManchesterReceive out
        ([pre, SEC_D] ++ ManchesterSymbols (bit1 :: bits) ++ SEC_F :: fs) m = (D, true) ∧
      D.state = DEMOD_UNSYNCD ∧
      DemodRegs D =
        (if 0 < ((bit1 :: bits).foldl (RegStep true) ⟨0, 0, 0, 0, bufSet out 0 0xfa⟩).bitCnt
        then
          { ((bit1 :: bits).foldl (RegStep true) ⟨0, 0, 0, 0, bufSet out 0 0xfa⟩) with
            shiftReg := D.shiftReg, bitCnt := D.bitCount,
            byteCnt :=
              ((bit1 :: bits).foldl (RegStep true) ⟨0, 0, 0, 0, bufSet out 0 0xfa⟩).byteCnt + 1,
            parityBits := 2 *
              ((bit1 :: bits).foldl (RegStep true)
                ⟨0, 0, 0, 0, bufSet out 0 0xfa⟩).parityBits % 2 ^ 32,
            output := bufSet
              ((bit1 :: bits).foldl (RegStep true) ⟨0, 0, 0, 0, bufSet out 0 0xfa⟩).output
              ((bit1 :: bits).foldl (RegStep true) ⟨0, 0, 0, 0, bufSet out 0 0xfa⟩).byteCnt
              (((bit1 :: bits).foldl (RegStep true)
                  ⟨0, 0, 0, 0, bufSet out 0 0xfa⟩).shiftReg /
                2 ^ (9 - ((bit1 :: bits).foldl (RegStep true)
                  ⟨0, 0, 0, 0, bufSet out 0 0xfa⟩).bitCnt) % 256) }
        else
          { ((bit1 :: bits).foldl (RegStep true) ⟨0, 0, 0, 0, bufSet out 0 0xfa⟩) with
            shiftReg := D.shiftReg, bitCnt := D.bitCount }) := by
  obtain ⟨n1, n2⟩ := Manchester_symbol_nibbles bit1 hbit1
  have hstream : PatternNibbles
      ([pre, SEC_D] ++ ManchesterSymbols (bit1 :: bits) ++ SEC_F :: fs).tail ++ IdleLow m =
      15 :: 0 :: (if bit1 = 1 then 15 else 0) :: (if bit1 = 1 then 0 else 15) ::
        (PatternNibbles (ManchesterSymbols bits) ++ 0 :: (0 :: 0 :: 0 :: 0 :: rest)) := by
    have h1 : ([pre, SEC_D] ++ ManchesterSymbols (bit1 :: bits) ++ SEC_F :: fs).tail =
        SEC_D :: (if bit1 = 1 then SEC_D else SEC_E) ::
          (ManchesterSymbols bits ++ SEC_F :: fs) := by
      simp [ManchesterSymbols]
    rw [h1, PatternNibbles_cons, PatternNibbles_cons, PatternNibbles_append,
      PatternNibbles_cons, n1, n2]
    simp only [List.cons_append, List.append_assoc, hzeros]
    simp [SEC_D, SEC_F]
  have hn : (if bit1 = 1 then 15 else 0) = 0 ∨ (if bit1 = 1 then 15 else 0) = 15 := by
    split <;> simp
  obtain ⟨D1, e1, i1, u1, g1⟩ := Manchester_lead_in out (if bit1 = 1 then 15 else 0)
    ((if bit1 = 1 then 0 else 15) ::
      (PatternNibbles (ManchesterSymbols bits) ++ 0 :: (0 :: 0 :: 0 :: 0 :: rest))) hn
  obtain ⟨D2, e2, i2, u2, g2⟩ := Manchester_bits_run bits D1 bit1 (0 :: 0 :: 0 :: 0 :: rest)
    hbits hbit1 i1 u1
  rw [g1] at g2
  have hlen : D2.len = ((bit1 :: bits).foldl (RegStep true)
      ⟨0, 0, 0, 0, bufSet out 0 0xfa⟩).byteCnt := congrArg ByteRegs.byteCnt g2
  have hbc : D2.bitCount = ((bit1 :: bits).foldl (RegStep true)
      ⟨0, 0, 0, 0, bufSet out 0 0xfa⟩).bitCnt := congrArg ByteRegs.bitCnt g2
  have hpb : D2.parityBits = ((bit1 :: bits).foldl (RegStep true)
      ⟨0, 0, 0, 0, bufSet out 0 0xfa⟩).parityBits := congrArg ByteRegs.parityBits g2
  have hsr : D2.shiftReg = ((bit1 :: bits).foldl (RegStep true)
      ⟨0, 0, 0, 0, bufSet out 0 0xfa⟩).shiftReg := congrArg ByteRegs.shiftReg g2
  have hout : D2.output = ((bit1 :: bits).foldl (RegStep true)
      ⟨0, 0, 0, 0, bufSet out 0 0xfa⟩).output := congrArg ByteRegs.output g2
  obtain ⟨D3, e3, s3, l3, p3, o3⟩ := Manchester_end D2 rest i2 u2 (by rw [hlen, hbc]; exact hne)
  refine ⟨D3, ?_, s3, ?_⟩
  · unfold ManchesterReceive
    rw [hstream, e1, e2, e3]
  · rw [hlen, hbc] at l3
    rw [hbc, hpb] at p3
    rw [hbc, hout, hlen, hsr] at o3
    simp only [DemodRegs, l3, p3, o3]
    split <;> rfl

theorem IdleLow_three (m : Nat) (hm : 3 ≤ m) : IdleLow m = 0 :: 0 :: 0 :: IdleLow (m - 3) := by
  obtain ⟨k, rfl⟩ : ∃ k, m = k + 3 := ⟨m - 3, by omega⟩
  simp [IdleLow, List.replicate_succ]

theorem Manchester_receive_frame (cmd : List Nat) (dwParity m : Nat) (output : Nat → Nat)
    (hlen : 1 ≤ cmd.length) (hbytes : ∀ b ∈ cmd, b < 256) (hm : 3 ≤ m) :
    ∃ D, ManchesterReceive output (CodeIso14443aAsTagPar cmd dwParity) m = (D, true)
      ∧ D.state = DEMOD_UNSYNCD
      ∧ D.len = cmd.length
      ∧ D.parityBits = ParityAcc dwParity cmd.length 0 0
      ∧ ∀ i, i < cmd.length → D.output i = cmd.getD i 0 := by
  have hfb : ∀ x ∈ FrameBits cmd 0 dwParity, x < 2 := FrameBits_lt cmd 0 dwParity
  obtain ⟨bit1, bits, hbits⟩ : ∃ bit1 bits, FrameBits cmd 0 dwParity = bit1 :: bits := by
    cases h : FrameBits cmd 0 dwParity with
    | nil =>
      have hl := FrameBits_length cmd 0 dwParity
      rw [h] at hl
      have h0 : ([] : List Nat).length = 0 := rfl
      omega
    | cons a t => exact ⟨a, t, rfl⟩
  have hbit1 : bit1 < 2 := hfb bit1 (by rw [hbits]; simp)
  have hbs : ∀ x ∈ bits, x < 2 := fun x hx => hfb x (by rw [hbits]; simp [hx])
  obtain ⟨f1, f2, f3, f4, f5, f6⟩ := RegStep_frame true cmd 0 dwParity
    ⟨0, 0, 0, 0, bufSet output 0 0xfa⟩ hbytes rfl (by norm_num)
  rw [hbits] at f1 f2 f3 f4 f5 f6
  simp only [Nat.zero_add] at f3 f6
  obtain ⟨D, e, s, g⟩ := Manchester_receive_bits output 0x08 bit1 bits [] m (IdleLow (m - 3))
    hbit1 hbs (by simpa [PatternNibbles] using IdleLow_three m hm)
    (Or.inl (by rw [f3]; omega))
  rw [if_neg (by rw [f1]; omega)] at g
  refine ⟨D, ?_, s, ?_, ?_, ?_⟩
  · rw [TagPar_eq, hbits]
    exact e
  · have h := congrArg ByteRegs.byteCnt g
    simp only [DemodRegs] at h
    rw [h, f3]
  · have h := congrArg ByteRegs.parityBits g
    simp only [DemodRegs] at h
    rw [h, f4]
  · intro i hi
    have h := congrArg ByteRegs.output g
    simp only [DemodRegs] at h
    rw [h]
    exact f6 i hi

theorem Manchester_receive_short (out : Nat → Nat) (b0 b1 b2 : Nat) (more : List Nat)
    (m : Nat) (h0 : b0 < 2) (h1 : b1 < 2) (h2 : b2 < 2) (hmore : more = [] ∨ ∃ b3, b3 < 2 ∧
      more = [b3]) :
    ∃ D, ManchesterReceive out
        ([0x08, SEC_D] ++ ManchesterSymbols (b0 :: b1 :: b2 :: more) ++
          List.replicate 6 SEC_F) m = (D, true)
      ∧ D.state = DEMOD_UNSYNCD ∧ D.len = 1 ∧ D.parityBits = 0
      ∧ D.output 0 = b0 + 2 * b1 + 4 * b2 + 8 * more.headD 0 := by
  have hz : PatternNibbles (List.replicate 5 SEC_F) ++ IdleLow m =
      0 :: 0 :: 0 :: ([0, 0, 0, 0, 0, 0, 0] ++ IdleLow m) := by
    simp [PatternNibbles, List.replicate, SEC_F]
  have hr : List.replicate 6 SEC_F = SEC_F :: List.replicate 5 SEC_F := rfl
  rw [hr]
  rcases hmore with rfl | ⟨b3, h3, rfl⟩
  · have hbs : ∀ x ∈ [b1, b2], x < 2 := by
      intro x hx; simp at hx; rcases hx with rfl | rfl <;> assumption
    obtain ⟨D, e, s, g⟩ := Manchester_receive_bits out 0x08 b0 [b1, b2]
      (List.replicate 5 SEC_F) m _ h0 hbs hz (Or.inr (by simp [RegStep]))
    refine ⟨D, e, s, ?_, ?_, ?_⟩
    · have h := congrArg ByteRegs.byteCnt g
      simpa [DemodRegs, RegStep] using h
    · have h := congrArg ByteRegs.parityBits g
      simpa [DemodRegs, RegStep] using h
    · have h := congrArg ByteRegs.output g
      simp only [DemodRegs] at h
      rw [h]
      simp [RegStep, bufSet]
      omega
  · have hbs : ∀ x ∈ [b1, b2, b3], x < 2 := by
      intro x hx; simp at hx; rcases hx with rfl | rfl | rfl <;> assumption
    obtain ⟨D, e, s, g⟩ := Manchester_receive_bits out 0x08 b0 [b1, b2, b3]
      (List.replicate 5 SEC_F) m _ h0 hbs hz (Or.inr (by simp [RegStep]))
    refine ⟨D, e, s, ?_, ?_, ?_⟩
    · have h := congrArg ByteRegs.byteCnt g
      simpa [DemodRegs, RegStep] using h
    · have h := congrArg ByteRegs.parityBits g
      simpa [DemodRegs, RegStep] using h
    · have h := congrArg ByteRegs.output g
      simp only [DemodRegs] at h
      rw [h]
      simp [RegStep, bufSet]
      omega

theorem Strange_eq :
    CodeStrangeAnswerAsTag =
      [0x08, SEC_D] ++ ManchesterSymbols (0 :: 0 :: 1 :: []) ++ List.replicate 6 SEC_F := by
  decide

set_option maxRecDepth 1000000 in
/-- C2 fails as stated. The pattern of the frame `[0x26, 0x93]` with parity word 2, read
as 4-bit samples from its first byte on, does not complete a frame; followed by idle
samples it completes one whose first byte is 0xc4; the patterns of the 4-bit answer 0xA
and of the strange answer, read the same way, complete none; and where the frame is
decoded (pattern without its preamble byte, three idle samples after it) `parityBits` is
1, not 2. -/
theorem C2_counterexample :
    (ManchesterRun (DemodReset (fun _ => 0))
        (PatternNibbles (CodeIso14443aAsTagPar [0x26, 0x93] 2))).2 = false
    ∧ (ManchesterRun (DemodReset (fun _ => 0))
        (PatternNibbles (CodeIso14443aAsTagPar [0x26, 0x93] 2) ++ IdleLow 4)).1.output 0 = 0xc4
    ∧ (ManchesterRun (DemodReset (fun _ => 0))
        (PatternNibbles (Code4bitAnswerAsTag 0xA) ++ IdleLow 4)).2 = false
    ∧ (ManchesterRun (DemodReset (fun _ => 0))
        (PatternNibbles CodeStrangeAnswerAsTag ++ IdleLow 4)).2 = false
    ∧ (ManchesterReceive (fun _ => 0) (CodeIso14443aAsTagPar [0x26, 0x93] 2) 0).2 = false
    ∧ (ManchesterReceive (fun _ => 0) (CodeIso14443aAsTagPar [0x26, 0x93] 2) 3).2 = true
    ∧ (ManchesterReceive (fun _ => 0)
        (CodeIso14443aAsTagPar [0x26, 0x93] 2) 3).1.parityBits = 1 := by
  decide

/-- C2 as amended: the tag patterns are decoded when they are fed without their first byte
(the correction-bit preamble), as 4-bit samples, to `ManchesterDecoding` from the reset
`Demod`. For every non-empty byte sequence with its parity word the pattern of
`CodeIso14443aAsTagPar`, followed by at least three idle samples, yields frame-complete
with the original bytes, `len` equal to the input length, `Demod` back in `DEMOD_UNSYNCD`
and the parity bits in the reverse order (for at most 32 bytes, bit `len - 1 - i` of
`parityBits` is bit `i` of the parity word and no higher bit is set). The patterns of
`Code4bitAnswerAsTag` and `CodeStrangeAnswerAsTag` yield frame-complete with one byte, the
4 low bits of `cmd` respectively the 3 bits 0,0,1 right-aligned (first bit at bit 0), and
`parityBits = 0`. -/
theorem C2_manchester_roundtrip (cmd : List Nat) (dwParity m m2 c4 : Nat)
    (output : Nat → Nat) (hlen : 1 ≤ cmd.length) (hbytes : ∀ b ∈ cmd, b < 256)
    (hm : 3 ≤ m) :
    ((ManchesterReceive output (CodeIso14443aAsTagPar cmd dwParity) m).2 = true
      ∧ (ManchesterReceive output (CodeIso14443aAsTagPar cmd dwParity) m).1.state
          = DEMOD_UNSYNCD
      ∧ (ManchesterReceive output (CodeIso14443aAsTagPar cmd dwParity) m).1.len = cmd.length
      ∧ (∀ i, i < cmd.length →
          (ManchesterReceive output (CodeIso14443aAsTagPar cmd dwParity) m).1.output i
            = cmd.getD i 0)
      ∧ (cmd.length ≤ 32 →
          (ManchesterReceive output (CodeIso14443aAsTagPar cmd dwParity) m).1.parityBits
            < 2 ^ cmd.length
          ∧ ∀ i, i < cmd.length →
            (ManchesterReceive output
              (CodeIso14443aAsTagPar cmd dwParity) m).1.parityBits.testBit
                (cmd.length - 1 - i) = dwParity.testBit i))
    ∧ ((ManchesterReceive output (Code4bitAnswerAsTag c4) m2).2 = true
      ∧ (ManchesterReceive output (Code4bitAnswerAsTag c4) m2).1.state = DEMOD_UNSYNCD
      ∧ (ManchesterReceive output (Code4bitAnswerAsTag c4) m2).1.len = 1
      ∧ (ManchesterReceive output (Code4bitAnswerAsTag c4) m2).1.output 0 = c4 % 16
      ∧ (ManchesterReceive output (Code4bitAnswerAsTag c4) m2).1.parityBits = 0)
    ∧ ((ManchesterReceive output CodeStrangeAnswerAsTag m2).2 = true
      ∧ (ManchesterReceive output CodeStrangeAnswerAsTag m2).1.state = DEMOD_UNSYNCD
      ∧ (ManchesterReceive output CodeStrangeAnswerAsTag m2).1.len = 1
      ∧ (ManchesterReceive output CodeStrangeAnswerAsTag m2).1.output 0 = 4
      ∧ (ManchesterReceive output CodeStrangeAnswerAsTag m2).1.parityBits = 0) := by
  refine ⟨?_, ?_, ?_⟩
  · obtain ⟨D, e, hs, hb, hp, ho⟩ :=
      Manchester_receive_frame cmd dwParity m output hlen hbytes hm
    rw [e]
    refine ⟨rfl, hs, hb, ho, ?_⟩
    intro h32
    simp only [hp]
    exact ParityAcc_reversed dwParity cmd.length h32
  · have hl : LsbBits 4 (c4 % 256) =
        c4 % 256 % 2 :: (c4 % 256 / 2 % 2) :: (c4 % 256 / 2 / 2 % 2) ::
          [c4 % 256 / 2 / 2 / 2 % 2] := by
      simp [LsbBits]
    obtain ⟨D, e, hs, hb, hp, ho⟩ := Manchester_receive_short output (c4 % 256 % 2)
      (c4 % 256 / 2 % 2) (c4 % 256 / 2 / 2 % 2) [c4 % 256 / 2 / 2 / 2 % 2] m2
      (by omega) (by omega) (by omega) (Or.inr ⟨_, by omega, rfl⟩)
    rw [Code4bit_eq, hl, e]
    refine ⟨rfl, hs, hb, ?_, hp⟩
    simp only [ho, List.headD_cons]
    omega
  · obtain ⟨D, e, hs, hb, hp, ho⟩ := Manchester_receive_short output 0 0 1 [] m2
      (by omega) (by omega) (by omega) (Or.inl rfl)
    rw [Strange_eq, e]
    exact ⟨rfl, hs, hb, by simpa using ho, hp⟩

/-- C2 as amended, at a concrete input: the two-byte frame `[0x26, 0x93]` with parity
word 2 followed by three idle samples, and the 4-bit answer 0xA. -/
theorem C2_manchester_roundtrip_witness :
    (ManchesterReceive (fun _ => 0) (CodeIso14443aAsTagPar [0x26, 0x93] 2) 3).2 = true
    ∧ (ManchesterReceive (fun _ => 0) (Code4bitAnswerAsTag 0xA) 0).1.output 0 = 0xA % 16 :=
  ⟨(C2_manchester_roundtrip [0x26, 0x93] 2 3 0 0xA (fun _ => 0) (by decide) (by decide)
      (by decide)).1.1,
   (C2_manchester_roundtrip [0x26, 0x93] 2 3 0 0xA (fun _ => 0) (by decide) (by decide)
      (by decide)).2.1.2.2.2.1⟩

/-! ## One call of `MillerDecoding` in general -/

/-- The measurement is 0 (a drop) or 1. -/
theorem MillerSample_cases (U : UartT) (v : Nat) :
    MillerSample U v = 0 ∨ MillerSample U v = 1 := by
  unfold MillerSample MillerMeasure
  simp only
  split_ifs <;> simp

/-- A call with an empty sample buffer only stores the sample. -/
theorem MillerDecoding_empty (U : UartT) (v : Nat) (hbb : U.bitBuffer = 0) :
    MillerDecoding U v = ({ U with bitBuffer := v ^^^ 0xFF0 }, false) := by
  unfold MillerDecoding
  rw [if_pos hbb]

/-- The call that measures the first half of a bit period. -/
theorem MillerDecoding_first (U : UartT) (v : Nat) (hbb : U.bitBuffer ≠ 0)
    (hp : U.posCnt = 0) (hst : U.state ≠ STATE_UNSYNCD) :
    MillerDecoding U v =
      ({ U with bitBuffer := MillerShiftIn U.bitBuffer v, posCnt := 1,
                drop := if MillerSample U v = 0 then DROP_FIRST_HALF else U.drop }, false) := by
  rcases U with ⟨st, sr, bc, byc, bmax, pc, sb, pb, smp, hc, bb, dr, out⟩
  simp only at hbb hp hst
  subst hp
  unfold MillerDecoding
  rw [if_neg hbb]
  simp only [hst, ne_eq, not_false_eq_true, if_true, MillerSynced, MillerSample, MillerShiftIn,
    Nat.zero_add]
  split_ifs <;> rfl

/-- The state of `Uart` on which the `switch` of the second-half branch runs. -/
theorem MillerDecoding_second (U : UartT) (v : Nat) (hbb : U.bitBuffer ≠ 0)
    (hp : U.posCnt ≠ 0) (hst : U.state ≠ STATE_UNSYNCD) :
    MillerDecoding U v =
      MillerStore (MillerSwitch (MillerSecondHalf U v)).1
        (MillerSwitch (MillerSecondHalf U v)).2
    ∧ MillerEOC U v = (MillerSwitch (MillerSecondHalf U v)).2 := by
  rcases U with ⟨st, sr, bc, byc, bmax, pc, sb, pb, smp, hc, bb, dr, out⟩
  simp only at hbb hp hst
  have hp1 : ¬ pc + 1 = 1 := by omega
  unfold MillerDecoding MillerEOC
  rw [if_neg hbb, if_neg hbb]
  simp only [hst, ne_eq, not_false_eq_true, if_true, MillerSynced, MillerSample, MillerShiftIn,
    MillerSecondHalf, hp1, if_false]
  generalize MillerMeasure ((bb <<< 4) % 2 ^ 32 ^^^ v) sb = m
  by_cases hm : m = 0
  · by_cases hd : dr = DROP_NONE
    · subst hd
      simp [hm]
    · simp [hm, hd]
  · simp [hm]

/-- The calls in which `EOC` stays `FALSE` whatever is measured: an empty sample buffer,
the unsynced search and the first half of a bit period. -/
theorem MillerEOC_false (U : UartT) (v : Nat)
    (h : U.bitBuffer = 0 ∨ U.state = STATE_UNSYNCD ∨ U.posCnt = 0) : MillerEOC U v = false := by
  rcases U with ⟨st, sr, bc, byc, bmax, pc, sb, pb, smp, hc, bb, dr, out⟩
  simp only at h
  unfold MillerEOC
  by_cases hbb : bb = 0
  · rw [if_pos hbb]
  · rw [if_neg hbb]
    by_cases hst : st = STATE_UNSYNCD
    · simp [hst]
    · rcases h with h | h | h
      · exact absurd h hbb
      · exact absurd h hst
      · subst h
        simp [hst]

/-- The `switch` sets `EOC` exactly in `STATE_MILLER_Z` and `STATE_MILLER_Y` with no drop
in the period, and `Uart` is then in `STATE_UNSYNCD`. -/
theorem MillerSwitch_eoc (U : UartT) :
    ((MillerSwitch U).2 = true ↔
      (U.state = STATE_MILLER_Z ∨ U.state = STATE_MILLER_Y) ∧ U.drop = DROP_NONE)
    ∧ ((MillerSwitch U).2 = true → (MillerSwitch U).1.state = STATE_UNSYNCD) := by
  rcases U with ⟨st, sr, bc, byc, bmax, pc, sb, pb, smp, hc, bb, dr, out⟩
  cases st <;> cases dr <;> simp [MillerSwitch]

/-- What `MillerStore` returns: `TRUE` needs `EOC` and leaves at least one stored byte;
the state is not touched, and without `EOC` the result is `FALSE`. -/
theorem MillerStore_ret (U : UartT) (e : Bool) :
    (MillerStore U e).1.state = U.state
    ∧ ((MillerStore U e).2 = true → e = true ∧ 1 ≤ (MillerStore U e).1.byteCnt) := by
  rcases U with ⟨st, sr, bc, byc, bmax, pc, sb, pb, smp, hc, bb, dr, out⟩
  unfold MillerStore
  simp only
  split_ifs with h1 h2 h3
  · exact ⟨rfl, fun _ => ⟨h1.2.1, h1.2.2⟩⟩
  · exact ⟨rfl, fun _ => ⟨h3, by simp⟩⟩
  · exact ⟨rfl, fun h => by simp at h⟩
  · exact ⟨rfl, fun h => by simp at h⟩

/-- A call of `MillerDecoding` outside the second half of a bit period returns `FALSE`. -/
theorem MillerDecoding_ret_false (U : UartT) (v : Nat)
    (h : U.bitBuffer = 0 ∨ U.state = STATE_UNSYNCD ∨ U.posCnt = 0) :
    (MillerDecoding U v).2 = false := by
  by_cases hbb : U.bitBuffer = 0
  · rw [MillerDecoding_empty U v hbb]
  · by_cases hst : U.state = STATE_UNSYNCD
    · rcases U with ⟨st, sr, bc, byc, bmax, pc, sb, pb, smp, hc, bb, dr, out⟩
      simp only at hbb hst
      subst hst
      unfold MillerDecoding MillerUnsynced
      rw [if_neg hbb]
      simp only [ne_eq, not_true_eq_false, if_false]
      split_ifs <;> rfl
    · rcases h with h | h | h
      · exact absurd h hbb
      · exact absurd h hst
      · rw [MillerDecoding_first U v hbb h hst]

/-- What `MillerStore` leaves alone, and the drop flag it clears. -/
theorem MillerStore_fields (U : UartT) (e : Bool) :
    (MillerStore U e).1.posCnt = U.posCnt ∧ (MillerStore U e).1.drop = DROP_NONE
    ∧ (MillerStore U e).1.highCnt = U.highCnt ∧ (MillerStore U e).1.syncBit = U.syncBit
    ∧ (MillerStore U e).1.bitBuffer = U.bitBuffer := by
  rcases U with ⟨st, sr, bc, byc, bmax, pc, sb, pb, smp, hc, bb, dr, out⟩
  unfold MillerStore
  simp only
  split_ifs <;> exact ⟨rfl, rfl, rfl, rfl, rfl⟩

/-- The `switch` touches neither `posCnt` nor the drop flag. -/
theorem MillerSwitch_fields (U : UartT) :
    (MillerSwitch U).1.posCnt = U.posCnt ∧ (MillerSwitch U).1.drop = U.drop := by
  rcases U with ⟨st, sr, bc, byc, bmax, pc, sb, pb, smp, hc, bb, dr, out⟩
  cases st <;> cases dr <;> simp [MillerSwitch]

/-- The `switch` in `STATE_ERROR_WAIT`. -/
theorem MillerSwitch_error_wait (U : UartT) (h : U.state = STATE_ERROR_WAIT) :
    (MillerSwitch U).2 = false
    ∧ (U.drop = DROP_NONE →
        (MillerSwitch U).1.state = STATE_UNSYNCD ∧ (MillerSwitch U).1.highCnt = 6)
    ∧ (U.drop ≠ DROP_NONE → (MillerSwitch U).1.state = STATE_ERROR_WAIT) := by
  rcases U with ⟨st, sr, bc, byc, bmax, pc, sb, pb, smp, hc, bb, dr, out⟩
  simp only at h
  subst h
  cases dr <;> simp [MillerSwitch]

/-- The call that measures the second half of a bit period ends the period. -/
theorem MillerDecoding_second_fields (U : UartT) (v : Nat) (hbb : U.bitBuffer ≠ 0)
    (hp : U.posCnt ≠ 0) (hst : U.state ≠ STATE_UNSYNCD) :
    (MillerDecoding U v).1.posCnt = 0 ∧ (MillerDecoding U v).1.drop = DROP_NONE := by
  rw [(MillerDecoding_second U v hbb hp hst).1]
  obtain ⟨f1, f2, -⟩ := MillerStore_fields (MillerSwitch (MillerSecondHalf U v)).1
    (MillerSwitch (MillerSecondHalf U v)).2
  refine ⟨?_, f2⟩
  rw [f1, (MillerSwitch_fields _).1]
  rfl

/-- The unsynced search ends in `STATE_UNSYNCD` or `STATE_START_OF_COMMUNICATION`. -/
theorem MillerDecoding_unsynced_state (U : UartT) (v : Nat) (hst : U.state = STATE_UNSYNCD) :
    (MillerDecoding U v).1.state = STATE_UNSYNCD
    ∨ (MillerDecoding U v).1.state = STATE_START_OF_COMMUNICATION := by
  rcases U with ⟨st, sr, bc, byc, bmax, pc, sb, pb, smp, hc, bb, dr, out⟩
  simp only at hst
  subst hst
  unfold MillerDecoding MillerUnsynced
  simp only [ne_eq, not_true_eq_false, if_false]
  split_ifs <;> simp

/-- Without `EOC` the call returns `FALSE`. -/
theorem MillerStore_no_eoc (U : UartT) : (MillerStore U false).2 = false := by
  cases h : (MillerStore U false).2 with
  | false => rfl
  | true => exact absurd ((MillerStore_ret U false).2 h).1 (by simp)

/-- The second-half record of a call made in `STATE_ERROR_WAIT`. -/
theorem MillerSecondHalf_error_wait (U : UartT) (v : Nat) (h : U.state = STATE_ERROR_WAIT) :
    (MillerSecondHalf U v).state = STATE_ERROR_WAIT
    ∧ ((MillerSecondHalf U v).drop = DROP_NONE ↔
        MillerSample U v ≠ 0 ∧ U.drop = DROP_NONE) := by
  rcases U with ⟨st, sr, bc, byc, bmax, pc, sb, pb, smp, hc, bb, dr, out⟩
  simp only at h
  subst h
  unfold MillerSecondHalf
  simp only
  refine ⟨by split_ifs <;> rfl, ?_⟩
  by_cases hm : MillerSample
      ⟨STATE_ERROR_WAIT, sr, bc, byc, bmax, pc, sb, pb, smp, hc, bb, dr, out⟩ v = 0
  · cases dr <;> simp [hm]
  · simp [hm]

/-- The call that measures the first half of a bit period, field by field. -/
theorem MillerDecoding_first_fields (U : UartT) (v : Nat) (hbb : U.bitBuffer ≠ 0)
    (hp : U.posCnt = 0) (hst : U.state ≠ STATE_UNSYNCD) :
    (MillerDecoding U v).2 = false
    ∧ (MillerDecoding U v).1.state = U.state
    ∧ (MillerDecoding U v).1.posCnt = 1
    ∧ (MillerDecoding U v).1.drop =
        (if MillerSample U v = 0 then DROP_FIRST_HALF else U.drop) := by
  rw [MillerDecoding_first U v hbb hp hst]
  exact ⟨rfl, rfl, rfl, rfl⟩

/-- C11: a call of `MillerDecoding` returns frame-complete (`TRUE`) only if the call set
`EOC` (End of Communication detected in this very call) and, on return, at least one byte
is stored (`byteCnt >= 1`); `Uart` is then in `STATE_UNSYNCD`. -/
theorem C11_frame_complete (U : UartT) (bit : Nat) (h : (MillerDecoding U bit).2 = true) :
    MillerEOC U bit = true
    ∧ 1 ≤ (MillerDecoding U bit).1.byteCnt
    ∧ (MillerDecoding U bit).1.state = STATE_UNSYNCD := by
  by_cases hc : U.bitBuffer = 0 ∨ U.state = STATE_UNSYNCD ∨ U.posCnt = 0
  · rw [MillerDecoding_ret_false U bit hc] at h
    exact absurd h (by simp)
  · have hbb : U.bitBuffer ≠ 0 := fun e => hc (Or.inl e)
    have hst : U.state ≠ STATE_UNSYNCD := fun e => hc (Or.inr (Or.inl e))
    have hp : U.posCnt ≠ 0 := fun e => hc (Or.inr (Or.inr e))
    obtain ⟨e1, e2⟩ := MillerDecoding_second U bit hbb hp hst
    rw [e1] at h ⊢
    rw [e2]
    obtain ⟨s1, s2⟩ := MillerStore_ret _ _
    obtain ⟨q1, q2⟩ := s2 h
    exact ⟨q1, q2, s1.trans ((MillerSwitch_eoc _).2 q1)⟩

/-- C11 at a concrete call: in `STATE_MILLER_Z` with one byte stored and `bitCnt = 1`, the
second half of a period without a drop completes the frame. -/
theorem C11_frame_complete_witness :
    (MillerDecoding ⟨STATE_MILLER_Z, 0x26, 1, 1, 32, 1, 16, 0, 0, 8, 0xFFF, DROP_NONE,
        fun _ => 0⟩ 15).2 = true
    ∧ MillerEOC ⟨STATE_MILLER_Z, 0x26, 1, 1, 32, 1, 16, 0, 0, 8, 0xFFF, DROP_NONE,
        fun _ => 0⟩ 15 = true
    ∧ 1 ≤ (MillerDecoding ⟨STATE_MILLER_Z, 0x26, 1, 1, 32, 1, 16, 0, 0, 8, 0xFFF, DROP_NONE,
        fun _ => 0⟩ 15).1.byteCnt
    ∧ (MillerDecoding ⟨STATE_MILLER_Z, 0x26, 1, 1, 32, 1, 16, 0, 0, 8, 0xFFF, DROP_NONE,
        fun _ => 0⟩ 15).1.state = STATE_UNSYNCD :=
  ⟨by decide, C11_frame_complete _ 15 (by decide)⟩

/-- C13: a drop in both halves of one bit period. The first half of the period is
either measured in a synced decoding state (`posCnt = 0`, the measurement is 0) or is the
dip on which the previous call synced (`STATE_START_OF_COMMUNICATION` entered with
`posCnt = 1`); if the call that measures the second half also sees a drop, `Uart` is in
`STATE_ERROR_WAIT` after it, and neither call returns frame-complete. Both calls find
samples in `bitBuffer`, so that the measurements are made. -/
theorem C13_double_drop (U : UartT) (s1 s2 : Nat)
    (hb1 : U.bitBuffer ≠ 0) (hb2 : (MillerDecoding U s1).1.bitBuffer ≠ 0)
    (hfirst :
      ((U.state = STATE_START_OF_COMMUNICATION ∨ U.state = STATE_MILLER_X ∨
          U.state = STATE_MILLER_Y ∨ U.state = STATE_MILLER_Z) ∧
        U.posCnt = 0 ∧ MillerSample U s1 = 0)
      ∨ (U.state = STATE_UNSYNCD ∧
          (MillerDecoding U s1).1.state = STATE_START_OF_COMMUNICATION ∧
          (MillerDecoding U s1).1.posCnt = 1))
    (hsecond : MillerSample (MillerDecoding U s1).1 s2 = 0) :
    (MillerDecoding U s1).2 = false
    ∧ (MillerDecoding (MillerDecoding U s1).1 s2).1.state = STATE_ERROR_WAIT
    ∧ (MillerDecoding (MillerDecoding U s1).1 s2).2 = false := by
  -- after the first call: synced, in the second half, with a drop recorded
  have key : (MillerDecoding U s1).2 = false ∧
      (MillerDecoding U s1).1.state ≠ STATE_UNSYNCD ∧
      (MillerDecoding U s1).1.posCnt ≠ 0 ∧
      (MillerDecoding U s1).1.drop ≠ DROP_NONE := by
    rcases hfirst with ⟨hst, hp, hm⟩ | ⟨hst, h1, h2⟩
    · have hst2 : U.state ≠ STATE_UNSYNCD := by
        rcases hst with h | h | h | h <;> rw [h] <;> simp
      rw [MillerDecoding_first U s1 hb1 hp hst2]
      simp [hm, hst2]
    · refine ⟨MillerDecoding_ret_false U s1 (Or.inr (Or.inl hst)), by rw [h1]; simp,
        by rw [h2]; simp, ?_⟩
      rcases U with ⟨st, sr, bc, byc, bmax, pc, sb, pb, smp, hc, bb, dr, out⟩
      simp only at hb1 hst
      subst hst
      revert h1
      unfold MillerDecoding MillerUnsynced
      rw [if_neg hb1]
      simp only [ne_eq, not_true_eq_false, if_false]
      split_ifs <;> simp
  obtain ⟨k1, k2, k3, k4⟩ := key
  generalize MillerDecoding U s1 = r at *
  rcases r with ⟨V, b⟩
  simp only at k1 k2 k3 k4 hb2 hsecond ⊢
  obtain ⟨e1, -⟩ := MillerDecoding_second V s2 hb2 k3 k2
  rw [e1]
  have hs : (MillerSecondHalf V s2).state = STATE_ERROR_WAIT ∧
      (MillerSecondHalf V s2).drop ≠ DROP_NONE := by
    simp [MillerSecondHalf, hsecond, k4]
  obtain ⟨w1, -, w3⟩ := MillerSwitch_error_wait _ hs.1
  refine ⟨k1, ((MillerStore_ret _ _).1).trans (w3 hs.2), ?_⟩
  rw [w1]
  exact MillerStore_no_eoc _

/-- C13 at concrete periods: in `STATE_MILLER_X` with `syncBit = 0x10`, the samples 7 and
3 show a drop in both halves; and an unsynced `Uart` that syncs on the dip of the sample
`0111` with the sample 0 and then measures a drop on the sample 15. -/
theorem C13_double_drop_witness :
    MillerSample ⟨STATE_MILLER_X, 0, 3, 0, 32, 0, 16, 0, 0, 8, 0xFFF, DROP_NONE, fun _ => 0⟩ 7
      = 0
    ∧ (MillerDecoding (MillerDecoding
        ⟨STATE_MILLER_X, 0, 3, 0, 32, 0, 16, 0, 0, 8, 0xFFF, DROP_NONE, fun _ => 0⟩ 7).1
          3).1.state = STATE_ERROR_WAIT
    ∧ (MillerDecoding (MillerDecoding
        ⟨STATE_UNSYNCD, 0, 0, 0, 32, 0, 0, 0, 0, 8, 0xFFFF7, DROP_NONE, fun _ => 0⟩ 0).1
          15).1.state = STATE_ERROR_WAIT :=
  ⟨by decide,
   (C13_double_drop
      ⟨STATE_MILLER_X, 0, 3, 0, 32, 0, 16, 0, 0, 8, 0xFFF, DROP_NONE, fun _ => 0⟩ 7 3
      (by decide) (by decide) (Or.inl ⟨by decide, by decide, by decide⟩) (by decide)).2.1,
   (C13_double_drop
      ⟨STATE_UNSYNCD, 0, 0, 0, 32, 0, 0, 0, 0, 8, 0xFFFF7, DROP_NONE, fun _ => 0⟩ 0 15
      (by decide) (by decide) (Or.inr ⟨by decide, by decide, by decide⟩) (by decide)).2.1⟩

/-- C14: `STATE_ERROR_WAIT`, bit period by bit period. A period is two measuring calls
from `posCnt = 0` with no drop recorded yet. Neither call returns frame-complete; after
the period `Uart` is in `STATE_UNSYNCD` (with `highCnt = 6`) when neither half showed a
drop, and still in `STATE_ERROR_WAIT` when a half did; either way the next period starts
with `posCnt = 0` and no drop recorded. No call at all returns frame-complete from
`STATE_ERROR_WAIT`, and the calls that enter `STATE_ERROR_WAIT` leave `posCnt = 0` and no
drop recorded. -/
theorem C14_error_wait (U : UartT) (s1 s2 : Nat)
    (hst : U.state = STATE_ERROR_WAIT) (hp : U.posCnt = 0) (hd : U.drop = DROP_NONE)
    (hb1 : U.bitBuffer ≠ 0) (hb2 : (MillerDecoding U s1).1.bitBuffer ≠ 0) :
    (MillerDecoding U s1).2 = false
    ∧ (MillerDecoding U s1).1.state = STATE_ERROR_WAIT
    ∧ (MillerDecoding (MillerDecoding U s1).1 s2).2 = false
    ∧ (MillerDecoding (MillerDecoding U s1).1 s2).1.posCnt = 0
    ∧ (MillerDecoding (MillerDecoding U s1).1 s2).1.drop = DROP_NONE
    ∧ (MillerSample U s1 = 1 ∧ MillerSample (MillerDecoding U s1).1 s2 = 1 →
        (MillerDecoding (MillerDecoding U s1).1 s2).1.state = STATE_UNSYNCD
        ∧ (MillerDecoding (MillerDecoding U s1).1 s2).1.highCnt = 6)
    ∧ (MillerSample U s1 = 0 ∨ MillerSample (MillerDecoding U s1).1 s2 = 0 →
        (MillerDecoding (MillerDecoding U s1).1 s2).1.state = STATE_ERROR_WAIT)
    ∧ (∀ (V : UartT) (s : Nat), V.state = STATE_ERROR_WAIT → (MillerDecoding V s).2 = false)
    ∧ (∀ (V : UartT) (s : Nat), V.state ≠ STATE_ERROR_WAIT →
        (MillerDecoding V s).1.state = STATE_ERROR_WAIT →
        (MillerDecoding V s).1.posCnt = 0 ∧ (MillerDecoding V s).1.drop = DROP_NONE) := by
  have hst2 : U.state ≠ STATE_UNSYNCD := by rw [hst]; simp
  have gen1 : ∀ (V : UartT) (s : Nat), V.state = STATE_ERROR_WAIT →
      (MillerDecoding V s).2 = false := by
    intro V s hV
    by_cases hc : V.bitBuffer = 0 ∨ V.state = STATE_UNSYNCD ∨ V.posCnt = 0
    · exact MillerDecoding_ret_false V s hc
    · rw [(MillerDecoding_second V s (fun e => hc (Or.inl e)) (fun e => hc (Or.inr (Or.inr e)))
        (fun e => hc (Or.inr (Or.inl e)))).1,
        (MillerSwitch_error_wait _ (MillerSecondHalf_error_wait V s hV).1).1]
      exact MillerStore_no_eoc _
  have gen2 : ∀ (V : UartT) (s : Nat), V.state ≠ STATE_ERROR_WAIT →
      (MillerDecoding V s).1.state = STATE_ERROR_WAIT →
      (MillerDecoding V s).1.posCnt = 0 ∧ (MillerDecoding V s).1.drop = DROP_NONE := by
    intro V s hV hr
    by_cases hbb : V.bitBuffer = 0
    · rw [MillerDecoding_empty V s hbb] at hr
      exact absurd hr hV
    by_cases hu : V.state = STATE_UNSYNCD
    · rcases MillerDecoding_unsynced_state V s hu with h | h <;> rw [h] at hr <;> simp at hr
    by_cases hpc : V.posCnt = 0
    · rw [MillerDecoding_first V s hbb hpc hu] at hr
      exact absurd hr hV
    exact MillerDecoding_second_fields V s hbb hpc hu
  obtain ⟨a1, a2, a3, a4⟩ := MillerDecoding_first_fields U s1 hb1 hp hst2
  generalize MillerDecoding U s1 = r at *
  rcases r with ⟨V, b⟩
  simp only at a1 a2 a3 a4 hb2 ⊢
  have hV : V.state = STATE_ERROR_WAIT := a2.trans hst
  have hV2 : V.state ≠ STATE_UNSYNCD := by rw [hV]; simp
  have hV3 : V.posCnt ≠ 0 := by omega
  obtain ⟨e2, -⟩ := MillerDecoding_second V s2 hb2 hV3 hV2
  obtain ⟨f1, f2⟩ := MillerDecoding_second_fields V s2 hb2 hV3 hV2
  obtain ⟨h1, h2⟩ := MillerSecondHalf_error_wait V s2 hV
  obtain ⟨w1, w2, w3⟩ := MillerSwitch_error_wait _ h1
  obtain ⟨q1, q2, q3, -⟩ := MillerStore_fields (MillerSwitch (MillerSecondHalf V s2)).1
    (MillerSwitch (MillerSecondHalf V s2)).2
  refine ⟨a1, hV, gen1 V s2 hV, f1, f2, ?_, ?_, gen1, gen2⟩
  · rintro ⟨m1, m2⟩
    have hdn := h2.2 ⟨by omega, by rw [a4]; simp [m1, hd]⟩
    rw [e2, (MillerStore_ret _ _).1, q3]
    exact w2 hdn
  · intro hm
    have hdn : (MillerSecondHalf V s2).drop ≠ DROP_NONE := by
      intro hx
      obtain ⟨x1, x2⟩ := h2.1 hx
      rcases hm with hm | hm
      · rw [a4] at x2
        simp [hm] at x2
      · exact x1 hm
    rw [e2, (MillerStore_ret _ _).1]
    exact w3 hdn

/-- C14 at concrete periods: from `STATE_ERROR_WAIT` with `syncBit = 0x10`, the samples
15, 15 (no drop) lead back to `STATE_UNSYNCD`, and the samples 7, 15 (a drop in the first
half) leave `Uart` in `STATE_ERROR_WAIT`. -/
theorem C14_error_wait_witness :
    (MillerDecoding (MillerDecoding
      ⟨STATE_ERROR_WAIT, 0, 3, 0, 32, 0, 16, 0, 0, 8, 0xFFF, DROP_NONE, fun _ => 0⟩ 15).1
        15).1.state = STATE_UNSYNCD
    ∧ (MillerDecoding (MillerDecoding
      ⟨STATE_ERROR_WAIT, 0, 3, 0, 32, 0, 16, 0, 0, 8, 0xFFF, DROP_NONE, fun _ => 0⟩ 7).1
        15).1.state = STATE_ERROR_WAIT :=
  ⟨((C14_error_wait
      ⟨STATE_ERROR_WAIT, 0, 3, 0, 32, 0, 16, 0, 0, 8, 0xFFF, DROP_NONE, fun _ => 0⟩ 15 15
      (by decide) (by decide) (by decide) (by decide) (by decide)).2.2.2.2.2.1
        ⟨by decide, by decide⟩).1,
   (C14_error_wait
      ⟨STATE_ERROR_WAIT, 0, 3, 0, 32, 0, 16, 0, 0, 8, 0xFFF, DROP_NONE, fun _ => 0⟩ 7 15
      (by decide) (by decide) (by decide) (by decide) (by decide)).2.2.2.2.2.2.1
        (Or.inl (by decide))⟩

/-- The second-half record ends a period in `STATE_MILLER_Z` or `STATE_MILLER_Y` without a
drop exactly when `Uart` was in that state with no drop recorded and none is measured. -/
theorem MillerSecondHalf_no_drop (U : UartT) (v : Nat) :
    (((MillerSecondHalf U v).state = STATE_MILLER_Z ∨
        (MillerSecondHalf U v).state = STATE_MILLER_Y) ∧
      (MillerSecondHalf U v).drop = DROP_NONE)
    ↔ ((U.state = STATE_MILLER_Z ∨ U.state = STATE_MILLER_Y) ∧ U.drop = DROP_NONE ∧
        MillerSample U v = 1) := by
  rcases MillerSample_cases U v with hm | hm
  · rcases U with ⟨st, sr, bc, byc, bmax, pc, sb, pb, smp, hc, bb, dr, out⟩
    unfold MillerSecondHalf
    simp only [hm]
    cases st <;> cases dr <;> simp
  · rcases U with ⟨st, sr, bc, byc, bmax, pc, sb, pb, smp, hc, bb, dr, out⟩
    unfold MillerSecondHalf
    simp only [hm]
    cases st <;> cases dr <;> simp

/-- C17 fails as stated. In the frame `[0x26]` with parity bit 0, received from the reset
`Uart`, the call on sample 32 sets `EOC` and returns frame-complete after a single period
without a drop: the period of samples 31 and 32 shows no drop, and the period before it
(samples 29 and 30, measured in `STATE_MILLER_Z`) has a drop in its first half. -/
theorem C17_counterexample :
    (MillerFeed (UartReset (fun _ => 0) 32)
      ((MillerDelayedSamples 8 (CodeIso14443aAsReaderPar [0x26] 0)).take 29)).state
      = STATE_MILLER_Z
    ∧ (MillerFeed (UartReset (fun _ => 0) 32)
      ((MillerDelayedSamples 8 (CodeIso14443aAsReaderPar [0x26] 0)).take 29)).posCnt = 0
    ∧ MillerSample (MillerFeed (UartReset (fun _ => 0) 32)
        ((MillerDelayedSamples 8 (CodeIso14443aAsReaderPar [0x26] 0)).take 29)) 7 = 0
    ∧ (MillerFeed (UartReset (fun _ => 0) 32)
      ((MillerDelayedSamples 8 (CodeIso14443aAsReaderPar [0x26] 0)).take 31)).state
      = STATE_MILLER_Z
    ∧ (MillerFeed (UartReset (fun _ => 0) 32)
      ((MillerDelayedSamples 8 (CodeIso14443aAsReaderPar [0x26] 0)).take 31)).posCnt = 0
    ∧ (MillerDelayedSamples 8 (CodeIso14443aAsReaderPar [0x26] 0)).drop 29 =
        [7, 15, 15, 15, 15, 15, 15, 15, 15, 15]
    ∧ MillerSample (MillerFeed (UartReset (fun _ => 0) 32)
        ((MillerDelayedSamples 8 (CodeIso14443aAsReaderPar [0x26] 0)).take 31)) 15 = 1
    ∧ MillerSample (MillerFeed (UartReset (fun _ => 0) 32)
        ((MillerDelayedSamples 8 (CodeIso14443aAsReaderPar [0x26] 0)).take 32)) 15 = 1
    ∧ MillerEOC (MillerFeed (UartReset (fun _ => 0) 32)
        ((MillerDelayedSamples 8 (CodeIso14443aAsReaderPar [0x26] 0)).take 32)) 15 = true
    ∧ (MillerDecoding (MillerFeed (UartReset (fun _ => 0) 32)
        ((MillerDelayedSamples 8 (CodeIso14443aAsReaderPar [0x26] 0)).take 32)) 15).2 = true := by
  decide

/-- C17 as amended: a call of `MillerDecoding` sets `EOC` exactly when it measures the
second half of a bit period (`posCnt` not 0 on entry) in `STATE_MILLER_Z` or
`STATE_MILLER_Y` and the period shows no drop in either half, so that after a logic 0 a
single period without a drop is the End of Communication. In `STATE_MILLER_X` such a
period is read as a logic 0 and leads to `STATE_MILLER_Y` without `EOC`; and
`STATE_MILLER_Y` is entered at the end of a period only from `STATE_MILLER_X` by a period
without a drop, so that there the period that sets `EOC` is the second of two in a row. -/
theorem C17_eoc_condition (U : UartT) (bit : Nat) :
    (MillerEOC U bit = true ↔
      U.bitBuffer ≠ 0 ∧ U.posCnt ≠ 0 ∧
      (U.state = STATE_MILLER_Z ∨ U.state = STATE_MILLER_Y) ∧
      U.drop = DROP_NONE ∧ MillerSample U bit = 1)
    ∧ (U.bitBuffer ≠ 0 → U.posCnt ≠ 0 → U.state = STATE_MILLER_X → U.drop = DROP_NONE →
        MillerSample U bit = 1 →
        (MillerDecoding U bit).1.state = STATE_MILLER_Y ∧ MillerEOC U bit = false)
    ∧ (U.bitBuffer ≠ 0 → U.posCnt ≠ 0 → U.state ≠ STATE_UNSYNCD →
        (MillerDecoding U bit).1.state = STATE_MILLER_Y →
        U.state = STATE_MILLER_X ∧ U.drop = DROP_NONE ∧ MillerSample U bit = 1) := by
  refine ⟨?_, ?_, ?_⟩
  · by_cases hc : U.bitBuffer = 0 ∨ U.state = STATE_UNSYNCD ∨ U.posCnt = 0
    · rw [MillerEOC_false U bit hc]
      constructor
      · intro h
        exact absurd h (by simp)
      · rintro ⟨h1, h2, h3, -⟩
        rcases hc with h | h | h
        · exact absurd h h1
        · rcases h3 with h3 | h3 <;> rw [h3] at h <;> simp at h
        · exact absurd h h2
    · have hbb : U.bitBuffer ≠ 0 := fun e => hc (Or.inl e)
      have hst : U.state ≠ STATE_UNSYNCD := fun e => hc (Or.inr (Or.inl e))
      have hp : U.posCnt ≠ 0 := fun e => hc (Or.inr (Or.inr e))
      rw [(MillerDecoding_second U bit hbb hp hst).2, (MillerSwitch_eoc _).1,
        MillerSecondHalf_no_drop]
      constructor
      · rintro ⟨h1, h2, h3⟩
        exact ⟨hbb, hp, h1, h2, h3⟩
      · rintro ⟨-, -, h1, h2, h3⟩
        exact ⟨h1, h2, h3⟩
  · intro hbb hp hst hd hm
    have hst2 : U.state ≠ STATE_UNSYNCD := by rw [hst]; simp
    obtain ⟨e1, e2⟩ := MillerDecoding_second U bit hbb hp hst2
    rw [e1, e2, (MillerStore_ret _ _).1]
    rcases U with ⟨st, sr, bc, byc, bmax, pc, sb, pb, smp, hc, bb, dr, out⟩
    simp only at hst hd hm
    subst hst hd
    simp [MillerSecondHalf, hm, MillerSwitch]
  · intro hbb hp hst hr
    obtain ⟨e1, -⟩ := MillerDecoding_second U bit hbb hp hst
    rw [e1, (MillerStore_ret _ _).1] at hr
    rcases MillerSample_cases U bit with hm | hm
    · rcases U with ⟨st, sr, bc, byc, bmax, pc, sb, pb, smp, hc, bb, dr, out⟩
      simp only [MillerSecondHalf, hm] at hr ⊢
      revert hr
      cases st <;> cases dr <;> simp [MillerSwitch]
    · rcases U with ⟨st, sr, bc, byc, bmax, pc, sb, pb, smp, hc, bb, dr, out⟩
      simp only [MillerSecondHalf, hm] at hr ⊢
      revert hr
      cases st <;> cases dr <;> simp [MillerSwitch]

/-! ## The sync search -/

/-- The sync search looks at bit 3 of the sample buffer only. -/
theorem MillerSync_congr (nb bit : Nat) : MillerSync nb bit = MillerSync (nb &&& 8) bit := by
  have e : nb &&& 8 &&& 8 = nb &&& 8 := by
    rw [Nat.and_assoc, Nat.and_self]
  unfold MillerSync
  rw [e]

/-- The sync search on every inverted nibble with a drop: the chosen `syncBit` and
`posCnt`. -/
theorem MillerSync_table (nb bit : Nat) (h0 : 0 < bit) (h16 : bit < 16) :
    (MillerSync nb bit).1 =
      (if bit = 1 ∧ nb &&& 8 ≠ 0 then 8 else MillerSyncChoice.getD bit 0) <<< 4
    ∧ (MillerSync nb bit).2.2 = (if bit = 1 ∧ nb &&& 8 ≠ 0 then 0 else 1) := by
  rw [MillerSync_congr]
  have h := and_8_eq nb
  by_cases c : nb / 8 % 2 = 1
  · rw [if_pos c] at h
    rw [h]
    interval_cases bit <;> decide
  · rw [if_neg c] at h
    rw [h]
    interval_cases bit <;> decide

/-- The choice is the highest set bit of the inverted nibble only for a single dropped
sample bit. -/
theorem MillerSyncChoice_highest (bit : Nat) (h0 : 0 < bit) (h16 : bit < 16) :
    (MillerSyncChoice.getD bit 0 = HighestSetBit bit ↔
      bit = 1 ∨ bit = 2 ∨ bit = 4 ∨ bit = 8)
    ∧ MillerSyncChoice.getD bit 0 &&& bit ≠ 0
    ∧ MillerSyncChoice.getD bit 0 ≤ HighestSetBit bit := by
  interval_cases bit <;> decide

/-- Bit 3 of the sample buffer after a sample has been shifted in is bit 3 of the
sample. -/
theorem shifted_and_8 (bb v : Nat) (hv : v < 16) :
    (bb * 16 % 2 ^ 32 + v) &&& 8 ≠ 0 ↔ 8 ≤ v := by
  rw [and_8_eq]
  have e : (bb * 16 % 2 ^ 32 + v) / 8 % 2 = v / 8 % 2 := by omega
  rw [e]
  by_cases c : 8 ≤ v
  · have : v / 8 % 2 = 1 := by omega
    simp [this, c]
  · have : ¬ v / 8 % 2 = 1 := by omega
    simp [this, c]

/-- The unsynced search, call by call: with a dip in the previous sample and
`highCnt = 8` the call syncs, with the values of the sync search. -/
theorem MillerDecoding_dip (U : UartT) (v : Nat) (hst : U.state = STATE_UNSYNCD)
    (hbb : U.bitBuffer ≠ 0) (hv : v < 16) (hdip : U.bitBuffer % 16 ≠ 15) :
    (U.highCnt = 8 →
      MillerDecoding U v =
        ({ U with posCnt := (MillerSync (U.bitBuffer * 16 % 2 ^ 32 + v)
                      (15 - U.bitBuffer % 16)).2.2,
                  syncBit := (MillerSync (U.bitBuffer * 16 % 2 ^ 32 + v)
                      (15 - U.bitBuffer % 16)).1,
                  samples := (MillerSync (U.bitBuffer * 16 % 2 ^ 32 + v)
                      (15 - U.bitBuffer % 16)).2.1,
                  state := STATE_START_OF_COMMUNICATION, drop := DROP_FIRST_HALF,
                  bitCnt := 0, byteCnt := 0, parityBits := 0,
                  bitBuffer := U.bitBuffer * 16 % 2 ^ 32 + v }, false))
    ∧ (U.highCnt ≠ 8 →
      MillerDecoding U v =
        ({ U with highCnt := 0, bitBuffer := U.bitBuffer * 16 % 2 ^ 32 + v }, false)) := by
  rcases U with ⟨st, sr, bc, byc, bmax, pc, sb, pb, smp, hc, bb, dr, out⟩
  simp only at hst hbb hdip ⊢
  subst hst
  have hne : 15 - bb % 16 ≠ 0 := by omega
  constructor
  · intro h8
    subst h8
    unfold MillerDecoding MillerUnsynced
    rw [if_neg hbb]
    simp only [shiftBuffer_eq _ _ hv, Miller_unsynced_bit _ _ hv, ne_eq, not_true_eq_false,
      if_false, hne, not_false_eq_true, if_true]
  · intro h8
    unfold MillerDecoding MillerUnsynced
    rw [if_neg hbb]
    simp only [shiftBuffer_eq _ _ hv, Miller_unsynced_bit _ _ hv, ne_eq, not_true_eq_false,
      if_false, hne, not_false_eq_true, if_true, h8]

/-- The unsynced search on an all-high previous sample: `highCnt` counts up to 8. -/
theorem MillerDecoding_high (U : UartT) (v : Nat) (hst : U.state = STATE_UNSYNCD)
    (hv : v < 16) (hhigh : U.bitBuffer % 16 = 15) :
    MillerDecoding U v =
      ({ U with highCnt := if U.highCnt < 8 then U.highCnt + 1 else U.highCnt,
                bitBuffer := U.bitBuffer * 16 % 2 ^ 32 + v }, false) := by
  rcases U with ⟨st, sr, bc, byc, bmax, pc, sb, pb, smp, hc, bb, dr, out⟩
  simp only at hst hhigh ⊢
  subst hst
  exact MillerDecoding_idle sr bc byc bmax pc sb pb smp hc bb dr out v hhigh hv

/-- C16 fails as stated. For the sample nibble `0011` (inverted nibble `1100`, the two
most significant sample bits dropped) the sync search chooses `syncBit = 4`, not the
highest set bit 8; the call that syncs on it records `syncBit = 0x40`. -/
theorem C16_counterexample :
    (MillerSync 0 0xC).1 = 4 <<< 4
    ∧ HighestSetBit 0xC = 8
    ∧ (MillerDecoding ⟨STATE_UNSYNCD, 0, 0, 0, 32, 0, 0, 0, 0, 8, 0xFFFF3, DROP_NONE,
        fun _ => 0⟩ 0).1.state = STATE_START_OF_COMMUNICATION
    ∧ (MillerDecoding ⟨STATE_UNSYNCD, 0, 0, 0, 32, 0, 0, 0, 0, 8, 0xFFFF3, DROP_NONE,
        fun _ => 0⟩ 0).1.syncBit = 0x40 := by
  decide

/-- C16 as amended: when `MillerDecoding` syncs on a dip (unsynced, `highCnt = 8`, the
previous sample `p` not all-high, new sample `v`), the recorded `syncBit`, before the final
shift by 4, is the entry of `MillerSyncChoice` for the inverted nibble `15 - p`, except
that a lone drop in the last sample bit followed by a high first bit of `v` gives 8. The
choice is a dropped bit no higher than the highest one, and it is the highest set bit of
the inverted nibble exactly when a single sample bit is dropped (for the last sample
bit: and the first bit of `v` is low as well). -/
theorem C16_sync_bit (U : UartT) (v : Nat) (hst : U.state = STATE_UNSYNCD)
    (hbb : U.bitBuffer ≠ 0) (hhc : U.highCnt = 8) (hv : v < 16)
    (hdip : U.bitBuffer % 16 ≠ 15) :
    (MillerDecoding U v).1.state = STATE_START_OF_COMMUNICATION
    ∧ (MillerDecoding U v).1.syncBit =
        (if 15 - U.bitBuffer % 16 = 1 ∧ 8 ≤ v then 8
         else MillerSyncChoice.getD (15 - U.bitBuffer % 16) 0) <<< 4
    ∧ MillerSyncChoice.getD (15 - U.bitBuffer % 16) 0 &&& (15 - U.bitBuffer % 16) ≠ 0
    ∧ MillerSyncChoice.getD (15 - U.bitBuffer % 16) 0 ≤ HighestSetBit (15 - U.bitBuffer % 16)
    ∧ ((MillerDecoding U v).1.syncBit = HighestSetBit (15 - U.bitBuffer % 16) <<< 4 ↔
        (15 - U.bitBuffer % 16 = 2 ∨ 15 - U.bitBuffer % 16 = 4 ∨ 15 - U.bitBuffer % 16 = 8 ∨
          (15 - U.bitBuffer % 16 = 1 ∧ v < 8))) := by
  have e := (MillerDecoding_dip U v hst hbb hv hdip).1 hhc
  have h0 : 0 < 15 - U.bitBuffer % 16 := by omega
  have h16 : 15 - U.bitBuffer % 16 < 16 := by omega
  obtain ⟨t1, -⟩ := MillerSync_table (U.bitBuffer * 16 % 2 ^ 32 + v) (15 - U.bitBuffer % 16)
    h0 h16
  obtain ⟨-, c2, c3⟩ := MillerSyncChoice_highest (15 - U.bitBuffer % 16) h0 h16
  have hs : (MillerDecoding U v).1.syncBit =
      (if 15 - U.bitBuffer % 16 = 1 ∧ 8 ≤ v then 8
       else MillerSyncChoice.getD (15 - U.bitBuffer % 16) 0) <<< 4 := by
    rw [e]
    simp only
    rw [t1, if_congr (and_congr_right (fun _ => shifted_and_8 U.bitBuffer v hv)) rfl rfl]
  refine ⟨by rw [e], hs, c2, c3, ?_⟩
  rw [hs]
  generalize 15 - U.bitBuffer % 16 = b at h0 h16
  by_cases c : 8 ≤ v
  · have c' : ¬ v < 8 := by omega
    simp only [c, c', and_true, and_false, or_false]
    interval_cases b <;> decide
  · have c' : v < 8 := by omega
    simp only [c, c', and_true, and_false, if_false]
    interval_cases b <;> decide

/-- C16 at a concrete call: the previous sample `0111` (one dropped bit, the highest)
syncs with `syncBit = 0x80`. -/
theorem C16_sync_bit_witness :
    (MillerDecoding ⟨STATE_UNSYNCD, 0, 0, 0, 32, 0, 0, 0, 0, 8, 0xFFFF7, DROP_NONE,
        fun _ => 0⟩ 15).1.syncBit = 8 <<< 4 :=
  (C16_sync_bit ⟨STATE_UNSYNCD, 0, 0, 0, 32, 0, 0, 0, 0, 8, 0xFFFF7, DROP_NONE, fun _ => 0⟩ 15
    (by decide) (by decide) (by decide) (by decide) (by decide)).2.1

/-! ## The unsynced search over a stream -/

theorem MillerFeed_concat (U : UartT) (l : List Nat) (s : Nat) :
    MillerFeed U (l ++ [s]) = (MillerDecoding (MillerFeed U l) s).1 := by
  simp [MillerFeed, List.foldl_append]

theorem HighRun_reverse (l : List Nat) (p : Nat) (h : l.getLast? = some p) :
    HighRun l.reverse = if p = 15 then HighRun l.reverse.tail + 1 else 0 := by
  have h2 : l.reverse.head? = some p := by rw [List.head?_reverse]; exact h
  cases hr : l.reverse with
  | nil => rw [hr] at h2; simp at h2
  | cons a t =>
    rw [hr] at h2
    simp only [List.head?_cons, Option.some.injEq] at h2
    subst h2
    simp [HighRun]

/-- The first sample after an empty sample buffer is its low nibble. -/
theorem first_sample_mod (s : Nat) (hs : s < 16) :
    (s ^^^ 0xFF0) % 16 = s ∧ s ^^^ 0xFF0 ≠ 0 := by
  interval_cases s <;> decide

/-- One call of the unsynced search: it ends in `STATE_START_OF_COMMUNICATION` exactly on
a dip with `highCnt = 8`, and otherwise stays unsynced, `highCnt` counting the all-high
samples in a row up to 8 and falling back to 0 on a dip. -/
theorem MillerDecoding_unsynced_step (U : UartT) (v : Nat) (hst : U.state = STATE_UNSYNCD)
    (hbb : U.bitBuffer ≠ 0) (hv : v < 16) :
    (MillerDecoding U v).2 = false
    ∧ ((MillerDecoding U v).1.state = STATE_START_OF_COMMUNICATION ↔
        U.bitBuffer % 16 ≠ 15 ∧ U.highCnt = 8)
    ∧ (¬ (U.bitBuffer % 16 ≠ 15 ∧ U.highCnt = 8) →
        (MillerDecoding U v).1.state = STATE_UNSYNCD)
    ∧ (MillerDecoding U v).1.highCnt =
        (if U.bitBuffer % 16 = 15 then (if U.highCnt < 8 then U.highCnt + 1 else U.highCnt)
         else if U.highCnt = 8 then 8 else 0)
    ∧ (MillerDecoding U v).1.bitBuffer = U.bitBuffer * 16 % 2 ^ 32 + v := by
  by_cases hh : U.bitBuffer % 16 = 15
  · rw [MillerDecoding_high U v hst hv hh]
    simp [hh, hst]
  · obtain ⟨d1, d2⟩ := MillerDecoding_dip U v hst hbb hv hh
    by_cases h8 : U.highCnt = 8
    · rw [d1 h8]
      simp [hh, h8]
    · rw [d2 h8]
      simp [hh, h8, hst]

/-- From the reset `Uart`, as long as the decoder has stayed unsynced, `highCnt` is at
most the number of all-high samples in a row that the search has seen last. -/
theorem MillerFeed_highCnt (out : Nat → Nat) (bmax : Nat) (l : List Nat) :
    (∀ x ∈ l, x < 16) →
    (∀ k, k ≤ l.length →
      (MillerFeed (UartReset out bmax) (l.take k)).state = STATE_UNSYNCD) →
    (MillerFeed (UartReset out bmax) l).highCnt ≤ HighRun l.reverse.tail
    ∧ (l = [] → (MillerFeed (UartReset out bmax) l).bitBuffer = 0)
    ∧ (∀ p, l.getLast? = some p → (MillerFeed (UartReset out bmax) l).bitBuffer % 16 = p)
    ∧ ((MillerFeed (UartReset out bmax) l).bitBuffer = 0 →
        (MillerFeed (UartReset out bmax) l).highCnt = 0) := by
  induction l using List.reverseRecOn with
  | nil =>
    intro _ _
    simp [MillerFeed, UartReset, HighRun]
  | append_singleton l s ih =>
    intro hl hstay
    have hs16 : s < 16 := hl s (by simp)
    have hstay2 : ∀ k, k ≤ l.length →
        (MillerFeed (UartReset out bmax) (l.take k)).state = STATE_UNSYNCD := by
      intro k hk
      have h := hstay k (by simp; omega)
      rwa [List.take_append_of_le_length hk] at h
    obtain ⟨i1, i2, i3, i4⟩ := ih (fun x hx => hl x (by simp [hx])) hstay2
    have hW : (MillerFeed (UartReset out bmax) l).state = STATE_UNSYNCD := by
      have h := hstay2 l.length (le_refl _)
      rwa [List.take_length] at h
    have hW2 : (MillerFeed (UartReset out bmax) (l ++ [s])).state = STATE_UNSYNCD := by
      have h := hstay (l ++ [s]).length (le_refl _)
      rwa [List.take_length] at h
    have htail : (l ++ [s]).reverse.tail = l.reverse := by simp
    rw [htail]
    rw [MillerFeed_concat] at hW2 ⊢
    generalize MillerFeed (UartReset out bmax) l = W at *
    refine ⟨?_, by simp, ?_, ?_⟩
    · by_cases hb : W.bitBuffer = 0
      · rw [MillerDecoding_empty W s hb]
        simp only
        rw [i4 hb]
        exact Nat.zero_le _
      · obtain ⟨-, u2, -, u4, -⟩ := MillerDecoding_unsynced_step W s hW hb hs16
        have hne : l ≠ [] := fun e => hb (i2 e)
        obtain ⟨p, hp⟩ : ∃ p, l.getLast? = some p := by
          cases hq : l.getLast? with
          | none => exact absurd (List.getLast?_eq_none_iff.1 hq) hne
          | some p => exact ⟨p, rfl⟩
        have hbp := i3 p hp
        rw [u4, HighRun_reverse l p hp, hbp]
        by_cases h15 : p = 15
        · rw [if_pos h15, if_pos h15]
          split <;> omega
        · rw [if_neg h15, if_neg h15]
          by_cases h8 : W.highCnt = 8
          · have : (MillerDecoding W s).1.state = STATE_START_OF_COMMUNICATION :=
              u2.2 ⟨by rw [hbp]; exact h15, h8⟩
            rw [this] at hW2
            exact absurd hW2 (by simp)
          · rw [if_neg h8]
    · intro p hp
      have hps : p = s := by
        rw [List.getLast?_append] at hp
        simpa using hp.symm
      subst hps
      by_cases hb : W.bitBuffer = 0
      · rw [MillerDecoding_empty W p hb]
        exact (first_sample_mod p hs16).1
      · obtain ⟨-, -, -, -, u5⟩ := MillerDecoding_unsynced_step W p hW hb hs16
        rw [u5]
        omega
    · intro hz
      by_cases hb : W.bitBuffer = 0
      · rw [MillerDecoding_empty W s hb] at hz
        exact absurd hz (first_sample_mod s hs16).2
      · obtain ⟨-, u2, -, u4, u5⟩ := MillerDecoding_unsynced_step W s hW hb hs16
        rw [u5] at hz
        rw [u4]
        have h15 : ¬ W.bitBuffer % 16 = 15 := by omega
        rw [if_neg h15]
        by_cases h8 : W.highCnt = 8
        · have : (MillerDecoding W s).1.state = STATE_START_OF_COMMUNICATION :=
            u2.2 ⟨h15, h8⟩
          rw [this] at hW2
          exact absurd hW2 (by simp)
        · rw [if_neg h8]

set_option maxRecDepth 100000 in
/-- C15 fails as stated, on two reachable paths from the reset `Uart`. After an error:
the stream of 8 all-high samples and 14, 7, 0 leaves `Uart` in `STATE_ERROR_WAIT`; the
period 8, 15 without a drop brings it back to `STATE_UNSYNCD` with `highCnt = 6`, and
after the single further all-high sample 15 the dip sample 7 moves the decoder to
`STATE_START_OF_COMMUNICATION`: only 2 all-high samples precede the dip. After a frame:
the frame `[0x26]` is complete with its 33rd sample, `highCnt` is still 8, only the last 3
samples are all-high, and a dip in the very next sample (7) syncs the decoder again. -/
theorem C15_counterexample :
    (MillerFeed (UartReset (fun _ => 0) 32)
      [15, 15, 15, 15, 15, 15, 15, 15, 14, 7, 0]).state = STATE_ERROR_WAIT
    ∧ (MillerFeed (UartReset (fun _ => 0) 32)
      [15, 15, 15, 15, 15, 15, 15, 15, 14, 7, 0, 8, 15]).state = STATE_UNSYNCD
    ∧ (MillerFeed (UartReset (fun _ => 0) 32)
      [15, 15, 15, 15, 15, 15, 15, 15, 14, 7, 0, 8, 15]).highCnt = 6
    ∧ (MillerFeed (UartReset (fun _ => 0) 32)
      [15, 15, 15, 15, 15, 15, 15, 15, 14, 7, 0, 8, 15, 15, 7]).state = STATE_UNSYNCD
    ∧ HighRun [15, 15, 15, 15, 15, 15, 15, 15, 14, 7, 0, 8, 15, 15].reverse = 2
    ∧ (MillerDecoding (MillerFeed (UartReset (fun _ => 0) 32)
      [15, 15, 15, 15, 15, 15, 15, 15, 14, 7, 0, 8, 15, 15, 7]) 15).1.state
        = STATE_START_OF_COMMUNICATION
    ∧ (MillerRun (UartReset (fun _ => 0) 32)
      ((MillerDelayedSamples 8 (CodeIso14443aAsReaderPar [0x26] 0)).take 33)).2 = true
    ∧ (MillerRun (UartReset (fun _ => 0) 32)
      ((MillerDelayedSamples 8 (CodeIso14443aAsReaderPar [0x26] 0)).take 33)).1.state
        = STATE_UNSYNCD
    ∧ (MillerRun (UartReset (fun _ => 0) 32)
      ((MillerDelayedSamples 8 (CodeIso14443aAsReaderPar [0x26] 0)).take 33)).1.highCnt = 8
    ∧ HighRun ((MillerDelayedSamples 8 (CodeIso14443aAsReaderPar [0x26] 0)).take 33).reverse
        = 3
    ∧ (MillerDecoding (MillerDecoding (MillerRun (UartReset (fun _ => 0) 32)
        ((MillerDelayedSamples 8 (CodeIso14443aAsReaderPar [0x26] 0)).take 33)).1 7).1
          15).1.state = STATE_START_OF_COMMUNICATION := by
  decide

/-- C15 as amended: in `STATE_UNSYNCD` a call of `MillerDecoding` moves the decoder to
`STATE_START_OF_COMMUNICATION` exactly when the previous sample shows a dip and
`highCnt = 8`; otherwise the decoder stays unsynced. `highCnt` is raised by every all-high
sample seen while unsynced, up to 8, and is cleared by a dip seen with `highCnt` below 8.
Hence, from the reset `Uart` and as long as the decoder has not synced before, a sync on
the dip sample `d` is preceded by at least 8 all-high samples in a row. A call that leaves
`STATE_ERROR_WAIT` for `STATE_UNSYNCD` presets `highCnt` to 6, so that two all-high samples
are enough after an error. -/
theorem C15_sync_needs_high (U : UartT) (v : Nat) (hst : U.state = STATE_UNSYNCD)
    (hv : v < 16) :
    ((MillerDecoding U v).1.state = STATE_START_OF_COMMUNICATION ↔
        U.bitBuffer ≠ 0 ∧ U.bitBuffer % 16 ≠ 15 ∧ U.highCnt = 8)
    ∧ (¬ (U.bitBuffer ≠ 0 ∧ U.bitBuffer % 16 ≠ 15 ∧ U.highCnt = 8) →
        (MillerDecoding U v).1.state = STATE_UNSYNCD)
    ∧ (U.bitBuffer ≠ 0 → (MillerDecoding U v).1.highCnt =
        (if U.bitBuffer % 16 = 15 then (if U.highCnt < 8 then U.highCnt + 1 else U.highCnt)
         else if U.highCnt = 8 then 8 else 0))
    ∧ (∀ (out : Nat → Nat) (bmax : Nat) (l : List Nat) (d w : Nat),
        (∀ x ∈ l ++ [d], x < 16) → w < 16 →
        (∀ k, k ≤ (l ++ [d]).length →
          (MillerFeed (UartReset out bmax) ((l ++ [d]).take k)).state = STATE_UNSYNCD) →
        (MillerDecoding (MillerFeed (UartReset out bmax) (l ++ [d])) w).1.state
          = STATE_START_OF_COMMUNICATION →
        d ≠ 15 ∧ 8 ≤ HighRun l.reverse)
    ∧ (∀ (V : UartT) (s : Nat), V.state = STATE_ERROR_WAIT →
        (MillerDecoding V s).1.state = STATE_UNSYNCD → (MillerDecoding V s).1.highCnt = 6) := by
  refine ⟨?_, ?_, ?_, ?_, ?_⟩
  · by_cases hb : U.bitBuffer = 0
    · rw [MillerDecoding_empty U v hb]
      simp [hb, hst]
    · rw [(MillerDecoding_unsynced_step U v hst hb hv).2.1]
      simp [hb]
  · intro hn
    by_cases hb : U.bitBuffer = 0
    · rw [MillerDecoding_empty U v hb]
      exact hst
    · exact (MillerDecoding_unsynced_step U v hst hb hv).2.2.1 (fun h => hn ⟨hb, h⟩)
  · intro hb
    exact (MillerDecoding_unsynced_step U v hst hb hv).2.2.2.1
  · intro out bmax l d w hl hw hstay hsoc
    obtain ⟨i1, -, i3, -⟩ := MillerFeed_highCnt out bmax (l ++ [d]) hl hstay
    have hW : (MillerFeed (UartReset out bmax) (l ++ [d])).state = STATE_UNSYNCD := by
      have h := hstay (l ++ [d]).length (le_refl _)
      rwa [List.take_length] at h
    have hd := i3 d (by simp)
    have htail : (l ++ [d]).reverse.tail = l.reverse := by simp
    rw [htail] at i1
    generalize MillerFeed (UartReset out bmax) (l ++ [d]) = W at *
    by_cases hb : W.bitBuffer = 0
    · rw [MillerDecoding_empty W w hb] at hsoc
      simp only at hsoc
      rw [hW] at hsoc
      exact absurd hsoc (by simp)
    · obtain ⟨h1, h2⟩ := (MillerDecoding_unsynced_step W w hW hb hw).2.1.1 hsoc
      exact ⟨by rw [← hd]; exact h1, by omega⟩
  · intro V s hV hr
    have hne : STATE_ERROR_WAIT ≠ STATE_UNSYNCD := by simp
    by_cases hbb : V.bitBuffer = 0
    · rw [MillerDecoding_empty V s hbb] at hr
      simp only at hr
      rw [hV] at hr
      exact absurd hr hne
    have hst : V.state ≠ STATE_UNSYNCD := by rw [hV]; exact hne
    by_cases hp : V.posCnt = 0
    · rw [MillerDecoding_first V s hbb hp hst] at hr
      simp only at hr
      rw [hV] at hr
      exact absurd hr hne
    obtain ⟨e1, -⟩ := MillerDecoding_second V s hbb hp hst
    rw [e1] at hr ⊢
    rw [(MillerStore_ret _ _).1] at hr
    rw [(MillerStore_fields _ _).2.2.1]
    obtain ⟨-, w2, w3⟩ := MillerSwitch_error_wait _ (MillerSecondHalf_error_wait V s hV).1
    by_cases hd : (MillerSecondHalf V s).drop = DROP_NONE
    · exact (w2 hd).2
    · rw [w3 hd] at hr
      exact absurd hr hne

set_option maxRecDepth 100000 in
/-- C15 at concrete inputs: a call that syncs (unsynced with `highCnt = 8` and a dip in
the previous sample), and the first sync from the reset `Uart` on the stream of 9 all-high
samples, the dip sample 7 and one more sample. -/
theorem C15_sync_needs_high_witness :
    (MillerDecoding ⟨STATE_UNSYNCD, 0, 0, 0, 32, 0, 0, 0, 0, 8, 0xFFFF7, DROP_NONE,
        fun _ => 0⟩ 15).1.state = STATE_START_OF_COMMUNICATION
    ∧ (MillerDecoding (MillerFeed (UartReset (fun _ => 0) 32)
        ([15, 15, 15, 15, 15, 15, 15, 15, 15] ++ [7])) 15).1.state
          = STATE_START_OF_COMMUNICATION
    ∧ 8 ≤ HighRun [15, 15, 15, 15, 15, 15, 15, 15, 15].reverse :=
  ⟨(C15_sync_needs_high ⟨STATE_UNSYNCD, 0, 0, 0, 32, 0, 0, 0, 0, 8, 0xFFFF7, DROP_NONE,
      fun _ => 0⟩ 15 (by decide) (by decide)).1.2 ⟨by decide, by decide, by decide⟩,
   by decide,
   ((C15_sync_needs_high ⟨STATE_UNSYNCD, 0, 0, 0, 32, 0, 0, 0, 0, 8, 0xFFFF7, DROP_NONE,
      fun _ => 0⟩ 15 (by decide) (by decide)).2.2.2.1 (fun _ => 0) 32
      [15, 15, 15, 15, 15, 15, 15, 15, 15] 7 15 (by decide) (by decide) (by decide)
      (by decide)).2⟩

/-! ## A frame received from any unsynced state that is ready to sync -/

/-- The bytes beyond the end of a frame are not written. -/
theorem RegStep_frame_beyond (clr : Bool) (cmd : List Nat) :
    ∀ (i par : Nat) (r : ByteRegs), r.bitCnt = 0 →
      ∀ k, r.byteCnt + cmd.length ≤ k →
        ((FrameBits cmd i par).foldl (RegStep clr) r).output k = r.output k := by
  induction cmd with
  | nil =>
    intro i par r _ k _
    simp [FrameBits]
  | cons b rest ih =>
    intro i par r h0 k hk
    have hk' : r.byteCnt + (rest.length + 1) ≤ k := by simpa using hk
    have hstep : (LsbBits 8 (b % 256) ++ [par / 2 ^ i % 2]).foldl (RegStep clr) r =
        { shiftReg := if clr then 0 else
              ((LsbBits 8 (b % 256) ++ [par / 2 ^ i % 2]).foldl (RegStep clr) r).shiftReg,
          bitCnt := 0, byteCnt := r.byteCnt + 1,
          parityBits :=
            ((LsbBits 8 (b % 256) ++ [par / 2 ^ i % 2]).foldl (RegStep clr) r).parityBits,
          output := bufSet r.output r.byteCnt
            (((LsbBits 8 (b % 256) ++ [par / 2 ^ i % 2]).foldl (RegStep clr) r).output
              r.byteCnt) } := by
      rcases r with ⟨sr, bc, byc, pb, out⟩
      simp only at h0
      subst h0
      cases clr <;>
        simp [LsbBits, RegStep, List.foldl, bufSet]
    have e : FrameBits (b :: rest) i par =
        (LsbBits 8 (b % 256) ++ [par / 2 ^ i % 2]) ++ FrameBits rest (i + 1) par := by
      simp [FrameBits]
    rw [e, List.foldl_append]
    have h := ih (i + 1) par
      ((LsbBits 8 (b % 256) ++ [par / 2 ^ i % 2]).foldl (RegStep clr) r)
      (by rw [hstep]) k (by rw [hstep]; simp only; omega)
    rw [h, hstep]
    simp only [bufSet]
    rw [if_neg (by omega)]

/-- The sync on the delayed start symbol from any unsynced state that has seen enough
all-high samples: the samples 14 and 7 of the delayed Z and the first sample `a` of the
next symbol bring `Uart` to `STATE_MILLER_Z` with `syncBit = 0x10` and cleared
registers. -/
theorem Miller_sync_in (sr bc byc bmax pc sb pb smp hc bb : Nat) (dr : UartDrop)
    (out : Nat → Nat) (a : Nat) (rest : List Nat) (hbb : bb % 16 = 15) (h7 : 7 ≤ hc)
    (h8 : hc ≤ 8) (ha : a < 16) (ha8 : 8 ≤ a) :
    ∃ U1, MillerRun ⟨STATE_UNSYNCD, sr, bc, byc, bmax, pc, sb, pb, smp, hc, bb, dr, out⟩
        (14 :: 7 :: a :: rest) = MillerRun U1 rest ∧
      MillerSyncedAt U1 0 ∧ UartRegs U1 = ⟨0, 0, 0, 0, out⟩ ∧ U1.byteCntMax = bmax := by
  have h2 := MillerDecoding_idle sr bc byc bmax pc sb pb smp hc bb dr out 14 hbb (by norm_num)
  have e8 : (if hc < 8 then hc + 1 else hc) = 8 := by
    split <;> omega
  rw [e8] at h2
  have h3 := MillerDecoding_sync sr bc byc bmax pc sb pb smp (bb * 16 % 2 ^ 32 + 14) dr out
    (by omega)
  have h4 := MillerDecoding_soc sr bmax 0 8 ((bb * 16 % 2 ^ 32 + 14) * 16 % 2 ^ 32 + 7) out a
    (by omega) ha ha8
  have e := ((MillerRun_cons_false _ _ _ _ h2).trans
    (MillerRun_cons_false _ _ _ _ h3)).trans (MillerRun_cons_false _ _ _ rest h4)
  refine ⟨_, e, ?_, rfl, rfl⟩
  refine ⟨by simp only; omega, rfl, rfl, rfl, by norm_num, by norm_num, ?_⟩
  simp

/-- The delayed samples of a reader frame, split at the first data symbol. -/
theorem ReaderPar_delayed (cmd : List Nat) (dwParity : Nat) (bit1 : Nat) (bits : List Nat)
    (hbits : FrameBits cmd 0 dwParity ++ [0] = bit1 :: bits) :
    Delay3 7 ((CodeIso14443aAsReaderPar cmd dwParity).map (fun s => 255 - s)) =
      14 :: 7 ::
        (14 + (255 - (if bit1 = 1 then SEC_X else if (0 : Nat) = 0 then SEC_Z else SEC_Y)) / 128) ::
        DelayTail (255 - (if bit1 = 1 then SEC_X else if (0 : Nat) = 0 then SEC_Z else SEC_Y))
          ((MillerSymbols bit1 bits).map (fun s => 255 - s) ++ 255 :: [255, 255, 255]) := by
  rw [ReaderPar_eoc_bit, hbits]
  simp [MillerSymbols, Delay3, DelayTail, SEC_Z, SEC_Y]

/-- What `MillerDecoding` makes of the delayed samples of a reader frame from any unsynced
state that has seen at least 7 all-high samples, the last sample being all-high: the
frame is complete, and the registers are those of the frame alone. -/
theorem Miller_ready_frame (sr bc byc bmax pc sb pb smp hc bb : Nat) (dr : UartDrop)
    (out : Nat → Nat) (cmd : List Nat) (dwParity : Nat)
    (hlen : 1 ≤ cmd.length) (hbytes : ∀ b ∈ cmd, b < 256)
    (hbb : bb % 16 = 15) (h7 : 7 ≤ hc) (h8 : hc ≤ 8) :
    ∃ U, MillerRun ⟨STATE_UNSYNCD, sr, bc, byc, bmax, pc, sb, pb, smp, hc, bb, dr, out⟩
        (Delay3 7 ((CodeIso14443aAsReaderPar cmd dwParity).map (fun s => 255 - s))) = (U, true)
      ∧ U.state = STATE_UNSYNCD
      ∧ U.byteCnt = cmd.length
      ∧ U.parityBits = ParityAcc dwParity cmd.length 0 0
      ∧ U.output =
          ((FrameBits cmd 0 dwParity).foldl (RegStep false) ⟨0, 0, 0, 0, out⟩).output := by
  have hfb : ∀ x ∈ FrameBits cmd 0 dwParity ++ [0], x < 2 := by
    intro x hx
    rcases List.mem_append.1 hx with h | h
    · exact FrameBits_lt cmd 0 dwParity x h
    · simp at h; omega
  obtain ⟨bit1, bits, hbits⟩ : ∃ bit1 bits, FrameBits cmd 0 dwParity ++ [0] = bit1 :: bits := by
    cases h : FrameBits cmd 0 dwParity ++ [0] with
    | nil => simp at h
    | cons a t => exact ⟨a, t, rfl⟩
  have hbit1 : bit1 < 2 := hfb bit1 (by rw [hbits]; simp)
  have hbs : ∀ x ∈ bits, x < 2 := fun x hx => hfb x (by rw [hbits]; simp [hx])
  have hc1 := Miller_symbol_cases 0 bit1 hbit1 (by norm_num)
  have ha : 14 + (255 - (if bit1 = 1 then SEC_X else if (0 : Nat) = 0 then SEC_Z else SEC_Y)) / 128
      < 16 ∧ 8 ≤ 14 + (255 - (if bit1 = 1 then SEC_X else if (0 : Nat) = 0 then SEC_Z
        else SEC_Y)) / 128 := by
    rcases hc1 with ⟨_, h⟩ | ⟨_, _, h⟩ | ⟨_, h0, _⟩
    · rw [h]; norm_num
    · rw [h]; norm_num
    · omega
  obtain ⟨U1, e1, i1, g1, -⟩ := Miller_sync_in sr bc byc bmax pc sb pb smp hc bb dr out _
    (DelayTail (255 - (if bit1 = 1 then SEC_X else if (0 : Nat) = 0 then SEC_Z else SEC_Y))
      ((MillerSymbols bit1 bits).map (fun s => 255 - s) ++ 255 :: [255, 255, 255]))
    hbb h7 h8 ha.1 ha.2
  obtain ⟨U2, e2, i2, g2⟩ := Miller_bits_run bits U1 0 bit1 255 [255, 255, 255] hbs hbit1
    (by norm_num) (by norm_num) i1
  have hlast : bits.getLastD bit1 = 0 := by
    have h := congrArg (fun l => List.getLastD l 7) hbits
    simp only [List.getLastD_cons] at h
    rw [← h, getLastD_append_eq]
    rfl
  rw [hlast] at i2
  obtain ⟨f1, f2, f3, f4, f5, f6⟩ := RegStep_frame false cmd 0 dwParity ⟨0, 0, 0, 0, out⟩
    hbytes rfl (by norm_num)
  have hregs : UartRegs U2 =
      RegStep false ((FrameBits cmd 0 dwParity).foldl (RegStep false) ⟨0, 0, 0, 0, out⟩) 0 := by
    rw [g2, g1, ← hbits, List.foldl_append]
    rfl
  obtain ⟨q1, q2, q3, q4⟩ := RegStep_first_bit false
    ((FrameBits cmd 0 dwParity).foldl (RegStep false) ⟨0, 0, 0, 0, out⟩) 0 f1
  have hbc : U2.bitCnt = 1 := by
    have h := congrArg ByteRegs.bitCnt hregs
    simp only [UartRegs] at h
    rw [h, q1]
  have hby : U2.byteCnt = cmd.length := by
    have h := congrArg ByteRegs.byteCnt hregs
    simp only [UartRegs] at h
    rw [h, q2, f3]
    simp
  have hpb : U2.parityBits = ParityAcc dwParity cmd.length 0 0 := by
    have h := congrArg ByteRegs.parityBits hregs
    simp only [UartRegs] at h
    rw [h, q3, f4]
  have hout : U2.output = ((FrameBits cmd 0 dwParity).foldl (RegStep false)
      ⟨0, 0, 0, 0, out⟩).output := by
    have h := congrArg ByteRegs.output hregs
    simp only [UartRegs] at h
    rw [h, q4]
  have htail : DelayTail 255 [255, 255, 255] = 15 :: 15 :: [15, 15, 15, 15, 15, 15] := by
    decide
  obtain ⟨U3, e3, s3, b3, p3, o3⟩ := Miller_eoc U2 [15, 15, 15, 15, 15, 15] i2 hbc (by omega)
  refine ⟨U3, ?_, s3, by rw [b3, hby], by rw [p3, hpb], by rw [o3, hout]⟩
  rw [ReaderPar_delayed cmd dwParity bit1 bits hbits, e1, e2, htail, e3]

/-- The output buffer after a frame: the bytes of the frame, and beyond them what the
buffer held before. -/
theorem Frame_output (cmd : List Nat) (dwParity : Nat) (out : Nat → Nat)
    (hbytes : ∀ b ∈ cmd, b < 256) :
    (∀ i, i < cmd.length →
      ((FrameBits cmd 0 dwParity).foldl (RegStep false) ⟨0, 0, 0, 0, out⟩).output i
        = cmd.getD i 0)
    ∧ (∀ k, cmd.length ≤ k →
      ((FrameBits cmd 0 dwParity).foldl (RegStep false) ⟨0, 0, 0, 0, out⟩).output k
        = out k) := by
  obtain ⟨-, -, -, -, -, f6⟩ := RegStep_frame false cmd 0 dwParity ⟨0, 0, 0, 0, out⟩
    hbytes rfl (by norm_num)
  refine ⟨fun i hi => by simpa using f6 i hi, fun k hk => ?_⟩
  exact RegStep_frame_beyond false cmd 0 dwParity ⟨0, 0, 0, 0, out⟩ rfl k (by simpa using hk)

/-- The run from the reset `Uart`: the lead-in leaves an unsynced state that is ready to
sync. -/
theorem Miller_reset_ready (out : Nat → Nat) (bmax n : Nat) (rest : List Nat) (hn : 8 ≤ n) :
    ∃ hc bb, bb % 16 = 15 ∧ 7 ≤ hc ∧ hc ≤ 8 ∧
      MillerRun (UartReset out bmax) (IdleHigh n ++ rest) =
        MillerRun ⟨STATE_UNSYNCD, 0, 0, 0, bmax, 0, 0, 0, 0, hc, bb, DROP_NONE, out⟩ rest := by
  obtain ⟨k, rfl⟩ : ∃ k, n = k + 1 := ⟨n - 1, by omega⟩
  have hl : IdleHigh (k + 1) ++ rest = 15 :: (IdleHigh k ++ rest) := by
    simp [IdleHigh, List.replicate_succ]
  have h0 : MillerDecoding (UartReset out bmax) 15 =
      (⟨STATE_UNSYNCD, 0, 0, 0, bmax, 0, 0, 0, 0, 0, 4095, DROP_NONE, out⟩, false) := by
    simp [MillerDecoding, UartReset]
  obtain ⟨bb1, hb1, e1⟩ := Miller_idle_run k 0 0 0 bmax 0 0 0 0 0 4095 DROP_NONE out
    rest (by norm_num) (by norm_num)
  refine ⟨min (0 + k) 8, bb1, hb1, by omega, by omega, ?_⟩
  rw [hl, MillerRun_cons_false _ _ _ _ h0, e1]

/-- The run of `MillerDecoding` from the reset `Uart` over the delayed samples of a reader
frame, with the whole output buffer. -/
theorem Miller_receive_output (cmd : List Nat) (dwParity n byteCntMax : Nat)
    (output : Nat → Nat) (hlen : 1 ≤ cmd.length) (hbytes : ∀ b ∈ cmd, b < 256)
    (hn : 8 ≤ n) :
    ∃ U, MillerReceive output byteCntMax n (CodeIso14443aAsReaderPar cmd dwParity) = (U, true)
      ∧ U.state = STATE_UNSYNCD
      ∧ U.byteCnt = cmd.length
      ∧ U.parityBits = ParityAcc dwParity cmd.length 0 0
      ∧ U.output =
          ((FrameBits cmd 0 dwParity).foldl (RegStep false) ⟨0, 0, 0, 0, output⟩).output := by
  obtain ⟨hc, bb, hbb, h7, h8, e⟩ := Miller_reset_ready output byteCntMax n
    (Delay3 7 ((CodeIso14443aAsReaderPar cmd dwParity).map (fun s => 255 - s))) hn
  obtain ⟨U, eU, r1, r2, r3, r4⟩ := Miller_ready_frame 0 0 0 byteCntMax 0 0 0 0 hc bb
    DROP_NONE output cmd dwParity hlen hbytes hbb h7 h8
  refine ⟨U, ?_, r1, r2, r3, r4⟩
  unfold MillerReceive MillerDelayedSamples
  rw [e, eU]

/-- The value of `byteCntMax` has no influence on a call of `MillerDecoding`. -/
theorem MillerDecoding_byteCntMax (U : UartT) (bit m : Nat) :
    MillerDecoding { U with byteCntMax := m } bit =
      ({ (MillerDecoding U bit).1 with byteCntMax := m }, (MillerDecoding U bit).2) := by
  rcases U with ⟨st, sr, bc, byc, bmax, pc, sb, pb, smp, hc, bb, dr, out⟩
  by_cases hbb : bb = 0
  · simp [MillerDecoding, hbb]
  by_cases hst : st = STATE_UNSYNCD
  · subst hst
    unfold MillerDecoding MillerUnsynced
    simp only [hbb, if_false, ne_eq, not_true_eq_false]
    split_ifs <;> rfl
  by_cases hp : pc = 0
  · rw [MillerDecoding_first _ bit hbb hp hst, MillerDecoding_first _ bit hbb hp hst]
    rfl
  · rw [(MillerDecoding_second _ bit hbb hp hst).1, (MillerDecoding_second _ bit hbb hp hst).1]
    have e1 : MillerSecondHalf
        ⟨st, sr, bc, byc, m, pc, sb, pb, smp, hc, bb, dr, out⟩ bit =
        { MillerSecondHalf ⟨st, sr, bc, byc, bmax, pc, sb, pb, smp, hc, bb, dr, out⟩ bit
          with byteCntMax := m } := rfl
    have e2 : ∀ V : UartT, MillerSwitch { V with byteCntMax := m } =
        ({ (MillerSwitch V).1 with byteCntMax := m }, (MillerSwitch V).2) := by
      intro V
      rcases V with ⟨st, sr, bc, byc, bmax, pc, sb, pb, smp, hc, bb, dr, out⟩
      cases st <;> cases dr <;> simp [MillerSwitch]
    have e3 : ∀ (V : UartT) (e : Bool), MillerStore { V with byteCntMax := m } e =
        ({ (MillerStore V e).1 with byteCntMax := m }, (MillerStore V e).2) := by
      intro V e
      rcases V with ⟨st, sr, bc, byc, bmax, pc, sb, pb, smp, hc, bb, dr, out⟩
      unfold MillerStore
      simp only
      split_ifs <;> rfl
    rw [e1, e2, e3]

/-- C12 fails as stated. The frame `[0x93, 0x20]` carries the parity word
`GetParity [0x93, 0x20] = 1` (bit 0, the parity of the first byte, is 1); after decoding,
`Uart.parityBits` is 2 and its bit 0 is 0. -/
theorem C12_counterexample :
    GetParity [0x93, 0x20] = 1
    ∧ (MillerReceive (fun _ => 0) 32 8
        (CodeIso14443aAsReaderPar [0x93, 0x20] (GetParity [0x93, 0x20]))).2 = true
    ∧ (MillerReceive (fun _ => 0) 32 8
        (CodeIso14443aAsReaderPar [0x93, 0x20] (GetParity [0x93, 0x20]))).1.byteCnt = 2
    ∧ (MillerReceive (fun _ => 0) 32 8
        (CodeIso14443aAsReaderPar [0x93, 0x20] (GetParity [0x93, 0x20]))).1.parityBits = 2
    ∧ (MillerReceive (fun _ => 0) 32 8
        (CodeIso14443aAsReaderPar [0x93, 0x20] (GetParity [0x93, 0x20]))).1.parityBits.testBit 0
        = false
    ∧ (GetParity [0x93, 0x20]).testBit 0 = true := by
  decide

/-- C12 as amended: in the Miller decoder's parity word one bit is accumulated per stored
byte, shifted in at the least significant end (whenever `MillerStore` stores a byte it
shifts `parityBits` left and puts bit 8 of the shift register at bit 0, and otherwise
leaves it alone). After a frame of `n` bytes, `n <= 32`, bit `n - 1 - i` of
`Uart.parityBits` is the parity bit received with byte `i`, so that the least significant
bit belongs to the last byte; no higher bit is set. -/
theorem C12_parity_order (cmd : List Nat) (dwParity n byteCntMax : Nat)
    (output : Nat → Nat) (hlen : 1 ≤ cmd.length) (hbytes : ∀ b ∈ cmd, b < 256)
    (hn : 8 ≤ n) (h32 : cmd.length ≤ 32) :
    (MillerReceive output byteCntMax n (CodeIso14443aAsReaderPar cmd dwParity)).2 = true
    ∧ (MillerReceive output byteCntMax n
        (CodeIso14443aAsReaderPar cmd dwParity)).1.byteCnt = cmd.length
    ∧ (MillerReceive output byteCntMax n
        (CodeIso14443aAsReaderPar cmd dwParity)).1.parityBits < 2 ^ cmd.length
    ∧ (∀ i, i < cmd.length →
        (MillerReceive output byteCntMax n
          (CodeIso14443aAsReaderPar cmd dwParity)).1.parityBits.testBit (cmd.length - 1 - i)
        = dwParity.testBit i)
    ∧ (∀ (V : UartT) (e : Bool),
        ((MillerStore V e).1.byteCnt = V.byteCnt + 1 ∧
          (MillerStore V e).1.parityBits =
            ((V.parityBits <<< 1) % 2 ^ 32) ^^^ ((V.shiftReg >>> 8) &&& 0x01))
        ∨ ((MillerStore V e).1.byteCnt = V.byteCnt ∧
          (MillerStore V e).1.parityBits = V.parityBits)) := by
  obtain ⟨U, eU, -, r2, r3, -⟩ := Miller_receive_output cmd dwParity n byteCntMax output
    hlen hbytes hn
  obtain ⟨p1, p2⟩ := ParityAcc_reversed dwParity cmd.length h32
  rw [eU]
  refine ⟨rfl, r2, by rw [r3]; exact p1, fun i hi => by rw [r3]; exact p2 i hi, ?_⟩
  intro V e
  rcases V with ⟨st, sr, bc, byc, bmax, pc, sb, pb, smp, hc, bb, dr, out⟩
  unfold MillerStore
  simp only
  split_ifs
  · exact Or.inr ⟨rfl, rfl⟩
  · exact Or.inl ⟨rfl, rfl⟩
  · exact Or.inl ⟨rfl, rfl⟩
  · exact Or.inr ⟨rfl, rfl⟩

/-- C12 at a concrete frame: `[0x93, 0x20]` with its parity word 1. -/
theorem C12_parity_order_witness :
    (MillerReceive (fun _ => 0) 32 8
        (CodeIso14443aAsReaderPar [0x93, 0x20] 1)).1.parityBits.testBit (2 - 1 - 0)
      = Nat.testBit 1 0 :=
  (C12_parity_order [0x93, 0x20] 1 8 32 (fun _ => 0) (by decide) (by decide) (by decide)
    (by decide)).2.2.2.1 0 (by decide)

/-- C18 fails as stated. With `byteCntMax = 1` the two-byte frame `[0x93, 0x20]` is
received in full: its second byte is stored at output index 1, which held 0 before. -/
theorem C18_counterexample :
    (UartReset (fun _ => 0) 1).byteCntMax = 1
    ∧ (UartReset (fun _ => 0) 1).output 1 = 0
    ∧ (MillerReceive (fun _ => 0) 1 8 (CodeIso14443aAsReaderPar [0x93, 0x20] 1)).2 = true
    ∧ (MillerReceive (fun _ => 0) 1 8
        (CodeIso14443aAsReaderPar [0x93, 0x20] 1)).1.byteCntMax = 1
    ∧ (MillerReceive (fun _ => 0) 1 8
        (CodeIso14443aAsReaderPar [0x93, 0x20] 1)).1.output 1 = 0x20
    ∧ (MillerReceive (fun _ => 0) 1 8
        (CodeIso14443aAsReaderPar [0x93, 0x20] 1)).1.byteCnt = 2 := by
  decide

/-- C18 as amended: `MillerDecoding` never consults `byteCntMax` (a call does the same
whatever its value). A frame of `n` bytes is therefore received in full for every
`byteCntMax`: its bytes are stored at the output indices `0` to `n - 1` and no other index
is written, so that no byte is stored at an index `>= byteCntMax` when the frame has at
most `byteCntMax` bytes. -/
theorem C18_capacity (cmd : List Nat) (dwParity n byteCntMax : Nat)
    (output : Nat → Nat) (hlen : 1 ≤ cmd.length) (hbytes : ∀ b ∈ cmd, b < 256)
    (hn : 8 ≤ n) :
    (∀ (U : UartT) (bit m : Nat),
      MillerDecoding { U with byteCntMax := m } bit =
        ({ (MillerDecoding U bit).1 with byteCntMax := m }, (MillerDecoding U bit).2))
    ∧ (MillerReceive output byteCntMax n (CodeIso14443aAsReaderPar cmd dwParity)).2 = true
    ∧ (MillerReceive output byteCntMax n
        (CodeIso14443aAsReaderPar cmd dwParity)).1.byteCnt = cmd.length
    ∧ (∀ i, i < cmd.length →
        (MillerReceive output byteCntMax n
          (CodeIso14443aAsReaderPar cmd dwParity)).1.output i = cmd.getD i 0)
    ∧ (∀ k, cmd.length ≤ k →
        (MillerReceive output byteCntMax n
          (CodeIso14443aAsReaderPar cmd dwParity)).1.output k = output k)
    ∧ (cmd.length ≤ byteCntMax → ∀ k, byteCntMax ≤ k →
        (MillerReceive output byteCntMax n
          (CodeIso14443aAsReaderPar cmd dwParity)).1.output k = output k) := by
  obtain ⟨U, eU, -, r2, -, r4⟩ := Miller_receive_output cmd dwParity n byteCntMax output
    hlen hbytes hn
  obtain ⟨o1, o2⟩ := Frame_output cmd dwParity output hbytes
  rw [eU]
  refine ⟨MillerDecoding_byteCntMax, rfl, r2, fun i hi => by rw [r4]; exact o1 i hi,
    fun k hk => by rw [r4]; exact o2 k hk, fun hle k hk => ?_⟩
  rw [r4]
  exact o2 k (by omega)

/-- C18 at a concrete frame: `[0x93, 0x20]` received into a buffer of 4 bytes. -/
theorem C18_capacity_witness :
    (MillerReceive (fun _ => 0x44) 4 8 (CodeIso14443aAsReaderPar [0x93, 0x20] 1)).1.output 1
      = [0x93, 0x20].getD 1 0
    ∧ (MillerReceive (fun _ => 0x44) 4 8 (CodeIso14443aAsReaderPar [0x93, 0x20] 1)).1.output 4
      = 0x44 :=
  ⟨(C18_capacity [0x93, 0x20] 1 8 4 (fun _ => 0x44) (by decide) (by decide)
      (by decide)).2.2.2.1 1 (by decide),
   (C18_capacity [0x93, 0x20] 1 8 4 (fun _ => 0x44) (by decide) (by decide)
      (by decide)).2.2.2.2.2 (by decide) 4 (by decide)⟩

/-! ## All-high samples after a receive reset -/

theorem and_pow_eq (x k : Nat) (h : x / 2 ^ k % 2 = 1) : x &&& 2 ^ k = 2 ^ k := by
  rw [Nat.and_two_pow, Nat.testBit_to_div_mod, h]
  simp

/-- With one of the four sync bits, two all-high samples in a row measure as "no drop". -/
theorem MillerMeasure_high (x sb : Nat) (hx : x % 256 = 255)
    (hS : sb = 16 ∨ sb = 32 ∨ sb = 64 ∨ sb = 128) : MillerMeasure x sb = 1 := by
  have e4 : (16 : Nat) = 2 ^ 4 := by norm_num
  have e5 : (32 : Nat) = 2 ^ 5 := by norm_num
  have e6 : (64 : Nat) = 2 ^ 6 := by norm_num
  have e7 : (128 : Nat) = 2 ^ 7 := by norm_num
  have hs : x <<< 1 = x * 2 := by rw [Nat.shiftLeft_eq, pow_one]
  have key : x &&& sb = sb ∧ (x <<< 1) &&& sb = sb := by
    rw [hs]
    rcases hS with h | h | h | h <;> subst h
    · rw [e4]
      exact ⟨and_pow_eq x 4 (by omega), and_pow_eq (x * 2) 4 (by omega)⟩
    · rw [e5]
      exact ⟨and_pow_eq x 5 (by omega), and_pow_eq (x * 2) 5 (by omega)⟩
    · rw [e6]
      exact ⟨and_pow_eq x 6 (by omega), and_pow_eq (x * 2) 6 (by omega)⟩
    · rw [e7]
      exact ⟨and_pow_eq x 7 (by omega), and_pow_eq (x * 2) 7 (by omega)⟩
  unfold MillerMeasure
  simp only [key.1, key.2, Nat.xor_self]
  simp

/-- The measurement of an all-high sample that follows an all-high sample. -/
theorem MillerSample_high (U : UartT) (hbb : U.bitBuffer % 16 = 15)
    (hS : U.syncBit = 16 ∨ U.syncBit = 32 ∨ U.syncBit = 64 ∨ U.syncBit = 128) :
    MillerSample U 15 = 1 ∧ MillerShiftIn U.bitBuffer 15 = U.bitBuffer * 16 % 2 ^ 32 + 15 := by
  have e : MillerShiftIn U.bitBuffer 15 = U.bitBuffer * 16 % 2 ^ 32 + 15 :=
    shiftBuffer_eq U.bitBuffer 15 (by norm_num)
  refine ⟨?_, e⟩
  unfold MillerSample
  rw [e]
  exact MillerMeasure_high _ _ (by omega) hS

/-- The sync search always gives one of the four sync bits, and `posCnt` 0 or 1. -/
theorem MillerSync_range (nb bit : Nat) (h0 : 0 < bit) (h16 : bit < 16) :
    ((MillerSync nb bit).1 = 16 ∨ (MillerSync nb bit).1 = 32 ∨ (MillerSync nb bit).1 = 64 ∨
      (MillerSync nb bit).1 = 128)
    ∧ ((MillerSync nb bit).2.2 = 0 ∨ (MillerSync nb bit).2.2 = 1) := by
  rw [MillerSync_congr]
  have h := and_8_eq nb
  by_cases c : nb / 8 % 2 = 1
  · rw [if_pos c] at h
    rw [h]
    interval_cases bit <;> decide
  · rw [if_neg c] at h
    rw [h]
    interval_cases bit <;> decide

/-- After a sync, the second half of the start period on an all-high sample. -/
theorem MillerDecoding_soc_high (sr byc bmax pc sb pb smp hc bb : Nat) (out : Nat → Nat)
    (hbb : bb % 16 = 15) (hpc : pc ≠ 0)
    (hS : sb = 16 ∨ sb = 32 ∨ sb = 64 ∨ sb = 128) :
    MillerDecoding ⟨STATE_START_OF_COMMUNICATION, sr, 0, byc, bmax, pc, sb, pb, smp, hc, bb,
        DROP_FIRST_HALF, out⟩ 15 =
      (⟨STATE_MILLER_Z, 0, 0, byc, bmax, 0, sb, pb, smp, hc, bb * 16 % 2 ^ 32 + 15, DROP_NONE,
        out⟩, false) := by
  obtain ⟨hm, hsh⟩ := MillerSample_high
    ⟨STATE_START_OF_COMMUNICATION, sr, 0, byc, bmax, pc, sb, pb, smp, hc, bb, DROP_FIRST_HALF,
      out⟩ hbb hS
  rw [(MillerDecoding_second _ 15 (by simp only; omega) hpc (by simp)).1]
  simp only [MillerSecondHalf, hm, hsh]
  simp [MillerSwitch, MillerStore]

/-- The first half of a period on an all-high sample. -/
theorem MillerDecoding_first_high (st : UartState) (sr bc byc bmax sb pb smp hc bb : Nat)
    (dr : UartDrop) (out : Nat → Nat) (hst : st ≠ STATE_UNSYNCD)
    (hbb : bb % 16 = 15) (hS : sb = 16 ∨ sb = 32 ∨ sb = 64 ∨ sb = 128) :
    MillerDecoding ⟨st, sr, bc, byc, bmax, 0, sb, pb, smp, hc, bb, dr, out⟩ 15 =
      (⟨st, sr, bc, byc, bmax, 1, sb, pb, smp, hc, bb * 16 % 2 ^ 32 + 15, dr, out⟩, false) := by
  obtain ⟨hm, hsh⟩ := MillerSample_high
    ⟨st, sr, bc, byc, bmax, 0, sb, pb, smp, hc, bb, dr, out⟩ hbb hS
  rw [MillerDecoding_first _ 15 (by simp only; omega) rfl hst]
  simp only [hm, hsh]
  simp

/-- In `STATE_MILLER_Z` with no bit received yet, the second half of a period without a
drop: end of communication, but no frame. -/
theorem MillerDecoding_z_high (sr byc bmax sb pb smp hc bb : Nat) (out : Nat → Nat)
    (hbb : bb % 16 = 15) (hS : sb = 16 ∨ sb = 32 ∨ sb = 64 ∨ sb = 128) :
    MillerDecoding ⟨STATE_MILLER_Z, sr, 0, byc, bmax, 1, sb, pb, smp, hc, bb, DROP_NONE,
        out⟩ 15 =
      (⟨STATE_UNSYNCD, sr >>> 1, 1, byc, bmax, 0, sb, pb, smp, hc, bb * 16 % 2 ^ 32 + 15,
        DROP_NONE, out⟩, false) := by
  obtain ⟨hm, hsh⟩ := MillerSample_high
    ⟨STATE_MILLER_Z, sr, 0, byc, bmax, 1, sb, pb, smp, hc, bb, DROP_NONE, out⟩ hbb hS
  rw [(MillerDecoding_second _ 15 (by simp only; omega) (by simp) (by simp)).1]
  simp only [MillerSecondHalf, hm, hsh]
  simp [MillerSwitch, MillerStore]

theorem IdleHigh_succ (k : Nat) (rest : List Nat) :
    IdleHigh (k + 1) ++ rest = 15 :: (IdleHigh k ++ rest) := by
  simp [IdleHigh, List.replicate_succ]

/-- After a sync on a leftover dip with `posCnt = 1`, all-high samples bring `Uart` back
to `STATE_UNSYNCD` within three calls, without a frame and with `highCnt` still 8. -/
theorem Miller_spurious_sync_one (sr byc bmax sb pb smp bb : Nat) (out : Nat → Nat)
    (j : Nat) (rest : List Nat) (hbb : bb % 16 = 15)
    (hS : sb = 16 ∨ sb = 32 ∨ sb = 64 ∨ sb = 128) :
    ∃ bb1, bb1 % 16 = 15 ∧
      MillerRun ⟨STATE_START_OF_COMMUNICATION, sr, 0, byc, bmax, 1, sb, pb, smp, 8, bb,
          DROP_FIRST_HALF, out⟩ (IdleHigh (j + 3) ++ rest) =
        MillerRun ⟨STATE_UNSYNCD, 0, 1, byc, bmax, 0, sb, pb, smp, 8, bb1, DROP_NONE, out⟩
          rest := by
  have c1 := MillerDecoding_soc_high sr byc bmax 1 sb pb smp 8 bb out hbb (by norm_num) hS
  have c2 := MillerDecoding_first_high STATE_MILLER_Z 0 0 byc bmax sb pb smp 8
    (bb * 16 % 2 ^ 32 + 15) DROP_NONE out (by simp) (by omega) hS
  have c3 : MillerDecoding ⟨STATE_MILLER_Z, 0, 0, byc, bmax, 1, sb, pb, smp, 8,
      (bb * 16 % 2 ^ 32 + 15) * 16 % 2 ^ 32 + 15, DROP_NONE, out⟩ 15 =
      (⟨STATE_UNSYNCD, 0, 1, byc, bmax, 0, sb, pb, smp, 8,
        ((bb * 16 % 2 ^ 32 + 15) * 16 % 2 ^ 32 + 15) * 16 % 2 ^ 32 + 15, DROP_NONE, out⟩,
        false) :=
    MillerDecoding_z_high 0 byc bmax sb pb smp 8
      ((bb * 16 % 2 ^ 32 + 15) * 16 % 2 ^ 32 + 15) out (by omega) hS
  obtain ⟨bb1, hb1, e1⟩ := Miller_idle_run j 0 1 byc bmax 0 sb pb smp 8
    (((bb * 16 % 2 ^ 32 + 15) * 16 % 2 ^ 32 + 15) * 16 % 2 ^ 32 + 15) DROP_NONE out rest
    (by omega) (le_refl 8)
  have e8 : min (8 + j) 8 = 8 := by omega
  rw [e8] at e1
  refine ⟨bb1, hb1, ?_⟩
  rw [IdleHigh_succ, MillerRun_cons_false _ _ _ _ c1, IdleHigh_succ,
    MillerRun_cons_false _ _ _ _ c2, IdleHigh_succ, MillerRun_cons_false _ _ _ _ c3, e1]

/-- The same for both values of `posCnt` the sync search can leave. -/
theorem Miller_spurious_sync (sr byc bmax pc sb pb smp bb : Nat) (out : Nat → Nat)
    (k : Nat) (rest : List Nat) (hbb : bb % 16 = 15) (hk : 4 ≤ k) (hpc : pc = 0 ∨ pc = 1)
    (hS : sb = 16 ∨ sb = 32 ∨ sb = 64 ∨ sb = 128) :
    ∃ bb1, bb1 % 16 = 15 ∧
      MillerRun ⟨STATE_START_OF_COMMUNICATION, sr, 0, byc, bmax, pc, sb, pb, smp, 8, bb,
          DROP_FIRST_HALF, out⟩ (IdleHigh k ++ rest) =
        MillerRun ⟨STATE_UNSYNCD, 0, 1, byc, bmax, 0, sb, pb, smp, 8, bb1, DROP_NONE, out⟩
          rest := by
  rcases hpc with h | h <;> subst h
  · obtain ⟨j, rfl⟩ : ∃ j, k = j + 3 + 1 := ⟨k - 4, by omega⟩
    have c0 := MillerDecoding_first_high STATE_START_OF_COMMUNICATION sr 0 byc bmax sb pb smp
      8 bb DROP_FIRST_HALF out (by simp) hbb hS
    obtain ⟨bb1, hb1, e⟩ := Miller_spurious_sync_one sr byc bmax sb pb smp
      (bb * 16 % 2 ^ 32 + 15) out j rest (by omega) hS
    refine ⟨bb1, hb1, ?_⟩
    rw [IdleHigh_succ, MillerRun_cons_false _ _ _ _ c0, e]
  · obtain ⟨j, rfl⟩ : ∃ j, k = j + 3 := ⟨k - 3, by omega⟩
    exact Miller_spurious_sync_one sr byc bmax sb pb smp bb out j rest hbb hS

/-- The lead-in after a receive reset: from any unsynced `Uart` with `highCnt <= 8`, at
least 8 all-high samples leave an unsynced state that is ready to sync, with the same
output buffer, and no frame is reported on the way. -/
theorem Miller_settle (sr bc byc bmax pc sb pb smp hc bb : Nat) (dr : UartDrop)
    (out : Nat → Nat) (n : Nat) (rest : List Nat) (hhc : hc ≤ 8) (hn : 8 ≤ n) :
    ∃ U1, U1.state = STATE_UNSYNCD ∧ U1.output = out ∧ U1.byteCntMax = bmax ∧
      U1.bitBuffer % 16 = 15 ∧ 7 ≤ U1.highCnt ∧ U1.highCnt ≤ 8 ∧
      MillerRun ⟨STATE_UNSYNCD, sr, bc, byc, bmax, pc, sb, pb, smp, hc, bb, dr, out⟩
        (IdleHigh n ++ rest) = MillerRun U1 rest := by
  obtain ⟨k, rfl⟩ : ∃ k, n = k + 1 := ⟨n - 1, by omega⟩
  rw [IdleHigh_succ]
  by_cases hb0 : bb = 0
  · have c : MillerDecoding
        ⟨STATE_UNSYNCD, sr, bc, byc, bmax, pc, sb, pb, smp, hc, bb, dr, out⟩ 15 =
        (⟨STATE_UNSYNCD, sr, bc, byc, bmax, pc, sb, pb, smp, hc, 4095, dr, out⟩, false) :=
      MillerDecoding_empty _ 15 hb0
    obtain ⟨bb1, hb1, e1⟩ := Miller_idle_run k sr bc byc bmax pc sb pb smp hc 4095 dr out rest
      (by norm_num) hhc
    refine ⟨_, rfl, rfl, rfl, hb1, ?_, ?_, (MillerRun_cons_false _ _ _ _ c).trans e1⟩
    · simp only; omega
    · simp only; omega
  by_cases h15 : bb % 16 = 15
  · have c := MillerDecoding_idle sr bc byc bmax pc sb pb smp hc bb dr out 15 h15
      (by norm_num)
    obtain ⟨bb1, hb1, e1⟩ := Miller_idle_run k sr bc byc bmax pc sb pb smp
      (if hc < 8 then hc + 1 else hc) (bb * 16 % 2 ^ 32 + 15) dr out rest (by omega)
      (by split <;> omega)
    refine ⟨_, rfl, rfl, rfl, hb1, ?_, ?_, (MillerRun_cons_false _ _ _ _ c).trans e1⟩
    · simp only; split <;> omega
    · simp only; omega
  obtain ⟨d1, d2⟩ := MillerDecoding_dip
    ⟨STATE_UNSYNCD, sr, bc, byc, bmax, pc, sb, pb, smp, hc, bb, dr, out⟩ 15 rfl hb0
    (by norm_num) h15
  by_cases h8 : hc = 8
  · subst h8
    obtain ⟨r1, r2⟩ := MillerSync_range (bb * 16 % 2 ^ 32 + 15) (15 - bb % 16) (by omega)
      (by omega)
    obtain ⟨bb1, hb1, e1⟩ := Miller_spurious_sync sr 0 bmax
      (MillerSync (bb * 16 % 2 ^ 32 + 15) (15 - bb % 16)).2.2
      (MillerSync (bb * 16 % 2 ^ 32 + 15) (15 - bb % 16)).1 0
      (MillerSync (bb * 16 % 2 ^ 32 + 15) (15 - bb % 16)).2.1 (bb * 16 % 2 ^ 32 + 15) out k
      rest (by omega) (by omega) r2 r1
    exact ⟨_, rfl, rfl, rfl, hb1, by norm_num, by norm_num,
      (MillerRun_cons_false _ _ _ _ (d1 rfl)).trans e1⟩
  · obtain ⟨bb1, hb1, e1⟩ := Miller_idle_run k sr bc byc bmax pc sb pb smp 0
      (bb * 16 % 2 ^ 32 + 15) dr out rest (by omega) (by norm_num)
    refine ⟨_, rfl, rfl, rfl, hb1, ?_, ?_, (MillerRun_cons_false _ _ _ _ (d2 h8)).trans e1⟩
    · simp only; omega
    · simp only; omega

/-- `highCnt <= 8` is kept by every call of `MillerDecoding`. -/
theorem MillerDecoding_highCnt_le (U : UartT) (v : Nat) (h : U.highCnt ≤ 8) :
    (MillerDecoding U v).1.highCnt ≤ 8 := by
  by_cases hbb : U.bitBuffer = 0
  · rw [MillerDecoding_empty U v hbb]
    exact h
  by_cases hst : U.state = STATE_UNSYNCD
  · rcases U with ⟨st, sr, bc, byc, bmax, pc, sb, pb, smp, hc, bb, dr, out⟩
    simp only at hbb hst h
    subst hst
    unfold MillerDecoding MillerUnsynced
    simp only [hbb, if_false, ne_eq, not_true_eq_false]
    split_ifs <;> simp only <;> omega
  by_cases hp : U.posCnt = 0
  · rw [MillerDecoding_first U v hbb hp hst]
    exact h
  · rw [(MillerDecoding_second U v hbb hp hst).1, (MillerStore_fields _ _).2.2.1]
    have hU : (MillerSecondHalf U v).highCnt ≤ 8 := h
    revert hU
    generalize MillerSecondHalf U v = V
    rcases V with ⟨st, sr, bc, byc, bmax, pc, sb, pb, smp, hc, bb, dr, out⟩
    intro hU
    simp only at hU
    cases st <;> cases dr <;> simp [MillerSwitch] <;> omega

set_option maxRecDepth 100000 in
/-- C19 fails as stated. `Uart` is taken part-way through the frame `[0x26]` (20 samples
in, `STATE_MILLER_Y` with four bits received) and reset as the receive routines do. Fed
sample by sample (inverted, drop = low) after 8 idle-high samples, the fresh frame
`[0x93, 0x20]` with parity word 1 is not decoded at all; fed three sample bits late it is
decoded, with its bytes and byte count, but `parityBits` is 2, not 1. -/
theorem C19_counterexample :
    (MillerFeed (UartReset (fun _ => 0) 32)
      ((MillerDelayedSamples 8 (CodeIso14443aAsReaderPar [0x26] 0)).take 20)).state
        = STATE_MILLER_Y
    ∧ (MillerFeed (UartReset (fun _ => 0) 32)
      ((MillerDelayedSamples 8 (CodeIso14443aAsReaderPar [0x26] 0)).take 20)).bitCnt = 4
    ∧ (MillerRun
        (UartReceiveReset (MillerFeed (UartReset (fun _ => 0) 32)
          ((MillerDelayedSamples 8 (CodeIso14443aAsReaderPar [0x26] 0)).take 20))
          (fun _ => 0) 32)
        (IdleHigh 8 ++
          InvertNibbles (PatternNibbles (CodeIso14443aAsReaderPar [0x93, 0x20] 1)))).2 = false
    ∧ (MillerRun
        (UartReceiveReset (MillerFeed (UartReset (fun _ => 0) 32)
          ((MillerDelayedSamples 8 (CodeIso14443aAsReaderPar [0x26] 0)).take 20))
          (fun _ => 0) 32)
        (MillerDelayedSamples 8 (CodeIso14443aAsReaderPar [0x93, 0x20] 1))).2 = true
    ∧ (MillerRun
        (UartReceiveReset (MillerFeed (UartReset (fun _ => 0) 32)
          ((MillerDelayedSamples 8 (CodeIso14443aAsReaderPar [0x26] 0)).take 20))
          (fun _ => 0) 32)
        (MillerDelayedSamples 8 (CodeIso14443aAsReaderPar [0x93, 0x20] 1))).1.byteCnt = 2
    ∧ (MillerRun
        (UartReceiveReset (MillerFeed (UartReset (fun _ => 0) 32)
          ((MillerDelayedSamples 8 (CodeIso14443aAsReaderPar [0x26] 0)).take 20))
          (fun _ => 0) 32)
        (MillerDelayedSamples 8 (CodeIso14443aAsReaderPar [0x93, 0x20] 1))).1.parityBits
        = 2 := by
  decide

/-- C19 as amended: reset is clean. Take any state `U` of `Uart` with `highCnt <= 8` (an
invariant of `MillerDecoding`, so every state reached from a zeroed `Uart`), reset it as
the receive routines do (`output`, `byteCntMax`, `state = STATE_UNSYNCD`) and feed it at
least 8 idle-high samples followed by a reader frame of at least one byte as the decoder
can receive it (inverted, three sample bits late). The run is frame-complete with exactly
that frame's bytes and byte count, and with the parity bits in the decoder's order (bit
`len - 1 - i` for byte `i`, for at most 32 bytes); byte count, parity word and the whole
output buffer are those of the same run from the zeroed `Uart`, whatever `U` was. -/
theorem C19_reset_clean (U : UartT) (cmd : List Nat) (dwParity n maxLen : Nat)
    (received : Nat → Nat) (hlen : 1 ≤ cmd.length) (hbytes : ∀ b ∈ cmd, b < 256)
    (hn : 8 ≤ n) (hhc : U.highCnt ≤ 8) :
    (MillerRun (UartReceiveReset U received maxLen)
      (MillerDelayedSamples n (CodeIso14443aAsReaderPar cmd dwParity))).2 = true
    ∧ (MillerRun (UartReceiveReset U received maxLen)
      (MillerDelayedSamples n (CodeIso14443aAsReaderPar cmd dwParity))).1.state
        = STATE_UNSYNCD
    ∧ (MillerRun (UartReceiveReset U received maxLen)
      (MillerDelayedSamples n (CodeIso14443aAsReaderPar cmd dwParity))).1.byteCnt
        = cmd.length
    ∧ (∀ i, i < cmd.length →
        (MillerRun (UartReceiveReset U received maxLen)
          (MillerDelayedSamples n (CodeIso14443aAsReaderPar cmd dwParity))).1.output i
          = cmd.getD i 0)
    ∧ (cmd.length ≤ 32 → ∀ i, i < cmd.length →
        (MillerRun (UartReceiveReset U received maxLen)
          (MillerDelayedSamples n
            (CodeIso14443aAsReaderPar cmd dwParity))).1.parityBits.testBit (cmd.length - 1 - i)
          = dwParity.testBit i)
    ∧ (MillerRun (UartReceiveReset U received maxLen)
      (MillerDelayedSamples n (CodeIso14443aAsReaderPar cmd dwParity))).1.byteCnt
        = (MillerReceive received maxLen n (CodeIso14443aAsReaderPar cmd dwParity)).1.byteCnt
    ∧ (MillerRun (UartReceiveReset U received maxLen)
      (MillerDelayedSamples n (CodeIso14443aAsReaderPar cmd dwParity))).1.parityBits
        = (MillerReceive received maxLen n
            (CodeIso14443aAsReaderPar cmd dwParity)).1.parityBits
    ∧ (MillerRun (UartReceiveReset U received maxLen)
      (MillerDelayedSamples n (CodeIso14443aAsReaderPar cmd dwParity))).1.output
        = (MillerReceive received maxLen n (CodeIso14443aAsReaderPar cmd dwParity)).1.output
    ∧ (∀ (V : UartT) (s : Nat), V.highCnt ≤ 8 → (MillerDecoding V s).1.highCnt ≤ 8) := by
  obtain ⟨W, eW, -, w2, w3, w4⟩ := Miller_receive_output cmd dwParity n maxLen received
    hlen hbytes hn
  obtain ⟨o1, -⟩ := Frame_output cmd dwParity received hbytes
  rcases U with ⟨st, sr, bc, byc, bmax, pc, sb, pb, smp, hc, bb, dr, out⟩
  simp only at hhc
  obtain ⟨U1, s1, s2, s3, s4, s5, s6, e1⟩ := Miller_settle sr bc byc maxLen pc sb pb smp hc bb
    dr received n
    (Delay3 7 ((CodeIso14443aAsReaderPar cmd dwParity).map (fun s => 255 - s))) hhc hn
  rcases U1 with ⟨st1, sr1, bc1, byc1, bmax1, pc1, sb1, pb1, smp1, hc1, bb1, dr1, out1⟩
  simp only at s1 s2 s3 s4 s5 s6
  subst s1 s2 s3
  obtain ⟨V, eV, v1, v2, v3, v4⟩ := Miller_ready_frame sr1 bc1 byc1 bmax1 pc1 sb1 pb1 smp1
    hc1 bb1 dr1 out1 cmd dwParity hlen hbytes s4 s5 s6
  have erun : MillerRun
      (UartReceiveReset ⟨st, sr, bc, byc, bmax, pc, sb, pb, smp, hc, bb, dr, out⟩ out1 bmax1)
      (MillerDelayedSamples n (CodeIso14443aAsReaderPar cmd dwParity)) = (V, true) := by
    unfold MillerDelayedSamples UartReceiveReset
    exact e1.trans eV
  rw [erun, eW]
  refine ⟨rfl, v1, v2, fun i hi => by simp only; rw [v4]; exact o1 i hi, ?_,
    by simp only; rw [v2, w2], by simp only; rw [v3, w3], by simp only; rw [v4, w4],
    MillerDecoding_highCnt_le⟩
  intro h32 i hi
  simp only
  rw [v3]
  exact (ParityAcc_reversed dwParity cmd.length h32).2 i hi

/-- C19 at a concrete input: `Uart` in the middle of a byte, then the frame
`[0x93, 0x20]`. -/
theorem C19_reset_clean_witness :
    (MillerRun
      (UartReceiveReset
        ⟨STATE_MILLER_X, 0x130, 5, 1, 32, 1, 16, 1, 0, 8, 0xFFF7, DROP_FIRST_HALF, fun _ => 0x26⟩
        (fun _ => 0) 32)
      (MillerDelayedSamples 8 (CodeIso14443aAsReaderPar [0x93, 0x20] 1))).1.byteCnt
        = [0x93, 0x20].length :=
  (C19_reset_clean
    ⟨STATE_MILLER_X, 0x130, 5, 1, 32, 1, 16, 1, 0, 8, 0xFFF7, DROP_FIRST_HALF, fun _ => 0x26⟩
    [0x93, 0x20] 1 8 32 (fun _ => 0) (by decide) (by decide) (by decide) (by decide)).2.2.1

/-! ## The partial last byte of a tag answer -/

/-- A further bit above `k` low bits. -/
theorem LsbBits_top (k : Nat) : ∀ (B b : Nat), B < 2 ^ k → b < 2 →
    LsbBits (k + 1) (B + 2 ^ k * b) = LsbBits k B ++ [b] := by
  induction k with
  | zero =>
    intro B b hB hb
    have : B = 0 := by simpa using hB
    subst this
    simp [LsbBits]
    omega
  | succ k ih =>
    intro B b hB hb
    have h2 : B / 2 < 2 ^ k := by
      have : (2 : Nat) ^ (k + 1) = 2 * 2 ^ k := by rw [pow_succ]; ring
      omega
    have e : (2 : Nat) ^ (k + 1) * b = 2 * (2 ^ k * b) := by rw [pow_succ]; ring
    have hm : (B + 2 ^ (k + 1) * b) % 2 = B % 2 := by rw [e]; omega
    have hd : (B + 2 ^ (k + 1) * b) / 2 = B / 2 + 2 ^ k * b := by rw [e]; omega
    have h := ih (B / 2) b h2 hb
    show (B + 2 ^ (k + 1) * b) % 2 :: LsbBits (k + 1) ((B + 2 ^ (k + 1) * b) / 2) =
      (B % 2 :: LsbBits k (B / 2)) ++ [b]
    rw [hm, hd, h]
    rfl

/-- The shift register in arithmetic. -/
theorem ManchesterShiftIn_eq (sr b : Nat) (hsr : sr < 512) (hb : b < 2) :
    ManchesterShiftIn sr b = sr / 2 + 256 * b := by
  unfold ManchesterShiftIn
  rw [Nat.shiftRight_eq_div_pow, pow_one]
  by_cases h : b = 1
  · rw [if_pos h, xor_256_eq _ (by omega), h]
  · rw [if_neg h]
    have : b = 0 := by omega
    rw [this]
    rfl

/-- The shift register after `k` bits from the cleared state: the bits, first received
lowest, in its top `k` bits. -/
theorem ManchesterShiftIn_bits (bits : List Nat) :
    (∀ b ∈ bits, b < 2) → bits.length ≤ 9 →
    ∃ B, B < 2 ^ bits.length ∧ bits.foldl ManchesterShiftIn 0 = B * 2 ^ (9 - bits.length) ∧
      LsbBits bits.length B = bits := by
  induction bits using List.reverseRecOn with
  | nil =>
    intro _ _
    exact ⟨0, by simp, by simp, rfl⟩
  | append_singleton l b ih =>
    intro hl hlen
    have hb : b < 2 := hl b (by simp)
    have hk : l.length + 1 ≤ 9 := by simpa using hlen
    obtain ⟨B, hB, hsr, hbits⟩ := ih (fun x hx => hl x (by simp [hx])) (by omega)
    have ep : (2 : Nat) ^ (9 - l.length) = 2 * 2 ^ (8 - l.length) := by
      have : 9 - l.length = (8 - l.length) + 1 := by omega
      rw [this, pow_succ]; ring
    have e8 : (2 : Nat) ^ l.length * 2 ^ (8 - l.length) = 256 := by
      rw [← pow_add]
      have : l.length + (8 - l.length) = 8 := by omega
      rw [this]
      norm_num
    have hlt : B * 2 ^ (9 - l.length) < 512 := by
      have h9 : (2 : Nat) ^ l.length * 2 ^ (9 - l.length) = 512 := by
        rw [← pow_add]
        have : l.length + (9 - l.length) = 9 := by omega
        rw [this]
        norm_num
      have hpos : 0 < (2 : Nat) ^ (9 - l.length) := by positivity
      calc B * 2 ^ (9 - l.length) < 2 ^ l.length * 2 ^ (9 - l.length) :=
            Nat.mul_lt_mul_of_pos_right hB hpos
        _ = 512 := h9
    refine ⟨B + 2 ^ l.length * b, ?_, ?_, ?_⟩
    · have : (2 : Nat) ^ (l ++ [b]).length = 2 * 2 ^ l.length := by
        simp [pow_succ, Nat.mul_comm]
      rw [this]
      have hb2 : 2 ^ l.length * b ≤ 2 ^ l.length := by
        calc 2 ^ l.length * b ≤ 2 ^ l.length * 1 := Nat.mul_le_mul_left _ (by omega)
          _ = 2 ^ l.length := by ring
      omega
    · rw [List.foldl_append]
      simp only [List.foldl_cons, List.foldl_nil]
      rw [hsr, ManchesterShiftIn_eq _ _ hlt hb]
      have hl9 : 9 - (l ++ [b]).length = 8 - l.length := by simp
      rw [hl9, ep]
      have hd : B * (2 * 2 ^ (8 - l.length)) / 2 = B * 2 ^ (8 - l.length) := by
        have : B * (2 * 2 ^ (8 - l.length)) = 2 * (B * 2 ^ (8 - l.length)) := by ring
        rw [this]
        omega
      rw [hd, add_mul]
      have : 2 ^ l.length * b * 2 ^ (8 - l.length) = 256 * b := by
        rw [← e8]; ring
      rw [this]
    · have : (l ++ [b]).length = l.length + 1 := by simp
      rw [this, LsbBits_top l.length B b hB hb, hbits]

/-- The call of `ManchesterDecoding` that ends a bit period in `DEMOD_MANCHESTER_F`
without a modulation in both halves runs the `switch` on `DEMOD_MANCHESTER_F`. -/
theorem ManchesterDecoding_f (bc pc sb pb sr bf bu smp len : Nat) (su : DemodSub)
    (out : Nat → Nat) (v : Nat) (hbuff : bu ≠ 0) (hpos : pc ≠ 0)
    (hmod : ¬ (ManchesterModulation
        ⟨DEMOD_MANCHESTER_F, bc, pc, sb, pb, sr, bf, bu, smp, len, su, out⟩ v ≠ 0 ∧
      su = SUB_FIRST_HALF)) :
    ∃ su1,
      ManchesterDecoding ⟨DEMOD_MANCHESTER_F, bc, pc, sb, pb, sr, bf, bu, smp, len, su, out⟩ v =
        (if (ManchesterSwitch
              ⟨DEMOD_MANCHESTER_F, bc, 0, sb, pb, sr, v, bu, smp + 4, len, su1, out⟩).2 then
          ((ManchesterSwitch
              ⟨DEMOD_MANCHESTER_F, bc, 0, sb, pb, sr, v, bu, smp + 4, len, su1, out⟩).1, true)
        else
          (ManchesterStore (ManchesterSwitch
              ⟨DEMOD_MANCHESTER_F, bc, 0, sb, pb, sr, v, bu, smp + 4, len, su1, out⟩).1,
            false)) := by
  unfold ManchesterModulation at hmod
  simp only at hmod
  unfold ManchesterDecoding ManchesterSynced
  simp only [hbuff, if_false, hpos]
  generalize ((bf <<< 1) ^^^ ((v &&& 0x08) >>> 3)) &&& sb = m at hmod ⊢
  by_cases hm : m = 0
  · exact ⟨su, by simp [hm]⟩
  · have hs : su ≠ SUB_FIRST_HALF := fun h => hmod ⟨hm, h⟩
    exact ⟨SUB_SECOND_HALF, by simp [hm, hs]⟩

/-- C20: the end of a tag answer in `DEMOD_MANCHESTER_F`. The call ends a bit period
(`posCount` not 0) without a modulation in both halves, and `Demod.shiftReg` holds the
`k = bitCount` bits received since the register was last cleared (`bits`, each shifted in
by `ManchesterShiftIn`, which is what the `switch` does in `DEMOD_MANCHESTER_D` and
`DEMOD_MANCHESTER_E`). With `1 <= k <= 8` the byte stored at `output[len]` is
`shiftReg >> (9 - k)`: its `k` low bits are the received bits, the first received at bit
0, and its upper bits are zero; `len` grows by one, a 0 is shifted into `parityBits`, the
call returns frame-complete and `Demod` is in `DEMOD_UNSYNCD`. With `k = 0` and `len > 0`
the call returns frame-complete and stores nothing. -/
theorem C20_partial_byte (D : DemodT) (v : Nat) (bits : List Nat)
    (hbuff : D.buff ≠ 0) (hst : D.state = DEMOD_MANCHESTER_F) (hpos : D.posCount ≠ 0)
    (hmod : ¬ (ManchesterModulation D v ≠ 0 ∧ D.sub = SUB_FIRST_HALF))
    (hbits : ∀ b ∈ bits, b < 2) (hk : bits.length = D.bitCount) (hk8 : D.bitCount ≤ 8)
    (hreg : D.shiftReg = bits.foldl ManchesterShiftIn 0) :
    (1 ≤ D.bitCount →
      (ManchesterDecoding D v).2 = true
      ∧ (ManchesterDecoding D v).1.state = DEMOD_UNSYNCD
      ∧ (ManchesterDecoding D v).1.output =
          bufSet D.output D.len (D.shiftReg >>> (9 - D.bitCount))
      ∧ D.shiftReg >>> (9 - D.bitCount) < 2 ^ D.bitCount
      ∧ LsbBits D.bitCount (D.shiftReg >>> (9 - D.bitCount)) = bits
      ∧ (ManchesterDecoding D v).1.len = D.len + 1
      ∧ (ManchesterDecoding D v).1.parityBits = (D.parityBits <<< 1) % 2 ^ 32)
    ∧ (D.bitCount = 0 → 0 < D.len →
      (ManchesterDecoding D v).2 = true
      ∧ (ManchesterDecoding D v).1.state = DEMOD_UNSYNCD
      ∧ (ManchesterDecoding D v).1.output = D.output
      ∧ (ManchesterDecoding D v).1.len = D.len
      ∧ (ManchesterDecoding D v).1.parityBits = D.parityBits)
    ∧ (∀ V : DemodT, V.state = DEMOD_MANCHESTER_D ∨ V.state = DEMOD_MANCHESTER_E →
      (V.sub = SUB_FIRST_HALF →
        (ManchesterSwitch V).1.shiftReg = ManchesterShiftIn V.shiftReg 1 ∧
        (ManchesterSwitch V).1.bitCount = V.bitCount + 1)
      ∧ (V.sub = SUB_SECOND_HALF →
        (ManchesterSwitch V).1.shiftReg = ManchesterShiftIn V.shiftReg 0 ∧
        (ManchesterSwitch V).1.bitCount = V.bitCount + 1)) := by
  rcases D with ⟨st, bc, pc, sb, pb, sr, bf, bu, smp, len, su, out⟩
  simp only at hbuff hst hpos hk hk8 hreg ⊢
  subst hst
  obtain ⟨su1, e⟩ := ManchesterDecoding_f bc pc sb pb sr bf bu smp len su out v hbuff hpos hmod
  rw [e]
  obtain ⟨B, hB, hsr, hL⟩ := ManchesterShiftIn_bits bits hbits (by omega)
  rw [hk] at hB hsr hL
  have hshift : sr >>> (9 - bc) = B := by
    rw [hreg, hsr, Nat.shiftRight_eq_div_pow]
    exact Nat.mul_div_cancel B (by positivity)
  refine ⟨?_, ?_, ?_⟩
  · intro h1
    have hB8 : B < 256 := by
      have : (2 : Nat) ^ bc ≤ 2 ^ 8 := Nat.pow_le_pow_right (by norm_num) hk8
      have e8 : (2 : Nat) ^ 8 = 256 := by norm_num
      omega
    have hand : B &&& 0xff = B := by
      rw [and_ff_eq]
      omega
    have hpos : 0 < bc := h1
    simp [ManchesterSwitch, hpos, hshift, hand, hB, hL]
  · intro h0 hl
    subst h0
    simp [ManchesterSwitch, hl]
  · intro V hV
    rcases V with ⟨st, bc, pc, sb, pb, sr, bf, bu, smp, len, su, out⟩
    simp only at hV ⊢
    rcases hV with h | h <;> subst h <;> constructor <;> intro hs <;> subst hs <;>
      simp [ManchesterSwitch, ManchesterShiftIn]

/-- C20 at a concrete call: four pending bits 1, 0, 1, 0 (`shiftReg = 0xA0`) after one
stored byte give the last byte 5. -/
theorem C20_partial_byte_witness :
    (ManchesterDecoding
      ⟨DEMOD_MANCHESTER_F, 4, 1, 4, 1, 0xA0, 0, 1, 0, 1, SUB_NONE, fun _ => 0⟩ 0).1.output
      = bufSet (fun _ => 0) 1 (0xA0 >>> (9 - 4))
    ∧ LsbBits 4 (0xA0 >>> (9 - 4)) = [1, 0, 1, 0] :=
  ⟨((C20_partial_byte
      ⟨DEMOD_MANCHESTER_F, 4, 1, 4, 1, 0xA0, 0, 1, 0, 1, SUB_NONE, fun _ => 0⟩ 0 [1, 0, 1, 0]
      (by decide) (by decide) (by decide) (by decide) (by decide) (by decide) (by decide)
      (by decide)).1 (by decide)).2.2.1,
   ((C20_partial_byte
      ⟨DEMOD_MANCHESTER_F, 4, 1, 4, 1, 0xA0, 0, 1, 0, 1, SUB_NONE, fun _ => 0⟩ 0 [1, 0, 1, 0]
      (by decide) (by decide) (by decide) (by decide) (by decide) (by decide) (by decide)
      (by decide)).1 (by decide)).2.2.2.2.1⟩

/-! ### The select procedure -/

/-- `ReaderReceive` on a frame of at least one byte returns its length and stores it. -/
theorem ReaderReceive_some (resp : Nat → Nat) (b : Nat) (r : List Nat) :
    ReaderReceive resp (some (b :: r)) = (r.length + 1, bufPut resp (b :: r)) := rfl

/-- `ReaderReceive` returns 0 exactly when the answer is not received. -/
theorem ReaderReceive_zero (resp : Nat → Nat) (a : Option (List Nat)) :
    (ReaderReceive resp a).1 = 0 ↔ Received a = false := by
  rcases a with _ | r
  · simp [ReaderReceive, Received]
  · cases r <;> simp [ReaderReceive, Received]

/-- The first byte of a stored frame. -/
theorem bufPut_zero (buf : Nat → Nat) (b : Nat) (r : List Nat) :
    bufPut buf (b :: r) 0 = b := by
  simp [bufPut, memcpyAt, bufOfList]

/-- The loop is left at once when the SAK has bit 0x04 clear. -/
theorem SelectLoop_done (crc : List Nat → Nat × Nat) (b2n : List Nat → Nat) (hc : Bool)
    (S : SelectT) (answers : List (Option (List Nat))) (h : S.sak &&& 0x04 = 0) :
    SelectLoop crc b2n hc S answers = (false, S, answers) := by
  rcases answers with _ | ⟨a, _ | ⟨b, rest⟩⟩ <;> simp [SelectLoop, h]

/-- One pass of the loop with both answers received. -/
theorem SelectLoop_round (crc : List Nat → Nat × Nat) (b2n : List Nat → Nat) (hc : Bool)
    (S : SelectT) (u0 : Nat) (u : List Nat) (s0 : Nat) (s : List Nat)
    (rest : List (Option (List Nat))) (h : S.sak &&& 0x04 ≠ 0) :
    SelectLoop crc b2n hc S (some (u0 :: u) :: some (s0 :: s) :: rest)
      = SelectLoop crc b2n hc (SelectRound crc b2n hc S (u0 :: u) (s0 :: s)) rest := by
  rw [SelectLoop]
  simp only [h, if_false, ReaderReceive_some, Nat.succ_ne_zero]
  cases hc <;> rfl

/-- The loop ends with status 0 when the UID answer is not received. -/
theorem SelectLoop_no_uid (crc : List Nat → Nat × Nat) (b2n : List Nat → Nat) (hc : Bool)
    (S : SelectT) (answers : List (Option (List Nat))) (h : S.sak &&& 0x04 ≠ 0)
    (hu : Received (answers.headD none) = false) :
    (SelectLoop crc b2n hc S answers).1 = true
      ∧ (SelectLoop crc b2n hc S answers).2.1.status = 0 := by
  rcases answers with _ | ⟨a, _ | ⟨b, rest⟩⟩
  · simp [SelectLoop, h]
  · have := (ReaderReceive_zero S.resp a).2 hu
    simp [SelectLoop, h, this]
  · have := (ReaderReceive_zero S.resp a).2 hu
    simp [SelectLoop, h, this]

/-- The loop ends with status 0 when the SAK is not received. -/
theorem SelectLoop_no_sak (crc : List Nat → Nat × Nat) (b2n : List Nat → Nat) (hc : Bool)
    (S : SelectT) (u0 : Nat) (u : List Nat) (rest : List (Option (List Nat)))
    (h : S.sak &&& 0x04 ≠ 0) (hs : Received (rest.headD none) = false) :
    (SelectLoop crc b2n hc S (some (u0 :: u) :: rest)).1 = true
      ∧ (SelectLoop crc b2n hc S (some (u0 :: u) :: rest)).2.1.status = 0 := by
  rcases rest with _ | ⟨b, rest⟩
  · simp [SelectLoop, h, ReaderReceive_some]
  · have := (ReaderReceive_zero (bufPut S.resp (u0 :: u)) b).2 hs
    rw [SelectLoop]
    simp only [h, if_false, ReaderReceive_some, Nat.succ_ne_zero]
    cases hc <;> simp [this]

/-- The SAK after a complete pass is the first byte of the SAK answer. -/
theorem SelectRound_sak (crc : List Nat → Nat × Nat) (b2n : List Nat → Nat) (hc : Bool)
    (S : SelectT) (u : List Nat) (s0 : Nat) (s : List Nat) :
    (SelectRound crc b2n hc S u (s0 :: s)).sak = s0 := by
  simp [SelectRound, bufPut_zero]

/-- The loop against the answers: it is left by `return 0` exactly when a UID answer or a
SAK is not received, and otherwise ends with the final SAK and the answers after it. -/
theorem SelectLoop_final (crc : List Nat → Nat × Nat) (b2n : List Nat → Nat) (hc : Bool) :
    ∀ (n : Nat) (answers : List (Option (List Nat))) (S : SelectT), answers.length ≤ n →
      S.sak &&& 0x04 ≠ 0 →
      match SelectFinalSak answers with
      | none => (SelectLoop crc b2n hc S answers).1 = true
          ∧ (SelectLoop crc b2n hc S answers).2.1.status = 0
      | some (sak, rest) => (SelectLoop crc b2n hc S answers).1 = false
          ∧ (SelectLoop crc b2n hc S answers).2.1.sak = sak
          ∧ (SelectLoop crc b2n hc S answers).2.2 = rest := by
  intro n
  induction n with
  | zero =>
    intro answers S hl h
    have : answers = [] := List.length_eq_zero.mp (Nat.le_zero.mp hl)
    subst this
    simpa [SelectFinalSak] using SelectLoop_no_uid crc b2n hc S [] h rfl
  | succ n ih =>
    intro answers S hl h
    rcases answers with _ | ⟨a, rest⟩
    · simpa [SelectFinalSak] using SelectLoop_no_uid crc b2n hc S [] h rfl
    · rcases a with _ | ⟨_ | ⟨u0, u⟩⟩
      · simpa [SelectFinalSak] using SelectLoop_no_uid crc b2n hc S (none :: rest) h rfl
      · simpa [SelectFinalSak] using SelectLoop_no_uid crc b2n hc S (some [] :: rest) h rfl
      · rcases rest with _ | ⟨b, rest2⟩
        · simpa [SelectFinalSak] using SelectLoop_no_sak crc b2n hc S u0 u [] h rfl
        · rcases b with _ | ⟨_ | ⟨s0, s⟩⟩
          · simpa [SelectFinalSak] using
              SelectLoop_no_sak crc b2n hc S u0 u (none :: rest2) h rfl
          · simpa [SelectFinalSak] using
              SelectLoop_no_sak crc b2n hc S u0 u (some [] :: rest2) h rfl
          · rw [SelectLoop_round crc b2n hc S u0 u s0 s rest2 h]
            have hsak := SelectRound_sak crc b2n hc S (u0 :: u) s0 s
            by_cases hs : s0 &&& 0x04 = 0
            · rw [SelectLoop_done crc b2n hc _ rest2 (by rw [hsak]; exact hs)]
              simp [SelectFinalSak, hs, hsak]
            · have hl2 : rest2.length ≤ n := by
                simp only [List.length_cons] at hl
                omega
              have := ih rest2 (SelectRound crc b2n hc S (u0 :: u) (s0 :: s)) hl2
                (by rw [hsak]; exact hs)
              simpa [SelectFinalSak, hs] using this

/-- The status the part after the loop returns. -/
theorem SelectTail_status (crc : List Nat → Nat × Nat) (atsSize : Nat) (hasRespData : Bool)
    (S : SelectT) (answers : List (Option (List Nat))) :
    (SelectTail crc atsSize hasRespData S answers).status
      = if S.sak &&& 0x20 = 0 then 2
        else if hasRespData && !Received (answers.headD none) then 0
        else 1 := by
  unfold SelectTail
  generalize answers.headD none = x
  have hr := ReaderReceive_zero S.resp x
  by_cases h20 : S.sak &&& 0x20 = 0
  · simp only [h20, if_true]
  · cases hasRespData
    · simp [h20]
    · by_cases hrc : Received x = false
      · simp [h20, hrc, hr.2 hrc]
      · have : ¬ (ReaderReceive S.resp x).1 = 0 := fun h => hrc (hr.1 h)
        simp only [Bool.not_eq_false] at hrc
        simp [h20, hrc, this]

/-- The status of `iso14443a_select_card` once the ATQA is received. -/
theorem select_tail_status (crc : List Nat → Nat × Nat) (b2n : List Nat → Nat)
    (atsSize : Nat) (hasRespData hasCuid : Bool) (uid0 resp0 : Nat → Nat) (a0 : Nat)
    (a : List Nat) (answers : List (Option (List Nat))) :
    (iso14443a_select_card crc b2n atsSize hasRespData hasCuid uid0 resp0
        (some (a0 :: a) :: answers)).status
      = match SelectFinalSak answers with
        | none => 0
        | some (sak, rest2) =>
          if sak &&& 0x20 = 0 then 2
          else if hasRespData && !Received (rest2.headD none) then 0
          else 1 := by
  have key := fun S h => SelectLoop_final crc b2n hasCuid answers.length answers S le_rfl h
  unfold iso14443a_select_card
  simp only [List.headD_cons, List.tail_cons, ReaderReceive_some, Nat.succ_ne_zero, if_false]
  have k := key
    { status := 0, uid := fun k => if k < 8 then 0 else uid0 k, cuid := 0,
      atqa := if hasRespData then bufSlice (bufPut resp0 (a0 :: a)) 0 2 else [],
      rsak := 0, ats_len := 0, ats := [], resp := bufPut resp0 (a0 :: a),
      sak := 0x04, cascade_level := 0, sent := [[0x52]] } (by show 4 &&& 4 ≠ 0; decide)
  revert k
  generalize SelectLoop crc b2n hasCuid _ answers = l
  cases hf : SelectFinalSak answers with
  | none =>
    rintro ⟨h1, h2⟩
    simp only [h1, if_true]
    exact h2
  | some p =>
    rcases p with ⟨sak, rest2⟩
    rintro ⟨h1, h2, h3⟩
    simp only [h1, Bool.false_eq_true, if_false, SelectTail_status, h2, h3]

/-- The status of `iso14443a_select_card` is the one the specification's words give. -/
theorem select_status (crc : List Nat → Nat × Nat) (b2n : List Nat → Nat) (atsSize : Nat)
    (hasRespData hasCuid : Bool) (uid0 resp0 : Nat → Nat)
    (answers : List (Option (List Nat))) :
    (iso14443a_select_card crc b2n atsSize hasRespData hasCuid uid0 resp0 answers).status
      = SelectStatusSpec hasRespData answers := by
  rcases answers with _ | ⟨a, rest⟩
  · simp [iso14443a_select_card, SelectStatusSpec, ReaderReceive]
  · rcases a with _ | ⟨_ | ⟨a0, a⟩⟩
    · simp [iso14443a_select_card, SelectStatusSpec, ReaderReceive, Received]
    · simp [iso14443a_select_card, SelectStatusSpec, ReaderReceive, Received, bufPut]
    · rw [select_tail_status]
      rfl

/-- The state in which `iso14443a_select_card` enters its loop once the ATQA `atqa` is
received. -/
theorem select_enter (crc : List Nat → Nat × Nat) (b2n : List Nat → Nat) (atsSize : Nat)
    (hasRespData hasCuid : Bool) (uid0 resp0 : Nat → Nat) (a0 : Nat) (a : List Nat)
    (answers : List (Option (List Nat))) :
    iso14443a_select_card crc b2n atsSize hasRespData hasCuid uid0 resp0
        (some (a0 :: a) :: answers)
      = if (SelectLoop crc b2n hasCuid
            { status := 0, uid := fun k => if k < 8 then 0 else uid0 k, cuid := 0,
              atqa := if hasRespData then bufSlice (bufPut resp0 (a0 :: a)) 0 2 else [],
              rsak := 0, ats_len := 0, ats := [], resp := bufPut resp0 (a0 :: a),
              sak := 0x04, cascade_level := 0, sent := [[0x52]] } answers).1
        then (SelectLoop crc b2n hasCuid
            { status := 0, uid := fun k => if k < 8 then 0 else uid0 k, cuid := 0,
              atqa := if hasRespData then bufSlice (bufPut resp0 (a0 :: a)) 0 2 else [],
              rsak := 0, ats_len := 0, ats := [], resp := bufPut resp0 (a0 :: a),
              sak := 0x04, cascade_level := 0, sent := [[0x52]] } answers).2.1
        else SelectTail crc atsSize hasRespData
          (SelectLoop crc b2n hasCuid
            { status := 0, uid := fun k => if k < 8 then 0 else uid0 k, cuid := 0,
              atqa := if hasRespData then bufSlice (bufPut resp0 (a0 :: a)) 0 2 else [],
              rsak := 0, ats_len := 0, ats := [], resp := bufPut resp0 (a0 :: a),
              sak := 0x04, cascade_level := 0, sent := [[0x52]] } answers).2.1
          (SelectLoop crc b2n hasCuid
            { status := 0, uid := fun k => if k < 8 then 0 else uid0 k, cuid := 0,
              atqa := if hasRespData then bufSlice (bufPut resp0 (a0 :: a)) 0 2 else [],
              rsak := 0, ats_len := 0, ats := [], resp := bufPut resp0 (a0 :: a),
              sak := 0x04, cascade_level := 0, sent := [[0x52]] } answers).2.2 := by
  unfold iso14443a_select_card
  simp only [List.headD_cons, List.tail_cons, ReaderReceive_some, Nat.succ_ne_zero, if_false]

/-- A card that completes its UID at the first cascade level: the procedure ends in the
part after the loop, from the state one pass leaves. -/
theorem select_one_level (crc : List Nat → Nat × Nat) (b2n : List Nat → Nat) (atsSize : Nat)
    (hasRespData hasCuid : Bool) (uid0 resp0 : Nat → Nat) (a0 : Nat) (a : List Nat)
    (u0 : Nat) (u : List Nat) (s0 : Nat) (s : List Nat) (rest : List (Option (List Nat)))
    (h : s0 &&& 0x04 = 0) :
    iso14443a_select_card crc b2n atsSize hasRespData hasCuid uid0 resp0
        (some (a0 :: a) :: some (u0 :: u) :: some (s0 :: s) :: rest)
      = SelectTail crc atsSize hasRespData
          (SelectRound crc b2n hasCuid
            { status := 0, uid := fun k => if k < 8 then 0 else uid0 k, cuid := 0,
              atqa := if hasRespData then bufSlice (bufPut resp0 (a0 :: a)) 0 2 else [],
              rsak := 0, ats_len := 0, ats := [], resp := bufPut resp0 (a0 :: a),
              sak := 0x04, cascade_level := 0, sent := [[0x52]] } (u0 :: u) (s0 :: s)) rest := by
  rw [select_enter, SelectLoop_round _ _ _ _ _ _ _ _ _ (by show 4 &&& 4 ≠ 0; decide),
    SelectLoop_done _ _ _ _ _ (by rw [SelectRound_sak]; exact h)]
  rfl

/-- The scenario of a single-size UID answered with SAK 0x08: status 2, one cascade level,
the UID in the first four bytes (shifted when its first byte is the cascade tag), and no
RATS sent. -/
theorem select_sak08 (crc : List Nat → Nat × Nat) (b2n : List Nat → Nat) (atsSize : Nat)
    (hasRespData hasCuid : Bool) (uid0 resp0 : Nat → Nat) (a0 : Nat) (a : List Nat)
    (u0 u1 u2 u3 bcc c1 c2 : Nat) (rest : List (Option (List Nat))) :
    (iso14443a_select_card crc b2n atsSize hasRespData hasCuid uid0 resp0
        (some (a0 :: a) :: some [u0, u1, u2, u3, bcc] :: some [0x08, c1, c2] :: rest)).status = 2
    ∧ (iso14443a_select_card crc b2n atsSize hasRespData hasCuid uid0 resp0
        (some (a0 :: a) :: some [u0, u1, u2, u3, bcc] :: some [0x08, c1, c2] :: rest)).sak = 0x08
    ∧ (iso14443a_select_card crc b2n atsSize hasRespData hasCuid uid0 resp0
        (some (a0 :: a) :: some [u0, u1, u2, u3, bcc] :: some [0x08, c1, c2] :: rest)).cascade_level
        = 1
    ∧ bufSlice (iso14443a_select_card crc b2n atsSize hasRespData hasCuid uid0 resp0
        (some (a0 :: a) :: some [u0, u1, u2, u3, bcc] :: some [0x08, c1, c2] :: rest)).uid 0 8
        = (if u0 = 0x88 then [u1, u2, u3, 0, 0, 0, 0, 0] else [u0, u1, u2, u3, 0, 0, 0, 0])
    ∧ (iso14443a_select_card crc b2n atsSize hasRespData hasCuid uid0 resp0
        (some (a0 :: a) :: some [u0, u1, u2, u3, bcc] :: some [0x08, c1, c2] :: rest)).sent
        = [[0x52], [0x93, 0x20],
           [0x93, 0x70, u0, u1, u2, u3, bcc, (crc [0x93, 0x70, u0, u1, u2, u3, bcc]).1,
            (crc [0x93, 0x70, u0, u1, u2, u3, bcc]).2]] := by
  rw [select_one_level _ _ _ _ _ _ _ _ _ _ _ _ _ _ (by decide)]
  have hsak : (SelectRound crc b2n hasCuid
            { status := 0, uid := fun k => if k < 8 then 0 else uid0 k, cuid := 0,
              atqa := if hasRespData then bufSlice (bufPut resp0 (a0 :: a)) 0 2 else [],
              rsak := 0, ats_len := 0, ats := [], resp := bufPut resp0 (a0 :: a),
              sak := 0x04, cascade_level := 0, sent := [[0x52]] } [u0, u1, u2, u3, bcc]
              [0x08, c1, c2]).sak = 8 := SelectRound_sak _ _ _ _ _ _ _
  have h20 : (8 : Nat) &&& 0x20 = 0 := by decide
  unfold SelectTail
  simp only [hsak, h20, if_true]
  refine ⟨trivial, trivial, ?_, ?_, ?_⟩
  · simp [SelectRound]
  · by_cases h88 : u0 = 0x88
    · simp [SelectRound, bufSlice, bufPut, memcpyAt, bufOfList, bufSet, List.range, List.range.loop,
        h88]
    · simp [SelectRound, bufSlice, bufPut, memcpyAt, bufOfList, bufSet, List.range, List.range.loop,
        h88]
  · simp [SelectRound, bufSlice, bufPut, memcpyAt, bufOfList, bufSet, List.range, List.range.loop,
      AppendCrc14443a]

/-- The loop with no answer left: the SELECT_ALL of the next level is sent and the
procedure returns 0. -/
theorem SelectLoop_nil (crc : List Nat → Nat × Nat) (b2n : List Nat → Nat) (hc : Bool)
    (S : SelectT) (h : S.sak &&& 0x04 ≠ 0) :
    SelectLoop crc b2n hc S []
      = (true, { S with sent := S.sent ++ [[(0x93 + S.cascade_level * 2) % 256, 0x20]],
                        status := 0 }, []) := by
  simp [SelectLoop, h]

/-- Against `CascadeRounds n` the loop makes `n` complete passes and starts one more. -/
theorem SelectLoop_cascade (crc : List Nat → Nat × Nat) (b2n : List Nat → Nat) (hc : Bool) :
    ∀ (n : Nat) (S : SelectT), S.sak &&& 0x04 ≠ 0 →
      SelectLoop crc b2n hc S (CascadeRounds n)
        = SelectLoop crc b2n hc (CascadeState crc b2n hc S n) [] := by
  intro n
  induction n with
  | zero => intro S _; rfl
  | succ n ih =>
    intro S h
    rw [CascadeRounds, SelectLoop_round _ _ _ _ _ _ _ _ _ h, CascadeState]
    exact ih _ (by rw [SelectRound_sak]; decide)

/-- What `n` passes against `CascadeRounds n` leave: the level counter, the SAK, and the
UID bytes written level after level. -/
theorem CascadeState_fields (crc : List Nat → Nat × Nat) (b2n : List Nat → Nat) (hc : Bool) :
    ∀ (n : Nat) (S : SelectT), S.sak &&& 0x04 ≠ 0 →
      (CascadeState crc b2n hc S n).cascade_level = S.cascade_level + n
      ∧ (CascadeState crc b2n hc S n).sak &&& 0x04 ≠ 0
      ∧ ∀ x, (CascadeState crc b2n hc S n).uid x
          = if S.cascade_level * 4 ≤ x ∧ x < (S.cascade_level + n) * 4
            then (x - S.cascade_level * 4) % 4 + 1 else S.uid x := by
  intro n
  induction n with
  | zero =>
    intro S h
    refine ⟨rfl, h, fun x => ?_⟩
    rw [if_neg (by omega)]
    rfl
  | succ n ih =>
    intro S h
    have hs : (SelectRound crc b2n hc S [1, 2, 3, 4, 4] [0x04, 0xda, 0x17]).sak &&& 0x04 ≠ 0 := by
      rw [SelectRound_sak]; decide
    obtain ⟨h1, h2, h3⟩ := ih (SelectRound crc b2n hc S [1, 2, 3, 4, 4] [0x04, 0xda, 0x17]) hs
    have hcl : (SelectRound crc b2n hc S [1, 2, 3, 4, 4] [0x04, 0xda, 0x17]).cascade_level
        = S.cascade_level + 1 := rfl
    have hu : ∀ x, (SelectRound crc b2n hc S [1, 2, 3, 4, 4] [0x04, 0xda, 0x17]).uid x
        = if S.cascade_level * 4 ≤ x ∧ x < S.cascade_level * 4 + 4
          then (x - S.cascade_level * 4) % 4 + 1 else S.uid x := by
      intro x
      show memcpyAt S.uid (S.cascade_level * 4) (bufPut S.resp [1, 2, 3, 4, 4]) 4 x = _
      unfold memcpyAt
      by_cases hx : S.cascade_level * 4 ≤ x ∧ x < S.cascade_level * 4 + 4
      · rw [if_pos hx, if_pos hx]
        obtain ⟨k, hk⟩ : ∃ k, x = S.cascade_level * 4 + k := ⟨x - S.cascade_level * 4, by omega⟩
        have hk4 : k < 4 := by omega
        rw [hk, Nat.add_sub_cancel_left]
        interval_cases k <;> simp [bufPut, memcpyAt, bufOfList]
      · rw [if_neg hx, if_neg hx]
    rw [CascadeState]
    refine ⟨by rw [h1, hcl]; omega, h2, fun x => ?_⟩
    rw [h3 x, hcl, hu x]
    by_cases ha : (S.cascade_level + 1) * 4 ≤ x ∧ x < (S.cascade_level + 1 + n) * 4
    · rw [if_pos ha, if_pos (by omega)]
      omega
    · rw [if_neg ha]
      by_cases hb : S.cascade_level * 4 ≤ x ∧ x < S.cascade_level * 4 + 4
      · rw [if_pos hb, if_pos (by omega)]
      · rw [if_neg hb, if_neg (by omega)]

/-- The procedure against `CascadeAnswers n`: `n` complete passes of the loop, one more
SELECT_ALL, and status 0. -/
theorem select_cascade (crc : List Nat → Nat × Nat) (b2n : List Nat → Nat) (atsSize : Nat)
    (hasRespData hasCuid : Bool) (uid0 resp0 : Nat → Nat) (n : Nat) :
    (iso14443a_select_card crc b2n atsSize hasRespData hasCuid uid0 resp0
        (CascadeAnswers n)).status = 0
    ∧ (iso14443a_select_card crc b2n atsSize hasRespData hasCuid uid0 resp0
        (CascadeAnswers n)).cascade_level = n
    ∧ [(0x93 + n * 2) % 256, 0x20] ∈
        (iso14443a_select_card crc b2n atsSize hasRespData hasCuid uid0 resp0
          (CascadeAnswers n)).sent
    ∧ bufSlice (iso14443a_select_card crc b2n atsSize hasRespData hasCuid uid0 resp0
        (CascadeAnswers n)).uid 0 (4 * n) = (List.range (4 * n)).map (fun x => x % 4 + 1) := by
  have h4 : (4 : Nat) &&& 0x04 ≠ 0 := by decide
  obtain ⟨h1, h2, h3⟩ := CascadeState_fields crc b2n hasCuid n
    { status := 0, uid := fun k => if k < 8 then 0 else uid0 k, cuid := 0,
      atqa := if hasRespData then bufSlice (bufPut resp0 [0x04, 0x00]) 0 2 else [],
      rsak := 0, ats_len := 0, ats := [], resp := bufPut resp0 [0x04, 0x00],
      sak := 0x04, cascade_level := 0, sent := [[0x52]] } h4
  dsimp only at h1 h3
  simp only [Nat.zero_mul, Nat.zero_add, Nat.sub_zero, Nat.zero_le, true_and] at h1 h3
  rw [CascadeAnswers, select_enter, SelectLoop_cascade _ _ _ _ _ h4, SelectLoop_nil _ _ _ _ h2]
  simp only [if_true, h1]
  refine ⟨trivial, trivial, by simp, ?_⟩
  show (List.range (4 * n)).map _ = _
  refine List.map_congr_left (fun x hx => ?_)
  have hx4 : x < 4 * n := List.mem_range.mp hx
  rw [Nat.zero_add, h3 x, if_pos (by omega)]

/-- C28: for every sequence of card responses the status `iso14443a_select_card` returns
is 0 if the ATQA, a UID answer, a SAK or (when `resp_data` is given, so that the ATS is
requested) the ATS is not received, 2 if all were received up to the final SAK and that
SAK has bit 0x20 clear, and 1 otherwise. -/
theorem C28_select_status (ComputeCrc14443 : List Nat → Nat × Nat)
    (bytes_to_num : List Nat → Nat) (atsSize : Nat) (hasRespData hasCuid : Bool)
    (uid0 resp0 : Nat → Nat) (answers : List (Option (List Nat))) :
    (iso14443a_select_card ComputeCrc14443 bytes_to_num atsSize hasRespData hasCuid uid0 resp0
        answers).status = SelectStatusSpec hasRespData answers :=
  select_status ComputeCrc14443 bytes_to_num atsSize hasRespData hasCuid uid0 resp0 answers

/-- C29 as the code has it: when the card answers WUPA with an ATQA, SELECT_ALL with
UID and BCC, and SELECT with SAK 0x08, `iso14443a_select_card` returns status 2 (non
compliant, bit 0x20 of 0x08 being clear) with `sak = 0x08` after a single cascade level;
the UID is in the first four bytes behind `uid_ptr` (shifted by one when its first byte is
the cascade tag 0x88), the bytes up to the eighth are 0, and only WUPA, SELECT_ALL and
SELECT with the CRC were transmitted, no RATS. -/
theorem C29_select_sak08 (ComputeCrc14443 : List Nat → Nat × Nat)
    (bytes_to_num : List Nat → Nat) (atsSize : Nat) (hasRespData hasCuid : Bool)
    (uid0 resp0 : Nat → Nat) (a0 : Nat) (a : List Nat) (u0 u1 u2 u3 bcc c1 c2 : Nat)
    (rest : List (Option (List Nat))) :
    (iso14443a_select_card ComputeCrc14443 bytes_to_num atsSize hasRespData hasCuid uid0 resp0
        (some (a0 :: a) :: some [u0, u1, u2, u3, bcc] :: some [0x08, c1, c2] :: rest)).status = 2
    ∧ (iso14443a_select_card ComputeCrc14443 bytes_to_num atsSize hasRespData hasCuid uid0 resp0
        (some (a0 :: a) :: some [u0, u1, u2, u3, bcc] :: some [0x08, c1, c2] :: rest)).sak = 0x08
    ∧ (iso14443a_select_card ComputeCrc14443 bytes_to_num atsSize hasRespData hasCuid uid0 resp0
        (some (a0 :: a) :: some [u0, u1, u2, u3, bcc] :: some [0x08, c1, c2] :: rest)).cascade_level
        = 1
    ∧ bufSlice (iso14443a_select_card ComputeCrc14443 bytes_to_num atsSize hasRespData hasCuid
        uid0 resp0
        (some (a0 :: a) :: some [u0, u1, u2, u3, bcc] :: some [0x08, c1, c2] :: rest)).uid 0 8
        = (if u0 = 0x88 then [u1, u2, u3, 0, 0, 0, 0, 0] else [u0, u1, u2, u3, 0, 0, 0, 0])
    ∧ (iso14443a_select_card ComputeCrc14443 bytes_to_num atsSize hasRespData hasCuid uid0 resp0
        (some (a0 :: a) :: some [u0, u1, u2, u3, bcc] :: some [0x08, c1, c2] :: rest)).sent
        = [[0x52], [0x93, 0x20],
           [0x93, 0x70, u0, u1, u2, u3, bcc,
            (ComputeCrc14443 [0x93, 0x70, u0, u1, u2, u3, bcc]).1,
            (ComputeCrc14443 [0x93, 0x70, u0, u1, u2, u3, bcc]).2]] :=
  select_sak08 ComputeCrc14443 bytes_to_num atsSize hasRespData hasCuid uid0 resp0 a0 a
    u0 u1 u2 u3 bcc c1 c2 rest

/-- C29 refuted as stated: the card of the emulator (ATQA 04 00, UID de ad be af with BCC
62, SAK 08 b6 dd) gets status 2, the non-compliant status, not the success status 1. -/
theorem C29_counterexample :
    (iso14443a_select_card SampleEnv.ComputeCrc14443 SampleEnv.bytes_to_num 0 false true
        (fun _ => 0) (fun _ => 0)
        [some [0x04, 0x00], some [0xde, 0xad, 0xbe, 0xaf, 0x62], some [0x08, 0xb6, 0xdd]]).status
      = 2
    ∧ (iso14443a_select_card SampleEnv.ComputeCrc14443 SampleEnv.bytes_to_num 0 false true
        (fun _ => 0) (fun _ => 0)
        [some [0x04, 0x00], some [0xde, 0xad, 0xbe, 0xaf, 0x62], some [0x08, 0xb6, 0xdd]]).status
      ≠ 1
    ∧ 0x08 &&& 0x20 = 0 := by
  have h := (select_sak08 SampleEnv.ComputeCrc14443 SampleEnv.bytes_to_num 0 false true
    (fun _ => 0) (fun _ => 0) 0x04 [0x00] 0xde 0xad 0xbe 0xaf 0x62 0xb6 0xdd []).1
  exact ⟨h, by rw [h]; decide, by decide⟩

/-- C30 refuted by the code: the loop of `iso14443a_select_card` has no bound. Against a
card that answers every SELECT with a SAK that has bit 0x04 set, `n` times, it makes `n`
complete passes for every `n`, stores UID bytes behind `uid_ptr` up to offset `4 * n`,
and sends the SELECT_ALL of one more level with the code `0x93 + 2 * n` (0x99 for the
fourth level) before it gives up with status 0. -/
theorem C30_cascade_unbounded (ComputeCrc14443 : List Nat → Nat × Nat)
    (bytes_to_num : List Nat → Nat) (atsSize : Nat) (hasRespData hasCuid : Bool)
    (uid0 resp0 : Nat → Nat) (n : Nat) :
    (iso14443a_select_card ComputeCrc14443 bytes_to_num atsSize hasRespData hasCuid uid0 resp0
        (CascadeAnswers n)).status = 0
    ∧ (iso14443a_select_card ComputeCrc14443 bytes_to_num atsSize hasRespData hasCuid uid0 resp0
        (CascadeAnswers n)).cascade_level = n
    ∧ [(0x93 + n * 2) % 256, 0x20] ∈
        (iso14443a_select_card ComputeCrc14443 bytes_to_num atsSize hasRespData hasCuid uid0
          resp0 (CascadeAnswers n)).sent
    ∧ bufSlice (iso14443a_select_card ComputeCrc14443 bytes_to_num atsSize hasRespData hasCuid
        uid0 resp0 (CascadeAnswers n)).uid 0 (4 * n)
        = (List.range (4 * n)).map (fun x => x % 4 + 1) :=
  select_cascade ComputeCrc14443 bytes_to_num atsSize hasRespData hasCuid uid0 resp0 n

/-! ### The emulator -/

section EmulatorFacts

variable {Pcs Mem : Type}

/-- The block before the `switch` leaves the locals alone unless the frame has one byte. -/
theorem MfWakeup_len (E : MfEnv Pcs Mem) (C : MfCard Pcs Mem) (h : C.len ≠ 1) :
    MfWakeup E C = C := by
  unfold MfWakeup
  simp [h]

/-- The block before the `switch` leaves the locals alone on a one-byte frame that is
neither REQA nor WUPA. -/
theorem MfWakeup_other (E : MfEnv Pcs Mem) (C : MfCard Pcs Mem)
    (h26 : C.receivedCmd 0 ≠ 0x26) (h52 : C.receivedCmd 0 ≠ 0x52) :
    MfWakeup E C = C := by
  unfold MfWakeup
  simp [h26, h52]

/-- The block before the `switch` ignores REQA in the halted state. -/
theorem MfWakeup_halted (E : MfEnv Pcs Mem) (C : MfCard Pcs Mem)
    (hs : C.cardSTATE = MFEMUL_HALTED) (h52 : C.receivedCmd 0 ≠ 0x52) :
    MfWakeup E C = C := by
  unfold MfWakeup
  simp [hs, h52]

/-- The block before the `switch` on a one-byte REQA or WUPA: ATQA is sent, the state is
`MFEMUL_SELECT1`, the cipher is reset and no key is authenticated. -/
theorem MfWakeup_wake (E : MfEnv Pcs Mem) (C : MfCard Pcs Mem) (hl : C.len = 1)
    (hn : C.cardSTATE ≠ MFEMUL_NOFIELD)
    (hc : (C.receivedCmd 0 = 0x26 ∧ C.cardSTATE ≠ MFEMUL_HALTED) ∨ C.receivedCmd 0 = 0x52) :
    MfWakeup E C
      = { C with sent := C.sent ++ [MfAnswer.frame C.rATQA
                    (if C.receivedCmd 0 = 0x52 then 1 else 0) (GetParity C.rATQA)],
                 cardSTATE := MFEMUL_SELECT1, pcs := E.crypto1_destroy C.pcs,
                 cardAUTHKEY := 0xff } := by
  unfold MfWakeup
  rw [if_pos ⟨by omega, hn⟩, if_pos ⟨hl, hc⟩]
  rfl

/-- The first byte of a loaded frame. -/
theorem MfLoad_cmd0 (C : MfCard Pcs Mem) (b : Nat) (r : List Nat) :
    (MfLoad C (b :: r)).receivedCmd 0 = b := bufPut_zero C.receivedCmd b r

/-- A byte of a loaded frame. -/
theorem MfLoad_cmd (C : MfCard Pcs Mem) (frame : List Nat) (k : Nat) (h : k < frame.length) :
    (MfLoad C frame).receivedCmd k = frame.getD k 0 := by
  simp [MfLoad, bufPut, memcpyAt, bufOfList, h]

end EmulatorFacts

section EmulatorSteps

variable {Pcs Mem : Type}

/-- A frame that is not a one-byte REQA or WUPA passes the block before the `switch`. -/
theorem Mifare1ksimCmd_plain (E : MfEnv Pcs Mem) (C : MfCard Pcs Mem) (frame : List Nat)
    (h26 : frame ≠ [0x26]) (h52 : frame ≠ [0x52]) :
    Mifare1ksimCmd E C frame = MfSwitch E (MfLoad C frame) := by
  unfold Mifare1ksimCmd
  by_cases hl : frame.length = 1
  · obtain ⟨b, rfl⟩ := List.length_eq_one.mp hl
    rw [MfWakeup_other E _ (by rw [MfLoad_cmd0]; intro h; exact h26 (by rw [h]))
      (by rw [MfLoad_cmd0]; intro h; exact h52 (by rw [h]))]
  · rw [MfWakeup_len E _ hl]

/-- A frame of a length other than 1 passes the block before the `switch`. -/
theorem Mifare1ksimCmd_len (E : MfEnv Pcs Mem) (C : MfCard Pcs Mem) (frame : List Nat)
    (hl : frame.length ≠ 1) :
    Mifare1ksimCmd E C frame = MfSwitch E (MfLoad C frame) :=
  Mifare1ksimCmd_plain E C frame (fun h => hl (by rw [h]; rfl)) (fun h => hl (by rw [h]; rfl))

/-- A one-byte REQA or WUPA outside the halted state, or a WUPA in it: ATQA is sent and
the state after the pass is `MFEMUL_SELECT1`; the memory is untouched. -/
theorem Mifare1ksimCmd_wake (E : MfEnv Pcs Mem) (C : MfCard Pcs Mem) (b : Nat)
    (hn : C.cardSTATE ≠ MFEMUL_NOFIELD)
    (hc : (b = 0x26 ∧ C.cardSTATE ≠ MFEMUL_HALTED) ∨ b = 0x52) :
    (Mifare1ksimCmd E C [b]).cardSTATE = MFEMUL_SELECT1
    ∧ (Mifare1ksimCmd E C [b]).sent
        = C.sent ++ [MfAnswer.frame C.rATQA (if b = 0x52 then 1 else 0) (GetParity C.rATQA)]
    ∧ (Mifare1ksimCmd E C [b]).mem = C.mem
    ∧ (Mifare1ksimCmd E C [b]).cardAUTHKEY = 0xff := by
  unfold Mifare1ksimCmd
  rw [MfWakeup_wake E (MfLoad C [b]) rfl hn (by rw [MfLoad_cmd0]; exact hc), MfLoad_cmd0]
  unfold MfSwitch MfSelect1
  simp [MfLoad]

/-- The `switch` in the state `MFEMUL_WORK`. -/
theorem MfSwitch_work (E : MfEnv Pcs Mem) (C : MfCard Pcs Mem)
    (h : C.cardSTATE = MFEMUL_WORK) : MfSwitch E C = MfWork E C := by
  unfold MfSwitch
  rw [h]

/-- The `switch` in the state `MFEMUL_WRITEBL2`. -/
theorem MfSwitch_writebl2 (E : MfEnv Pcs Mem) (C : MfCard Pcs Mem)
    (h : C.cardSTATE = MFEMUL_WRITEBL2) : MfSwitch E C = MfWriteBl2 E C := by
  unfold MfSwitch
  rw [h]

/-- The `switch` in the state `MFEMUL_INTREG_INC`. -/
theorem MfSwitch_inc (E : MfEnv Pcs Mem) (C : MfCard Pcs Mem)
    (h : C.cardSTATE = MFEMUL_INTREG_INC) :
    MfSwitch E C = MfIntReg E C (fun r a => (r + a) % 2 ^ 32) := by
  unfold MfSwitch
  rw [h]

/-- The `switch` in the state `MFEMUL_INTREG_DEC`. -/
theorem MfSwitch_dec (E : MfEnv Pcs Mem) (C : MfCard Pcs Mem)
    (h : C.cardSTATE = MFEMUL_INTREG_DEC) :
    MfSwitch E C = MfIntReg E C (fun r a => (r + 2 ^ 32 - a) % 2 ^ 32) := by
  unfold MfSwitch
  rw [h]

/-- The `switch` in the state `MFEMUL_INTREG_REST`. -/
theorem MfSwitch_rest (E : MfEnv Pcs Mem) (C : MfCard Pcs Mem)
    (h : C.cardSTATE = MFEMUL_INTREG_REST) :
    MfSwitch E C = MfIntReg E C (fun r _ => r) := by
  unfold MfSwitch
  rw [h]

/-- The `switch` in the states without a reaction. -/
theorem MfSwitch_halted (E : MfEnv Pcs Mem) (C : MfCard Pcs Mem)
    (h : C.cardSTATE = MFEMUL_HALTED) : MfSwitch E C = C := by
  unfold MfSwitch
  rw [h]

/-- What the decryption in the case `MFEMUL_WORK` leaves alone. -/
theorem MfWorkRead_fields (E : MfEnv Pcs Mem) (C : MfCard Pcs Mem) (frame : List Nat) :
    (MfWorkRead E C frame).len = frame.length
    ∧ (MfWorkRead E C frame).cardSTATE = C.cardSTATE
    ∧ (MfWorkRead E C frame).cardAUTHSC = C.cardAUTHSC
    ∧ (MfWorkRead E C frame).cardAUTHKEY = C.cardAUTHKEY
    ∧ (MfWorkRead E C frame).mem = C.mem
    ∧ (MfWorkRead E C frame).sent = C.sent := by
  unfold MfWorkRead
  split_ifs <;> exact ⟨rfl, rfl, rfl, rfl, rfl, rfl⟩

/-- The case `MFEMUL_WORK` on a frame of at least one byte that is, as read there, not an
authentication command: the commands after the authentication blocks decide. -/
theorem MfWork_command (E : MfEnv Pcs Mem) (C : MfCard Pcs Mem) (frame : List Nat)
    (hl : frame.length ≠ 0)
    (h60 : (MfWorkRead E C frame).receivedCmd 0 ≠ 0x60)
    (h61 : (MfWorkRead E C frame).receivedCmd 0 ≠ 0x61) :
    MfWork E (MfLoad C frame) = MfCommand E (MfWorkRead E C frame) := by
  unfold MfWork
  have hlen : (MfLoad C frame).len = frame.length := rfl
  have hkey : (MfLoad C frame).cardAUTHKEY = C.cardAUTHKEY := rfl
  rw [hlen, if_neg hl, hkey]
  unfold MfWorkRead at h60 h61 ⊢
  by_cases hk : C.cardAUTHKEY = 0xff
  · rw [if_pos hk] at h60 h61 ⊢
    rw [if_pos hk, if_neg (by rintro ⟨_, h | h⟩ <;> contradiction)]
  · rw [if_neg hk] at h60 h61 ⊢
    rw [if_neg hk]
    dsimp only
    rw [if_neg (by rintro ⟨_, h | h⟩ <;> contradiction)]

/-- The statement `EmSend4bit(mf_crypto1_encrypt4bit(pcs, data))`: one answer more, and the
cipher state moved on. -/
theorem MfSend4bit_fields (E : MfEnv Pcs Mem) (C : MfCard Pcs Mem) (data : Nat) :
    (MfSend4bit E C data).sent = C.sent ++ [MfShort E C.pcs data]
    ∧ (MfSend4bit E C data).cardSTATE = C.cardSTATE
    ∧ (MfSend4bit E C data).mem = C.mem
    ∧ (MfSend4bit E C data).receivedCmd = C.receivedCmd
    ∧ (MfSend4bit E C data).cardWRBL = C.cardWRBL
    ∧ (MfSend4bit E C data).cardINTREG = C.cardINTREG :=
  ⟨rfl, rfl, rfl, rfl, rfl, rfl⟩

end EmulatorSteps

section EmulatorCommands

variable {Pcs Mem : Type}

/-- The commands of the case `MFEMUL_WORK`: a 4-byte READ. -/
theorem MfCommand_read (E : MfEnv Pcs Mem) (C : MfCard Pcs Mem) (hl : C.len = 4)
    (h0 : C.receivedCmd 0 = 0x30) :
    MfCommand E C
      = if C.receivedCmd 1 ≥ 16 * 4 ∨ C.receivedCmd 1 / 4 ≠ C.cardAUTHSC then
          MfSend4bit E C E.CARD_NACK_NA
        else
          EmSendCmdPar
            { C with
              response := (E.mf_crypto1_encrypt C.pcs (AppendCrc14443a E.ComputeCrc14443
                (E.emlGetMem C.mem C.response (C.receivedCmd 1) 1) 16) 18 C.par).2.1,
              pcs := (E.mf_crypto1_encrypt C.pcs (AppendCrc14443a E.ComputeCrc14443
                (E.emlGetMem C.mem C.response (C.receivedCmd 1) 1) 16) 18 C.par).1,
              par := (E.mf_crypto1_encrypt C.pcs (AppendCrc14443a E.ComputeCrc14443
                (E.emlGetMem C.mem C.response (C.receivedCmd 1) 1) 16) 18 C.par).2.2 % 2 ^ 32 }
            (bufSlice (E.mf_crypto1_encrypt C.pcs (AppendCrc14443a E.ComputeCrc14443
                (E.emlGetMem C.mem C.response (C.receivedCmd 1) 1) 16) 18 C.par).2.1 0 18)
            ((E.mf_crypto1_encrypt C.pcs (AppendCrc14443a E.ComputeCrc14443
                (E.emlGetMem C.mem C.response (C.receivedCmd 1) 1) 16) 18 C.par).2.2 % 2 ^ 32) := by
  have h1 : ¬ (C.len = 1 ∧ C.receivedCmd 0 = E.CARD_ACK) := by rw [hl]; simp
  have h2 : ¬ (C.len = 1 ∧ C.receivedCmd 0 = E.CARD_NACK_NA) := by rw [hl]; simp
  unfold MfCommand
  rw [if_neg h1, if_neg h2, if_pos ⟨hl, h0⟩]

/-- The commands of the case `MFEMUL_WORK`: a 4-byte WRITE. -/
theorem MfCommand_write (E : MfEnv Pcs Mem) (C : MfCard Pcs Mem) (hl : C.len = 4)
    (h0 : C.receivedCmd 0 = 0xA0) :
    MfCommand E C
      = if C.receivedCmd 1 ≥ 16 * 4 ∨ C.receivedCmd 1 / 4 ≠ C.cardAUTHSC then
          MfSend4bit E C E.CARD_NACK_NA
        else
          { MfSend4bit E C E.CARD_ACK with
            nextCycleTimeout := 50, cardSTATE := MFEMUL_WRITEBL2,
            cardWRBL := C.receivedCmd 1 % 256 } := by
  have h1 : ¬ (C.len = 1 ∧ C.receivedCmd 0 = E.CARD_ACK) := by rw [hl]; simp
  have h2 : ¬ (C.len = 1 ∧ C.receivedCmd 0 = E.CARD_NACK_NA) := by rw [hl]; simp
  have h3 : ¬ (C.len = 4 ∧ C.receivedCmd 0 = 0x30) := by rw [h0]; simp
  unfold MfCommand
  rw [if_neg h1, if_neg h2, if_neg h3, if_pos ⟨hl, h0⟩]
  rfl

/-- The commands of the case `MFEMUL_WORK`: a 4-byte INCREMENT, DECREMENT or RESTORE. -/
theorem MfCommand_value (E : MfEnv Pcs Mem) (C : MfCard Pcs Mem) (hl : C.len = 4)
    (h0 : C.receivedCmd 0 = 0xC0 ∨ C.receivedCmd 0 = 0xC1 ∨ C.receivedCmd 0 = 0xC2) :
    MfCommand E C
      = if C.receivedCmd 1 ≥ 16 * 4 ∨ C.receivedCmd 1 / 4 ≠ C.cardAUTHSC
            ∨ E.emlCheckValBl C.mem (C.receivedCmd 1) ≠ 0 then
          MfSend4bit E C E.CARD_NACK_NA
        else
          { MfSend4bit E C E.CARD_ACK with
            cardSTATE := if C.receivedCmd 0 = 0xC1 then MFEMUL_INTREG_INC
                         else if C.receivedCmd 0 = 0xC0 then MFEMUL_INTREG_DEC
                         else MFEMUL_INTREG_REST,
            cardWRBL := C.receivedCmd 1 % 256 } := by
  have h1 : ¬ (C.len = 1 ∧ C.receivedCmd 0 = E.CARD_ACK) := by rw [hl]; simp
  have h2 : ¬ (C.len = 1 ∧ C.receivedCmd 0 = E.CARD_NACK_NA) := by rw [hl]; simp
  have h3 : ¬ (C.len = 4 ∧ C.receivedCmd 0 = 0x30) := by
    rintro ⟨_, h⟩
    rw [h] at h0
    revert h0
    decide
  have h4 : ¬ (C.len = 4 ∧ C.receivedCmd 0 = 0xA0) := by
    rintro ⟨_, h⟩
    rw [h] at h0
    revert h0
    decide
  unfold MfCommand
  rw [if_neg h1, if_neg h2, if_neg h3, if_neg h4, if_pos ⟨hl, h0⟩]
  by_cases hb : C.receivedCmd 1 ≥ 16 * 4 ∨ C.receivedCmd 1 / 4 ≠ C.cardAUTHSC
      ∨ E.emlCheckValBl C.mem (C.receivedCmd 1) ≠ 0
  · rw [if_pos hb, if_pos hb]
  · have hr : (MfSend4bit E C E.CARD_ACK).receivedCmd = C.receivedCmd := rfl
    rw [if_neg hb, if_neg hb]
    rcases h0 with h | h | h <;> simp [hr, h]

end EmulatorCommands

section EmulatorCases

variable {Pcs Mem : Type}

/-- The case `MFEMUL_WRITEBL2` on an 18-byte frame. -/
theorem MfWriteBl2_commit (E : MfEnv Pcs Mem) (C : MfCard Pcs Mem) (h : C.len = 18) :
    (MfWriteBl2 E C).mem
        = E.emlSetMem C.mem (E.mf_crypto1_decrypt C.pcs C.receivedCmd C.len).2 C.cardWRBL 1
    ∧ (MfWriteBl2 E C).sent
        = C.sent ++ [MfShort E (E.mf_crypto1_decrypt C.pcs C.receivedCmd C.len).1 E.CARD_ACK]
    ∧ (MfWriteBl2 E C).cardSTATE = MFEMUL_WORK := by
  unfold MfWriteBl2
  rw [if_pos h]
  exact ⟨rfl, rfl, rfl⟩

/-- The case `MFEMUL_WRITEBL2` on a frame of another length. -/
theorem MfWriteBl2_other (E : MfEnv Pcs Mem) (C : MfCard Pcs Mem) (h : C.len ≠ 18) :
    (MfWriteBl2 E C).mem = C.mem ∧ (MfWriteBl2 E C).sent = C.sent
    ∧ (MfWriteBl2 E C).cardSTATE = E.cardSTATE_TO_IDLE := by
  unfold MfWriteBl2
  rw [if_neg h]
  exact ⟨rfl, rfl, rfl⟩

/-- The value-register cases when `emlGetValBl` fails: NACK and `cardSTATE_TO_IDLE()`. -/
theorem MfIntReg_fail (E : MfEnv Pcs Mem) (C : MfCard Pcs Mem) (op : Nat → Nat → Nat)
    (h : (E.emlGetValBl C.mem C.cardINTREG C.cardINTBLOCK C.cardWRBL).1 ≠ 0) :
    (MfIntReg E C op).sent
        = C.sent ++ [MfShort E (E.mf_crypto1_decrypt C.pcs C.receivedCmd C.len).1
            E.CARD_NACK_NA]
    ∧ (MfIntReg E C op).cardSTATE = E.cardSTATE_TO_IDLE
    ∧ (MfIntReg E C op).mem = C.mem := by
  unfold MfIntReg
  have h2 : (E.emlGetValBl (MfDecrypt E C).mem (MfDecrypt E C).cardINTREG
      (MfDecrypt E C).cardINTBLOCK (MfDecrypt E C).cardWRBL).1 ≠ 0 := h
  dsimp only
  rw [if_pos h2]
  exact ⟨rfl, rfl, rfl⟩

/-- The value-register cases when `emlGetValBl` succeeds: the register is set from the
value read and the operand, the state is `MFEMUL_WORK`, nothing is sent or stored. -/
theorem MfIntReg_ok (E : MfEnv Pcs Mem) (C : MfCard Pcs Mem) (op : Nat → Nat → Nat)
    (h : (E.emlGetValBl C.mem C.cardINTREG C.cardINTBLOCK C.cardWRBL).1 = 0) :
    (MfIntReg E C op).cardINTREG
        = op ((E.emlGetValBl C.mem C.cardINTREG C.cardINTBLOCK C.cardWRBL).2.1 % 2 ^ 32)
            (MfOperand (E.mf_crypto1_decrypt C.pcs C.receivedCmd C.len).2)
    ∧ (MfIntReg E C op).cardSTATE = MFEMUL_WORK
    ∧ (MfIntReg E C op).mem = C.mem
    ∧ (MfIntReg E C op).sent = C.sent := by
  unfold MfIntReg
  have h2 : ¬ (E.emlGetValBl (MfDecrypt E C).mem (MfDecrypt E C).cardINTREG
      (MfDecrypt E C).cardINTBLOCK (MfDecrypt E C).cardWRBL).1 ≠ 0 := fun k => k h
  dsimp only
  rw [if_neg h2]
  exact ⟨rfl, rfl, rfl, rfl⟩

/-- The value-register states all run `MfIntReg`. -/
theorem MfSwitch_intreg (E : MfEnv Pcs Mem) (C : MfCard Pcs Mem)
    (h : C.cardSTATE = MFEMUL_INTREG_INC ∨ C.cardSTATE = MFEMUL_INTREG_DEC
      ∨ C.cardSTATE = MFEMUL_INTREG_REST) :
    ∃ op, MfSwitch E C = MfIntReg E C op := by
  rcases h with h | h | h
  · exact ⟨_, MfSwitch_inc E C h⟩
  · exact ⟨_, MfSwitch_dec E C h⟩
  · exact ⟨_, MfSwitch_rest E C h⟩

/-- A 4-byte frame in the state `MFEMUL_WORK` that is, as read there, not an
authentication command, is handled by the commands after the authentication blocks. -/
theorem Mifare1ksimCmd_work (E : MfEnv Pcs Mem) (C : MfCard Pcs Mem) (frame : List Nat)
    (hs : C.cardSTATE = MFEMUL_WORK) (hl : frame.length = 4)
    (h60 : (MfWorkRead E C frame).receivedCmd 0 ≠ 0x60)
    (h61 : (MfWorkRead E C frame).receivedCmd 0 ≠ 0x61) :
    Mifare1ksimCmd E C frame = MfCommand E (MfWorkRead E C frame) := by
  rw [Mifare1ksimCmd_len E C frame (by omega), MfSwitch_work E (MfLoad C frame) hs,
    MfWork_command E C frame (by omega) h60 h61]

end EmulatorCases

/-- C22: in the state `MFEMUL_WORK`, a 4-byte READ (0x30), WRITE (0xA0), INCREMENT (0xC1),
DECREMENT (0xC0) or RESTORE (0xC2) command, as the case reads it (decrypted when a key is
authenticated), whose block number is at least 64 or whose sector (block / 4) differs from
`cardAUTHSC` is answered with NACK alone; the emulator memory is unchanged and the state
stays `MFEMUL_WORK`, so neither `MFEMUL_WRITEBL2` nor a value-register state is entered. -/
theorem C22_sector_check {Pcs Mem : Type} (E : MfEnv Pcs Mem) (C : MfCard Pcs Mem)
    (frame : List Nat) (hs : C.cardSTATE = MFEMUL_WORK) (hl : frame.length = 4)
    (hcmd : (MfWorkRead E C frame).receivedCmd 0 = 0x30
      ∨ (MfWorkRead E C frame).receivedCmd 0 = 0xA0
      ∨ (MfWorkRead E C frame).receivedCmd 0 = 0xC1
      ∨ (MfWorkRead E C frame).receivedCmd 0 = 0xC0
      ∨ (MfWorkRead E C frame).receivedCmd 0 = 0xC2)
    (hblk : 64 ≤ (MfWorkRead E C frame).receivedCmd 1
      ∨ (MfWorkRead E C frame).receivedCmd 1 / 4 ≠ C.cardAUTHSC) :
    (Mifare1ksimCmd E C frame).sent
        = C.sent ++ [MfShort E (MfWorkRead E C frame).pcs E.CARD_NACK_NA]
    ∧ (Mifare1ksimCmd E C frame).mem = C.mem
    ∧ (Mifare1ksimCmd E C frame).cardSTATE = MFEMUL_WORK := by
  obtain ⟨f1, f2, f3, _, f5, f6⟩ := MfWorkRead_fields E C frame
  have hlen : (MfWorkRead E C frame).len = 4 := by rw [f1, hl]
  have h60 : (MfWorkRead E C frame).receivedCmd 0 ≠ 0x60 := by
    intro h; rw [h] at hcmd; revert hcmd; decide
  have h61 : (MfWorkRead E C frame).receivedCmd 0 ≠ 0x61 := by
    intro h; rw [h] at hcmd; revert hcmd; decide
  have key : MfCommand E (MfWorkRead E C frame)
      = MfSend4bit E (MfWorkRead E C frame) E.CARD_NACK_NA := by
    rcases hcmd with h | h | h | h | h
    · rw [MfCommand_read E _ hlen h, f3, if_pos hblk]
    · rw [MfCommand_write E _ hlen h, f3, if_pos hblk]
    · rw [MfCommand_value E _ hlen (Or.inr (Or.inl h)), f3,
        if_pos (hblk.elim Or.inl (fun k => Or.inr (Or.inl k)))]
    · rw [MfCommand_value E _ hlen (Or.inl h), f3,
        if_pos (hblk.elim Or.inl (fun k => Or.inr (Or.inl k)))]
    · rw [MfCommand_value E _ hlen (Or.inr (Or.inr h)), f3,
        if_pos (hblk.elim Or.inl (fun k => Or.inr (Or.inl k)))]
  rw [Mifare1ksimCmd_work E C frame hs hl h60 h61, key]
  obtain ⟨s1, s2, s3, _⟩ := MfSend4bit_fields E (MfWorkRead E C frame) E.CARD_NACK_NA
  exact ⟨by rw [s1, f6], by rw [s3, f5], by rw [s2, f2, hs]⟩

/-- C22 on the sample card, authenticated to sector 0 by default: a READ of block 4, in
sector 1, is answered with NACK (0x04) and the state stays `MFEMUL_WORK`. -/
theorem C22_sector_check_witness :
    (Mifare1ksimCmd SampleEnv (SampleCard MFEMUL_WORK) [0x30, 0x04, 0x26, 0xee]).sent
        = [MfAnswer.short 0x04 0]
    ∧ (Mifare1ksimCmd SampleEnv (SampleCard MFEMUL_WORK) [0x30, 0x04, 0x26, 0xee]).cardSTATE
        = MFEMUL_WORK :=
  ⟨(C22_sector_check SampleEnv (SampleCard MFEMUL_WORK) [0x30, 0x04, 0x26, 0xee] rfl rfl
      (Or.inl (by decide)) (Or.inr (by decide))).1,
   (C22_sector_check SampleEnv (SampleCard MFEMUL_WORK) [0x30, 0x04, 0x26, 0xee] rfl rfl
      (Or.inl (by decide)) (Or.inr (by decide))).2.2⟩

/-- With no key authenticated the case `MFEMUL_WORK` reads the frame as received. -/
theorem MfWorkRead_plain {Pcs Mem : Type} (E : MfEnv Pcs Mem) (C : MfCard Pcs Mem)
    (frame : List Nat) (hk : C.cardAUTHKEY = 0xff) :
    MfWorkRead E C frame = MfLoad C frame := by
  unfold MfWorkRead
  rw [if_pos hk]

/-- C23 as the code has it: in the state `MFEMUL_WORK` with no key authenticated
(`cardAUTHKEY = 0xff`) only the sector check against `cardAUTHSC` stands between a command
and the memory. A READ of a block below 64 in the sector `cardAUTHSC` is answered with the
18 bytes of the block and its CRC as `mf_crypto1_encrypt` leaves them, and a WRITE to such
a block is answered with ACK and moves the emulator to `MFEMUL_WRITEBL2`; for any other
block the READ is answered with NACK, and the WRITE is answered with NACK and leaves the
state at `MFEMUL_WORK`. Neither command changes the memory, and the READ leaves the state
at `MFEMUL_WORK`. -/
theorem C23_unauth_access {Pcs Mem : Type} (E : MfEnv Pcs Mem) (C : MfCard Pcs Mem)
    (blk c1 c2 : Nat) (hs : C.cardSTATE = MFEMUL_WORK) (hk : C.cardAUTHKEY = 0xff) :
    (Mifare1ksimCmd E C [0x30, blk, c1, c2]).sent
        = C.sent ++ [if 64 ≤ blk ∨ blk / 4 ≠ C.cardAUTHSC then MfShort E C.pcs E.CARD_NACK_NA
            else MfAnswer.frame
              (bufSlice (E.mf_crypto1_encrypt C.pcs (AppendCrc14443a E.ComputeCrc14443
                (E.emlGetMem C.mem C.response blk 1) 16) 18 C.par).2.1 0 18) 0
              ((E.mf_crypto1_encrypt C.pcs (AppendCrc14443a E.ComputeCrc14443
                (E.emlGetMem C.mem C.response blk 1) 16) 18 C.par).2.2 % 2 ^ 32)]
    ∧ (Mifare1ksimCmd E C [0xA0, blk, c1, c2]).cardSTATE
        = (if 64 ≤ blk ∨ blk / 4 ≠ C.cardAUTHSC then MFEMUL_WORK else MFEMUL_WRITEBL2)
    ∧ (Mifare1ksimCmd E C [0xA0, blk, c1, c2]).sent
        = C.sent ++ [if 64 ≤ blk ∨ blk / 4 ≠ C.cardAUTHSC then MfShort E C.pcs E.CARD_NACK_NA
            else MfShort E C.pcs E.CARD_ACK]
    ∧ (Mifare1ksimCmd E C [0x30, blk, c1, c2]).cardSTATE = MFEMUL_WORK
    ∧ (Mifare1ksimCmd E C [0x30, blk, c1, c2]).mem = C.mem
    ∧ (Mifare1ksimCmd E C [0xA0, blk, c1, c2]).mem = C.mem := by
  have r0 : (MfLoad C [0x30, blk, c1, c2]).receivedCmd 0 = 0x30 := MfLoad_cmd0 C _ _
  have w0 : (MfLoad C [0xA0, blk, c1, c2]).receivedCmd 0 = 0xA0 := MfLoad_cmd0 C _ _
  have r1 : (MfLoad C [0x30, blk, c1, c2]).receivedCmd 1 = blk :=
    MfLoad_cmd C [0x30, blk, c1, c2] 1 (by simp)
  have w1 : (MfLoad C [0xA0, blk, c1, c2]).receivedCmd 1 = blk :=
    MfLoad_cmd C [0xA0, blk, c1, c2] 1 (by simp)
  have rs : (MfLoad C [0x30, blk, c1, c2]).cardAUTHSC = C.cardAUTHSC := rfl
  have ws : (MfLoad C [0xA0, blk, c1, c2]).cardAUTHSC = C.cardAUTHSC := rfl
  have er : Mifare1ksimCmd E C [0x30, blk, c1, c2]
      = MfCommand E (MfLoad C [0x30, blk, c1, c2]) := by
    rw [Mifare1ksimCmd_work E C [0x30, blk, c1, c2] hs rfl
        (by rw [MfWorkRead_plain E C _ hk, r0]; decide)
        (by rw [MfWorkRead_plain E C _ hk, r0]; decide),
      MfWorkRead_plain E C _ hk]
  have ew : Mifare1ksimCmd E C [0xA0, blk, c1, c2]
      = MfCommand E (MfLoad C [0xA0, blk, c1, c2]) := by
    rw [Mifare1ksimCmd_work E C [0xA0, blk, c1, c2] hs rfl
        (by rw [MfWorkRead_plain E C _ hk, w0]; decide)
        (by rw [MfWorkRead_plain E C _ hk, w0]; decide),
      MfWorkRead_plain E C _ hk]
  rw [er, ew, MfCommand_read E _ rfl r0, MfCommand_write E _ rfl w0, r1, w1, rs, ws]
  have hl : (MfLoad C [0x30, blk, c1, c2]).cardSTATE = MFEMUL_WORK := hs
  have hw : (MfLoad C [0xA0, blk, c1, c2]).cardSTATE = MFEMUL_WORK := hs
  by_cases hb : 64 ≤ blk ∨ blk / 4 ≠ C.cardAUTHSC
  · refine ⟨?_, ?_, ?_, ?_, ?_, ?_⟩
    · rw [if_pos hb, if_pos hb]
      rfl
    · rw [if_pos hb, if_pos hb]
      exact hw
    · rw [if_pos hb, if_pos hb]
      rfl
    · rw [if_pos hb]
      exact hl
    · rw [if_pos hb]
      rfl
    · rw [if_pos hb]
      rfl
  · refine ⟨?_, ?_, ?_, ?_, ?_, ?_⟩
    · rw [if_neg hb, if_neg hb]
      rfl
    · rw [if_neg hb, if_neg hb]
    · rw [if_neg hb, if_neg hb]
      rfl
    · rw [if_neg hb]
      exact hl
    · rw [if_neg hb]
      rfl
    · rw [if_neg hb]
      rfl

/-- C23 on the sample card in `MFEMUL_WORK` with no key authenticated: a READ of block 0
is answered with the block, and a WRITE to block 0 is answered with ACK and reaches
`MFEMUL_WRITEBL2`. -/
theorem C23_unauth_access_witness :
    (SampleCard MFEMUL_WORK).cardAUTHKEY = 0xff
    ∧ (Mifare1ksimCmd SampleEnv (SampleCard MFEMUL_WORK) [0x30, 0x00, 0x02, 0xa8]).sent
        = [MfAnswer.frame (List.replicate 18 0) 0 0x3ffff]
    ∧ (Mifare1ksimCmd SampleEnv (SampleCard MFEMUL_WORK) [0xA0, 0x00, 0x5f, 0xb1]).cardSTATE
        = MFEMUL_WRITEBL2
    ∧ (Mifare1ksimCmd SampleEnv (SampleCard MFEMUL_WORK) [0xA0, 0x00, 0x5f, 0xb1]).sent
        = [MfAnswer.short 0x0A 0] :=
  ⟨rfl,
   (C23_unauth_access SampleEnv (SampleCard MFEMUL_WORK) 0x00 0x02 0xa8 rfl rfl).1.trans
     (by decide),
   (C23_unauth_access SampleEnv (SampleCard MFEMUL_WORK) 0x00 0x5f 0xb1 rfl rfl).2.1,
   (C23_unauth_access SampleEnv (SampleCard MFEMUL_WORK) 0x00 0x5f 0xb1 rfl rfl).2.2.1.trans
     (by decide)⟩

set_option maxRecDepth 100000 in
/-- C23 refuted as stated: `Mifare1ksim` started on the sample memory, whose block 0 holds
the UID de ad be af and byte 7 is 0, takes the 4-byte UID from it; with the field present,
woken up by WUPA and selected with that UID, it is in `MFEMUL_WORK` with
`cardAUTHKEY = 0xff`; the READ of block 0 that follows is answered with the sixteen bytes
of block 0 (and the two CRC bytes, zero in the sample environment), not with NACK, and a
WRITE to block 0 in its place reaches `MFEMUL_WRITEBL2`. -/
theorem C23_counterexample :
    (Mifare1ksimInit SampleGetMemBt SampleMemory 0 (fun _ => 0) (fun _ => 0))._7BUID = 0
    ∧ (Mifare1ksimInit SampleGetMemBt SampleMemory 0 (fun _ => 0) (fun _ => 0)).rUIDBCC1
      = [0xde, 0xad, 0xbe, 0xaf, 0x62]
    ∧ (Mifare1ksimFrames SampleEnv SampleGetMemBt SampleMemory 0 (fun _ => 0) (fun _ => 0)
        [[0x52], [0x93, 0x70, 0xde, 0xad, 0xbe, 0xaf, 0x62, 0xdb, 0x98]]).cardSTATE
      = MFEMUL_WORK
    ∧ (Mifare1ksimFrames SampleEnv SampleGetMemBt SampleMemory 0 (fun _ => 0) (fun _ => 0)
        [[0x52], [0x93, 0x70, 0xde, 0xad, 0xbe, 0xaf, 0x62, 0xdb, 0x98]]).cardAUTHKEY
      = 0xff
    ∧ (Mifare1ksimFrames SampleEnv SampleGetMemBt SampleMemory 0 (fun _ => 0) (fun _ => 0)
        [[0x52], [0x93, 0x70, 0xde, 0xad, 0xbe, 0xaf, 0x62, 0xdb, 0x98],
         [0x30, 0x00, 0x02, 0xa8]]).sent
      = [MfAnswer.frame [0x04, 0x00] 1 2, MfAnswer.frame [0x08, 0xb6, 0xdd] 0 4,
         MfAnswer.frame [0xde, 0xad, 0xbe, 0xaf, 0x62, 0x08, 0x04, 0x00, 0x62, 0x63, 0x64,
           0x65, 0x66, 0x67, 0x68, 0x69, 0, 0]
           0 (GetParity [0xde, 0xad, 0xbe, 0xaf, 0x62, 0x08, 0x04, 0x00, 0x62, 0x63, 0x64,
           0x65, 0x66, 0x67, 0x68, 0x69, 0, 0])]
    ∧ (Mifare1ksimFrames SampleEnv SampleGetMemBt SampleMemory 0 (fun _ => 0) (fun _ => 0)
        [[0x52], [0x93, 0x70, 0xde, 0xad, 0xbe, 0xaf, 0x62, 0xdb, 0x98],
         [0xA0, 0x00, 0x5f, 0xb1]]).cardSTATE
      = MFEMUL_WRITEBL2 := by
  decide

/-- C24 as the code has it: in the state `MFEMUL_WRITEBL2` an 18-byte frame is decrypted
and stored in the block `cardWRBL`, ACK is sent and the state becomes `MFEMUL_WORK`; a
one-byte REQA or WUPA is answered with ATQA and leads to `MFEMUL_SELECT1` with the memory
unchanged; every other frame leaves the memory unchanged, sends nothing and gives the
state `cardSTATE_TO_IDLE()` assigns. -/
theorem C24_write_second {Pcs Mem : Type} (E : MfEnv Pcs Mem) (C : MfCard Pcs Mem)
    (frame : List Nat) (hs : C.cardSTATE = MFEMUL_WRITEBL2) :
    (frame.length = 18 →
      (Mifare1ksimCmd E C frame).mem
          = E.emlSetMem C.mem
              (E.mf_crypto1_decrypt C.pcs (bufPut C.receivedCmd frame) frame.length).2
              C.cardWRBL 1
      ∧ (Mifare1ksimCmd E C frame).sent
          = C.sent ++ [MfShort E
              (E.mf_crypto1_decrypt C.pcs (bufPut C.receivedCmd frame) frame.length).1
              E.CARD_ACK]
      ∧ (Mifare1ksimCmd E C frame).cardSTATE = MFEMUL_WORK)
    ∧ (frame.length ≠ 18 → frame ≠ [0x26] → frame ≠ [0x52] →
      (Mifare1ksimCmd E C frame).mem = C.mem
      ∧ (Mifare1ksimCmd E C frame).sent = C.sent
      ∧ (Mifare1ksimCmd E C frame).cardSTATE = E.cardSTATE_TO_IDLE)
    ∧ (∀ b, frame = [b] → b = 0x26 ∨ b = 0x52 →
      (Mifare1ksimCmd E C frame).cardSTATE = MFEMUL_SELECT1
      ∧ (Mifare1ksimCmd E C frame).sent
          = C.sent ++ [MfAnswer.frame C.rATQA (if b = 0x52 then 1 else 0) (GetParity C.rATQA)]
      ∧ (Mifare1ksimCmd E C frame).mem = C.mem) := by
  refine ⟨fun hl => ?_, fun hl h26 h52 => ?_, fun b hb hw => ?_⟩
  · rw [Mifare1ksimCmd_len E C frame (by omega), MfSwitch_writebl2 E (MfLoad C frame) hs]
    exact MfWriteBl2_commit E (MfLoad C frame) hl
  · rw [Mifare1ksimCmd_plain E C frame h26 h52, MfSwitch_writebl2 E (MfLoad C frame) hs]
    exact MfWriteBl2_other E (MfLoad C frame) hl
  · subst hb
    have hn : C.cardSTATE ≠ MFEMUL_NOFIELD := by rw [hs]; decide
    have hh : C.cardSTATE ≠ MFEMUL_HALTED := by rw [hs]; decide
    obtain ⟨k1, k2, k3, _⟩ := Mifare1ksimCmd_wake E C b hn
      (hw.elim (fun h => Or.inl ⟨h, hh⟩) Or.inr)
    exact ⟨k1, k2, k3⟩

/-- C24 on the sample card waiting for the data of a WRITE to block 1: eighteen bytes are
stored and acknowledged, and a 4-byte frame leads to `MFEMUL_IDLE`. -/
theorem C24_write_second_witness :
    (Mifare1ksimCmd SampleEnv { SampleCard MFEMUL_WRITEBL2 with cardWRBL := 1 }
        (List.replicate 18 0x5a)).cardSTATE = MFEMUL_WORK
    ∧ (Mifare1ksimCmd SampleEnv { SampleCard MFEMUL_WRITEBL2 with cardWRBL := 1 }
        (List.replicate 18 0x5a)).sent = [MfAnswer.short 0x0A 0]
    ∧ (Mifare1ksimCmd SampleEnv { SampleCard MFEMUL_WRITEBL2 with cardWRBL := 1 }
        [0x30, 0x00, 0x02, 0xa8]).cardSTATE = MFEMUL_IDLE :=
  ⟨((C24_write_second SampleEnv { SampleCard MFEMUL_WRITEBL2 with cardWRBL := 1 }
      (List.replicate 18 0x5a) rfl).1 rfl).2.2,
   ((C24_write_second SampleEnv { SampleCard MFEMUL_WRITEBL2 with cardWRBL := 1 }
      (List.replicate 18 0x5a) rfl).1 rfl).2.1,
   ((C24_write_second SampleEnv { SampleCard MFEMUL_WRITEBL2 with cardWRBL := 1 }
      [0x30, 0x00, 0x02, 0xa8] rfl).2.1 (by decide) (by decide) (by decide)).2.2⟩

/-- C24 refuted as stated: a REQA received in `MFEMUL_WRITEBL2` is answered with ATQA and
leads to `MFEMUL_SELECT1`, not to `MFEMUL_IDLE`. -/
theorem C24_counterexample :
    (Mifare1ksimCmd SampleEnv (SampleCard MFEMUL_WRITEBL2) [0x26]).cardSTATE = MFEMUL_SELECT1
    ∧ (Mifare1ksimCmd SampleEnv (SampleCard MFEMUL_WRITEBL2) [0x26]).cardSTATE
        ≠ SampleEnv.cardSTATE_TO_IDLE
    ∧ (Mifare1ksimCmd SampleEnv (SampleCard MFEMUL_WRITEBL2) [0x26]).sent
        = [MfAnswer.frame [0x04, 0x00] 0 2] := by
  decide

/-- C27 as the code has it: from `MFEMUL_IDLE` a one-byte REQA (0x26) and a one-byte WUPA
(0x52) each move the emulator to `MFEMUL_SELECT1` and are answered with ATQA (with the
correction bit for WUPA); from `MFEMUL_HALTED` only WUPA does, and REQA is ignored: the
state stays `MFEMUL_HALTED` and nothing is sent. -/
theorem C27_wakeup {Pcs Mem : Type} (E : MfEnv Pcs Mem) (C : MfCard Pcs Mem) :
    (C.cardSTATE = MFEMUL_IDLE →
      (Mifare1ksimCmd E C [0x26]).cardSTATE = MFEMUL_SELECT1
      ∧ (Mifare1ksimCmd E C [0x26]).sent
          = C.sent ++ [MfAnswer.frame C.rATQA 0 (GetParity C.rATQA)]
      ∧ (Mifare1ksimCmd E C [0x52]).cardSTATE = MFEMUL_SELECT1
      ∧ (Mifare1ksimCmd E C [0x52]).sent
          = C.sent ++ [MfAnswer.frame C.rATQA 1 (GetParity C.rATQA)])
    ∧ (C.cardSTATE = MFEMUL_HALTED →
      (Mifare1ksimCmd E C [0x52]).cardSTATE = MFEMUL_SELECT1
      ∧ (Mifare1ksimCmd E C [0x52]).sent
          = C.sent ++ [MfAnswer.frame C.rATQA 1 (GetParity C.rATQA)]
      ∧ (Mifare1ksimCmd E C [0x26]).cardSTATE = MFEMUL_HALTED
      ∧ (Mifare1ksimCmd E C [0x26]).sent = C.sent) := by
  refine ⟨fun hs => ?_, fun hs => ?_⟩
  · have hn : C.cardSTATE ≠ MFEMUL_NOFIELD := by rw [hs]; decide
    have hh : C.cardSTATE ≠ MFEMUL_HALTED := by rw [hs]; decide
    obtain ⟨a1, a2, _⟩ := Mifare1ksimCmd_wake E C 0x26 hn (Or.inl ⟨rfl, hh⟩)
    obtain ⟨b1, b2, _⟩ := Mifare1ksimCmd_wake E C 0x52 hn (Or.inr rfl)
    exact ⟨a1, a2, b1, b2⟩
  · have hn : C.cardSTATE ≠ MFEMUL_NOFIELD := by rw [hs]; decide
    obtain ⟨b1, b2, _⟩ := Mifare1ksimCmd_wake E C 0x52 hn (Or.inr rfl)
    refine ⟨b1, b2, ?_⟩
    unfold Mifare1ksimCmd
    rw [MfWakeup_halted E (MfLoad C [0x26]) hs (by rw [MfLoad_cmd0]; decide),
      MfSwitch_halted E (MfLoad C [0x26]) hs]
    exact ⟨hs, rfl⟩

/-- C27 on the sample card: REQA from `MFEMUL_IDLE` and WUPA from `MFEMUL_HALTED` lead to
`MFEMUL_SELECT1`. -/
theorem C27_wakeup_witness :
    (Mifare1ksimCmd SampleEnv (SampleCard MFEMUL_IDLE) [0x26]).cardSTATE = MFEMUL_SELECT1
    ∧ (Mifare1ksimCmd SampleEnv (SampleCard MFEMUL_HALTED) [0x52]).cardSTATE
        = MFEMUL_SELECT1 :=
  ⟨((C27_wakeup SampleEnv (SampleCard MFEMUL_IDLE)).1 rfl).1,
   ((C27_wakeup SampleEnv (SampleCard MFEMUL_HALTED)).2 rfl).1⟩

/-- C27 refuted as stated: a REQA received in `MFEMUL_HALTED` leaves the emulator halted
and is not answered. -/
theorem C27_counterexample :
    (Mifare1ksimCmd SampleEnv (SampleCard MFEMUL_HALTED) [0x26]).cardSTATE = MFEMUL_HALTED
    ∧ (Mifare1ksimCmd SampleEnv (SampleCard MFEMUL_HALTED) [0x26]).sent = [] := by
  decide

/-- The operand is a 32-bit number. -/
theorem MfOperand_lt (receivedCmd : Nat → Nat) : MfOperand receivedCmd < 2 ^ 32 := by
  unfold MfOperand
  have h0 := Nat.mod_lt (receivedCmd 0) (show 256 > 0 by decide)
  have h1 := Nat.mod_lt (receivedCmd 1) (show 256 > 0 by decide)
  have h2 := Nat.mod_lt (receivedCmd 2) (show 256 > 0 by decide)
  have h3 := Nat.mod_lt (receivedCmd 3) (show 256 > 0 by decide)
  norm_num
  omega

/-- The wrapped subtraction of the DECREMENT case as a subtraction of integers. -/
theorem sub_wrap_int (v a : Nat) (ha : a < 2 ^ 32) :
    (((v % 2 ^ 32 + 2 ^ 32 - a) % 2 ^ 32 : Nat) : Int) = ((v : Int) - (a : Int)) % 2 ^ 32 := by
  norm_num at ha ⊢
  omega

/-- C25 as the code has it: an INCREMENT, DECREMENT or RESTORE command that fails its
check in the state `MFEMUL_WORK` (block number at least 64, block outside the sector
`cardAUTHSC`, or `emlCheckValBl` refusing the block) is answered with NACK and the state
stays `MFEMUL_WORK`; an operand frame (not a one-byte REQA or WUPA) for which
`emlGetValBl` fails in a value-register state is answered with NACK and the state becomes
the one `cardSTATE_TO_IDLE()` assigns. The memory is unchanged in both cases. -/
theorem C25_value_failure {Pcs Mem : Type} (E : MfEnv Pcs Mem) (C : MfCard Pcs Mem)
    (frame : List Nat) :
    (C.cardSTATE = MFEMUL_WORK → frame.length = 4 →
      ((MfWorkRead E C frame).receivedCmd 0 = 0xC0 ∨ (MfWorkRead E C frame).receivedCmd 0 = 0xC1
        ∨ (MfWorkRead E C frame).receivedCmd 0 = 0xC2) →
      (64 ≤ (MfWorkRead E C frame).receivedCmd 1
        ∨ (MfWorkRead E C frame).receivedCmd 1 / 4 ≠ C.cardAUTHSC
        ∨ E.emlCheckValBl C.mem ((MfWorkRead E C frame).receivedCmd 1) ≠ 0) →
      (Mifare1ksimCmd E C frame).sent
          = C.sent ++ [MfShort E (MfWorkRead E C frame).pcs E.CARD_NACK_NA]
      ∧ (Mifare1ksimCmd E C frame).cardSTATE = MFEMUL_WORK
      ∧ (Mifare1ksimCmd E C frame).mem = C.mem)
    ∧ ((C.cardSTATE = MFEMUL_INTREG_INC ∨ C.cardSTATE = MFEMUL_INTREG_DEC
          ∨ C.cardSTATE = MFEMUL_INTREG_REST) →
      frame ≠ [0x26] → frame ≠ [0x52] →
      (E.emlGetValBl C.mem C.cardINTREG C.cardINTBLOCK C.cardWRBL).1 ≠ 0 →
      (Mifare1ksimCmd E C frame).sent
          = C.sent ++ [MfShort E
              (E.mf_crypto1_decrypt C.pcs (bufPut C.receivedCmd frame) frame.length).1
              E.CARD_NACK_NA]
      ∧ (Mifare1ksimCmd E C frame).cardSTATE = E.cardSTATE_TO_IDLE
      ∧ (Mifare1ksimCmd E C frame).mem = C.mem) := by
  refine ⟨fun hs hl hcmd hbad => ?_, fun hs h26 h52 hv => ?_⟩
  · obtain ⟨f1, f2, f3, _, f5, f6⟩ := MfWorkRead_fields E C frame
    have hlen : (MfWorkRead E C frame).len = 4 := by rw [f1, hl]
    have h60 : (MfWorkRead E C frame).receivedCmd 0 ≠ 0x60 := by
      intro h; rw [h] at hcmd; revert hcmd; decide
    have h61 : (MfWorkRead E C frame).receivedCmd 0 ≠ 0x61 := by
      intro h; rw [h] at hcmd; revert hcmd; decide
    rw [Mifare1ksimCmd_work E C frame hs hl h60 h61, MfCommand_value E _ hlen hcmd, f3, f5,
      if_pos hbad]
    obtain ⟨s1, s2, s3, _⟩ := MfSend4bit_fields E (MfWorkRead E C frame) E.CARD_NACK_NA
    exact ⟨by rw [s1, f6], by rw [s2, f2, hs], by rw [s3, f5]⟩
  · obtain ⟨op, hop⟩ := MfSwitch_intreg E (MfLoad C frame) hs
    rw [Mifare1ksimCmd_plain E C frame h26 h52, hop]
    exact MfIntReg_fail E (MfLoad C frame) op hv

/-- C25 on the sample cards: an INCREMENT of block 64 in `MFEMUL_WORK` is answered with
NACK and the state stays `MFEMUL_WORK`; an operand frame in `MFEMUL_INTREG_INC` over a
memory without value blocks is answered with NACK and leads to `MFEMUL_IDLE`. -/
theorem C25_value_failure_witness :
    ((Mifare1ksimCmd SampleEnv (SampleCard MFEMUL_WORK) [0xC1, 0x40, 0xd6, 0x8f]).sent
        = [MfAnswer.short 0x04 0]
      ∧ (Mifare1ksimCmd SampleEnv (SampleCard MFEMUL_WORK) [0xC1, 0x40, 0xd6, 0x8f]).cardSTATE
        = MFEMUL_WORK)
    ∧ ((Mifare1ksimCmd SampleEnvNoValue (SampleCard MFEMUL_INTREG_INC)
          [0x01, 0x00, 0x00, 0x00, 0xbb, 0x4a]).sent = [MfAnswer.short 0x04 0]
      ∧ (Mifare1ksimCmd SampleEnvNoValue (SampleCard MFEMUL_INTREG_INC)
          [0x01, 0x00, 0x00, 0x00, 0xbb, 0x4a]).cardSTATE = MFEMUL_IDLE) :=
  ⟨⟨((C25_value_failure SampleEnv (SampleCard MFEMUL_WORK) [0xC1, 0x40, 0xd6, 0x8f]).1
        rfl rfl (Or.inr (Or.inl (by decide))) (Or.inl (by decide))).1,
    ((C25_value_failure SampleEnv (SampleCard MFEMUL_WORK) [0xC1, 0x40, 0xd6, 0x8f]).1
        rfl rfl (Or.inr (Or.inl (by decide))) (Or.inl (by decide))).2.1⟩,
   ⟨((C25_value_failure SampleEnvNoValue (SampleCard MFEMUL_INTREG_INC)
        [0x01, 0x00, 0x00, 0x00, 0xbb, 0x4a]).2
        (Or.inl rfl) (by decide) (by decide) (by decide)).1,
    ((C25_value_failure SampleEnvNoValue (SampleCard MFEMUL_INTREG_INC)
        [0x01, 0x00, 0x00, 0x00, 0xbb, 0x4a]).2
        (Or.inl rfl) (by decide) (by decide) (by decide)).2.1⟩⟩

/-- C25 refuted as stated: an INCREMENT of block 64, out of range, received in
`MFEMUL_WORK` is answered with NACK, and the state after the pass is `MFEMUL_WORK`, not
`MFEMUL_IDLE`. -/
theorem C25_counterexample :
    (Mifare1ksimCmd SampleEnv (SampleCard MFEMUL_WORK) [0xC1, 0x40, 0xd6, 0x8f]).sent
        = [MfAnswer.short SampleEnv.CARD_NACK_NA 0]
    ∧ (Mifare1ksimCmd SampleEnv (SampleCard MFEMUL_WORK) [0xC1, 0x40, 0xd6, 0x8f]).cardSTATE
        = MFEMUL_WORK
    ∧ (Mifare1ksimCmd SampleEnv (SampleCard MFEMUL_WORK) [0xC1, 0x40, 0xd6, 0x8f]).cardSTATE
        ≠ SampleEnv.cardSTATE_TO_IDLE := by
  decide

/-- C26: a valid INCREMENT (0xC1), DECREMENT (0xC0) or RESTORE (0xC2) command received in
`MFEMUL_WORK` is acknowledged, remembers its block in `cardWRBL` and leads to
`MFEMUL_INTREG_INC`, `MFEMUL_INTREG_DEC` or `MFEMUL_INTREG_REST`. There the operand
frame (any frame but a one-byte REQA or WUPA), when `emlGetValBl` finds a value `v` in
the block `cardWRBL`, sets `cardINTREG` to `(v + operand) mod 2^32` after INCREMENT, to
`(v - operand) mod 2^32` after DECREMENT and to `v mod 2^32` after RESTORE, the operand
being the first four decrypted bytes read as a little-endian number; the state returns to
`MFEMUL_WORK`, nothing is sent and the memory is unchanged. -/
theorem C26_value_arithmetic {Pcs Mem : Type} (E : MfEnv Pcs Mem) (C : MfCard Pcs Mem)
    (frame : List Nat) :
    (C.cardSTATE = MFEMUL_WORK → frame.length = 4 →
      ((MfWorkRead E C frame).receivedCmd 0 = 0xC0 ∨ (MfWorkRead E C frame).receivedCmd 0 = 0xC1
        ∨ (MfWorkRead E C frame).receivedCmd 0 = 0xC2) →
      ¬ (64 ≤ (MfWorkRead E C frame).receivedCmd 1
        ∨ (MfWorkRead E C frame).receivedCmd 1 / 4 ≠ C.cardAUTHSC
        ∨ E.emlCheckValBl C.mem ((MfWorkRead E C frame).receivedCmd 1) ≠ 0) →
      (Mifare1ksimCmd E C frame).cardSTATE
          = (if (MfWorkRead E C frame).receivedCmd 0 = 0xC1 then MFEMUL_INTREG_INC
             else if (MfWorkRead E C frame).receivedCmd 0 = 0xC0 then MFEMUL_INTREG_DEC
             else MFEMUL_INTREG_REST)
      ∧ (Mifare1ksimCmd E C frame).cardWRBL = (MfWorkRead E C frame).receivedCmd 1 % 256
      ∧ (Mifare1ksimCmd E C frame).sent
          = C.sent ++ [MfShort E (MfWorkRead E C frame).pcs E.CARD_ACK]
      ∧ (Mifare1ksimCmd E C frame).mem = C.mem)
    ∧ (frame ≠ [0x26] → frame ≠ [0x52] →
      (E.emlGetValBl C.mem C.cardINTREG C.cardINTBLOCK C.cardWRBL).1 = 0 →
      (C.cardSTATE = MFEMUL_INTREG_INC →
        (Mifare1ksimCmd E C frame).cardINTREG
          = ((E.emlGetValBl C.mem C.cardINTREG C.cardINTBLOCK C.cardWRBL).2.1
              + MfOperand (E.mf_crypto1_decrypt C.pcs (bufPut C.receivedCmd frame)
                  frame.length).2) % 2 ^ 32)
      ∧ (C.cardSTATE = MFEMUL_INTREG_DEC →
        ((Mifare1ksimCmd E C frame).cardINTREG : Int)
          = (((E.emlGetValBl C.mem C.cardINTREG C.cardINTBLOCK C.cardWRBL).2.1 : Int)
              - (MfOperand (E.mf_crypto1_decrypt C.pcs (bufPut C.receivedCmd frame)
                  frame.length).2 : Int)) % 2 ^ 32)
      ∧ (C.cardSTATE = MFEMUL_INTREG_REST →
        (Mifare1ksimCmd E C frame).cardINTREG
          = (E.emlGetValBl C.mem C.cardINTREG C.cardINTBLOCK C.cardWRBL).2.1 % 2 ^ 32)
      ∧ ((C.cardSTATE = MFEMUL_INTREG_INC ∨ C.cardSTATE = MFEMUL_INTREG_DEC
            ∨ C.cardSTATE = MFEMUL_INTREG_REST) →
        (Mifare1ksimCmd E C frame).cardSTATE = MFEMUL_WORK
        ∧ (Mifare1ksimCmd E C frame).sent = C.sent
        ∧ (Mifare1ksimCmd E C frame).mem = C.mem)) := by
  refine ⟨fun hs hl hcmd hok => ?_, fun h26 h52 hv => ⟨fun hs => ?_, fun hs => ?_,
    fun hs => ?_, fun hs => ?_⟩⟩
  · obtain ⟨f1, f2, f3, _, f5, f6⟩ := MfWorkRead_fields E C frame
    have hlen : (MfWorkRead E C frame).len = 4 := by rw [f1, hl]
    have h60 : (MfWorkRead E C frame).receivedCmd 0 ≠ 0x60 := by
      intro h; rw [h] at hcmd; revert hcmd; decide
    have h61 : (MfWorkRead E C frame).receivedCmd 0 ≠ 0x61 := by
      intro h; rw [h] at hcmd; revert hcmd; decide
    rw [Mifare1ksimCmd_work E C frame hs hl h60 h61, MfCommand_value E _ hlen hcmd, f3, f5,
      if_neg hok]
    obtain ⟨s1, _, s3, _⟩ := MfSend4bit_fields E (MfWorkRead E C frame) E.CARD_ACK
    exact ⟨rfl, rfl, by rw [← f6, ← s1], by rw [← f5, ← s3]⟩
  · rw [Mifare1ksimCmd_plain E C frame h26 h52, MfSwitch_inc E (MfLoad C frame) hs]
    rw [(MfIntReg_ok E (MfLoad C frame) _ hv).1]
    exact Nat.mod_add_mod _ _ _
  · rw [Mifare1ksimCmd_plain E C frame h26 h52, MfSwitch_dec E (MfLoad C frame) hs]
    rw [(MfIntReg_ok E (MfLoad C frame) _ hv).1]
    exact sub_wrap_int _ _ (MfOperand_lt _)
  · rw [Mifare1ksimCmd_plain E C frame h26 h52, MfSwitch_rest E (MfLoad C frame) hs]
    rw [(MfIntReg_ok E (MfLoad C frame) _ hv).1]
    rfl
  · obtain ⟨op, hop⟩ := MfSwitch_intreg E (MfLoad C frame) hs
    rw [Mifare1ksimCmd_plain E C frame h26 h52, hop]
    obtain ⟨_, k1, k2, k3⟩ := MfIntReg_ok E (MfLoad C frame) op hv
    exact ⟨k1, k3, k2⟩

/-- C26 on the sample card whose block 1 holds the value 5: INCREMENT of block 1 leads to
`MFEMUL_INTREG_INC`; there the operand 3 gives the register 8, and in
`MFEMUL_INTREG_REST` the register is 5; in each case the state returns to `MFEMUL_WORK`. -/
theorem C26_value_arithmetic_witness :
    (Mifare1ksimCmd SampleEnv (SampleCard MFEMUL_WORK) [0xC1, 0x01, 0x5b, 0xdc]).cardSTATE
        = MFEMUL_INTREG_INC
    ∧ (Mifare1ksimCmd SampleEnv
        { SampleCard MFEMUL_INTREG_INC with
          cardWRBL := 1, mem := fun k => if k = 16 then 5 else 0 }
        [0x03, 0x00, 0x00, 0x00, 0xcd, 0x73]).cardINTREG = 8
    ∧ (Mifare1ksimCmd SampleEnv
        { SampleCard MFEMUL_INTREG_REST with
          cardWRBL := 1, mem := fun k => if k = 16 then 5 else 0 }
        [0x03, 0x00, 0x00, 0x00, 0xcd, 0x73]).cardINTREG = 5
    ∧ (Mifare1ksimCmd SampleEnv
        { SampleCard MFEMUL_INTREG_INC with
          cardWRBL := 1, mem := fun k => if k = 16 then 5 else 0 }
        [0x03, 0x00, 0x00, 0x00, 0xcd, 0x73]).cardSTATE = MFEMUL_WORK :=
  ⟨((C26_value_arithmetic SampleEnv (SampleCard MFEMUL_WORK) [0xC1, 0x01, 0x5b, 0xdc]).1
      rfl rfl (Or.inr (Or.inl (by decide))) (by decide)).1,
   (((C26_value_arithmetic SampleEnv
        { SampleCard MFEMUL_INTREG_INC with
          cardWRBL := 1, mem := fun k => if k = 16 then 5 else 0 }
        [0x03, 0x00, 0x00, 0x00, 0xcd, 0x73]).2 (by decide) (by decide) rfl).1 rfl).trans
      (by decide),
   (((C26_value_arithmetic SampleEnv
        { SampleCard MFEMUL_INTREG_REST with
          cardWRBL := 1, mem := fun k => if k = 16 then 5 else 0 }
        [0x03, 0x00, 0x00, 0x00, 0xcd, 0x73]).2 (by decide) (by decide) rfl).2.2.1 rfl).trans
      (by decide),
   (((C26_value_arithmetic SampleEnv
        { SampleCard MFEMUL_INTREG_INC with
          cardWRBL := 1, mem := fun k => if k = 16 then 5 else 0 }
        [0x03, 0x00, 0x00, 0x00, 0xcd, 0x73]).2 (by decide) (by decide) rfl).2.2.2
      (Or.inl rfl)).1⟩

/-! ### Parity -/

set_option maxRecDepth 100000 in
/-- The table `OddByteParity` entry by entry: 1 for an even number of set bits, 0 for an
odd number. -/
theorem OddByteParity_table :
    ∀ b, b < 256 → OddByteParity.getD b 0 = (1 + (LsbBits 8 b).sum) % 2 := by
  decide

/-- The function `oddparity` gives the bit that makes the number of ones odd. -/
theorem oddparity_eq (b : Nat) : oddparity b = (1 + (LsbBits 8 (b % 256)).sum) % 2 :=
  OddByteParity_table (b % 256) (Nat.mod_lt _ (by decide))

/-- The function `oddparity` returns one bit. -/
theorem oddparity_lt (b : Nat) : oddparity b < 2 := by
  rw [oddparity_eq]
  omega

/-- The loop of `GetParity` sets bit `i + k` to the parity of the `k`-th byte it visits
and leaves the bits below `i` alone, as long as the bit index stays below 32. -/
theorem GetParityLoop_bits (l : List Nat) :
    ∀ (i acc : Nat), i + l.length ≤ 32 → acc < 2 ^ i → ∀ j,
      GetParityLoop l i acc / 2 ^ j % 2
        = if j < i then acc / 2 ^ j % 2
          else if j < i + l.length then oddparity (l.getD (j - i) 0) else 0 := by
  induction l with
  | nil =>
    intro i acc _ hacc j
    simp only [GetParityLoop, List.length_nil, Nat.add_zero]
    by_cases hj : j < i
    · rw [if_pos hj]
    · rw [if_neg hj, if_neg hj]
      have : acc < 2 ^ j := lt_of_lt_of_le hacc (Nat.pow_le_pow_right (by decide) (by omega))
      rw [Nat.div_eq_of_lt this]
  | cons b t ih =>
    intro i acc hlen hacc j
    simp only [List.length_cons] at hlen
    have hp := oddparity_lt b
    have hi : i < 32 := by omega
    have hsh : (oddparity b <<< i) % 2 ^ 32 = 2 ^ i * oddparity b := by
      rw [Nat.shiftLeft_eq, Nat.mul_comm]
      apply Nat.mod_eq_of_lt
      calc 2 ^ i * oddparity b ≤ 2 ^ i * 1 := Nat.mul_le_mul_left _ (by omega)
        _ = 2 ^ i := Nat.mul_one _
        _ < 2 ^ 32 := Nat.pow_lt_pow_right (by decide) hi
    have hor : acc ||| 2 ^ i * oddparity b = 2 ^ i * oddparity b + acc := by
      rw [Nat.or_comm]
      exact (Nat.mul_add_lt_is_or hacc (oddparity b)).symm
    have hnew : 2 ^ i * oddparity b + acc < 2 ^ (i + 1) := by
      rw [pow_succ]
      have : 2 ^ i * oddparity b ≤ 2 ^ i * 1 := Nat.mul_le_mul_left _ (by omega)
      omega
    rw [GetParityLoop, hsh, hor, ih (i + 1) _ (by omega) hnew j]
    have hcons : (b :: t).length = t.length + 1 := List.length_cons b t
    rw [hcons]
    by_cases hj : j < i
    · rw [if_pos (by omega), if_pos hj]
      obtain ⟨k, rfl⟩ : ∃ k, i = j + 1 + k := ⟨i - j - 1, by omega⟩
      have e : 2 ^ (j + 1 + k) * oddparity b = 2 ^ j * (2 * (2 ^ k * oddparity b)) := by
        rw [pow_add, pow_add, pow_one]
        ring
      rw [e, Nat.mul_add_div (Nat.two_pow_pos j), Nat.mul_add_mod]
    · by_cases hji : j = i
      · subst hji
        rw [if_pos (by omega), if_neg (by omega), if_pos (by omega), Nat.sub_self,
          Nat.mul_add_div (Nat.two_pow_pos j), Nat.div_eq_of_lt hacc, Nat.add_zero,
          List.getD_cons_zero]
        exact Nat.mod_eq_of_lt hp
      · rw [if_neg (by omega), if_neg hj]
        have e : j - i = (j - (i + 1)) + 1 := by omega
        by_cases hjl : j < i + 1 + t.length
        · rw [if_pos hjl, if_pos (by omega), e, List.getD_cons_succ]
        · rw [if_neg hjl, if_neg (by omega)]

/-- C33: `OddByteParity` is the odd-parity table, and `GetParity` packs the parities
of a buffer of at most 31 bytes: `oddparity(b)` is 1 exactly when `b` has an even number
of set bits (and 0 otherwise), and bit `i` of `GetParity(buf, n)` is `oddparity(buf[i])`
for `i < n` and 0 for `i >= n`. -/
theorem C33_odd_parity (buf : List Nat) (b i : Nat) (hn : buf.length ≤ 31) :
    (oddparity b = 1 ↔ (LsbBits 8 (b % 256)).sum % 2 = 0)
    ∧ (oddparity b = 0 ↔ (LsbBits 8 (b % 256)).sum % 2 = 1)
    ∧ GetParity buf / 2 ^ i % 2 = (if i < buf.length then oddparity (buf.getD i 0) else 0) := by
  refine ⟨?_, ?_, ?_⟩
  · rw [oddparity_eq]
    omega
  · rw [oddparity_eq]
    omega
  · have h := GetParityLoop_bits buf 0 0 (by omega) (by decide) i
    rw [if_neg (by omega), Nat.zero_add, Nat.sub_zero] at h
    exact h

/-- C33 on the frame 93 20: 0x93 has four set bits, so its parity bit is 1, and 0x20 has
one, so its parity bit is 0; `GetParity` gives 1, and bit 5 is 0. -/
theorem C33_odd_parity_witness :
    (oddparity 0x93 = 1 ↔ (LsbBits 8 (0x93 % 256)).sum % 2 = 0)
    ∧ GetParity [0x93, 0x20] / 2 ^ 0 % 2 = oddparity 0x93
    ∧ GetParity [0x93, 0x20] / 2 ^ 5 % 2 = 0 :=
  ⟨(C33_odd_parity [0x93, 0x20] 0x93 0 (by decide)).1,
   (C33_odd_parity [0x93, 0x20] 0x93 0 (by decide)).2.2,
   (C33_odd_parity [0x93, 0x20] 0x93 5 (by decide)).2.2⟩

/-! ### The UID after the select procedure -/

/-- The part after the loop strips the cascade tag: the memory behind `uid_ptr` is moved
down by one byte when its first byte is 0x88, and left alone otherwise. -/
theorem SelectTail_uid (crc : List Nat → Nat × Nat) (atsSize : Nat) (hasRespData : Bool)
    (S : SelectT) (answers : List (Option (List Nat))) :
    (SelectTail crc atsSize hasRespData S answers).uid
      = if S.uid 0 = 0x88 then bufSet (memcpyAt S.uid 0 (fun k => S.uid (k + 1)) 7) 7 0
        else S.uid := by
  unfold SelectTail
  dsimp only
  split_ifs <;> rfl

/-- A card that completes its UID at the second cascade level: the procedure ends in the
part after the loop, from the state two passes leave. -/
theorem select_two_levels (crc : List Nat → Nat × Nat) (b2n : List Nat → Nat) (atsSize : Nat)
    (hasRespData hasCuid : Bool) (uid0 resp0 : Nat → Nat) (a0 : Nat) (a : List Nat)
    (u0 : Nat) (u : List Nat) (s0 : Nat) (s : List Nat) (v0 : Nat) (v : List Nat)
    (t0 : Nat) (t : List Nat) (rest : List (Option (List Nat)))
    (h1 : s0 &&& 0x04 ≠ 0) (h2 : t0 &&& 0x04 = 0) :
    iso14443a_select_card crc b2n atsSize hasRespData hasCuid uid0 resp0
        (some (a0 :: a) :: some (u0 :: u) :: some (s0 :: s) :: some (v0 :: v)
          :: some (t0 :: t) :: rest)
      = SelectTail crc atsSize hasRespData
          (SelectRound crc b2n hasCuid
            (SelectRound crc b2n hasCuid
              { status := 0, uid := fun k => if k < 8 then 0 else uid0 k, cuid := 0,
                atqa := if hasRespData then bufSlice (bufPut resp0 (a0 :: a)) 0 2 else [],
                rsak := 0, ats_len := 0, ats := [], resp := bufPut resp0 (a0 :: a),
                sak := 0x04, cascade_level := 0, sent := [[0x52]] } (u0 :: u) (s0 :: s))
            (v0 :: v) (t0 :: t)) rest := by
  rw [select_enter, SelectLoop_round _ _ _ _ _ _ _ _ _ (by show 4 &&& 4 ≠ 0; decide),
    SelectLoop_round _ _ _ _ _ _ _ _ _ (by rw [SelectRound_sak]; exact h1),
    SelectLoop_done _ _ _ _ _ (by rw [SelectRound_sak]; exact h2)]
  rfl

/-- C31: `iso14443a_select_card` reconstructs the UID and strips the cascade tag. For a
selection over two cascade levels (the first SAK has bit 0x04 set, the second has it
clear) whose level-1 answer starts 0x88, a, b, c and whose level-2 answer starts d, e, f,
g, the eight bytes behind `uid_ptr` are a, b, c, d, e, f, g, 0; for a selection over one
level whose answer starts with four bytes the first of which is not 0x88, they are these
four bytes followed by four zeros. -/
theorem C31_uid_reconstruct (ComputeCrc14443 : List Nat → Nat × Nat)
    (bytes_to_num : List Nat → Nat) (atsSize : Nat) (hasRespData hasCuid : Bool)
    (uid0 resp0 : Nat → Nat) (a0 : Nat) (at1 : List Nat)
    (a b c d e f g u0 u1 u2 u3 s1 s2 : Nat) (r1 r2 t1 t2 : List Nat)
    (rest : List (Option (List Nat)))
    (h1 : s1 &&& 0x04 ≠ 0) (h2 : s2 &&& 0x04 = 0) (h88 : u0 ≠ 0x88) :
    bufSlice (iso14443a_select_card ComputeCrc14443 bytes_to_num atsSize hasRespData hasCuid
        uid0 resp0
        (some (a0 :: at1) :: some (0x88 :: a :: b :: c :: r1) :: some (s1 :: t1)
          :: some (d :: e :: f :: g :: r2) :: some (s2 :: t2) :: rest)).uid 0 8
      = [a, b, c, d, e, f, g, 0]
    ∧ bufSlice (iso14443a_select_card ComputeCrc14443 bytes_to_num atsSize hasRespData hasCuid
        uid0 resp0
        (some (a0 :: at1) :: some (u0 :: u1 :: u2 :: u3 :: r1) :: some (s2 :: t2) :: rest)).uid
        0 8
      = [u0, u1, u2, u3, 0, 0, 0, 0] := by
  constructor
  · rw [select_two_levels _ _ _ _ _ _ _ _ _ _ _ _ _ _ _ _ _ _ h1 h2, SelectTail_uid]
    simp [SelectRound, bufSlice, bufPut, memcpyAt, bufOfList, bufSet, List.range,
      List.range.loop]
  · rw [select_one_level _ _ _ _ _ _ _ _ _ _ _ _ _ _ h2, SelectTail_uid]
    simp [SelectRound, bufSlice, bufPut, memcpyAt, bufOfList, bufSet, List.range,
      List.range.loop, h88]

/-- C31 on a card with the double-size UID 04 a1 b2 c3 d4 e5 f6 and on a card with the
single-size UID de ad be af. -/
theorem C31_uid_reconstruct_witness :
    bufSlice (iso14443a_select_card SampleEnv.ComputeCrc14443 SampleEnv.bytes_to_num 0 false
        true (fun _ => 0xee) (fun _ => 0)
        [some [0x44, 0x00], some [0x88, 0x04, 0xa1, 0xb2, 0x9f], some [0x04, 0xda, 0x17],
         some [0xc3, 0xd4, 0xe5, 0xf6, 0x04], some [0x08, 0xb6, 0xdd]]).uid 0 8
      = [0x04, 0xa1, 0xb2, 0xc3, 0xd4, 0xe5, 0xf6, 0]
    ∧ bufSlice (iso14443a_select_card SampleEnv.ComputeCrc14443 SampleEnv.bytes_to_num 0 false
        true (fun _ => 0xee) (fun _ => 0)
        [some [0x44, 0x00], some [0xde, 0xad, 0xbe, 0xaf, 0x9f], some [0x08, 0xb6, 0xdd]]).uid
        0 8
      = [0xde, 0xad, 0xbe, 0xaf, 0, 0, 0, 0] :=
  ⟨(C31_uid_reconstruct SampleEnv.ComputeCrc14443 SampleEnv.bytes_to_num 0 false true
      (fun _ => 0xee) (fun _ => 0) 0x44 [0x00] 0x04 0xa1 0xb2 0xc3 0xd4 0xe5 0xf6
      0xde 0xad 0xbe 0xaf 0x04 0x08 [0x9f] [0x04] [0xda, 0x17] [0xb6, 0xdd] []
      (by decide) (by decide) (by decide)).1,
   (C31_uid_reconstruct SampleEnv.ComputeCrc14443 SampleEnv.bytes_to_num 0 false true
      (fun _ => 0xee) (fun _ => 0) 0x44 [0x00] 0x04 0xa1 0xb2 0xc3 0xd4 0xe5 0xf6
      0xde 0xad 0xbe 0xaf 0x04 0x08 [0x9f] [0x04] [0xda, 0x17] [0xb6, 0xdd] []
      (by decide) (by decide) (by decide)).2⟩

/-! ### Counters of the Miller decoder -/

/-- The sync search gives the sync bit together with its timing offset. -/
theorem MillerSync_samples (nb bit : Nat) (h0 : 0 < bit) (h16 : bit < 16) :
    ((MillerSync nb bit).1 = 0x10 ∧ (MillerSync nb bit).2.1 = 0)
    ∨ ((MillerSync nb bit).1 = 0x20 ∧ (MillerSync nb bit).2.1 = 1)
    ∨ ((MillerSync nb bit).1 = 0x40 ∧ (MillerSync nb bit).2.1 = 2)
    ∨ ((MillerSync nb bit).1 = 0x80 ∧ (MillerSync nb bit).2.1 = 3) := by
  rw [MillerSync_congr]
  have h := and_8_eq nb
  by_cases c : nb / 8 % 2 = 1
  · rw [if_pos c] at h
    rw [h]
    interval_cases bit <;> decide
  · rw [if_neg c] at h
    rw [h]
    interval_cases bit <;> decide

/-- The `switch` at the end of a bit period touches neither the byte counter nor the
parity word. -/
theorem MillerSwitch_counts (U : UartT) :
    (MillerSwitch U).1.byteCnt = U.byteCnt ∧ (MillerSwitch U).1.parityBits = U.parityBits := by
  rcases U with ⟨st, sr, bc, byc, bmax, pc, sb, pb, smp, hc, bb, dr, out⟩
  cases st <;> cases dr <;> simp [MillerSwitch]

/-- The end of the second-half branch either leaves the byte counter and the parity word
alone or counts one byte and shifts one parity bit in. -/
theorem MillerStore_counts (U : UartT) (e : Bool) :
    ((MillerStore U e).1.byteCnt = U.byteCnt ∧ (MillerStore U e).1.parityBits = U.parityBits)
    ∨ ((MillerStore U e).1.byteCnt = U.byteCnt + 1
        ∧ (MillerStore U e).1.parityBits = 2 * U.parityBits % 2 ^ 32 + U.shiftReg / 256 % 2) := by
  rcases U with ⟨st, sr, bc, byc, bmax, pc, sb, pb, smp, hc, bb, dr, out⟩
  have hp : ((pb <<< 1) % 2 ^ 32) ^^^ ((sr >>> 8) &&& 0x01) = 2 * pb % 2 ^ 32 + sr / 256 % 2 := by
    rw [shr8_and1]
    exact parity_shift_eq pb (sr / 256 % 2) (Nat.mod_lt _ (by decide))
  unfold MillerStore
  dsimp only
  split_ifs
  · exact Or.inl ⟨rfl, rfl⟩
  · exact Or.inr ⟨rfl, hp⟩
  · exact Or.inr ⟨rfl, hp⟩
  · exact Or.inl ⟨rfl, rfl⟩

/-- One call of `MillerDecoding` and the two counters: they stay as they are, or one byte
is counted and one parity bit shifted in, or a sync clears both. -/
theorem MillerDecoding_counts (U : UartT) (v : Nat) :
    ((MillerDecoding U v).1.byteCnt = U.byteCnt
      ∧ (MillerDecoding U v).1.parityBits = U.parityBits)
    ∨ ((MillerDecoding U v).1.byteCnt = U.byteCnt + 1
      ∧ ((MillerDecoding U v).1.parityBits = 2 * U.parityBits % 2 ^ 32
        ∨ (MillerDecoding U v).1.parityBits = 2 * U.parityBits % 2 ^ 32 + 1))
    ∨ (U.state = STATE_UNSYNCD
      ∧ (MillerDecoding U v).1.state = STATE_START_OF_COMMUNICATION
      ∧ (MillerDecoding U v).1.byteCnt = 0 ∧ (MillerDecoding U v).1.parityBits = 0) := by
  by_cases hbb : U.bitBuffer = 0
  · rw [MillerDecoding_empty U v hbb]
    exact Or.inl ⟨rfl, rfl⟩
  · by_cases hst : U.state = STATE_UNSYNCD
    · rcases U with ⟨st, sr, bc, byc, bmax, pc, sb, pb, smp, hc, bb, dr, out⟩
      simp only at hst hbb
      subst hst
      unfold MillerDecoding MillerUnsynced
      dsimp only
      rw [if_neg hbb, if_neg (by simp)]
      split_ifs <;>
        first
        | exact Or.inl ⟨rfl, rfl⟩
        | exact Or.inr (Or.inr ⟨rfl, rfl, rfl, rfl⟩)
    · by_cases hp : U.posCnt = 0
      · rw [MillerDecoding_first U v hbb hp hst]
        exact Or.inl ⟨rfl, rfl⟩
      · rw [(MillerDecoding_second U v hbb hp hst).1]
        obtain ⟨w1, w2⟩ := MillerSwitch_counts (MillerSecondHalf U v)
        have k1 : (MillerSecondHalf U v).byteCnt = U.byteCnt := rfl
        have k2 : (MillerSecondHalf U v).parityBits = U.parityBits := rfl
        rcases MillerStore_counts (MillerSwitch (MillerSecondHalf U v)).1
          (MillerSwitch (MillerSecondHalf U v)).2 with ⟨a1, a2⟩ | ⟨a1, a2⟩
        · exact Or.inl ⟨by rw [a1, w1, k1], by rw [a2, w2, k2]⟩
        · refine Or.inr (Or.inl ⟨by rw [a1, w1, k1], ?_⟩)
          rw [a2, w2, k2]
          have : (MillerSwitch (MillerSecondHalf U v)).1.shiftReg / 256 % 2 < 2 :=
            Nat.mod_lt _ (by decide)
          omega

/-- The call in which the decoder leaves `STATE_UNSYNCD`: the sync search has run on a
nibble with a drop, and the counters are cleared. -/
theorem MillerDecoding_leave (U : UartT) (v : Nat) (hst : U.state = STATE_UNSYNCD)
    (hleave : (MillerDecoding U v).1.state ≠ STATE_UNSYNCD) :
    ∃ nb bit, 0 < bit ∧ bit < 16
      ∧ (MillerDecoding U v).1.syncBit = (MillerSync nb bit).1
      ∧ (MillerDecoding U v).1.samples = (MillerSync nb bit).2.1
      ∧ (MillerDecoding U v).1.bitCnt = 0 ∧ (MillerDecoding U v).1.byteCnt = 0
      ∧ (MillerDecoding U v).1.parityBits = 0 := by
  rcases U with ⟨st, sr, bc, byc, bmax, pc, sb, pb, smp, hc, bb, dr, out⟩
  simp only at hst
  subst hst
  revert hleave
  unfold MillerDecoding MillerUnsynced
  dsimp only
  rw [and_f0_shr]
  have hlt : ((bb <<< 4) % 2 ^ 32 ^^^ v) / 16 % 16 < 16 := Nat.mod_lt _ (by decide)
  rw [xor_15_eq _ hlt]
  generalize (bb <<< 4) % 2 ^ 32 ^^^ v = nb at hlt ⊢
  by_cases hbb : bb = 0
  · rw [if_pos hbb]
    intro h
    exact absurd rfl h
  · rw [if_neg hbb, if_neg (by simp)]
    by_cases hbit : 15 - nb / 16 % 16 ≠ 0
    · rw [if_pos hbit]
      by_cases h8 : hc = 8
      · rw [if_pos h8]
        intro _
        exact ⟨nb, 15 - nb / 16 % 16, by omega, by omega, rfl, rfl, rfl, rfl, rfl⟩
      · rw [if_neg h8]
        intro h
        exact absurd rfl h
    · rw [if_neg hbit]
      intro h
      split_ifs at h <;> exact absurd rfl h

/-- The parity word stays below `2 ^ byteCnt` over one call. -/
theorem MillerDecoding_parity_bound (U : UartT) (v : Nat)
    (h : U.parityBits < 2 ^ U.byteCnt) :
    (MillerDecoding U v).1.parityBits < 2 ^ (MillerDecoding U v).1.byteCnt := by
  rcases MillerDecoding_counts U v with ⟨a1, a2⟩ | ⟨a1, a2⟩ | ⟨_, _, a1, a2⟩
  · rw [a1, a2]
    exact h
  · rw [a1, pow_succ]
    have : 2 * U.parityBits % 2 ^ 32 ≤ 2 * U.parityBits := Nat.mod_le _ _
    rcases a2 with a2 | a2 <;> rw [a2] <;> omega
  · rw [a1, a2]
    decide

/-- The parity word stays below `2 ^ byteCnt` over any number of calls. -/
theorem MillerFeed_parity_bound (samples : List Nat) :
    ∀ U : UartT, U.parityBits < 2 ^ U.byteCnt →
      (MillerFeed U samples).parityBits < 2 ^ (MillerFeed U samples).byteCnt := by
  induction samples with
  | nil => intro U h; exact h
  | cons s t ih =>
    intro U h
    exact ih (MillerDecoding U s).1 (MillerDecoding_parity_bound U s h)

/-- C32: from the call in which the Miller decoder syncs on, whatever samples follow
and whatever the counters held before, `Uart.parityBits < 2 ^ Uart.byteCnt`: the parity
word holds as many bits as bytes were stored. And in every call on every state the two
change together: both stay, or `byteCnt` goes up by one and one bit is shifted into
`parityBits`, or a sync sets both to 0. -/
theorem C32_parity_count (U : UartT) (v : Nat) (samples : List Nat) (W : UartT) (s : Nat)
    (hst : U.state = STATE_UNSYNCD) (hsync : (MillerDecoding U v).1.state ≠ STATE_UNSYNCD) :
    (MillerFeed (MillerDecoding U v).1 samples).parityBits
        < 2 ^ (MillerFeed (MillerDecoding U v).1 samples).byteCnt
    ∧ (((MillerDecoding W s).1.byteCnt = W.byteCnt
        ∧ (MillerDecoding W s).1.parityBits = W.parityBits)
      ∨ ((MillerDecoding W s).1.byteCnt = W.byteCnt + 1
        ∧ ((MillerDecoding W s).1.parityBits = 2 * W.parityBits % 2 ^ 32
          ∨ (MillerDecoding W s).1.parityBits = 2 * W.parityBits % 2 ^ 32 + 1))
      ∨ (W.state = STATE_UNSYNCD
        ∧ (MillerDecoding W s).1.state = STATE_START_OF_COMMUNICATION
        ∧ (MillerDecoding W s).1.byteCnt = 0 ∧ (MillerDecoding W s).1.parityBits = 0)) := by
  refine ⟨MillerFeed_parity_bound samples _ ?_, MillerDecoding_counts W s⟩
  obtain ⟨_, _, _, _, _, _, _, a1, a2⟩ := MillerDecoding_leave U v hst hsync
  rw [a1, a2]
  decide

/-- C32 on a decoder that holds stale counters (`byteCnt = 0`, `parityBits = 7`) when it
syncs on the dip of the sample 0xE after eight all-high samples: the sync clears them, and
after three more samples the parity word is still below `2 ^ byteCnt`. -/
theorem C32_parity_count_witness :
    (MillerDecoding ⟨STATE_UNSYNCD, 0, 3, 0, 100, 0, 0, 7, 9, 8, 0xFFE, DROP_NONE, fun _ => 0⟩
        0xF).1.state ≠ STATE_UNSYNCD
    ∧ (MillerFeed (MillerDecoding
        ⟨STATE_UNSYNCD, 0, 3, 0, 100, 0, 0, 7, 9, 8, 0xFFE, DROP_NONE, fun _ => 0⟩ 0xF).1
        [0xF, 0x3, 0xF]).parityBits
      < 2 ^ (MillerFeed (MillerDecoding
        ⟨STATE_UNSYNCD, 0, 3, 0, 100, 0, 0, 7, 9, 8, 0xFFE, DROP_NONE, fun _ => 0⟩ 0xF).1
        [0xF, 0x3, 0xF]).byteCnt :=
  ⟨by decide,
   (C32_parity_count ⟨STATE_UNSYNCD, 0, 3, 0, 100, 0, 0, 7, 9, 8, 0xFFE, DROP_NONE, fun _ => 0⟩
      0xF [0xF, 0x3, 0xF]
      ⟨STATE_UNSYNCD, 0, 3, 0, 100, 0, 0, 7, 9, 8, 0xFFE, DROP_NONE, fun _ => 0⟩ 0xF
      rfl (by decide)).1⟩

/-- C35: whenever a call of `MillerDecoding` leaves `STATE_UNSYNCD`, the new state is
`STATE_START_OF_COMMUNICATION`, `syncBit` is one of the single-bit masks 0x10, 0x20, 0x40,
0x80 (never zero), `Uart.samples` is the bit index of `syncBit` minus 4 (0x80 gives 3,
0x40 gives 2, 0x20 gives 1, 0x10 gives 0), and `bitCnt`, `byteCnt` and `parityBits` are
all 0. -/
theorem C35_sync_fields (U : UartT) (v : Nat) (hst : U.state = STATE_UNSYNCD)
    (hleave : (MillerDecoding U v).1.state ≠ STATE_UNSYNCD) :
    (((MillerDecoding U v).1.syncBit = 0x10 ∧ (MillerDecoding U v).1.samples = 0)
      ∨ ((MillerDecoding U v).1.syncBit = 0x20 ∧ (MillerDecoding U v).1.samples = 1)
      ∨ ((MillerDecoding U v).1.syncBit = 0x40 ∧ (MillerDecoding U v).1.samples = 2)
      ∨ ((MillerDecoding U v).1.syncBit = 0x80 ∧ (MillerDecoding U v).1.samples = 3))
    ∧ (MillerDecoding U v).1.bitCnt = 0
    ∧ (MillerDecoding U v).1.byteCnt = 0
    ∧ (MillerDecoding U v).1.parityBits = 0
    ∧ (MillerDecoding U v).1.state = STATE_START_OF_COMMUNICATION := by
  obtain ⟨nb, bit, h0, h16, e1, e2, e3, e4, e5⟩ := MillerDecoding_leave U v hst hleave
  refine ⟨?_, e3, e4, e5, (MillerDecoding_unsynced_state U v hst).resolve_left hleave⟩
  rw [e1, e2]
  exact MillerSync_samples nb bit h0 h16

/-- C35 on the dip of the sample 0xE after eight all-high samples, followed by an
all-high sample: the decoder syncs with `syncBit = 0x80` and `samples = 3`; on the dip of
the sample 0x3 it syncs with `syncBit = 0x40` and `samples = 2`. -/
theorem C35_sync_fields_witness :
    ((MillerDecoding ⟨STATE_UNSYNCD, 0, 3, 5, 100, 0, 0, 7, 9, 8, 0xFFE, DROP_NONE, fun _ => 0⟩
        0xF).1.syncBit = 0x80
      ∧ (MillerDecoding ⟨STATE_UNSYNCD, 0, 3, 5, 100, 0, 0, 7, 9, 8, 0xFFE, DROP_NONE,
          fun _ => 0⟩ 0xF).1.samples = 3)
    ∧ ((MillerDecoding ⟨STATE_UNSYNCD, 0, 3, 5, 100, 0, 0, 7, 9, 8, 0xFF3, DROP_NONE, fun _ => 0⟩
        0xF).1.syncBit = 0x40
      ∧ (MillerDecoding ⟨STATE_UNSYNCD, 0, 3, 5, 100, 0, 0, 7, 9, 8, 0xFF3, DROP_NONE,
          fun _ => 0⟩ 0xF).1.samples = 2) :=
  ⟨((C35_sync_fields ⟨STATE_UNSYNCD, 0, 3, 5, 100, 0, 0, 7, 9, 8, 0xFFE, DROP_NONE, fun _ => 0⟩
      0xF rfl (by decide)).1.resolve_left (by decide)).resolve_left (by decide)
      |>.resolve_left (by decide),
   ((C35_sync_fields ⟨STATE_UNSYNCD, 0, 3, 5, 100, 0, 0, 7, 9, 8, 0xFF3, DROP_NONE, fun _ => 0⟩
      0xF rfl (by decide)).1.resolve_left (by decide)).resolve_left (by decide)
      |>.elim id (fun h => absurd h.1 (by decide))⟩

/-! ### Symbol sequences of the Miller encoders -/

/-- In the Miller coding of a bit sequence that follows the symbol `p` of the bit `prev`,
up to and including the end marker and the guard symbols, no sequence Z comes directly
after a sequence X. -/
theorem MillerSymbols_noZ (bits : List Nat) :
    ∀ (prev p : Nat), (p = SEC_X → prev ≠ 0) →
      List.Chain NoZAfterX p
        (MillerSymbols prev bits
          ++ [if bits.getLastD prev = 0 then SEC_Z else SEC_Y, SEC_Y, SEC_Y, SEC_Y, SEC_Y]) := by
  have hYZ : SEC_Y ≠ SEC_Z := by decide
  have hXZ : SEC_X ≠ SEC_Z := by decide
  induction bits with
  | nil =>
    intro prev p hp
    simp only [MillerSymbols, List.nil_append, List.getLastD_nil, List.chain_cons,
      List.Chain.nil, and_true, NoZAfterX]
    refine ⟨?_, ?_, ?_, ?_, ?_⟩
    · rintro ⟨h1, h2⟩
      by_cases h0 : prev = 0
      · exact hp h1 h0
      · rw [if_neg h0] at h2
        exact hYZ h2
    all_goals exact fun h => hYZ h.2
  | cons b t ih =>
    intro prev p hp
    rw [MillerSymbols, List.cons_append, List.getLastD_cons, List.chain_cons]
    refine ⟨?_, ih b _ ?_⟩
    · rintro ⟨h1, h2⟩
      by_cases hb : b = 1
      · rw [if_pos hb] at h2
        exact hXZ h2
      · rw [if_neg hb] at h2
        by_cases h0 : prev = 0
        · exact hp h1 h0
        · rw [if_neg h0] at h2
          exact hYZ h2
    · intro h
      by_cases hb : b = 1
      · rw [hb]
        decide
      · rw [if_neg hb] at h
        by_cases h0 : prev = 0
        · rw [if_pos h0] at h
          exact absurd h (by decide)
        · rw [if_neg h0] at h
          exact absurd h (by decide)

/-- In the Miller coding of a bit sequence that follows the symbol `p` of the bit `prev`,
a sequence Y comes only directly after a sequence X. -/
theorem MillerSymbols_yAfterX (bits : List Nat) (hb : ∀ b ∈ bits, b < 2) :
    ∀ (prev p : Nat), prev < 2 → (prev = 1 → p = SEC_X) →
      List.Chain YOnlyAfterX p (MillerSymbols prev bits) := by
  induction bits with
  | nil =>
    intro prev p _ _
    exact List.Chain.nil
  | cons b t ih =>
    intro prev p hprev hp
    have hb2 : b < 2 := hb b (by simp)
    rw [MillerSymbols, List.chain_cons]
    refine ⟨?_, ih (fun x hx => hb x (by simp [hx])) b _ hb2 ?_⟩
    · intro h
      by_cases hb1 : b = 1
      · rw [if_pos hb1] at h
        exact absurd h (by decide)
      · rw [if_neg hb1] at h
        by_cases h0 : prev = 0
        · rw [if_pos h0] at h
          exact absurd h (by decide)
        · exact hp (by omega)
    · intro hb1
      rw [if_pos hb1]

/-- C34: the Miller encoders never emit a sequence Z directly after a sequence X,
anywhere in the pattern of `CodeIso14443aAsReaderPar` and of `ShortFrameFromReader`, and
among the start symbol and the data and parity bits that follow it (the first `9 * len +
1`, for the short frame 8, symbols) a sequence Y stands only directly after a sequence X.
The decoder, for its part, takes a drop in the first half after a sequence X as an
error. -/
theorem C34_miller_sequences (cmd : List Nat) (dwParity bt : Nat) (U : UartT) :
    List.Chain' NoZAfterX (CodeIso14443aAsReaderPar cmd dwParity)
    ∧ List.Chain' NoZAfterX (ShortFrameFromReader bt)
    ∧ List.Chain' YOnlyAfterX ((CodeIso14443aAsReaderPar cmd dwParity).take (9 * cmd.length + 1))
    ∧ List.Chain' YOnlyAfterX ((ShortFrameFromReader bt).take 8)
    ∧ (U.state = STATE_MILLER_X → U.drop = DROP_FIRST_HALF →
        (MillerSwitch U).1.state = STATE_ERROR_WAIT) := by
  have hZX : SEC_Z = SEC_X → (0 : Nat) ≠ 0 := fun h => absurd h (by decide)
  refine ⟨?_, ?_, ?_, ?_, ?_⟩
  · rw [ReaderPar_eq, List.append_assoc, List.singleton_append]
    exact MillerSymbols_noZ _ 0 SEC_Z hZX
  · rw [ShortFrame_eq, List.append_assoc, List.singleton_append]
    exact MillerSymbols_noZ _ 0 SEC_Z hZX
  · have hl : (MillerSymbols 0 (FrameBits cmd 0 dwParity)).length = 9 * cmd.length := by
      rw [MillerSymbols_length, FrameBits_length]
    rw [ReaderPar_eq, List.append_assoc, List.singleton_append, List.take_succ_cons,
      List.take_append_of_le_length (by omega), ← hl, List.take_length]
    exact MillerSymbols_yAfterX _ (FrameBits_lt cmd 0 dwParity) 0 SEC_Z (by decide)
      (fun h => absurd h (by decide))
  · have hl : (MillerSymbols 0 (LsbBits 7 (bt % 256))).length = 7 := by
      rw [MillerSymbols_length, LsbBits_length]
    rw [ShortFrame_eq, List.append_assoc, List.singleton_append]
    show List.Chain' YOnlyAfterX (List.take (7 + 1) _)
    rw [List.take_succ_cons, List.take_append_of_le_length (by omega)]
    nth_rewrite 1 [← hl]
    rw [List.take_length]
    exact MillerSymbols_yAfterX _ (LsbBits_lt 7 _) 0 SEC_Z (by decide)
      (fun h => absurd h (by decide))
  · intro hs hd
    rcases U with ⟨st, sr, bc, byc, bmax, pc, sb, pb, smp, hc, bb, dr, out⟩
    simp only at hs hd
    subst hs hd
    simp [MillerSwitch]

/-- C34 at the decoder: in `STATE_MILLER_X` a drop in the first half leads to
`STATE_ERROR_WAIT`. -/
theorem C34_miller_sequences_witness :
    (MillerSwitch ⟨STATE_MILLER_X, 0x100, 1, 0, 0, 0, 0x10, 0, 0, 8, 0xFF0, DROP_FIRST_HALF,
      fun _ => 0⟩).1.state = STATE_ERROR_WAIT :=
  (C34_miller_sequences [0x93, 0x20] 1 0x26
    ⟨STATE_MILLER_X, 0x100, 1, 0, 0, 0, 0x10, 0, 0, 8, 0xFF0, DROP_FIRST_HALF,
      fun _ => 0⟩).2.2.2.2 rfl rfl

/-! ### The Manchester decoder: double modulation and the sync search -/

/-- The sync search on a 4-bit nibble: nothing is found exactly when none of the bits
0x08, 0x04, 0x02 is set, and what is found is one bit of the nibble. -/
theorem ManchesterSync_nibble :
    ∀ b, b < 16 →
      (b &&& 0x0E = 0 → ManchesterSync b = 0)
      ∧ (b &&& 0x0E ≠ 0 →
          (ManchesterSync b = 0x08 ∨ ManchesterSync b = 0x04 ∨ ManchesterSync b = 0x02
            ∨ ManchesterSync b = 0x01)
          ∧ ManchesterSync b &&& b ≠ 0) := by
  decide

/-- The branch for `DEMOD_UNSYNCD` with the result of the sync search named. -/
theorem ManchesterUnsynced_eq (st : DemodState) (bc pc sb pb sr bf bu smp len : Nat)
    (su : DemodSub) (out : Nat → Nat) (bit : Nat) :
    ManchesterUnsynced ⟨st, bc, pc, sb, pb, sr, bf, bu, smp, len, su, out⟩ bit =
      if ManchesterSync bit ≠ 0 then
        (⟨DEMOD_START_OF_COMMUNICATION, 0, 1, ManchesterSync bit, 0, 0, bf, bu,
          (if ManchesterSync bit = 0x08 then 3
           else if ManchesterSync bit = 0x04 then 2
           else if ManchesterSync bit = 0x02 then 1
           else 0), 0, SUB_FIRST_HALF,
          bufSet out len 0xfa⟩, false)
      else (⟨st, bc, 1, ManchesterSync bit, pb, sr, bf, bu, smp, len, su,
          bufSet out len 0xfa⟩, false) := by
  unfold ManchesterUnsynced
  dsimp only
  by_cases h : ManchesterSync bit = 0
  · simp [h]
  · rw [if_pos h, if_pos h, if_pos (by decide)]
    by_cases h8 : ManchesterSync bit = 0x08
    · simp [h8]
    · by_cases h4 : ManchesterSync bit = 0x04
      · simp [h4]
      · by_cases h2 : ManchesterSync bit = 0x02
        · simp [h2]
        · by_cases h1 : ManchesterSync bit = 0x01
          · simp [h1]
          · simp [h8, h4, h2, h1]

/-- C36: a call of `ManchesterDecoding` that ends a bit period (`posCount` not 0) in
`DEMOD_START_OF_COMMUNICATION`, `DEMOD_MANCHESTER_D`, `DEMOD_MANCHESTER_E` or
`DEMOD_MANCHESTER_F` with a modulation in the first half (`sub = SUB_FIRST_HALF`) and in
the second half (`modulation` not 0) returns `FALSE` and leaves `Demod.state` at
`DEMOD_UNSYNCD`: the `DEMOD_ERROR_WAIT` it sets is left by the `switch` of the same
call. -/
theorem C36_double_modulation (D : DemodT) (v : Nat)
    (hbuff : D.buff ≠ 0)
    (hst : D.state = DEMOD_START_OF_COMMUNICATION ∨ D.state = DEMOD_MANCHESTER_D
      ∨ D.state = DEMOD_MANCHESTER_E ∨ D.state = DEMOD_MANCHESTER_F)
    (hpos : D.posCount ≠ 0) (hsub : D.sub = SUB_FIRST_HALF)
    (hmod : ManchesterModulation D v ≠ 0) :
    (ManchesterDecoding D v).2 = false
    ∧ (ManchesterDecoding D v).1.state = DEMOD_UNSYNCD
    ∧ (ManchesterDecoding D v).1.posCount = 0
    ∧ (ManchesterDecoding D v).1.state ≠ DEMOD_ERROR_WAIT := by
  rcases D with ⟨st, bc, pc, sb, pb, sr, bf, bu, smp, len, su, out⟩
  unfold ManchesterModulation at hmod
  simp only at hbuff hst hpos hsub hmod
  subst hsub
  have hne : st ≠ DEMOD_UNSYNCD := by
    rcases hst with h | h | h | h <;> rw [h] <;> decide
  have hnw : st ≠ DEMOD_ERROR_WAIT := by
    rcases hst with h | h | h | h <;> rw [h] <;> decide
  have e : ManchesterDecoding ⟨st, bc, pc, sb, pb, sr, bf, bu, smp, len, SUB_FIRST_HALF, out⟩ v
      = (ManchesterStore ⟨DEMOD_UNSYNCD, bc, 0, sb, pb, sr, v, bu, smp + 4, len,
          SUB_FIRST_HALF, bufSet out len 0xaa⟩, false) := by
    unfold ManchesterDecoding ManchesterSynced
    simp [hbuff, hne, hpos, hmod, hnw, ManchesterSwitch]
  rw [e]
  unfold ManchesterStore
  dsimp only
  split_ifs <;> simp

/-- C36 at a concrete call: a double modulation in `DEMOD_MANCHESTER_D`. -/
theorem C36_double_modulation_witness :
    (ManchesterDecoding
      ⟨DEMOD_MANCHESTER_D, 3, 1, 4, 0, 0x1C0, 2, 1, 10, 0, SUB_FIRST_HALF, fun _ => 0⟩ 0).2
        = false
    ∧ (ManchesterDecoding
      ⟨DEMOD_MANCHESTER_D, 3, 1, 4, 0, 0x1C0, 2, 1, 10, 0, SUB_FIRST_HALF, fun _ => 0⟩ 0).1.state
        = DEMOD_UNSYNCD :=
  ⟨(C36_double_modulation
      ⟨DEMOD_MANCHESTER_D, 3, 1, 4, 0, 0x1C0, 2, 1, 10, 0, SUB_FIRST_HALF, fun _ => 0⟩ 0
      (by decide) (Or.inr (Or.inl rfl)) (by decide) rfl (by decide)).1,
   (C36_double_modulation
      ⟨DEMOD_MANCHESTER_D, 3, 1, 4, 0, 0x1C0, 2, 1, 10, 0, SUB_FIRST_HALF, fun _ => 0⟩ 0
      (by decide) (Or.inr (Or.inl rfl)) (by decide) rfl (by decide)).2.1⟩

/-- C37: a call of `ManchesterDecoding` in `DEMOD_UNSYNCD` (with a previous sample in
`Demod.buffer`, a 4-bit nibble) returns `FALSE`; when none of the bits 0x08, 0x04, 0x02
of the nibble is set, that is for the nibbles 0 and 1, `Demod` stays in `DEMOD_UNSYNCD`;
for every other nibble `Demod` goes to `DEMOD_START_OF_COMMUNICATION` with a `syncBit`
that is one of 0x08, 0x04, 0x02, 0x01 and is set in the nibble, `Demod.samples` is the
index of that bit, and `len`, `bitCount`, `shiftReg`, `parityBits` are 0. -/
theorem C37_sync_search (D : DemodT) (v : Nat)
    (hbuff : D.buff ≠ 0) (hst : D.state = DEMOD_UNSYNCD) (hnib : D.buffer < 16) :
    (ManchesterDecoding D v).2 = false
    ∧ (D.buffer &&& 0x0E = 0 ↔ D.buffer = 0 ∨ D.buffer = 1)
    ∧ (D.buffer &&& 0x0E = 0 → (ManchesterDecoding D v).1.state = DEMOD_UNSYNCD)
    ∧ (D.buffer &&& 0x0E ≠ 0 →
        (ManchesterDecoding D v).1.state = DEMOD_START_OF_COMMUNICATION
        ∧ ((ManchesterDecoding D v).1.syncBit = 0x08 ∨ (ManchesterDecoding D v).1.syncBit = 0x04
          ∨ (ManchesterDecoding D v).1.syncBit = 0x02
          ∨ (ManchesterDecoding D v).1.syncBit = 0x01)
        ∧ (ManchesterDecoding D v).1.syncBit &&& D.buffer ≠ 0
        ∧ (ManchesterDecoding D v).1.syncBit = 2 ^ (ManchesterDecoding D v).1.samples
        ∧ (ManchesterDecoding D v).1.len = 0
        ∧ (ManchesterDecoding D v).1.bitCount = 0
        ∧ (ManchesterDecoding D v).1.shiftReg = 0
        ∧ (ManchesterDecoding D v).1.parityBits = 0) := by
  rcases D with ⟨st, bc, pc, sb, pb, sr, bf, bu, smp, len, su, out⟩
  simp only at hbuff hst hnib ⊢
  subst hst
  have e : ManchesterDecoding ⟨DEMOD_UNSYNCD, bc, pc, sb, pb, sr, bf, bu, smp, len, su, out⟩ v
      = ManchesterUnsynced ⟨DEMOD_UNSYNCD, bc, pc, sb, pb, sr, v, bu, smp, len, su, out⟩ bf := by
    unfold ManchesterDecoding
    simp [hbuff]
  rw [e, ManchesterUnsynced_eq]
  obtain ⟨h0, h1⟩ := ManchesterSync_nibble bf hnib
  have hall : ∀ b, b < 16 → (b &&& 0x0E = 0 ↔ b = 0 ∨ b = 1) := by decide
  have hiff : bf &&& 0x0E = 0 ↔ bf = 0 ∨ bf = 1 := hall bf hnib
  refine ⟨?_, hiff, ?_, ?_⟩
  · split_ifs <;> rfl
  · intro hz
    rw [if_neg (by rw [h0 hz]; decide)]
  · intro hnz
    obtain ⟨hs, hin⟩ := h1 hnz
    have hne : ManchesterSync bf ≠ 0 := by
      rcases hs with h | h | h | h <;> rw [h] <;> decide
    rw [if_pos hne]
    refine ⟨rfl, hs, hin, ?_, rfl, rfl, rfl, rfl⟩
    dsimp only
    rcases hs with h | h | h | h <;> rw [h] <;> decide

/-- C37 at concrete calls: the nibble 0x6 syncs on bit 1, the nibble 0x1 does not
sync. -/
theorem C37_sync_search_witness :
    ((ManchesterDecoding
        ⟨DEMOD_UNSYNCD, 0, 0, 0, 0, 0, 6, 1, 0, 0, SUB_NONE, fun _ => 0⟩ 0).1.state
        = DEMOD_START_OF_COMMUNICATION
      ∧ (ManchesterDecoding
        ⟨DEMOD_UNSYNCD, 0, 0, 0, 0, 0, 6, 1, 0, 0, SUB_NONE, fun _ => 0⟩ 0).1.syncBit = 0x02
      ∧ (ManchesterDecoding
        ⟨DEMOD_UNSYNCD, 0, 0, 0, 0, 0, 6, 1, 0, 0, SUB_NONE, fun _ => 0⟩ 0).1.samples = 1)
    ∧ (ManchesterDecoding
        ⟨DEMOD_UNSYNCD, 0, 0, 0, 0, 0, 1, 1, 0, 0, SUB_NONE, fun _ => 0⟩ 0).1.state
        = DEMOD_UNSYNCD :=
  ⟨⟨((C37_sync_search ⟨DEMOD_UNSYNCD, 0, 0, 0, 0, 0, 6, 1, 0, 0, SUB_NONE, fun _ => 0⟩ 0
        (by decide) rfl (by decide)).2.2.2 (by decide)).1, by decide, by decide⟩,
   (C37_sync_search ⟨DEMOD_UNSYNCD, 0, 0, 0, 0, 0, 1, 1, 0, 0, SUB_NONE, fun _ => 0⟩ 0
        (by decide) rfl (by decide)).2.2.1 (by decide)⟩

/-! ### The emulator on a wake-up, the nonce filter and the raw transmitter -/

section WakeSession

variable {Pcs Mem : Type}

/-- C38: a pass of the loop of `Mifare1ksim` on a one-byte WUPA in any state other than
`MFEMUL_NOFIELD`, or on a one-byte REQA in any state other than `MFEMUL_NOFIELD` and
`MFEMUL_HALTED`, ends with `cardAUTHKEY = 0xff`, with the cipher state passed through
`crypto1_destroy`, and in `MFEMUL_SELECT1`. -/
theorem C38_wake_ends_session (E : MfEnv Pcs Mem) (C : MfCard Pcs Mem) (b : Nat)
    (hn : C.cardSTATE ≠ MFEMUL_NOFIELD)
    (hc : (b = 0x26 ∧ C.cardSTATE ≠ MFEMUL_HALTED) ∨ b = 0x52) :
    (Mifare1ksimCmd E C [b]).cardAUTHKEY = 0xff
    ∧ (Mifare1ksimCmd E C [b]).pcs = E.crypto1_destroy C.pcs
    ∧ (Mifare1ksimCmd E C [b]).cardSTATE = MFEMUL_SELECT1 := by
  unfold Mifare1ksimCmd
  rw [MfWakeup_wake E (MfLoad C [b]) rfl hn (by rw [MfLoad_cmd0]; exact hc), MfLoad_cmd0]
  unfold MfSwitch MfSelect1
  simp [MfLoad]

end WakeSession

/-- C38 on the sample card in `MFEMUL_WORK` with key A authenticated: a WUPA ends the
session. -/
theorem C38_wake_ends_session_witness :
    (Mifare1ksimCmd SampleEnv { SampleCard MFEMUL_WORK with cardAUTHKEY := 0, pcs := 77 }
        [0x52]).cardAUTHKEY = 0xff
    ∧ (Mifare1ksimCmd SampleEnv { SampleCard MFEMUL_WORK with cardAUTHKEY := 0, pcs := 77 }
        [0x52]).pcs = 0
    ∧ (Mifare1ksimCmd SampleEnv { SampleCard MFEMUL_WORK with cardAUTHKEY := 0, pcs := 77 }
        [0x52]).cardSTATE = MFEMUL_SELECT1 :=
  C38_wake_ends_session SampleEnv { SampleCard MFEMUL_WORK with cardAUTHKEY := 0, pcs := 77 }
    0x52 (by decide) (Or.inr rfl)

/-- The expression of line 1919 stores 0 in `nt_attacked[0]` and has the value 0. -/
theorem IsNullExpr_eq (a : Nat → Nat) : IsNullExpr a = (bufSet a 0 0, 0) := by
  simp [IsNullExpr, AssignByte]

/-- C39: in the part of the loop of `ReaderMifare` that follows a received 4-bit answer,
the expression assigned to `isNULL` has the value 0 and stores 0 in `nt_attacked[0]`;
the pass is given up exactly when `parameter` is not 0 and `nt` equals `nt_noattack`;
in every other case `isNULL` is 0 afterwards and the parity and the keystream nibble are
recorded at `nt_diff`, whatever `nt_attacked` holds. -/
theorem C39_nonce_filter (parameter : Nat) (S : MifareAttackT) (received : Nat)
    (receivedAnswer : Nat → Nat) (hr : received ≠ 0) :
    IsNullExpr S.nt_attacked = (bufSet S.nt_attacked 0 0, 0)
    ∧ ((ReaderMifareAnswer parameter S received receivedAnswer).2 = discarded
        ↔ parameter ≠ 0 ∧ bufSlice S.nt 0 4 = bufSlice S.nt_noattack 0 4)
    ∧ (¬ (parameter ≠ 0 ∧ bufSlice S.nt 0 4 = bufSlice S.nt_noattack 0 4) →
        (ReaderMifareAnswer parameter S received receivedAnswer).1.isNULL = 0
        ∧ (ReaderMifareAnswer parameter S received receivedAnswer).2
            = (if S.nt_diff = 0x07 then finished else recorded)
        ∧ (ReaderMifareAnswer parameter S received receivedAnswer).1.par_list
            = bufSet S.par_list S.nt_diff S.par
        ∧ (ReaderMifareAnswer parameter S received receivedAnswer).1.ks_list
            = bufSet S.ks_list S.nt_diff ((receivedAnswer 0 ^^^ 0x05) % 256)
        ∧ (ReaderMifareAnswer parameter S received receivedAnswer).1.nt_attacked
            = (if S.nt_diff = 0 then memcpyAt (bufSet S.nt_attacked 0 0) 0 S.nt 4
               else bufSet S.nt_attacked 0 0)) := by
  rcases S with ⟨nt, na, nn, nd, par, pm, pl, led, parl, ksl, mf, ok, nul⟩
  have hd : ∀ p : Prop, ¬ ((0 : Nat) ≠ 0 ∧ p) := fun p h => h.1 rfl
  refine ⟨IsNullExpr_eq na, ?_, ?_⟩
  · unfold ReaderMifareAnswer
    rw [if_pos hr]
    dsimp only
    by_cases hf : parameter ≠ 0 ∧ bufSlice nt 0 4 = bufSlice nn 0 4
    · rw [if_pos hf]
      exact ⟨fun _ => hf, fun _ => rfl⟩
    · rw [if_neg hf, IsNullExpr_eq]
      dsimp only
      rw [if_neg (hd _)]
      constructor
      · intro h
        exfalso
        revert h
        split_ifs <;> simp
      · intro h
        exact absurd h hf
  · intro hf
    unfold ReaderMifareAnswer
    rw [if_pos hr]
    dsimp only
    rw [if_neg hf, IsNullExpr_eq]
    dsimp only
    rw [if_neg (hd _)]
    by_cases h0 : nd = 0
    · subst h0
      simp
    · by_cases h7 : nd = 7
      · subst h7
        simp
      · simp [h0, h7]

/-- C39 at a concrete pass: with `parameter = 0` an answer is recorded although the
captured nonce 01 02 03 04 differs from the nonce 0a 0b 0c 0d attacked first. -/
theorem C39_nonce_filter_witness :
    (ReaderMifareAnswer 0
      ⟨bufOfList [1, 2, 3, 4], bufOfList [0x0a, 0x0b, 0x0c, 0x0d], bufOfList [0, 0, 0, 0], 2,
        0x1a, 0xf8, 0x02, true, fun _ => 0, fun _ => 0, fun _ => 0, 0, 0⟩ 1
      (bufOfList [0x0c])).2 = recorded :=
  ((C39_nonce_filter 0
      ⟨bufOfList [1, 2, 3, 4], bufOfList [0x0a, 0x0b, 0x0c, 0x0d], bufOfList [0, 0, 0, 0], 2,
        0x1a, 0xf8, 0x02, true, fun _ => 0, fun _ => 0, fun _ => 0, 0, 0⟩ 1
      (bufOfList [0x0c]) (by decide)).2.2 (fun h => h.1 rfl)).2.1

/-- The send cycle once `i > respLen`: the fill byte 0xff is sent until `u` exceeds 4. -/
theorem EmSendCycle_fill (resp : Nat → Nat) (respLen i : Nat) (hi : i > respLen) :
    ∀ (n u fuel : Nat) (sent reads : List Nat), u + n = 5 → 0 < n → n ≤ fuel →
      EmSendCycle resp respLen fuel i u (sent, reads)
        = some (sent ++ List.replicate n 0xff, reads) := by
  intro n
  induction n with
  | zero => intro u fuel sent reads _ h0; exact absurd h0 (by decide)
  | succ n ih =>
    intro u fuel sent reads hu _ hf
    obtain ⟨f, rfl⟩ : ∃ f, fuel = f + 1 := ⟨fuel - 1, by omega⟩
    rw [EmSendCycle, if_pos hi]
    by_cases hn : n = 0
    · subst hn
      rw [if_pos (by omega)]
      rfl
    · rw [if_neg (by omega), ih (u + 1) f (sent ++ [0xff]) reads (by omega) (by omega)
        (by omega), List.append_assoc]
      rfl

/-- The send cycle from an index `i` with `u = 0`: the bytes `resp[i]` up to and
including `resp[respLen]` are read and sent, then five fill bytes. -/
theorem EmSendCycle_data (resp : Nat → Nat) (respLen : Nat) :
    ∀ (n i fuel : Nat) (sent reads : List Nat), i + n = respLen + 1 → n + 5 ≤ fuel →
      EmSendCycle resp respLen fuel i 0 (sent, reads)
        = some (sent ++ (List.range' i n).map resp ++ List.replicate 5 0xff,
            reads ++ List.range' i n) := by
  intro n
  induction n with
  | zero =>
    intro i fuel sent reads hi hf
    rw [EmSendCycle_fill resp respLen i (by omega) 5 0 fuel sent reads rfl (by decide)
      (by omega)]
    simp
  | succ n ih =>
    intro i fuel sent reads hi hf
    obtain ⟨f, rfl⟩ : ∃ f, fuel = f + 1 := ⟨fuel - 1, by omega⟩
    rw [EmSendCycle, if_neg (by omega), if_neg (by decide),
      ih (i + 1) f (sent ++ [resp i]) (reads ++ [i]) (by omega) (by omega)]
    simp [List.range'_succ]

/-- C40: `EmSendCmd14443aRaw` with the transmitter always ready and no button press,
given enough passes, reads `resp` at the indices `i0, ..., respLen`, the last one
included (`i0` is 0 when the correction bit is needed, else 1), and sends these bytes
followed by five fill bytes 0xff. So on the buffer `Code4bitAnswerAsTag` has filled,
with `respLen = ToSendMax` its length, the byte 0x77 that lies behind the coded answer
is read and sent. -/
theorem C40_reads_past_end (parityBits : Nat) (resp : Nat → Nat)
    (respLen correctionNeeded k : Nat) :
    EmSendCmd14443aRaw parityBits resp respLen correctionNeeded (respLen + 6 + k)
      = some
          ((List.range' (if parityBits &&& 0x01 ≠ 0 ∨ correctionNeeded ≠ 0 then 0 else 1)
              (respLen + 1
                - (if parityBits &&& 0x01 ≠ 0 ∨ correctionNeeded ≠ 0 then 0 else 1))).map resp
            ++ List.replicate 5 0xff,
           List.range' (if parityBits &&& 0x01 ≠ 0 ∨ correctionNeeded ≠ 0 then 0 else 1)
              (respLen + 1
                - (if parityBits &&& 0x01 ≠ 0 ∨ correctionNeeded ≠ 0 then 0 else 1)))
    ∧ EmSendCmd14443aRaw 0 (bufOfList (Code4bitAnswerAsTag 0x0A ++ [0x77]))
        (Code4bitAnswerAsTag 0x0A).length 1 40
      = some (Code4bitAnswerAsTag 0x0A ++ [0x77, 0xff, 0xff, 0xff, 0xff, 0xff],
          List.range ((Code4bitAnswerAsTag 0x0A).length + 1)) := by
  constructor
  · unfold EmSendCmd14443aRaw
    dsimp only
    generalize (if parityBits &&& 0x01 ≠ 0 ∨ correctionNeeded ≠ 0 then 0 else 1) = i0
    by_cases h : i0 ≤ respLen + 1
    · rw [EmSendCycle_data resp respLen (respLen + 1 - i0) i0 (respLen + 6 + k) [] []
        (by omega) (by omega)]
      simp
    · rw [EmSendCycle_fill resp respLen i0 (by omega) 5 0 (respLen + 6 + k) [] [] rfl
        (by decide) (by omega)]
      have hz : respLen + 1 - i0 = 0 := by omega
      rw [hz]
      simp
  · decide

end Iso14443a
